import Mathlib

/-!
# MIOpen kernel-selection core (`src/include/miopen/solver.hpp`)

A shallow embedding of the find pipeline (`FindSolutionImpl`, `FindSolution`) and of the
selection pipeline (`SearchForSolution`, `SearchForAllSolutions`).

Conventions of the embedding.

* The solver pack `Solvers...` of the templates is a list of solver descriptors, iterated
  in order as `MIOPEN_STATIC_FOR_EACH` does.
* `DbRecord&` is threaded explicitly: every function that receives the record by reference
  returns the record it leaves behind.
* A C++ exception is the `error` alternative of `Except`; for `SearchForAllSolutions`,
  whose head holds two `assert`s, the `error` alternative tells the abort of a failed
  `assert` from an exception.
* Every function also returns a ghost call log (`List Event`) with one entry per call of a
  solver operation or record operation, so that "is not called" is a statement about the log.
* Measurement buffers, the profiling handle and `rand()` do not influence which branch is
  taken; `RunAndMeasureSolution` is a function of the context, the candidate and the value
  held by the out-parameter `elapsed_time` before the call.
-/

namespace miopen

/-- Modelled from the spec: the status codes of `miopen.h` (the header is not among the
sources). `solver.hpp` names `miopenStatusSuccess`, `miopenStatusInternalError` and
`miopenStatusUnknownError`; the remaining error kinds are the other codes of the header. -/
inductive miopenStatus_t where
  | miopenStatusSuccess
  | miopenStatusNotInitialized
  | miopenStatusInvalidValue
  | miopenStatusBadParm
  | miopenStatusAllocFailed
  | miopenStatusInternalError
  | miopenStatusNotImplemented
  | miopenStatusUnknownError
  deriving DecidableEq

open miopenStatus_t

deriving instance DecidableEq for Except

/-- The C++ type `float` as far as `<` and `>=` see it: a NaN, the two infinities, and the
finite values, each finite value being the rational number it denotes. -/
inductive float where
  | nan
  | neg_inf
  | finite (q : ℚ)
  | pos_inf
  deriving DecidableEq

/-- The operator `<` on `float`: false whenever an operand is a NaN. -/
def float.lt : float → float → Bool
  | .finite a, .finite b => decide (a < b)
  | .neg_inf, .finite _ => true
  | .neg_inf, .pos_inf => true
  | .finite _, .pos_inf => true
  | _, _ => false

/-- The operator `>=` on `float`: false whenever an operand is a NaN. -/
def float.ge : float → float → Bool
  | .nan, _ => false
  | _, .nan => false
  | a, b => !(float.lt a b)

/-- The constant `std::numeric_limits<float>::max()`, that is `2^128 - 2^104`. -/
def FLT_MAX : float := .finite 340282346638528859811704183484516925440

/-- Modelled from the spec: the class `miopen::Exception` (`errors.hpp` is not among the
sources) as thrown by `MIOPEN_THROW(message)`: the message and a status, which is
`miopenStatusUnknownError` when only a message is given. The file and line that the macro
puts in front of the message are left out. -/
structure Exception where
  message : String
  status : miopenStatus_t
  deriving DecidableEq

/-- Modelled from the spec: the macro `MIOPEN_THROW(msg)` with a message only (`errors.hpp`
is not among the sources); the value is the exception that is thrown. -/
def MIOPEN_THROW (msg : String) : Exception :=
  { message := msg, status := miopenStatusUnknownError }

/-- The three directions of a convolution problem. -/
inductive Direction where
  | Forward
  | BackwardData
  | BackwardWeights
  deriving DecidableEq

def Direction.IsForward (d : Direction) : Bool := decide (d = .Forward)

def Direction.IsBackwardData (d : Direction) : Bool := decide (d = .BackwardData)

def Direction.IsBackwardWrW (d : Direction) : Bool := decide (d = .BackwardWeights)

/-- Modelled from the spec: the problem context (`ConvolutionContext` of `mlo_internal.hpp`,
which is not among the sources), with the fields the selection core inspects; `shape` stands
for the remaining shape fields, which only `IsApplicable` and `IsFast` read. -/
structure ConvolutionContext where
  direction : Direction
  do_search : Bool
  kernel_stride0 : Int
  bot_sz : Nat
  top_sz : Nat
  weights_sz : Nat
  bias_sz : Nat
  bias : Bool
  shape : List Int
  deriving DecidableEq

/-- Modelled from the spec: the tuning-enforcement object `FindEnforce` of
`find_controls.hpp` (not among the sources), as the three predicates `FindSolutionImpl`
asks of it. -/
structure FindEnforce where
  IsDbClean : ConvolutionContext → Bool
  IsSearch : ConvolutionContext → Bool
  IsDbUpdate : ConvolutionContext → Bool

/-- Modelled from the spec: a record of the performance database (`DbRecord` of
`db_record.hpp`, not among the sources): a key and a map from solver id to serialized
payload. The map is an association list that holds each id at most once after an update. -/
structure DbRecord where
  key : String
  map : List (String × String)
  deriving DecidableEq

namespace DbRecord

/-- The payload stored under `id`, if any. -/
def GetValues (r : DbRecord) (id : String) : Option String :=
  r.map.lookup id

/-- Put `values` under `id`, replacing what was there. -/
def SetValues (r : DbRecord) (id : String) (values : String) : DbRecord :=
  { r with map := (id, values) :: r.map.filter (fun e => e.1 != id) }

/-- Remove the entry of `id`; the flag tells whether there was one. -/
def Remove (r : DbRecord) (id : String) : Bool × DbRecord :=
  ((r.GetValues id).isSome, { r with map := r.map.filter (fun e => e.1 != id) })

/-- Read the entry of `id` and decode it; `none` when the id is absent or does not decode. -/
def Load {PC : Type} (r : DbRecord) (id : String) (Deserialize : String → Option PC) :
    Option PC :=
  (r.GetValues id).bind Deserialize

/-- Encode `values` and put it under `id`. -/
def Store {PC : Type} (r : DbRecord) (id : String) (Serialize : PC → String) (values : PC) :
    DbRecord :=
  r.SetValues id (Serialize values)

end DbRecord

namespace solver

/-- The struct `KernelInfo`. -/
structure KernelInfo where
  comp_options : String
  l_wk : List Nat
  g_wk : List Nat
  kernel_file : String
  kernel_name : String
  deriving DecidableEq

/-- The struct `ConvSolution`. -/
structure ConvSolution where
  construction_params : List KernelInfo
  status : miopenStatus_t
  workspce_sz : Nat
  grp_tile1 : Int
  grp_tile0 : Int
  in_tile1 : Int
  in_tile0 : Int
  out_pix_tile1 : Int
  out_pix_tile0 : Int
  n_out_pix_tiles : Int
  n_in_data_tiles : Int
  n_stacks : Int
  deriving DecidableEq

/-- The constructor `ConvSolution(miopenStatus_t status_)`. -/
def ConvSolution.ctor (status_ : miopenStatus_t) : ConvSolution :=
  { construction_params := []
    status := status_
    workspce_sz := 0
    grp_tile1 := -1
    grp_tile0 := -1
    in_tile1 := -1
    in_tile0 := -1
    out_pix_tile1 := -1
    out_pix_tile0 := -1
    n_out_pix_tiles := -1
    n_in_data_tiles := -1
    n_stacks := -1 }

def ConvSolution.Succeeded (s : ConvSolution) : Bool :=
  decide (s.status = miopenStatusSuccess)

/-- The ghost call log: one entry per call of a solver or record operation. A performance
config appears in its serialized form. -/
inductive Event where
  | FindSolution (id : String)
  | Remove (id : String)
  | Load (id : String)
  | Store (id : String) (values : String)
  | Search (id : String)
  | GetPerformanceConfig (id : String)
  | IsValidPerformanceConfig (id : String) (config : String)
  | GetSolution (id : String) (config : Option String)
  | RunAndMeasureSolution (id : String)
  deriving DecidableEq

/-- The operations of a searchable solver, over its performance-config type `PC`.
`Serialize` and `Deserialize` are the codec of `PC` that `DbRecord::Store` and
`DbRecord::Load` use; `Search` either returns a config or throws a `miopen::Exception`. -/
structure Searchable (PC : Type) where
  Serialize : PC → String
  Deserialize : String → Option PC
  GetPerformanceConfig : ConvolutionContext → PC
  IsValidPerformanceConfig : ConvolutionContext → PC → Bool
  Search : ConvolutionContext → Except Exception PC
  GetSolution : ConvolutionContext → PC → ConvSolution

/-- The two shapes of solver that the overloads of `FindSolutionImpl` tell apart:
`rank<1>` is viable when `s.GetSolution(context, s.Search(context))` is well formed,
`rank<0>` when only `s.GetSolution(context)` is. -/
inductive SolverKind : Type 1 where
  | searchable (PC : Type) (ops : Searchable PC)
  | fixed (GetSolution : ConvolutionContext → ConvSolution)

/-- A stateless solver descriptor. `db_id` is `SolverDbId(s)`. `RunAndMeasureSolution`
takes the context, the candidate and the value the out-parameter `elapsed_time` holds
before the call, and gives the return code and the value it holds afterwards. -/
structure Solver : Type 1 where
  db_id : String
  IsApplicable : ConvolutionContext → Bool
  IsFast : ConvolutionContext → Bool
  RunAndMeasureSolution : ConvolutionContext → ConvSolution → float → Int × float
  kind : SolverKind

/-- What `FindSolution` leaves behind: the solution it returns, the record, the calls. -/
structure FindResult where
  solution : ConvSolution
  dbRecord : DbRecord
  trace : List Event
  deriving DecidableEq

/-- The last statement of `FindSolutionImpl(rank<1>, ...)`:
`return s.GetSolution(context, s.GetPerformanceConfig(context));`. -/
def FindSolutionImpl_default {PC : Type} (ops : Searchable PC) (id : String)
    (context : ConvolutionContext) (dbRecord : DbRecord) (trace : List Event) : FindResult :=
  let c := ops.GetPerformanceConfig context
  { solution := ops.GetSolution context c
    dbRecord := dbRecord
    trace := trace ++ [Event.GetPerformanceConfig id, Event.GetSolution id (some (ops.Serialize c))] }

/-- The second half of the `else` branch of `FindSolutionImpl(rank<1>, ...)`: the search,
when one is requested, and otherwise (or when the search throws) the default. -/
def FindSolutionImpl_search {PC : Type} (enforce : FindEnforce) (ops : Searchable PC)
    (id : String) (context : ConvolutionContext) (dbRecord : DbRecord) (trace : List Event) :
    FindResult :=
  if context.do_search || enforce.IsSearch context then
    match ops.Search context with
    | .ok c =>
      { solution := ops.GetSolution context c
        dbRecord := dbRecord.Store id ops.Serialize c
        trace := trace ++ [Event.Search id, Event.Store id (ops.Serialize c),
                           Event.GetSolution id (some (ops.Serialize c))] }
    | .error _ => FindSolutionImpl_default ops id context dbRecord (trace ++ [Event.Search id])
  else
    FindSolutionImpl_default ops id context dbRecord trace

/-- The overload `FindSolutionImpl(rank<1>, s, context, dbRecord)` for searchable solvers. -/
def FindSolutionImpl_rank1 {PC : Type} (enforce : FindEnforce) (ops : Searchable PC)
    (id : String) (context : ConvolutionContext) (dbRecord : DbRecord) : FindResult :=
  if enforce.IsDbClean context then
    FindSolutionImpl_default ops id context (dbRecord.Remove id).2 [Event.Remove id]
  else
    if (context.do_search || enforce.IsSearch context) && enforce.IsDbUpdate context then
      FindSolutionImpl_search enforce ops id context dbRecord []
    else
      match dbRecord.Load id ops.Deserialize with
      | some config =>
        if ops.IsValidPerformanceConfig context config then
          { solution := ops.GetSolution context config
            dbRecord := dbRecord
            trace := [Event.Load id, Event.IsValidPerformanceConfig id (ops.Serialize config),
                      Event.GetSolution id (some (ops.Serialize config))] }
        else
          FindSolutionImpl_search enforce ops id context dbRecord
            [Event.Load id, Event.IsValidPerformanceConfig id (ops.Serialize config)]
      | none => FindSolutionImpl_search enforce ops id context dbRecord [Event.Load id]

/-- The overload `FindSolutionImpl(rank<0>, s, context, dbRecord)` for the other solvers. -/
def FindSolutionImpl_rank0 (GetSolution : ConvolutionContext → ConvSolution) (id : String)
    (context : ConvolutionContext) (dbRecord : DbRecord) : FindResult :=
  { solution := GetSolution context
    dbRecord := dbRecord
    trace := [Event.GetSolution id none] }

/-- The function `FindSolution(s, context, dbRecord)`; overload resolution picks `rank<1>`
for a searchable solver and falls back to `rank<0>`. -/
def FindSolution (enforce : FindEnforce) (s : Solver) (context : ConvolutionContext)
    (dbRecord : DbRecord) : FindResult :=
  let r :=
    match s.kind with
    | .searchable _ ops => FindSolutionImpl_rank1 enforce ops s.db_id context dbRecord
    | .fixed GetSolution => FindSolutionImpl_rank0 GetSolution s.db_id context dbRecord
  { r with trace := Event.FindSolution s.db_id :: r.trace }

/-- What is fixed during one call besides the arguments: the enforcement object that
`FindSolutionImpl` constructs, the value of
`miopen::IsDisabled(MIOPEN_DEBUG_AMD_ASM_KERNELS_PERF_FILTERING{})`, whether the macro
`MIOPEN_THROW_DEBUG` (defined outside the sources) throws like `MIOPEN_THROW` or expands to
nothing, and the indeterminate value of the uninitialised local `float elapsed_time;`. -/
structure Env where
  enforce : FindEnforce
  no_perf_filtering : Bool
  throw_debug : Bool
  elapsed_time_init : float

/-- An exception leaving a selection function, with the calls made before it. -/
structure Raised where
  ex : Exception
  trace : List Event
  deriving DecidableEq

/-- Modelled from the spec: the macro `MIOPEN_STATIC_FOR_EACH(solver, Solvers{}, body)`
(defined outside the sources): the body is run for each solver of the pack in catalog
order; an exception leaves the loop. -/
def MIOPEN_STATIC_FOR_EACH {σ : Type} (body : Solver → σ → Except Raised σ) :
    List Solver → σ → Except Raised σ
  | [], st => .ok st
  | solver :: rest, st =>
    match body solver st with
    | .ok st1 => MIOPEN_STATIC_FOR_EACH body rest st1
    | .error e => .error e

/-- The condition `solver.IsApplicable(search_params) &&
(no_perf_filtering || solver.IsFast(search_params))` of all three loops. -/
def passes_filter (env : Env) (search_params : ConvolutionContext) (solver : Solver) : Bool :=
  solver.IsApplicable search_params && (env.no_perf_filtering || solver.IsFast search_params)

/-- The condition of the outer `if` of `SearchForSolution`. -/
def timed_mode (search_params : ConvolutionContext) : Bool :=
  search_params.direction.IsBackwardWrW && decide (search_params.kernel_stride0 ≤ 1)

/-- The three selection variables of the timed branch of `SearchForSolution`: `solution`,
`best_time` and `none_probing_failures_yet`. -/
structure Selection where
  solution : ConvSolution
  best_time : float
  none_probing_failures_yet : Bool
  deriving DecidableEq

/-- The variables that the loop of the timed branch reads and writes: the selection, the
record and the call log. -/
structure TimedState where
  sel : Selection
  dbRecord : DbRecord
  trace : List Event
  deriving DecidableEq

/-- The statement `switch(rc)` of the timed branch (lines 301 to 325). -/
def SearchForSolution_switch (rc : Int) (elapsed_time : float) (candidate : ConvSolution)
    (sel : Selection) : Selection :=
  if rc = 0 then
    if float.lt elapsed_time sel.best_time then
      { sel with best_time := elapsed_time, solution := candidate }
    else sel
  else if rc = -2 then
    if sel.none_probing_failures_yet then
      if float.ge sel.best_time FLT_MAX then
        { sel with none_probing_failures_yet := false, solution := candidate }
      else { sel with none_probing_failures_yet := false }
    else sel
  else sel

/-- The loop body of the timed branch of `SearchForSolution` (lines 238 to 331). -/
def SearchForSolution_timed_body (env : Env) (search_params : ConvolutionContext)
    (solver : Solver) (st : TimedState) : Except Raised TimedState :=
  if passes_filter env search_params solver then
    let r := FindSolution env.enforce solver search_params st.dbRecord
    let candidate := r.solution
    let st1 : TimedState := { st with dbRecord := r.dbRecord, trace := st.trace ++ r.trace }
    if candidate.Succeeded && candidate.construction_params.isEmpty && env.throw_debug then
      .error { ex := MIOPEN_THROW ("Internal error in solver: " ++ solver.db_id)
               trace := st1.trace }
    else
      let candidate :=
        if candidate.Succeeded && candidate.construction_params.isEmpty then
          ConvSolution.ctor miopenStatusInternalError
        else candidate
      if candidate.Succeeded then
        let m := solver.RunAndMeasureSolution search_params candidate env.elapsed_time_init
        .ok { sel := SearchForSolution_switch m.1 m.2 candidate st1.sel
              dbRecord := st1.dbRecord
              trace := st1.trace ++ [Event.RunAndMeasureSolution solver.db_id] }
      else .ok st1
  else .ok st

/-- The variables of the other branch of `SearchForSolution`. -/
structure SearchState where
  solution : ConvSolution
  dbRecord : DbRecord
  trace : List Event
  deriving DecidableEq

/-- The loop body of the second branch of `SearchForSolution` (lines 339 to 347). -/
def SearchForSolution_first_body (env : Env) (search_params : ConvolutionContext)
    (solver : Solver) (st : SearchState) : Except Raised SearchState :=
  if !st.solution.Succeeded && passes_filter env search_params solver then
    let r := FindSolution env.enforce solver search_params st.dbRecord
    if r.solution.Succeeded && r.solution.construction_params.isEmpty then
      .error { ex := MIOPEN_THROW ("Internal error in solver: " ++ solver.db_id)
               trace := st.trace ++ r.trace }
    else
      .ok { solution := r.solution, dbRecord := r.dbRecord, trace := st.trace ++ r.trace }
  else .ok st

/-- The function `SearchForSolution<Solvers...>(search_params, dbRecord)` with its call
log: the solution returned, or the exception thrown. -/
def SearchForSolution_run (env : Env) (Solvers : List Solver)
    (search_params : ConvolutionContext) (dbRecord : DbRecord) :
    Except Raised (ConvSolution × List Event) :=
  let solution := ConvSolution.ctor miopenStatusUnknownError
  if timed_mode search_params then
    match MIOPEN_STATIC_FOR_EACH (SearchForSolution_timed_body env search_params) Solvers
        { sel := { solution := solution, best_time := FLT_MAX
                   none_probing_failures_yet := true }
          dbRecord := dbRecord, trace := [] } with
    | .ok st => .ok (st.sel.solution, st.trace)
    | .error e => .error e
  else
    match MIOPEN_STATIC_FOR_EACH (SearchForSolution_first_body env search_params) Solvers
        { solution := solution, dbRecord := dbRecord, trace := [] } with
    | .ok st => .ok (st.solution, st.trace)
    | .error e => .error e

/-- The function `SearchForSolution`: what the caller receives. -/
def SearchForSolution (env : Env) (Solvers : List Solver)
    (search_params : ConvolutionContext) (dbRecord : DbRecord) :
    Except Exception ConvSolution :=
  match SearchForSolution_run env Solvers search_params dbRecord with
  | .ok p => .ok p.1
  | .error e => .error e.ex

/-- The calls `SearchForSolution` makes. -/
def SearchForSolution_trace (env : Env) (Solvers : List Solver)
    (search_params : ConvolutionContext) (dbRecord : DbRecord) : List Event :=
  match SearchForSolution_run env Solvers search_params dbRecord with
  | .ok p => p.2
  | .error e => e.trace

/-- The variables of the loop of `SearchForAllSolutions`. -/
structure AllState where
  ss : List ConvSolution
  dbRecord : DbRecord
  trace : List Event
  deriving DecidableEq

/-- The loop body of `SearchForAllSolutions` (lines 373 to 396). -/
def SearchForAllSolutions_body (env : Env) (search_params : ConvolutionContext)
    (solver : Solver) (st : AllState) : Except Raised AllState :=
  if passes_filter env search_params solver then
    let r := FindSolution env.enforce solver search_params st.dbRecord
    let s := r.solution
    let st1 := { st with dbRecord := r.dbRecord, trace := st.trace ++ r.trace }
    if s.Succeeded then
      if s.construction_params.isEmpty then
        if env.throw_debug then
          .error { ex := MIOPEN_THROW ("Internal error in solver: " ++ solver.db_id)
                   trace := st1.trace }
        else .ok st1
      else .ok { st1 with ss := st1.ss ++ [s] }
    else .ok st1
  else .ok st

/-- How a call of `SearchForAllSolutions` ends when its caller receives no list: the program
is aborted by the failure of `assert(expr)`, or an exception leaves the function. -/
inductive Stopped (ε : Type) where
  | assert_failed (expr : String) : Stopped ε
  | thrown (e : ε) : Stopped ε
  deriving DecidableEq

/-- The function `SearchForAllSolutions<Solvers...>(search_params, dbRecord, ss)` with its
call log. The two `assert`s at its head (lines 361 and 362) are executed first: when `ss`
is not empty, or when the context is not one with `direction.IsBackwardWrW()` and
`kernel_stride0 <= 1`, the program is aborted and no list is returned. -/
def SearchForAllSolutions_run (env : Env) (Solvers : List Solver)
    (search_params : ConvolutionContext) (dbRecord : DbRecord) (ss : List ConvSolution) :
    Except (Stopped Raised) (List ConvSolution × List Event) :=
  if !ss.isEmpty then .error (.assert_failed "ss.empty()")
  else if !(search_params.direction.IsBackwardWrW &&
      decide (search_params.kernel_stride0 ≤ 1)) then
    .error (.assert_failed
      "search_params.direction.IsBackwardWrW() && search_params.kernel_stride0 <= 1")
  else
    match MIOPEN_STATIC_FOR_EACH (SearchForAllSolutions_body env search_params) Solvers
        { ss := ss, dbRecord := dbRecord, trace := [] } with
    | .ok st => .ok (st.ss, st.trace)
    | .error e => .error (.thrown e)

/-- The function `SearchForAllSolutions`: the list `ss` the caller finds afterwards. -/
def SearchForAllSolutions (env : Env) (Solvers : List Solver)
    (search_params : ConvolutionContext) (dbRecord : DbRecord) (ss : List ConvSolution) :
    Except (Stopped Exception) (List ConvSolution) :=
  match SearchForAllSolutions_run env Solvers search_params dbRecord ss with
  | .ok p => .ok p.1
  | .error (.assert_failed expr) => .error (.assert_failed expr)
  | .error (.thrown e) => .error (.thrown e.ex)

/-- The calls `SearchForAllSolutions` makes; none is made before a failed `assert`. -/
def SearchForAllSolutions_trace (env : Env) (Solvers : List Solver)
    (search_params : ConvolutionContext) (dbRecord : DbRecord) (ss : List ConvSolution) :
    List Event :=
  match SearchForAllSolutions_run env Solvers search_params dbRecord ss with
  | .ok p => p.2
  | .error (.assert_failed _) => []
  | .error (.thrown e) => e.trace

/-! ## Vocabulary of the statements -/

/-- The solvers of the catalog that pass the filter, in catalog order, each with the
solution its find pipeline returns when the pipelines of these solvers are run one after
the other on the record. -/
def attempts (env : Env) (search_params : ConvolutionContext) :
    List Solver → DbRecord → List (Solver × ConvSolution)
  | [], _ => []
  | solver :: rest, dbRecord =>
    if passes_filter env search_params solver then
      let r := FindSolution env.enforce solver search_params dbRecord
      (solver, r.solution) :: attempts env search_params rest r.dbRecord
    else attempts env search_params rest dbRecord

/-- A solution that is succeeded and has an empty `construction_params`. -/
def ConvSolution.internal_error (s : ConvSolution) : Bool :=
  s.Succeeded && s.construction_params.isEmpty

/-- A solution that is succeeded and has a non-empty `construction_params`. -/
def ConvSolution.usable (s : ConvSolution) : Bool :=
  s.Succeeded && !s.construction_params.isEmpty

/-- A candidate of the timed branch with what `RunAndMeasureSolution` reported for it. -/
structure Probe where
  candidate : ConvSolution
  rc : Int
  elapsed_time : float
  deriving DecidableEq

/-- The measurement of one attempt: a probe when the solution is usable. -/
def probe_of (env : Env) (search_params : ConvolutionContext) (a : Solver × ConvSolution) :
    Option Probe :=
  if a.2.usable then
    let m := a.1.RunAndMeasureSolution search_params a.2 env.elapsed_time_init
    some { candidate := a.2, rc := m.1, elapsed_time := m.2 }
  else none

/-- The candidates that reach the time measurement, in catalog order. -/
def probes (env : Env) (search_params : ConvolutionContext) (Solvers : List Solver)
    (dbRecord : DbRecord) : List Probe :=
  (attempts env search_params Solvers dbRecord).filterMap (probe_of env search_params)

/-- The `switch` applied to a probe. -/
def pick (sel : Selection) (p : Probe) : Selection :=
  SearchForSolution_switch p.rc p.elapsed_time p.candidate sel

/-- The selection variables as `SearchForSolution` initialises them. -/
def initial_selection : Selection :=
  { solution := ConvSolution.ctor miopenStatusUnknownError, best_time := FLT_MAX
    none_probing_failures_yet := true }

/-- A probe that was timed: the return code is 0. -/
def Probe.timed (p : Probe) : Bool := decide (p.rc = 0)

/-- A probe of a solver without time measurement: the return code is -2. -/
def Probe.not_timeable (p : Probe) : Bool := decide (p.rc = -2)

/-- A timed probe that reports the given time. -/
def Probe.timed_at (e : float) (p : Probe) : Bool :=
  p.timed && decide (p.elapsed_time = e)

/-- The candidate of the first probe without time measurement, and the solution
`SearchForSolution` starts from when there is none. -/
def first_not_timeable (ps : List Probe) : ConvSolution :=
  match ps.find? Probe.not_timeable with
  | some p => p.candidate
  | none => ConvSolution.ctor miopenStatusUnknownError

/-- What holds of the selection variables after the probes `ps` went through the `switch`. -/
structure pick_inv (ps : List Probe) (s : Selection) : Prop where
  bound : s.best_time = FLT_MAX ∨ float.lt s.best_time FLT_MAX = true
  least : ∀ q ∈ ps, q.timed = true → float.lt q.elapsed_time s.best_time = false
  best : float.lt s.best_time FLT_MAX = true →
    ∃ p, ps.find? (Probe.timed_at s.best_time) = some p ∧ s.solution = p.candidate
  flag : s.none_probing_failures_yet = (ps.find? Probe.not_timeable).isNone
  fallback : s.best_time = FLT_MAX → s.solution = first_not_timeable ps

/-- No solver that passes the filter has a find-pipeline solution that is succeeded with an
empty `construction_params`. -/
def no_internal_error (env : Env) (search_params : ConvolutionContext)
    (Solvers : List Solver) (dbRecord : DbRecord) : Bool :=
  (attempts env search_params Solvers dbRecord).all (fun a => !a.2.internal_error)

/-- No solver that passes the filter has a succeeded find-pipeline solution. -/
def none_succeeded (env : Env) (search_params : ConvolutionContext)
    (Solvers : List Solver) (dbRecord : DbRecord) : Bool :=
  (attempts env search_params Solvers dbRecord).all (fun a => !a.2.Succeeded)

/-- The log entries of calls of `RunAndMeasureSolution`. -/
def Event.is_measure : Event → Bool
  | .RunAndMeasureSolution _ => true
  | _ => false

/-- The log entries of calls of `Search`. -/
def Event.is_search : Event → Bool
  | .Search _ => true
  | _ => false

/-- The log entries of calls of `DbRecord::Load`. -/
def Event.is_load : Event → Bool
  | .Load _ => true
  | _ => false

/-- The log entries of calls of `DbRecord::Store`. -/
def Event.is_store : Event → Bool
  | .Store _ _ => true
  | _ => false

/-- The log entries of calls that read or modify the record: `Load`, `Store`, `Remove`. -/
def Event.is_record_access : Event → Bool
  | .Load _ => true
  | .Store _ _ => true
  | .Remove _ => true
  | _ => false

/-- The log entries of calls of `GetSolution`. -/
def Event.is_get_solution : Event → Bool
  | .GetSolution _ _ => true
  | _ => false

/-- The condition under which `FindSolutionImpl` skips the load (line 136). -/
def load_skipped (enforce : FindEnforce) (context : ConvolutionContext) : Bool :=
  (context.do_search || enforce.IsSearch context) && enforce.IsDbUpdate context

/-- The condition under which `FindSolutionImpl` runs the search (line 156). -/
def search_requested (enforce : FindEnforce) (context : ConvolutionContext) : Bool :=
  context.do_search || enforce.IsSearch context

/-- The solution built from the default config:
`s.GetSolution(context, s.GetPerformanceConfig(context))`. -/
def default_solution {PC : Type} (ops : Searchable PC) (context : ConvolutionContext) :
    ConvSolution :=
  ops.GetSolution context (ops.GetPerformanceConfig context)

/-- Two solvers that differ at most in their `IsFast`. -/
def same_but_IsFast (s1 s2 : Solver) : Prop :=
  ∃ f : ConvolutionContext → Bool, s2 = { s1 with IsFast := f }

/-- Two records that hold the same payload under every id other than `id`. -/
def agree_off (id : String) (r1 r2 : DbRecord) : Prop :=
  ∀ j : String, j ≠ id → r1.GetValues j = r2.GetValues j

/-! ## Example solvers and contexts -/

/-- An environment with no enforcement and the performance filter on. -/
def plain_env (throw_debug : Bool) : Env :=
  { enforce := { IsDbClean := fun _ => false, IsSearch := fun _ => false,
                 IsDbUpdate := fun _ => false }
    no_perf_filtering := false
    throw_debug := throw_debug
    elapsed_time_init := float.nan }

/-- A context with the given direction, stride and search request. -/
def example_context (direction : Direction) (kernel_stride0 : Int) (do_search : Bool) :
    ConvolutionContext :=
  { direction := direction, do_search := do_search, kernel_stride0 := kernel_stride0
    bot_sz := 64, top_sz := 64, weights_sz := 36, bias_sz := 0, bias := false, shape := [] }

/-- An empty record. -/
def empty_record : DbRecord := { key := "k", map := [] }

/-- A succeeded solution with one kernel carrying the given name. -/
def solution_named (name : String) : ConvSolution :=
  { ConvSolution.ctor miopenStatusSuccess with
    construction_params :=
      [{ comp_options := "", l_wk := [64], g_wk := [64], kernel_file := name ++ ".s"
         kernel_name := name }] }

/-- A solver without `Search` that is always applicable and fast, returns the given
solution and reports the given measurement. -/
def fixed_solver (id : String) (sol : ConvSolution)
    (measure : float → Int × float) : Solver :=
  { db_id := id
    IsApplicable := fun _ => true
    IsFast := fun _ => true
    RunAndMeasureSolution := fun _ _ t => measure t
    kind := .fixed (fun _ => sol) }

/-- A solver that keeps the default `RunAndMeasureSolution`. -/
def non_timeable (id : String) : Solver :=
  fixed_solver id (solution_named id) (fun t => (-2, t))

/-- A solver whose measurement succeeds with the given time. -/
def timed (id : String) (elapsed : float) : Solver :=
  fixed_solver id (solution_named id) (fun _ => (0, elapsed))

/-- A solver whose solution is succeeded although it has no kernel. -/
def internal_error_solver (id : String) : Solver :=
  fixed_solver id (ConvSolution.ctor miopenStatusSuccess) (fun t => (-2, t))

/-- A solver whose solution carries the given error status. -/
def failing_solver (id : String) (status : miopenStatus_t) : Solver :=
  fixed_solver id (ConvSolution.ctor status) (fun t => (-2, t))

/-- The context of the timed branch used in the examples. -/
def timed_context : ConvolutionContext := example_context .BackwardWeights 1 false

/-- A context of the other branch used in the examples. -/
def forward_context : ConvolutionContext := example_context .Forward 1 false

/-- A searchable solver whose performance config is a string, stored as it is: the default
config is "default", every config but "bad" is valid, `Search` finds `found`, and the
solution built from a config has one kernel named after the config. -/
def searchable_solver (id : String) (found : String) (measure : float → Int × float) :
    Solver :=
  { db_id := id
    IsApplicable := fun _ => true
    IsFast := fun _ => true
    RunAndMeasureSolution := fun _ _ t => measure t
    kind := .searchable String
      { Serialize := fun c => c
        Deserialize := fun s => some s
        GetPerformanceConfig := fun _ => "default"
        IsValidPerformanceConfig := fun _ c => c != "bad"
        Search := fun _ => .ok found
        GetSolution := fun _ c => solution_named c } }

/-- The context of the timed branch with a search requested. -/
def tuning_context : ConvolutionContext := example_context .BackwardWeights 1 true

/-- The operations of `searchable_solver`. -/
def searchable_ops (found : Except Exception String) : Searchable String :=
  { Serialize := fun c => c
    Deserialize := fun s => some s
    GetPerformanceConfig := fun _ => "default"
    IsValidPerformanceConfig := fun _ c => c != "bad"
    Search := fun _ => found
    GetSolution := fun _ c => solution_named c }

/-- A searchable solver like `searchable_solver` whose `Search` throws. -/
def search_failing_solver (id : String) : Solver :=
  { db_id := id
    IsApplicable := fun _ => true
    IsFast := fun _ => true
    RunAndMeasureSolution := fun _ _ t => (-2, t)
    kind := .searchable String (searchable_ops (.error (MIOPEN_THROW "Search failed"))) }

/-- The enforcement that cleans the database. -/
def clean_enforce : FindEnforce :=
  { IsDbClean := fun _ => true, IsSearch := fun _ => false, IsDbUpdate := fun _ => false }

/-- The enforcement that requests a search and a database update. -/
def search_update_enforce : FindEnforce :=
  { IsDbClean := fun _ => false, IsSearch := fun _ => true, IsDbUpdate := fun _ => true }

/-- A record that holds the config `tuned` for the solver `S` and `other` for `T`. -/
def tuned_record (tuned : String) : DbRecord :=
  { key := "k", map := [("S", tuned), ("T", "other")] }

/-! ## The default db id and the defaults of `SolverBase` -/

/-- The constant `std::string::npos`, the largest value of `size_t` (64 bits). -/
def npos : Nat := 2 ^ 64 - 1

/-- The index of the last occurrence of `c`, if there is one. -/
def last_index (c : Char) : List Char → Option Nat
  | [] => none
  | x :: xs =>
    match last_index c xs with
    | some k => some (k + 1)
    | none => if x = c then some 0 else none

/-- The member `std::string::find_last_of(char)`: the index of the last occurrence, and
`npos` when there is none. -/
def find_last_of (name : String) (c : Char) : Nat :=
  (last_index c name.data).getD npos

/-- The member `std::string::substr(pos)`: the characters from `pos` on; `none` stands for
the `std::out_of_range` it throws when `pos` is larger than the size. -/
def substr (name : String) (pos : Nat) : Option String :=
  if pos ≤ name.data.length then some ⟨name.data.drop pos⟩ else none

/-- The function `ComputeSolverDbId(Solver)`, as a function of the string `name` that
`get_type_name<Solver>()` returns; `idx + 1` is computed in `size_t`. -/
def ComputeSolverDbId (name : String) : Option String :=
  let idx := find_last_of name ':'
  substr name ((idx + 1) % 2 ^ 64)

/-- The function `SolverDbId(solver)`: the value `ComputeSolverDbId` computes on the first
call, kept for the later ones. -/
def SolverDbId (name : String) : Option String :=
  ComputeSolverDbId name

namespace SolverBase

/-- The member `SolverBase::IsApplicable`. -/
def IsApplicable (_ : ConvolutionContext) : Bool := true

/-- The member `SolverBase::IsFast`. -/
def IsFast (_ : ConvolutionContext) : Bool := true

/-- The member `SolverBase::RunAndMeasureSolution`: the last argument is the value held by
the `float&` parameter before the call, the second component of the result the value it
holds afterwards. -/
def RunAndMeasureSolution (_ : ConvolutionContext) (_ : ConvSolution) (elapsed_time : float) :
    Int × float :=
  (-2, elapsed_time)

/-- A solver that overrides none of `IsApplicable`, `IsFast` and
`RunAndMeasureSolution`. -/
def derived (db_id : String) (kind : SolverKind) : Solver :=
  { db_id := db_id
    IsApplicable := IsApplicable
    IsFast := IsFast
    RunAndMeasureSolution := RunAndMeasureSolution
    kind := kind }

end SolverBase

/-- The member `ConvOclDirectFwdLegacyExhaustiveSearch::IsValidPerformanceConfig`, over the
type `LegacyPerformanceConfig`, which is declared outside the sources. -/
def ConvOclDirectFwdLegacyExhaustiveSearch.IsValidPerformanceConfig
    {LegacyPerformanceConfig : Type} (_ : ConvolutionContext) (_ : LegacyPerformanceConfig) :
    Bool :=
  true

/-! ## The default solution and the performance configs -/

/-- The constructor `ConvSolution()`: the argument takes its default,
`miopenStatusSuccess`. -/
def ConvSolution.ctor_default : ConvSolution :=
  ConvSolution.ctor miopenStatusSuccess

/-- The visitor that records its calls: the value of the field and the tag. -/
def record_call (value : Int) (tag : String) (log : List (Int × String)) :
    List (Int × String) :=
  log ++ [(value, tag)]

/-- The struct `PerformanceConfigConvAsm3x3U`. -/
structure PerformanceConfigConvAsm3x3U where
  limit_wave_cnt : Int
  filters_per_wave : Int
  output_lines_per_wave : Int
  deriving DecidableEq

/-- The member `PerformanceConfigConvAsm3x3U::Visit(self, f)`; the visitor `f` acts on a
state `σ`. -/
def PerformanceConfigConvAsm3x3U.Visit {σ : Type} (self : PerformanceConfigConvAsm3x3U)
    (f : Int → String → σ → σ) (st : σ) : σ :=
  let st := f self.limit_wave_cnt "limit_wave_cnt" st
  let st := f self.filters_per_wave "filters_per_wave" st
  f self.output_lines_per_wave "output_lines_per_wave" st

/-- The struct `PerformanceConfigAsmDirect3x3WrW`. -/
structure PerformanceConfigAsmDirect3x3WrW where
  limit_wave_cnt : Int
  reverse_inout : Int
  chunk_size : Int
  k_per_wave : Int
  pipe_lines_depth : Int
  n_per_group : Int
  deriving DecidableEq

/-- The member `PerformanceConfigAsmDirect3x3WrW::Visit(self, f)`. -/
def PerformanceConfigAsmDirect3x3WrW.Visit {σ : Type} (self : PerformanceConfigAsmDirect3x3WrW)
    (f : Int → String → σ → σ) (st : σ) : σ :=
  let st := f self.limit_wave_cnt "limit_wave_cnt" st
  let st := f self.reverse_inout "reverse_inout" st
  let st := f self.chunk_size "chunk_size" st
  let st := f self.k_per_wave "k_per_wave" st
  let st := f self.pipe_lines_depth "pipe_lines_depth" st
  f self.n_per_group "n_per_group" st

/-- The member `PerformanceConfigAsmDirect3x3WrW::GetCPerWave`: `none` stands for the
failure of `assert(chunk_size)`, without which the division is undefined; the division of
`int`s truncates. -/
def PerformanceConfigAsmDirect3x3WrW.GetCPerWave (self : PerformanceConfigAsmDirect3x3WrW) :
    Option Int :=
  if self.chunk_size = 0 then none else some (Int.tdiv 64 self.chunk_size)

/-- The struct `PerformanceConfigConvAsmBwdWrW1x1`. -/
structure PerformanceConfigConvAsmBwdWrW1x1 where
  c_per_gpr : Int
  c_mult : Int
  k_per_gpr : Int
  k_mult : Int
  read_size : Int
  n_per_gpr : Int
  deriving DecidableEq

/-- The member `PerformanceConfigConvAsmBwdWrW1x1::Visit(self, f)`. -/
def PerformanceConfigConvAsmBwdWrW1x1.Visit {σ : Type}
    (self : PerformanceConfigConvAsmBwdWrW1x1) (f : Int → String → σ → σ) (st : σ) : σ :=
  let st := f self.c_per_gpr "c_per_gpr" st
  let st := f self.c_mult "c_mult" st
  let st := f self.k_per_gpr "k_per_gpr" st
  let st := f self.k_mult "k_mult" st
  let st := f self.read_size "read_size" st
  f self.n_per_gpr "n_per_gpr" st

/-- The member `PerformanceConfigConvAsmBwdWrW1x1::GetChunkSize`: `none` stands for the
failure of `assert(c_per_gpr)`. -/
def PerformanceConfigConvAsmBwdWrW1x1.GetChunkSize (self : PerformanceConfigConvAsmBwdWrW1x1) :
    Option Int :=
  if self.c_per_gpr = 0 then none else some (Int.tdiv 16 self.c_per_gpr)

/-- The member `PerformanceConfigConvAsmBwdWrW1x1::GetHwPerGpr`: `none` stands for the
failure of `assert(n_per_gpr)`. -/
def PerformanceConfigConvAsmBwdWrW1x1.GetHwPerGpr (self : PerformanceConfigConvAsmBwdWrW1x1) :
    Option Int :=
  if self.n_per_gpr = 0 then none else some (Int.tdiv 4 self.n_per_gpr)

/-- Two solvers that differ at most in their `RunAndMeasureSolution`. -/
def same_but_RunAndMeasureSolution (s1 s2 : Solver) : Prop :=
  ∃ f : ConvolutionContext → ConvSolution → float → Int × float,
    s2 = { s1 with RunAndMeasureSolution := f }

/-- The calls of `RunAndMeasureSolution` in a log. -/
def measure_calls (trace : List Event) : List Event :=
  trace.filter Event.is_measure

end solver

/-! ## The performance database

The class `Db` (`db.hpp`, `db.cpp`) and the text format of `DbRecord` are not among the
sources; only their test (`test/perfdb.cpp`) is. They are modelled from the spec: the file
is a text, one record per line, `key=id:payload;id:payload`; every operation reads the
whole file, and a mutating operation writes all of it back. -/

/-- Modelled from the spec: the split of a text at the first occurrence of a delimiter, as
the reader of the file of `Db` (not among the sources) separates the key from the entries
and an id from its payload; `none` when the delimiter does not occur. -/
def split_first (c : Char) : List Char → Option (List Char × List Char)
  | [] => none
  | x :: xs =>
    if x = c then some ([], xs)
    else
      match split_first c xs with
      | some p => some (x :: p.1, p.2)
      | none => none

/-- Modelled from the spec: the split of a text at every occurrence of a delimiter, as the
reader of the file of `Db` (not among the sources) separates lines and entries. -/
def split_all (c : Char) : List Char → List (List Char)
  | [] => [[]]
  | x :: xs =>
    if x = c then [] :: split_all c xs
    else
      match split_all c xs with
      | h :: t => (x :: h) :: t
      | [] => [[x]]

/-- Modelled from the spec: the pieces of a text put together with a delimiter between
them, as the writer of the file of `Db` (not among the sources) does with the entries. -/
def join_with (c : Char) : List (List Char) → List Char
  | [] => []
  | [p] => p
  | p :: q :: rest => p ++ c :: join_with c (q :: rest)

namespace DbRecord

/-- Modelled from the spec: the text `id:payload` of one entry of a record (the text format
of `DbRecord` is not among the sources). -/
def entry_text (e : String × String) : List Char :=
  e.1.data ++ ':' :: e.2.data

/-- Modelled from the spec: the line `key=id0:payload0;id1:payload1` of a record (the
writer of `DbRecord` is not among the sources). -/
def line_text (r : DbRecord) : String :=
  ⟨r.key.data ++ '=' :: join_with ';' (r.map.map entry_text)⟩

/-- Modelled from the spec: the reader of one entry `id:payload` (the reader of `DbRecord`
is not among the sources); the id ends at the first ':'. -/
def parse_entry (piece : List Char) : Option (String × String) :=
  match split_first ':' piece with
  | some p => some (⟨p.1⟩, ⟨p.2⟩)
  | none => none

/-- Modelled from the spec: the reader of the entries of a line (not among the sources);
a piece that is no entry makes the line fail to parse. -/
def parse_entries : List (List Char) → Option (List (String × String))
  | [] => some []
  | piece :: rest =>
    match parse_entry piece, parse_entries rest with
    | some e, some es => some (e :: es)
    | _, _ => none

/-- Modelled from the spec: the reader of a line `key=id:payload;...` (the reader of
`DbRecord` is not among the sources); the key ends at the first '=', and `none` is a line
that fails to parse. -/
def parse_line (line : String) : Option DbRecord :=
  match split_first '=' line.data with
  | some p =>
    match parse_entries (split_all ';' p.2) with
    | some es => some { key := ⟨p.1⟩, map := es }
    | none => none
  | none => none

/-- Modelled from the spec: the merge of `UpdateRecord`: the ids of `new` overwrite, the ids
that only `old` has are kept (`Db` is not among the sources). -/
def merge (old new : DbRecord) : DbRecord :=
  { key := new.key
    map := new.map ++ old.map.filter (fun e => (new.map.lookup e.1).isNone) }

end DbRecord

/-- The two members that `Db` and `DbRecord` ask of a key or value type:
`void Serialize(std::ostream&) const` and `bool Deserialize(const std::string&)`, the latter
as a function of the text and of the object before the call, giving the flag returned and
the object afterwards. -/
structure Codec (T : Type) where
  Serialize : T → String
  Deserialize : String → T → Bool × T

namespace Db

/-- Modelled from the spec: the lines of the text file of `Db` (not among the sources), as
reading with LF as line terminator gives them: a last line may lack its terminator. -/
def read_lines (file : String) : List String :=
  let pieces := split_all '\n' file.data
  (if pieces.getLast? = some [] then pieces.dropLast else pieces).map String.mk

/-- Modelled from the spec: the text of a file with the given lines, each with its LF
terminator (the writer of `Db` is not among the sources). -/
def write_lines : List String → List Char
  | [] => []
  | l :: rest => l.data ++ '\n' :: write_lines rest

/-- Modelled from the spec: the record of `key` that a line holds, if the line parses and
has that key (`Db` is not among the sources). -/
def record_of (key : String) (line : String) : Option DbRecord :=
  match DbRecord.parse_line line with
  | some r => if r.key = key then some r else none
  | none => none

/-- Modelled from the spec: `Db::FindRecord(key)` on the text of the file (`Db` is not among
the sources): the whole file is read and the record of `key` is returned, or none; lines
that fail to parse are skipped. -/
def FindRecordText (file : String) (key : String) : Option DbRecord :=
  (read_lines file).findSome? (record_of key)

/-- Modelled from the spec: the rewrite of the file by a mutating operation of `Db` (not
among the sources): the lines of other keys and the lines that fail to parse are kept as
they are, the record of `key` is replaced by `record`, and a record with no ids is not
written. -/
def rewrite (file : String) (key : String) (record : DbRecord) : String :=
  ⟨write_lines (((read_lines file).filter (fun l => (record_of key l).isNone)) ++
    (if record.map.isEmpty then [] else [record.line_text]))⟩

/-- Modelled from the spec: `Db::UpdateRecord(record)` on the text of the file (`Db` is not
among the sources): the record is merged with the stored one and the file is rewritten;
`write_ok` tells whether the write succeeds. The result is the flag returned, the file
afterwards and the record of the caller afterwards. -/
def UpdateRecordText (file : String) (write_ok : Bool) (record : DbRecord) :
    Bool × String × DbRecord :=
  let merged :=
    match FindRecordText file record.key with
    | some old => DbRecord.merge old record
    | none => record
  if write_ok then (true, rewrite file record.key merged, merged) else (false, file, record)

/-- Modelled from the spec: `Db::Update(key, id, values)` on texts (`Db` is not among the
sources): a single (id, value) is merged; nothing is written when the stored payload of the
id is already the same. -/
def UpdateText (file : String) (write_ok : Bool) (key id values : String) : Bool × String :=
  match FindRecordText file key with
  | some old =>
    if old.GetValues id = some values then (true, file)
    else
      let r := UpdateRecordText file write_ok { key := key, map := [(id, values)] }
      (r.1, r.2.1)
  | none =>
    let r := UpdateRecordText file write_ok { key := key, map := [(id, values)] }
    (r.1, r.2.1)

/-- Modelled from the spec: `Db::FindRecord(key)` (`Db` is not among the sources); the key
is looked up by its encoding. -/
def FindRecord {K : Type} (ck : Codec K) (file : String) (key : K) : Option DbRecord :=
  FindRecordText file (ck.Serialize key)

/-- Modelled from the spec: `Db::Update(key, id, values)` (`Db` is not among the sources);
the result is the flag returned and the file afterwards. -/
def Update {K V : Type} (ck : Codec K) (cv : Codec V) (file : String) (write_ok : Bool)
    (key : K) (id : String) (values : V) : Bool × String :=
  UpdateText file write_ok (ck.Serialize key) id (cv.Serialize values)

/-- Modelled from the spec: `Db::Load(key, id, values)` (`Db` is not among the sources):
`FindRecord` and then `GetValues(id)`, which decodes the payload into `values`; false when
the key or the id is absent. The result is the flag returned and `values` afterwards. -/
def Load {K V : Type} (ck : Codec K) (cv : Codec V) (file : String) (key : K) (id : String)
    (values : V) : Bool × V :=
  match FindRecord ck file key with
  | some r =>
    match r.GetValues id with
    | some s => cv.Deserialize s values
    | none => (false, values)
  | none => (false, values)

/-- Modelled from the spec: a key text that a line of the file can hold (section 6: the key
has none of the delimiters that end it): no '=' and no LF. -/
abbrev key_ok (key : String) : Prop :=
  '=' ∉ key.data ∧ '\n' ∉ key.data

/-- Modelled from the spec: an id that a line of the file can hold (section 6): no ':', no
';' and no LF. -/
abbrev id_ok (id : String) : Prop :=
  ':' ∉ id.data ∧ ';' ∉ id.data ∧ '\n' ∉ id.data

/-- Modelled from the spec: a payload that a line of the file can hold (section 6): no ';'
and no LF. -/
abbrev values_ok (values : String) : Prop :=
  ';' ∉ values.data ∧ '\n' ∉ values.data

/-- Modelled from the spec: a record that a line of the file can hold: a key, ids and
payloads of that kind, and at least one id. -/
def record_ok (r : DbRecord) : Prop :=
  key_ok r.key ∧ r.map ≠ [] ∧ ∀ e ∈ r.map, id_ok e.1 ∧ values_ok e.2

end Db

namespace DbRecord

/-- Modelled from the spec: the constructor `DbRecord(key)` (`db_record.hpp` is not among
the sources): the record of the encoded key with no ids. -/
def ctor {K : Type} (ck : Codec K) (key : K) : DbRecord :=
  { key := ck.Serialize key, map := [] }

/-- Modelled from the spec: the member `SetValues(id, values)` for a value of a type with a
codec (`db_record.hpp` is not among the sources): the encoded value is set by id. -/
def SetValuesOf {V : Type} (cv : Codec V) (r : DbRecord) (id : String) (values : V) :
    DbRecord :=
  r.SetValues id (cv.Serialize values)

/-- Modelled from the spec: the member `GetValues(id, values)` for a value of a type with a
codec (`db_record.hpp` is not among the sources): the payload of the id is decoded into
`values`; false when the id is absent. The result is the flag returned and `values`
afterwards. -/
def GetValuesOf {V : Type} (cv : Codec V) (r : DbRecord) (id : String) (values : V) :
    Bool × V :=
  match r.GetValues id with
  | some s => cv.Deserialize s values
  | none => (false, values)

end DbRecord

namespace Db

/-- Modelled from the spec: the lines of the file that hold a record of `key` (`Db` is not
among the sources). -/
def lines_of (file : String) (key : String) : List String :=
  (read_lines file).filter (fun l => (record_of key l).isSome)

/-- Modelled from the spec: the payload stored in the file under `key` and `id`, if any
(`Db` is not among the sources). -/
def stored (file : String) (key id : String) : Option String :=
  (FindRecordText file key).bind (fun r => r.GetValues id)

/-- Modelled from the spec: `Db::StoreRecord(record)` (`Db` is not among the sources): the
file is read, any record of the same key is replaced and the file is written back; a record
with no ids is pruned. `write_ok` tells whether the write succeeds; the result is the flag
returned and the file afterwards. -/
def StoreRecord (file : String) (write_ok : Bool) (record : DbRecord) : Bool × String :=
  if write_ok then (true, rewrite file record.key record) else (false, file)

/-- Modelled from the spec: `Db::UpdateRecord(record)` (`Db` is not among the sources): the
flag returned, the file afterwards and the record of the caller afterwards. -/
def UpdateRecord (file : String) (write_ok : Bool) (record : DbRecord) :
    Bool × String × DbRecord :=
  UpdateRecordText file write_ok record

/-- Modelled from the spec: `Db::RemoveRecord(key)` on the text of the key (`Db` is not
among the sources): true iff a record was removed. -/
def RemoveRecordText (file : String) (write_ok : Bool) (key : String) : Bool × String :=
  match FindRecordText file key with
  | some _ =>
    if write_ok then (true, rewrite file key { key := key, map := [] }) else (false, file)
  | none => (false, file)

/-- Modelled from the spec: `Db::RemoveRecord(key)` (`Db` is not among the sources). -/
def RemoveRecord {K : Type} (ck : Codec K) (file : String) (write_ok : Bool) (key : K) :
    Bool × String :=
  RemoveRecordText file write_ok (ck.Serialize key)

/-- Modelled from the spec: `Db::Remove(key, id)` on the text of the key (`Db` is not among
the sources): one id is removed, and the record with it when it becomes empty; false when
the id was absent. -/
def RemoveText (file : String) (write_ok : Bool) (key id : String) : Bool × String :=
  match FindRecordText file key with
  | some old =>
    match old.GetValues id with
    | some _ => if write_ok then (true, rewrite file key (old.Remove id).2) else (false, file)
    | none => (false, file)
  | none => (false, file)

/-- Modelled from the spec: `Db::Remove(key, id)` (`Db` is not among the sources). -/
def Remove {K : Type} (ck : Codec K) (file : String) (write_ok : Bool) (key : K)
    (id : String) : Bool × String :=
  RemoveText file write_ok (ck.Serialize key) id

/-- Modelled from the spec: the entries of a record that a line of the file can hold: ids
and payloads without the delimiters of section 6. -/
def entries_ok (r : DbRecord) : Prop :=
  ∀ e ∈ r.map, id_ok e.1 ∧ values_ok e.2

end Db

/-! ## The test data of `test/perfdb.cpp` -/

namespace tests

/-- The characters that `isspace` accepts in the "C" locale. -/
def isspace (c : Char) : Bool :=
  c = ' ' || c = '\t' || c = '\n' || c = Char.ofNat 11 || c = Char.ofNat 12 || c = '\r'

/-- The decimal digit of a number below ten. -/
def digit_char (d : Nat) : Char := Char.ofNat (48 + d)

/-- The value of a decimal digit. -/
def digit_value (c : Char) : Option Nat :=
  if 48 ≤ c.toNat ∧ c.toNat ≤ 57 then some (c.toNat - 48) else none

/-- The decimal digits of a natural number, most significant first; `fuel` bounds the
number of digits. -/
def nat_text_aux : Nat → Nat → List Char → List Char
  | 0, _, acc => acc
  | fuel + 1, n, acc =>
    if n / 10 = 0 then digit_char (n % 10) :: acc
    else nat_text_aux fuel (n / 10) (digit_char (n % 10) :: acc)

/-- The decimal text of a natural number. -/
def nat_text (n : Nat) : List Char := nat_text_aux (n + 1) n []

/-- The text `operator<<(std::ostream&, int)` writes. -/
def int_text (i : Int) : List Char :=
  if i < 0 then '-' :: nat_text i.natAbs else nat_text i.toNat

/-- The digits at the head of a text: their value and their number. -/
def leading_digits : List Char → Nat → Nat → Nat × Nat
  | [], value, count => (value, count)
  | c :: cs, value, count =>
    match digit_value c with
    | some d => leading_digits cs (10 * value + d) (count + 1)
    | none => (value, count)

/-- The function `std::strtol(start, &end, 10)` with a 64-bit `long`: white space is
skipped, a sign is optional, the digits that follow are converted and the value is clamped
to the range of `long`; `none` stands for `end == start`, no conversion. -/
def strtol (s : List Char) : Option Int :=
  let s1 := s.dropWhile isspace
  let negative := s1.head? = some '-'
  let s2 := if s1.head? = some '-' ∨ s1.head? = some '+' then s1.tail else s1
  let r := leading_digits s2 0 0
  if r.2 = 0 then none
  else if negative then some (max (-(r.1 : Int)) (-(2 ^ 63 : Int)))
  else some (min (r.1 : Int) (2 ^ 63 - 1))

/-- The conversion of a `long` to `int` (32 bits, two's complement). -/
def long_to_int (v : Int) : Int := (v + 2 ^ 31) % 2 ^ 32 - 2 ^ 31

/-- The state of a `std::istringstream` as far as `getline` sees it: the characters not yet
read, or `none` once the end was reached or an extraction failed. -/
abbrev stream := Option (List Char)

/-- The function `std::getline(from, part, separator)`: the part read, if the extraction
succeeds, and the stream afterwards. Reading up to the end of the text succeeds when at
least one character is read and leaves the stream at its end. -/
def getline (from_ : stream) (separator : Char) : Option (List Char) × stream :=
  match from_ with
  | none => (none, none)
  | some [] => (none, none)
  | some (c :: cs) =>
    match split_first separator (c :: cs) with
    | some p => (some p.1, some p.2)
    | none => (some (c :: cs), none)

/-- The struct `TestData`. -/
structure TestData where
  x : Int
  y : Int
  deriving DecidableEq

namespace TestData

/-- The member `TestData::Serialize`. -/
def Serialize (t : TestData) : String :=
  ⟨int_text t.x ++ ',' :: int_text t.y⟩

/-- The member `TestData::DeserializeField`: the value stored through `ret`, if the field
is read, and the stream afterwards. -/
def DeserializeField (from_ : stream) (separator : Char) : Option Int × stream :=
  match getline from_ separator with
  | (none, st) => (none, st)
  | (some part, st) =>
    match strtol part with
    | none => (none, st)
    | some value => (some (long_to_int value), st)

/-- The member `TestData::Deserialize`: the flag returned and the object afterwards. The
values the local `TestData t` is constructed with are overwritten before they are used. -/
def Deserialize (s : String) (self : TestData) : Bool × TestData :=
  match DeserializeField (some s.data) ',' with
  | (none, _) => (false, self)
  | (some x, st) =>
    match DeserializeField st ',' with
    | (none, _) => (false, self)
    | (some y, _) => (true, { x := x, y := y })

/-- The codec of `TestData`. -/
def codec : Codec TestData :=
  { Serialize := Serialize, Deserialize := Deserialize }

end TestData

/-! The fixture `DbTest` of `test/perfdb.cpp` and the scenario of `DbParallelTest`. -/

namespace DbTest

def key : TestData := ⟨1, 2⟩

def value0 : TestData := ⟨3, 4⟩

def value1 : TestData := ⟨5, 6⟩

def value2 : TestData := ⟨7, 8⟩

def id0 : String := "0"

def id1 : String := "1"

def id2 : String := "2"

def missing_id : String := "2"

end DbTest

/-- The writes of `DbParallelTest::Run` on an empty file: a record with `id0` is stored,
two records are read from it, `id1` is set in one and `id2` in the other, and each is
passed to `UpdateRecord` through its own handle; the result is the file afterwards, `none`
when a record is not found. -/
def DbParallelTest : Option String :=
  let record := (DbRecord.ctor TestData.codec DbTest.key).SetValuesOf TestData.codec
    DbTest.id0 DbTest.value0
  let file0 := (Db.StoreRecord "" true record).2
  match Db.FindRecord TestData.codec file0 DbTest.key,
      Db.FindRecord TestData.codec file0 DbTest.key with
  | some r0, some r1 =>
    let r0 := r0.SetValuesOf TestData.codec DbTest.id1 DbTest.value1
    let r1 := r1.SetValuesOf TestData.codec DbTest.id2 DbTest.value2
    let file1 := (Db.UpdateRecord file0 true r0).2.1
    let file2 := (Db.UpdateRecord file1 true r1).2.1
    some file2
  | _, _ => none

/-! The workload of `DBMultiThreadedTestWork`. -/

/-- The function `std::to_string` on an unsigned number. -/
def to_string (n : Nat) : String := ⟨nat_text n⟩

/-- The arguments of a call `Update(key, id, data)`, and of a call `Load(key, id, read)`
with the value expected in `read`. -/
structure Item where
  key : String
  id : String
  data : TestData
  deriving DecidableEq

namespace DBMultiThreadedTestWork

def threads_count : Nat := 8

def common_part_size : Nat := 128

def unique_part_size : Nat := 128

def ids_per_key : Nat := 16

def common_part_seed : Nat := 435345

/-- The member `CommonPartSection(start, end, db_getter)`: the calls of `Update` it makes,
in order; `common_part` is the array `common_part()`. -/
def CommonPartSection (common_part : Nat → TestData) (start end_ : Nat) : List Item :=
  (List.range' start (end_ - start)).map (fun i =>
    { key := to_string (i / ids_per_key), id := to_string (i % ids_per_key)
      data := common_part i })

/-- The member `CommonPart(db_path)`: the calls of `Update` it makes, in order. -/
def CommonPart (common_part : Nat → TestData) : List Item :=
  CommonPartSection common_part 0 (common_part_size / 2) ++
    CommonPartSection common_part (common_part_size / 2) common_part_size

/-- The member `ValidateCommonPart(db_path)`: the calls of `Load` it makes, in order, each
with the value it expects to read. -/
def ValidateCommonPart (common_part : Nat → TestData) : List Item :=
  (List.range common_part_size).map (fun i =>
    { key := to_string (i / ids_per_key), id := to_string (i % ids_per_key)
      data := common_part i })

/-- The member `LimitedRandom(rnd, min)`: `rnd` holds the values `rnd.Next()` returns from
now on, as far as they are given; the result is the value returned and the values left,
and `none` when the values given are used up before the loop ends. -/
def LimitedRandom : List Nat → Nat → Option (Nat × List Nat)
  | [], _ => none
  | key :: rest, min => if key < min then LimitedRandom rest min else some (key, rest)

/-- The loop of `UniquePartSection` with `count` iterations left, at index `i`; `data i`
is the value of the default-constructed `TestData data` of iteration `i`. -/
def UniquePartSection_loop (data : Nat → TestData) :
    Nat → Nat → List Nat → Option (List Item × List Nat)
  | 0, _, rnd => some ([], rnd)
  | count + 1, i, rnd =>
    match LimitedRandom rnd (common_part_size / ids_per_key + 2) with
    | none => none
    | some (key, rnd1) =>
      match LimitedRandom rnd1 (ids_per_key + 1) with
      | none => none
      | some (id, rnd2) =>
        match UniquePartSection_loop data count (i + 1) rnd2 with
        | none => none
        | some (calls, rnd3) =>
          some ({ key := to_string key, id := to_string id, data := data i } :: calls, rnd3)

/-- The member `UniquePartSection(rnd, start, end, db_getter)`: the calls of `Update` it
makes, in order, and the values of the generator left. -/
def UniquePartSection (data : Nat → TestData) (rnd : List Nat) (start end_ : Nat) :
    Option (List Item × List Nat) :=
  UniquePartSection_loop data (end_ - start) start rnd

/-- The member `UniquePart(id, db_path)`, as a function of the values the generator seeded
with `123123 + id` returns: the calls of `Update` it makes, in order. -/
def UniquePart (data : Nat → TestData) (rnd : List Nat) : Option (List Item) :=
  match UniquePartSection data rnd 0 (unique_part_size / 2) with
  | none => none
  | some (calls1, rnd1) =>
    match UniquePartSection data rnd1 (unique_part_size / 2) unique_part_size with
    | none => none
    | some (calls2, _) => some (calls1 ++ calls2)

end DBMultiThreadedTestWork

end tests

/-! ## The helpers of `test/rnn_util.hpp` -/

namespace rnn_util

def INT_MAX : Int := 2147483647

def INT_MIN : Int := -2147483648

/-- The result of an arithmetic operation on `int`s whose exact value is `v`: `none` when
`v` is not representable, which is undefined behaviour. -/
def int_result (v : Int) : Option Int :=
  if INT_MIN ≤ v ∧ v ≤ INT_MAX then some v else none

/-- The elements behind a pointer or in a `std::vector`: their number and the element at
each index. An access outside is undefined behaviour. -/
structure Buffer (T : Type) where
  size : Nat
  data : Nat → T

namespace Buffer

/-- The buffer that holds the elements of a list; `d` is the value outside. -/
def ofList {T : Type} (l : List T) (d : T) : Buffer T :=
  { size := l.length, data := fun i => l.getD i d }

/-- The elements of a buffer, in order. -/
def toList {T : Type} (b : Buffer T) : List T :=
  (List.range b.size).map b.data

/-- The value of `ptr[i]`; `none` when `i` is outside. -/
def read {T : Type} (b : Buffer T) (i : Nat) : Option T :=
  if i < b.size then some (b.data i) else none

/-- The statement `ptr[i] = v`; `none` when `i` is outside. -/
def write {T : Type} (b : Buffer T) (i : Nat) (v : T) : Option (Buffer T) :=
  if i < b.size then some { b with data := Function.update b.data i v } else none

end Buffer

/-- The pointer `ptr + n`, for `ptr` at offset `off` of an array of `size` elements:
defined when it points into the array or one past its end. -/
def ptr_add (size off : Nat) (n : Int) : Option Nat :=
  if 0 ≤ (off : Int) + n ∧ (off : Int) + n ≤ (size : Int) then some ((off : Int) + n).toNat
  else none

/-- The call `std::copy(first, last, d_first)` with `first` and `last` at the offsets given
of `src` and `d_first` at the offset given of `dst`: `none` when the range is not valid or
the destination does not hold it. -/
def copy {T : Type} (src : Buffer T) (first last : Nat) (dst : Buffer T) (d_first : Nat) :
    Option (Buffer T) :=
  if first ≤ last ∧ last ≤ src.size ∧ d_first + (last - first) ≤ dst.size then
    some { dst with
      data := fun i =>
        if d_first ≤ i ∧ i < d_first + (last - first) then src.data (first + (i - d_first))
        else dst.data i }
  else none

/-- The variables of the loop of `ChangeDataPadding`: the offsets of `scr_ptr` and
`dst_ptr`, and the destination array. -/
structure PaddingState (T : Type) where
  scr_ptr : Nat
  dst_ptr : Nat
  dst_array : Buffer T

/-- The body of the loop of `ChangeDataPadding`, for the element `batch` of `batch_list`. -/
def ChangeDataPadding_body {T : Type} (src_array : Buffer T) (max_batch sample_size : Int)
    (is_src_packed : Bool) (st : PaddingState T) (batch : Int) : Option (PaddingState T) := do
  let packed_size ← int_result (batch * sample_size)
  let last ← ptr_add src_array.size st.scr_ptr packed_size
  let dst_array ← copy src_array st.scr_ptr last st.dst_array st.dst_ptr
  if is_src_packed then
    let step ← int_result (max_batch * sample_size)
    let dst_ptr ← ptr_add dst_array.size st.dst_ptr step
    let scr_ptr ← ptr_add src_array.size st.scr_ptr packed_size
    pure { scr_ptr := scr_ptr, dst_ptr := dst_ptr, dst_array := dst_array }
  else
    let step ← int_result (max_batch * sample_size)
    let scr_ptr ← ptr_add src_array.size st.scr_ptr step
    let dst_ptr ← ptr_add dst_array.size st.dst_ptr packed_size
    pure { scr_ptr := scr_ptr, dst_ptr := dst_ptr, dst_array := dst_array }

/-- The function `ChangeDataPadding(src_array, dst_array, batch_list, max_batch,
sample_size, is_src_packed)`: the destination array afterwards, `none` when the behaviour
is undefined. The pointers are `&src_array[0]` and `&dst_array[0]` (lines 91 and 92):
element 0 of an empty vector is out of range, so both arrays have to hold an element. The
counter `int seq_id` overflows when the list has more than `INT_MAX` elements. -/
def ChangeDataPadding {T : Type} (src_array dst_array : Buffer T) (batch_list : List Int)
    (max_batch sample_size : Int) (is_src_packed : Bool) : Option (Buffer T) :=
  if 0 < src_array.size ∧ 0 < dst_array.size then
    if (batch_list.length : Int) ≤ INT_MAX then
      (batch_list.foldlM
        (ChangeDataPadding_body src_array max_batch sample_size is_src_packed)
        { scr_ptr := 0, dst_ptr := 0, dst_array := dst_array }).map (fun st => st.dst_array)
    else none
  else none

/-- The loop of `generate_batchSeq` with `count` iterations left, at index `i`: the
sequence afterwards. `gen k` is the value the call number `k` of
`prng::gen_0_to_B(modval)` returns (`random.hpp` is not among the sources). -/
def generate_batchSeq_loop (gen : Nat → Int) :
    Nat → Nat → Int → List Int → Option (List Int)
  | 0, _, _, batchSeq => some batchSeq
  | count + 1, i, currentval, batchSeq =>
    if 0 < i then
      match int_result (currentval - gen (i - 1)) with
      | none => none
      | some nvalue =>
        let currentval := if nvalue < 1 then 1 else nvalue
        generate_batchSeq_loop gen count (i + 1) currentval (batchSeq ++ [currentval])
    else generate_batchSeq_loop gen count (i + 1) currentval (batchSeq ++ [currentval])

/-- The function `generate_batchSeq(batchSize, seqLength)`: `none` stands for undefined
behaviour and for the `std::length_error` that `reserve` throws on a negative
`seqLength`. -/
def generate_batchSeq (gen : Nat → Int) (batchSize seqLength : Int) :
    Option (List (List Int)) :=
  if seqLength < 0 then none
  else
    match generate_batchSeq_loop gen seqLength.toNat 0 batchSize [] with
    | none => none
    | some batchSeq => some [batchSeq]

def RNN_MM_TRANSPOSE : Int := 1

/-- The condition `flags & RNN_MM_TRANSPOSE` on an `int`: as `RNN_MM_TRANSPOSE` is 1 it
tests the lowest bit of the two's complement representation, which is set iff `flags` is
odd. -/
def transposed (flags : Int) : Bool := flags % 2 != 0

/-- The loop `for(size_t i = 0; i < n; ++i)` over a state; `none` when an iteration is
undefined. -/
def for_loop {σ : Type} (n : Nat) (body : Nat → σ → Option σ) (st : σ) : Option σ :=
  (List.range n).foldlM (fun s i => body i s) st

/-- The index `i * stride + j`, computed in `size_t`. -/
def index (i stride j : Nat) : Nat := (i * stride + j) % 2 ^ 64

/-- The loops of the first three branches of `RNN_mm_cpu`, which differ in the indices of
the elements of `a_ptr` and `b_ptr` only: `a_index n m` and `b_index m k` are the indices
read at the row `n`, the column `k` and the inner position `m`. -/
def RNN_mm_cpu_loops {R : Type} [CommRing R] (a_ptr b_ptr : Buffer R)
    (a_index b_index : Nat → Nat → Nat) (inner_loop : Nat)
    (c_ptr : Buffer R) (c_cols c_rows c_stride : Nat) (alpha beta : R) : Option (Buffer R) :=
  for_loop c_rows (fun n c_ptr =>
    for_loop c_cols (fun k c_ptr => do
      let mm_e ← for_loop inner_loop (fun m mm_e => do
        let a ← a_ptr.read (a_index n m)
        let b ← b_ptr.read (b_index m k)
        pure (mm_e + a * b)) 0
      let c ← c_ptr.read (index n c_stride k)
      c_ptr.write (index n c_stride k) (beta * c + alpha * mm_e)) c_ptr) c_ptr

/-- The loops of the last branch of `RNN_mm_cpu`, for both flags set: the products are
added to the element of `c_ptr` and `mm_e` stays 0. -/
def RNN_mm_cpu_loops_last {R : Type} [CommRing R] (a_ptr b_ptr : Buffer R)
    (a_stride b_stride : Nat) (inner_loop : Nat)
    (c_ptr : Buffer R) (c_cols c_rows c_stride : Nat) (alpha beta : R) : Option (Buffer R) :=
  for_loop c_rows (fun n c_ptr =>
    for_loop c_cols (fun k c_ptr => do
      let mm_e : R := 0
      let c_ptr ← for_loop inner_loop (fun m c_ptr => do
        let c ← c_ptr.read (index n c_stride k)
        let a ← a_ptr.read (index m a_stride n)
        let b ← b_ptr.read (index k b_stride m)
        c_ptr.write (index n c_stride k) (c + a * b)) c_ptr
      let c ← c_ptr.read (index n c_stride k)
      c_ptr.write (index n c_stride k) (beta * c + alpha * mm_e)) c_ptr) c_ptr

/-- The function `RNN_mm_cpu` with `RNN_MM_USEPARAGEMM` 0, in exact arithmetic over `R`:
the array behind `c_ptr` afterwards, `none` when an element outside an array is accessed.
The three arrays are distinct. On inconsistent shapes the function prints a message and
returns. -/
def RNN_mm_cpu {R : Type} [CommRing R] (a_ptr : Buffer R) (a_cols a_rows a_stride : Nat)
    (a_flags : Int) (b_ptr : Buffer R) (b_cols b_rows b_stride : Nat) (b_flags : Int)
    (c_ptr : Buffer R) (c_cols c_rows c_stride : Nat) (d_alpha d_beta : R) :
    Option (Buffer R) :=
  let alpha := d_alpha
  let beta := d_beta
  let ta := transposed a_flags
  let tb := transposed b_flags
  if (!ta && !tb && (a_cols != b_rows || a_rows != c_rows || b_cols != c_cols)) ||
     (ta && tb && (a_rows != b_cols || a_cols != c_rows || b_rows != c_cols)) ||
     (ta && !tb && (a_rows != b_rows || a_cols != c_rows || b_cols != c_cols)) ||
     (!ta && tb && (a_cols != b_cols || a_rows != c_rows || b_rows != c_cols)) then
    some c_ptr
  else
    let inner_loop := if !ta then a_cols else a_rows
    if !ta && !tb then
      RNN_mm_cpu_loops a_ptr b_ptr (fun n m => index n a_stride m)
        (fun m k => index m b_stride k) inner_loop c_ptr c_cols c_rows c_stride alpha beta
    else if ta && !tb then
      RNN_mm_cpu_loops a_ptr b_ptr (fun n m => index m a_stride n)
        (fun m k => index m b_stride k) inner_loop c_ptr c_cols c_rows c_stride alpha beta
    else if !ta && tb then
      RNN_mm_cpu_loops a_ptr b_ptr (fun n m => index n a_stride m)
        (fun m k => index k b_stride m) inner_loop c_ptr c_cols c_rows c_stride alpha beta
    else
      RNN_mm_cpu_loops_last a_ptr b_ptr a_stride b_stride inner_loop c_ptr c_cols c_rows
        c_stride alpha beta

/-- The lambda `c_out` of the branch of `RNN_mm_cpu` for `RNN_MM_USEPARAGEMM`, which is
not compiled: `gemm` passes it the value for the row `i` and the column `j`. -/
def c_out {R : Type} [CommRing R] (c_ptr : Buffer R) (c_stride : Nat) (alpha beta : R)
    (i j : Nat) (x : R) : Option (Buffer R) := do
  let c ← c_ptr.read (index i c_stride j)
  c_ptr.write (index i c_stride j) (beta * c + alpha * x)

/-- The number of rows of `op(X)`: the columns of `X` when it is transposed. -/
def op_rows (t : Bool) (cols rows : Nat) : Nat := if t then cols else rows

/-- The number of columns of `op(X)`: the rows of `X` when it is transposed. -/
def op_cols (t : Bool) (cols rows : Nat) : Nat := if t then rows else cols

/-- The element of `op(X)` at the row `i` and the column `j`, for `X` stored by rows with
the given stride. -/
def op_elem {R : Type} (x : Buffer R) (stride : Nat) (t : Bool) (i j : Nat) : R :=
  if t then x.data (j * stride + i) else x.data (i * stride + j)

/-- The shapes are consistent: the inner dimensions of `op(A)` and `op(B)` agree, and the
outer ones are those of `C`. -/
def consistent (ta tb : Bool) (a_cols a_rows b_cols b_rows c_cols c_rows : Nat) : Prop :=
  op_cols ta a_cols a_rows = op_rows tb b_cols b_rows ∧
  op_rows ta a_cols a_rows = c_rows ∧ op_cols tb b_cols b_rows = c_cols

end rnn_util

/-! ## Lemmas on the comparison of `float` values -/

theorem float_lt_irrefl (a : float) : float.lt a a = false := by
  cases a <;> simp [float.lt]

theorem float_lt_trans {a b c : float} (h1 : float.lt a b = true) (h2 : float.lt b c = true) :
    float.lt a c = true := by
  cases a <;> cases b <;> cases c <;> simp_all [float.lt]
  exact h1.trans h2

theorem float_ge_FLT_MAX_self : float.ge FLT_MAX FLT_MAX = true := by
  simp [float.ge, FLT_MAX, float.lt]

theorem float_ge_eq_false_of_lt {a b : float} (h : float.lt a b = true) :
    float.ge a b = false := by
  cases a <;> cases b <;> simp_all [float.lt, float.ge]

theorem float_eq_of_not_lt {a b c : float} (ha : float.lt a c = true)
    (hb : float.lt b c = true) (h1 : float.lt a b = false) (h2 : float.lt b a = false) :
    a = b := by
  cases a <;> cases b <;> cases c <;> simp_all [float.lt]
  all_goals exact le_antisymm h2 h1

/-! ## Lemmas on the record -/

namespace DbRecord

theorem lookup_filter_ne (m : List (String × String)) (id j : String) (h : j ≠ id) :
    (m.filter (fun e => e.1 != id)).lookup j = m.lookup j := by
  induction m with
  | nil => rfl
  | cons e m ih =>
    obtain ⟨k, v⟩ := e
    by_cases hk : k = id
    · subst hk
      have : (j == k) = false := by simpa using h
      simp [List.filter, List.lookup, this, ih]
    · have h1 : (k != id) = true := by simpa using hk
      simp only [List.filter, h1, List.lookup]
      rw [ih]

theorem GetValues_SetValues_ne (r : DbRecord) (id j v : String) (h : j ≠ id) :
    (r.SetValues id v).GetValues j = r.GetValues j := by
  have : (j == id) = false := by simpa using h
  simp [GetValues, SetValues, List.lookup, this, lookup_filter_ne _ _ _ h]

theorem GetValues_Remove_ne (r : DbRecord) (id j : String) (h : j ≠ id) :
    (r.Remove id).2.GetValues j = r.GetValues j := by
  simp [GetValues, Remove, lookup_filter_ne _ _ _ h]

end DbRecord

namespace solver

/-! ## Lemmas on the loop -/

theorem for_each_append {σ : Type} (body : Solver → σ → Except Raised σ)
    (xs ys : List Solver) (st : σ) :
    MIOPEN_STATIC_FOR_EACH body (xs ++ ys) st =
      match MIOPEN_STATIC_FOR_EACH body xs st with
      | .ok st1 => MIOPEN_STATIC_FOR_EACH body ys st1
      | .error e => .error e := by
  induction xs generalizing st with
  | nil => rfl
  | cons x xs ih =>
    simp only [List.cons_append, MIOPEN_STATIC_FOR_EACH]
    cases body x st with
    | ok st1 => simpa using ih st1
    | error e => rfl

theorem for_each_invariant {σ : Type} (body : Solver → σ → Except Raised σ) (P : σ → Prop)
    (hbody : ∀ s st st1, P st → body s st = .ok st1 → P st1)
    (xs : List Solver) (st st1 : σ) (h0 : P st)
    (h : MIOPEN_STATIC_FOR_EACH body xs st = .ok st1) : P st1 := by
  induction xs generalizing st with
  | nil =>
    simp only [MIOPEN_STATIC_FOR_EACH] at h
    cases h
    exact h0
  | cons x xs ih =>
    simp only [MIOPEN_STATIC_FOR_EACH] at h
    cases hb : body x st with
    | ok st2 =>
      rw [hb] at h
      exact ih st2 (hbody x st st2 h0 hb) h
    | error e =>
      rw [hb] at h
      cases h

/-! ## Lemmas on the loop body of the timed branch -/

theorem ctor_InternalError_not_Succeeded :
    (ConvSolution.ctor miopenStatusInternalError).Succeeded = false := by decide

theorem ctor_UnknownError_not_Succeeded :
    (ConvSolution.ctor miopenStatusUnknownError).Succeeded = false := by decide

theorem timed_body_skip (env : Env) (ctx : ConvolutionContext) (s : Solver) (st : TimedState)
    (hp : passes_filter env ctx s = false) :
    SearchForSolution_timed_body env ctx s st = .ok st := by
  simp [SearchForSolution_timed_body, hp]

theorem timed_body_error (env : Env) (ctx : ConvolutionContext) (s : Solver) (st : TimedState)
    (hp : passes_filter env ctx s = true)
    (hi : (FindSolution env.enforce s ctx st.dbRecord).solution.internal_error = true)
    (hd : env.throw_debug = true) :
    SearchForSolution_timed_body env ctx s st =
      .error { ex := MIOPEN_THROW ("Internal error in solver: " ++ s.db_id)
               trace := st.trace ++ (FindSolution env.enforce s ctx st.dbRecord).trace } := by
  simp only [ConvSolution.internal_error, Bool.and_eq_true] at hi
  simp [SearchForSolution_timed_body, hp, hi.1, hi.2, hd]

theorem timed_body_ok (env : Env) (ctx : ConvolutionContext) (s : Solver) (st : TimedState)
    (hp : passes_filter env ctx s = true)
    (hi : ((FindSolution env.enforce s ctx st.dbRecord).solution.internal_error
            && env.throw_debug) = false) :
    ∃ tr, SearchForSolution_timed_body env ctx s st =
      .ok { sel := (probe_of env ctx
                      (s, (FindSolution env.enforce s ctx st.dbRecord).solution)).elim
                    st.sel (pick st.sel)
            dbRecord := (FindSolution env.enforce s ctx st.dbRecord).dbRecord
            trace := st.trace ++ (FindSolution env.enforce s ctx st.dbRecord).trace ++ tr } := by
  simp only [ConvSolution.internal_error] at hi
  simp only [SearchForSolution_timed_body, hp, if_true, hi, probe_of, ConvSolution.usable]
  by_cases hs : (FindSolution env.enforce s ctx st.dbRecord).solution.Succeeded = true
  · by_cases he : (FindSolution env.enforce s ctx st.dbRecord).solution.construction_params.isEmpty = true
    · refine ⟨[], ?_⟩
      simp [hs, he, ctor_InternalError_not_Succeeded]
    · refine ⟨[Event.RunAndMeasureSolution s.db_id], ?_⟩
      simp [hs, he, pick]
  · refine ⟨[], ?_⟩
    simp [hs]

theorem timed_body_ok_state (env : Env) (ctx : ConvolutionContext) (s : Solver)
    (st : TimedState) (hp : passes_filter env ctx s = true)
    (hi : ((FindSolution env.enforce s ctx st.dbRecord).solution.internal_error
            && env.throw_debug) = false) :
    ∃ st1, SearchForSolution_timed_body env ctx s st = .ok st1 ∧
      st1.sel = (probe_of env ctx
          (s, (FindSolution env.enforce s ctx st.dbRecord).solution)).elim st.sel (pick st.sel) ∧
      st1.dbRecord = (FindSolution env.enforce s ctx st.dbRecord).dbRecord := by
  obtain ⟨tr, hb⟩ := timed_body_ok env ctx s st hp hi
  exact ⟨_, hb, rfl, rfl⟩

theorem attempts_cons_pass (env : Env) (ctx : ConvolutionContext) (s : Solver)
    (rest : List Solver) (r : DbRecord) (hp : passes_filter env ctx s = true) :
    attempts env ctx (s :: rest) r =
      (s, (FindSolution env.enforce s ctx r).solution) ::
        attempts env ctx rest (FindSolution env.enforce s ctx r).dbRecord := by
  simp [attempts, hp]

theorem attempts_cons_skip (env : Env) (ctx : ConvolutionContext) (s : Solver)
    (rest : List Solver) (r : DbRecord) (hp : passes_filter env ctx s = false) :
    attempts env ctx (s :: rest) r = attempts env ctx rest r := by
  simp [attempts, hp]

theorem timed_loop_ok (env : Env) (ctx : ConvolutionContext) (cat : List Solver)
    (st : TimedState)
    (H : env.throw_debug = true →
      ∀ a ∈ attempts env ctx cat st.dbRecord, a.2.internal_error = false) :
    ∃ st1, MIOPEN_STATIC_FOR_EACH (SearchForSolution_timed_body env ctx) cat st = .ok st1 ∧
      st1.sel = (probes env ctx cat st.dbRecord).foldl pick st.sel := by
  induction cat generalizing st with
  | nil => exact ⟨st, rfl, rfl⟩
  | cons s rest ih =>
    by_cases hp : passes_filter env ctx s = true
    · rw [attempts_cons_pass env ctx s rest _ hp] at H
      have hi : ((FindSolution env.enforce s ctx st.dbRecord).solution.internal_error
            && env.throw_debug) = false := by
        cases hd : env.throw_debug with
        | false => simp
        | true => simp [H hd _ (List.mem_cons_self _ _)]
      obtain ⟨st1, hb, hsel, hrec⟩ := timed_body_ok_state env ctx s st hp hi
      obtain ⟨st2, h1, h2⟩ := ih st1 (fun hd a ha => H hd a (by
        rw [hrec] at ha
        exact List.mem_cons_of_mem _ ha))
      refine ⟨st2, ?_, ?_⟩
      · simp only [MIOPEN_STATIC_FOR_EACH, hb]
        exact h1
      · rw [h2, hsel, hrec]
        simp only [probes, attempts_cons_pass env ctx s rest _ hp, List.filterMap_cons]
        cases probe_of env ctx (s, (FindSolution env.enforce s ctx st.dbRecord).solution) <;> rfl
    · have hp1 : passes_filter env ctx s = false := by simpa using hp
      rw [attempts_cons_skip env ctx s rest _ hp1] at H
      obtain ⟨st2, h1, h2⟩ := ih st H
      refine ⟨st2, ?_, ?_⟩
      · simp only [MIOPEN_STATIC_FOR_EACH, timed_body_skip env ctx s st hp1]
        exact h1
      · rw [h2]
        simp only [probes, attempts_cons_skip env ctx s rest _ hp1]

theorem timed_loop_error (env : Env) (ctx : ConvolutionContext) (cat : List Solver)
    (st : TimedState) (hd : env.throw_debug = true) (a : Solver × ConvSolution)
    (ha : (attempts env ctx cat st.dbRecord).find? (fun a => a.2.internal_error) = some a) :
    ∃ tr, MIOPEN_STATIC_FOR_EACH (SearchForSolution_timed_body env ctx) cat st =
      .error { ex := MIOPEN_THROW ("Internal error in solver: " ++ a.1.db_id), trace := tr } := by
  induction cat generalizing st with
  | nil => simp [attempts] at ha
  | cons s rest ih =>
    by_cases hp : passes_filter env ctx s = true
    · rw [attempts_cons_pass env ctx s rest _ hp] at ha
      by_cases hi : (FindSolution env.enforce s ctx st.dbRecord).solution.internal_error = true
      · simp only [List.find?_cons, hi] at ha
        cases ha
        refine ⟨st.trace ++ (FindSolution env.enforce s ctx st.dbRecord).trace, ?_⟩
        simp only [MIOPEN_STATIC_FOR_EACH, timed_body_error env ctx s st hp hi hd]
      · have hi1 : (FindSolution env.enforce s ctx st.dbRecord).solution.internal_error = false := by
          simpa using hi
        simp only [List.find?_cons, hi1] at ha
        obtain ⟨st1, hb, _, hrec⟩ := timed_body_ok_state env ctx s st hp (by simp [hi1])
        obtain ⟨tr2, h2⟩ := ih st1 (by rw [hrec]; exact ha)
        exact ⟨tr2, by simp only [MIOPEN_STATIC_FOR_EACH, hb]; exact h2⟩
    · have hp1 : passes_filter env ctx s = false := by simpa using hp
      rw [attempts_cons_skip env ctx s rest _ hp1] at ha
      obtain ⟨tr2, h2⟩ := ih st ha
      exact ⟨tr2, by simp only [MIOPEN_STATIC_FOR_EACH, timed_body_skip env ctx s st hp1]; exact h2⟩

theorem SearchForSolution_timed_eq (env : Env) (cat : List Solver) (ctx : ConvolutionContext)
    (r : DbRecord) (hm : timed_mode ctx = true)
    (H : env.throw_debug = true → ∀ a ∈ attempts env ctx cat r, a.2.internal_error = false) :
    SearchForSolution env cat ctx r =
      .ok ((probes env ctx cat r).foldl pick initial_selection).solution := by
  obtain ⟨st1, h1, h2⟩ := timed_loop_ok env ctx cat
    { sel := initial_selection, dbRecord := r, trace := [] } H
  simp only [SearchForSolution, SearchForSolution_run, hm, if_true]
  simp only [initial_selection] at h1 h2
  rw [h1]
  simp only [h2]
  rfl

/-! ## The selection variables after a list of probes -/

theorem find?_snoc {α : Type} (f : α → Bool) (ps : List α) (p : α) :
    (ps ++ [p]).find? f =
      match ps.find? f with
      | some x => some x
      | none => if f p then some p else none := by
  rw [List.find?_append]
  cases ps.find? f with
  | some x => rfl
  | none =>
    by_cases h : f p = true
    · simp [List.find?_cons, h]
    · have h1 : f p = false := by simpa using h
      simp [List.find?_cons, h1]

theorem pick_inv_nil : pick_inv [] initial_selection where
  bound := Or.inl rfl
  least := by simp
  best := by
    intro h
    simp [initial_selection, float_lt_irrefl] at h
  flag := rfl
  fallback := fun _ => rfl

theorem pick_timed_replace (s : Selection) (p : Probe) (h0 : p.rc = 0)
    (h : float.lt p.elapsed_time s.best_time = true) :
    pick s p = { s with best_time := p.elapsed_time, solution := p.candidate } := by
  simp [pick, SearchForSolution_switch, h0, h]

theorem pick_timed_keep (s : Selection) (p : Probe) (h0 : p.rc = 0)
    (h : float.lt p.elapsed_time s.best_time = false) : pick s p = s := by
  simp [pick, SearchForSolution_switch, h0, h]

theorem pick_not_timeable_first (s : Selection) (p : Probe) (h0 : p.rc = -2)
    (hf : s.none_probing_failures_yet = true) (hg : float.ge s.best_time FLT_MAX = true) :
    pick s p = { s with none_probing_failures_yet := false, solution := p.candidate } := by
  simp [pick, SearchForSolution_switch, h0, hf, hg]

theorem pick_not_timeable_late (s : Selection) (p : Probe) (h0 : p.rc = -2)
    (hf : s.none_probing_failures_yet = true) (hg : float.ge s.best_time FLT_MAX = false) :
    pick s p = { s with none_probing_failures_yet := false } := by
  simp [pick, SearchForSolution_switch, h0, hf, hg]

theorem pick_not_timeable_again (s : Selection) (p : Probe) (h0 : p.rc = -2)
    (hf : s.none_probing_failures_yet = false) : pick s p = s := by
  simp [pick, SearchForSolution_switch, h0, hf]

theorem pick_failed (s : Selection) (p : Probe) (h0 : p.rc ≠ 0) (h2 : p.rc ≠ -2) :
    pick s p = s := by
  simp [pick, SearchForSolution_switch, h0, h2]

theorem first_not_timeable_snoc_of_not (ps : List Probe) (p : Probe)
    (h : p.not_timeable = false) :
    first_not_timeable (ps ++ [p]) = first_not_timeable ps := by
  simp only [first_not_timeable, find?_snoc, h]
  cases ps.find? Probe.not_timeable <;> simp

theorem find?_not_timeable_snoc_of_not (ps : List Probe) (p : Probe)
    (h : p.not_timeable = false) :
    (ps ++ [p]).find? Probe.not_timeable = ps.find? Probe.not_timeable := by
  simp only [find?_snoc, h]
  cases ps.find? Probe.not_timeable <;> simp

theorem find?_snoc_of_some {α : Type} (f : α → Bool) (ps : List α) (p x : α)
    (h : ps.find? f = some x) : (ps ++ [p]).find? f = some x := by
  simp [find?_snoc, h]

theorem pick_inv_snoc (ps : List Probe) (s : Selection) (p : Probe) (inv : pick_inv ps s) :
    pick_inv (ps ++ [p]) (pick s p) := by
  by_cases h0 : p.rc = 0
  · have hnt : p.not_timeable = false := by simp [Probe.not_timeable, h0]
    by_cases hlt : float.lt p.elapsed_time s.best_time = true
    · rw [pick_timed_replace s p h0 hlt]
      have hmax : float.lt p.elapsed_time FLT_MAX = true := by
        rcases inv.bound with hb | hb
        · rw [← hb]; exact hlt
        · exact float_lt_trans hlt hb
      refine ⟨Or.inr hmax, ?_, ?_, ?_, ?_⟩
      · intro q hq hqt
        rcases List.mem_append.1 hq with hq | hq
        · cases hc : float.lt q.elapsed_time p.elapsed_time with
          | false => rfl
          | true =>
            have := inv.least q hq hqt
            rw [float_lt_trans hc hlt] at this
            cases this
        · simp only [List.mem_singleton] at hq
          subst hq
          exact float_lt_irrefl _
      · intro _
        refine ⟨p, ?_, rfl⟩
        have hnone : ps.find? (Probe.timed_at p.elapsed_time) = none := by
          rw [List.find?_eq_none]
          intro q hq hqa
          simp only [Probe.timed_at, Bool.and_eq_true, decide_eq_true_eq] at hqa
          have := inv.least q hq hqa.1
          rw [hqa.2, hlt] at this
          cases this
        simp [find?_snoc, hnone, Probe.timed_at, Probe.timed, h0]
      · show s.none_probing_failures_yet = _
        rw [find?_not_timeable_snoc_of_not ps p hnt]
        exact inv.flag
      · intro hb
        simp only at hb
        rw [hb, float_lt_irrefl] at hmax
        cases hmax
    · have hlt1 : float.lt p.elapsed_time s.best_time = false := by simpa using hlt
      rw [pick_timed_keep s p h0 hlt1]
      refine ⟨inv.bound, ?_, ?_, ?_, ?_⟩
      · intro q hq hqt
        rcases List.mem_append.1 hq with hq | hq
        · exact inv.least q hq hqt
        · simp only [List.mem_singleton] at hq
          subst hq
          exact hlt1
      · intro hb
        obtain ⟨x, hx, hs⟩ := inv.best hb
        exact ⟨x, find?_snoc_of_some _ ps p x hx, hs⟩
      · rw [find?_not_timeable_snoc_of_not ps p hnt]
        exact inv.flag
      · intro hb
        rw [first_not_timeable_snoc_of_not ps p hnt]
        exact inv.fallback hb
  · have hnt : p.timed = false := by simp [Probe.timed, h0]
    have hleast : ∀ q ∈ ps ++ [p], q.timed = true →
        float.lt q.elapsed_time s.best_time = false := by
      intro q hq hqt
      rcases List.mem_append.1 hq with hq | hq
      · exact inv.least q hq hqt
      · simp only [List.mem_singleton] at hq
        subst hq
        rw [hnt] at hqt
        cases hqt
    have hbest : float.lt s.best_time FLT_MAX = true →
        ∃ x, (ps ++ [p]).find? (Probe.timed_at s.best_time) = some x ∧
          s.solution = x.candidate := by
      intro hb
      obtain ⟨x, hx, hs⟩ := inv.best hb
      exact ⟨x, find?_snoc_of_some _ ps p x hx, hs⟩
    by_cases h2 : p.rc = -2
    · have hn : p.not_timeable = true := by simp [Probe.not_timeable, h2]
      cases hf : s.none_probing_failures_yet with
      | true =>
        have hnone : ps.find? Probe.not_timeable = none := by
          have := inv.flag
          rw [hf] at this
          simpa using this.symm
        rcases inv.bound with hb | hb
        · have hg : float.ge s.best_time FLT_MAX = true := by
            rw [hb]; exact float_ge_FLT_MAX_self
          rw [pick_not_timeable_first s p h2 hf hg]
          refine ⟨Or.inl hb, hleast, ?_, ?_, ?_⟩
          · intro hc
            simp only at hc
            rw [hb, float_lt_irrefl] at hc
            cases hc
          · simp [find?_snoc, hnone, hn]
          · intro _
            simp [first_not_timeable, find?_snoc, hnone, hn]
        · have hg : float.ge s.best_time FLT_MAX = false := float_ge_eq_false_of_lt hb
          rw [pick_not_timeable_late s p h2 hf hg]
          refine ⟨Or.inr hb, hleast, hbest, ?_, ?_⟩
          · simp [find?_snoc, hnone, hn]
          · intro hc
            simp only at hc
            rw [hc, float_lt_irrefl] at hb
            cases hb
      | false =>
        rw [pick_not_timeable_again s p h2 hf]
        have hsome : ∃ x, ps.find? Probe.not_timeable = some x := by
          have := inv.flag
          rw [hf] at this
          cases hx : ps.find? Probe.not_timeable with
          | none => rw [hx] at this; cases this
          | some x => exact ⟨x, rfl⟩
        obtain ⟨x, hx⟩ := hsome
        refine ⟨inv.bound, hleast, hbest, ?_, ?_⟩
        · rw [hf, find?_snoc_of_some _ ps p x hx]
          rfl
        · intro hb
          rw [inv.fallback hb]
          simp [first_not_timeable, find?_snoc_of_some _ ps p x hx, hx]
    · have hn : p.not_timeable = false := by simp [Probe.not_timeable, h2]
      rw [pick_failed s p h0 h2]
      refine ⟨inv.bound, hleast, hbest, ?_, ?_⟩
      · rw [find?_not_timeable_snoc_of_not ps p hn]
        exact inv.flag
      · intro hb
        rw [first_not_timeable_snoc_of_not ps p hn]
        exact inv.fallback hb

theorem pick_inv_foldl (done todo : List Probe) (s : Selection) (inv : pick_inv done s) :
    pick_inv (done ++ todo) (todo.foldl pick s) := by
  induction todo generalizing done s with
  | nil => simpa using inv
  | cons p rest ih =>
    have := ih (done ++ [p]) (pick s p) (pick_inv_snoc done s p inv)
    simpa using this

theorem pick_inv_probes (ps : List Probe) : pick_inv ps (ps.foldl pick initial_selection) := by
  simpa using pick_inv_foldl [] ps initial_selection pick_inv_nil

/-! ## Lemmas on the other branch of `SearchForSolution` -/

theorem first_body_skip (env : Env) (ctx : ConvolutionContext) (s : Solver) (st : SearchState)
    (hp : passes_filter env ctx s = false) :
    SearchForSolution_first_body env ctx s st = .ok st := by
  simp [SearchForSolution_first_body, hp]

theorem first_body_done (env : Env) (ctx : ConvolutionContext) (s : Solver) (st : SearchState)
    (hs : st.solution.Succeeded = true) :
    SearchForSolution_first_body env ctx s st = .ok st := by
  simp [SearchForSolution_first_body, hs]

theorem first_body_try (env : Env) (ctx : ConvolutionContext) (s : Solver) (st : SearchState)
    (hs : st.solution.Succeeded = false) (hp : passes_filter env ctx s = true) :
    SearchForSolution_first_body env ctx s st =
      if (FindSolution env.enforce s ctx st.dbRecord).solution.internal_error then
        .error { ex := MIOPEN_THROW ("Internal error in solver: " ++ s.db_id)
                 trace := st.trace ++ (FindSolution env.enforce s ctx st.dbRecord).trace }
      else
        .ok { solution := (FindSolution env.enforce s ctx st.dbRecord).solution
              dbRecord := (FindSolution env.enforce s ctx st.dbRecord).dbRecord
              trace := st.trace ++ (FindSolution env.enforce s ctx st.dbRecord).trace } := by
  simp [SearchForSolution_first_body, hs, hp, ConvSolution.internal_error]

theorem first_loop_done (env : Env) (ctx : ConvolutionContext) (cat : List Solver)
    (st : SearchState) (hs : st.solution.Succeeded = true) :
    MIOPEN_STATIC_FOR_EACH (SearchForSolution_first_body env ctx) cat st = .ok st := by
  induction cat with
  | nil => rfl
  | cons s rest ih => simp only [MIOPEN_STATIC_FOR_EACH, first_body_done env ctx s st hs, ih]

theorem internal_error_of_isEmpty (sol : ConvSolution) (hs : sol.Succeeded = true)
    (he : sol.construction_params = []) : sol.internal_error = true := by
  simp [ConvSolution.internal_error, hs, he]

theorem not_internal_error_of_ne (sol : ConvSolution) (he : sol.construction_params ≠ []) :
    sol.internal_error = false := by
  cases h : sol.construction_params with
  | nil => exact absurd h he
  | cons k ks => simp [ConvSolution.internal_error, h]

theorem not_internal_error_of_not_Succeeded (sol : ConvSolution)
    (hs : sol.Succeeded = false) : sol.internal_error = false := by
  simp [ConvSolution.internal_error, hs]

theorem first_loop_hit (env : Env) (ctx : ConvolutionContext) (cat : List Solver)
    (st : SearchState) (hs : st.solution.Succeeded = false) (a : Solver × ConvSolution)
    (ha : (attempts env ctx cat st.dbRecord).find? (fun a => a.2.Succeeded) = some a) :
    (a.2.construction_params ≠ [] →
      ∃ st1, MIOPEN_STATIC_FOR_EACH (SearchForSolution_first_body env ctx) cat st = .ok st1 ∧
        st1.solution = a.2) ∧
    (a.2.construction_params = [] →
      ∃ tr, MIOPEN_STATIC_FOR_EACH (SearchForSolution_first_body env ctx) cat st =
        .error { ex := MIOPEN_THROW ("Internal error in solver: " ++ a.1.db_id)
                 trace := tr }) := by
  induction cat generalizing st with
  | nil => simp [attempts] at ha
  | cons s rest ih =>
    by_cases hp : passes_filter env ctx s = true
    · rw [attempts_cons_pass env ctx s rest _ hp] at ha
      by_cases hsucc : (FindSolution env.enforce s ctx st.dbRecord).solution.Succeeded = true
      · simp only [List.find?_cons, hsucc] at ha
        cases ha
        constructor
        · intro hne
          have hi := not_internal_error_of_ne _ hne
          refine ⟨{ solution := (FindSolution env.enforce s ctx st.dbRecord).solution
                    dbRecord := (FindSolution env.enforce s ctx st.dbRecord).dbRecord
                    trace := st.trace ++ (FindSolution env.enforce s ctx st.dbRecord).trace },
            ?_, rfl⟩
          simp only [MIOPEN_STATIC_FOR_EACH, first_body_try env ctx s st hs hp, hi]
          exact first_loop_done env ctx rest _ hsucc
        · intro he
          have hi := internal_error_of_isEmpty _ hsucc he
          refine ⟨st.trace ++ (FindSolution env.enforce s ctx st.dbRecord).trace, ?_⟩
          simp only [MIOPEN_STATIC_FOR_EACH, first_body_try env ctx s st hs hp, hi, if_true]
      · have hsucc1 : (FindSolution env.enforce s ctx st.dbRecord).solution.Succeeded = false := by
          simpa using hsucc
        simp only [List.find?_cons, hsucc1] at ha
        have hi := not_internal_error_of_not_Succeeded _ hsucc1
        have hb := first_body_try env ctx s st hs hp
        rw [hi] at hb
        have := ih { solution := (FindSolution env.enforce s ctx st.dbRecord).solution
                     dbRecord := (FindSolution env.enforce s ctx st.dbRecord).dbRecord
                     trace := st.trace ++ (FindSolution env.enforce s ctx st.dbRecord).trace }
          hsucc1 ha
        simp only [MIOPEN_STATIC_FOR_EACH, hb]
        exact this
    · have hp1 : passes_filter env ctx s = false := by simpa using hp
      rw [attempts_cons_skip env ctx s rest _ hp1] at ha
      simp only [MIOPEN_STATIC_FOR_EACH, first_body_skip env ctx s st hp1]
      exact ih st hs ha

theorem first_loop_miss (env : Env) (ctx : ConvolutionContext) (cat : List Solver)
    (st : SearchState) (hs : st.solution.Succeeded = false)
    (ha : ∀ a ∈ attempts env ctx cat st.dbRecord, a.2.Succeeded = false) :
    ∃ st1, MIOPEN_STATIC_FOR_EACH (SearchForSolution_first_body env ctx) cat st = .ok st1 ∧
      st1.solution =
        (((attempts env ctx cat st.dbRecord).getLast?).map (fun a => a.2)).getD st.solution := by
  induction cat generalizing st with
  | nil => exact ⟨st, rfl, rfl⟩
  | cons s rest ih =>
    by_cases hp : passes_filter env ctx s = true
    · rw [attempts_cons_pass env ctx s rest _ hp] at ha ⊢
      have hsucc1 := ha _ (List.mem_cons_self _ _)
      simp only at hsucc1
      have hi := not_internal_error_of_not_Succeeded _ hsucc1
      have hb := first_body_try env ctx s st hs hp
      rw [hi] at hb
      obtain ⟨st1, h1, h2⟩ := ih
        { solution := (FindSolution env.enforce s ctx st.dbRecord).solution
          dbRecord := (FindSolution env.enforce s ctx st.dbRecord).dbRecord
          trace := st.trace ++ (FindSolution env.enforce s ctx st.dbRecord).trace }
        hsucc1 (fun a h => ha a (List.mem_cons_of_mem _ h))
      refine ⟨st1, ?_, ?_⟩
      · simp only [MIOPEN_STATIC_FOR_EACH, hb]
        exact h1
      · rw [h2]
        simp only
        cases hrest : attempts env ctx rest (FindSolution env.enforce s ctx st.dbRecord).dbRecord with
        | nil => simp
        | cons b bs =>
          rw [List.getLast?_cons_cons, List.getLast?_eq_getLast (b :: bs) (by simp)]
          rfl
    · have hp1 : passes_filter env ctx s = false := by simpa using hp
      rw [attempts_cons_skip env ctx s rest _ hp1] at ha ⊢
      simp only [MIOPEN_STATIC_FOR_EACH, first_body_skip env ctx s st hp1]
      exact ih st hs ha

/-! ## Claims C1 to C5: `SearchForSolution` -/

theorem no_internal_error_iff (env : Env) (ctx : ConvolutionContext) (cat : List Solver)
    (r : DbRecord) :
    no_internal_error env ctx cat r = true ↔
      ∀ a ∈ attempts env ctx cat r, a.2.internal_error = false := by
  simp [no_internal_error, List.all_eq_true]

theorem none_succeeded_iff (env : Env) (ctx : ConvolutionContext) (cat : List Solver)
    (r : DbRecord) :
    none_succeeded env ctx cat r = true ↔
      ∀ a ∈ attempts env ctx cat r, a.2.Succeeded = false := by
  simp [none_succeeded, List.all_eq_true]

/-- C1 (as amended). First-hit selection: in a context that is not (BackwardWeights with
`kernel_stride0 <= 1`), when the first solver in catalog order that passes
`IsApplicable(ctx) && (no_perf_filtering || IsFast(ctx))` and whose find-pipeline solution
is succeeded returns a non-empty `construction_params`, `SearchForSolution` returns that
solution, and solvers that come later in the catalog (`more`) do not change the result. -/
theorem C1_first_hit_selection (env : Env) (cat more : List Solver) (ctx : ConvolutionContext)
    (r : DbRecord) (a : Solver × ConvSolution) (hm : timed_mode ctx = false)
    (ha : (attempts env ctx cat r).find? (fun a => a.2.Succeeded) = some a)
    (hne : a.2.construction_params ≠ []) :
    SearchForSolution env (cat ++ more) ctx r = .ok a.2 := by
  obtain ⟨st1, h1, h2⟩ := (first_loop_hit env ctx cat
    { solution := ConvSolution.ctor miopenStatusUnknownError, dbRecord := r, trace := [] }
    ctor_UnknownError_not_Succeeded a ha).1 hne
  have hs : st1.solution.Succeeded = true := by
    rw [h2]; exact List.find?_some (p := fun a : Solver × ConvSolution => a.2.Succeeded) ha
  simp only [SearchForSolution, SearchForSolution_run, hm, for_each_append, h1,
    first_loop_done env ctx more st1 hs, h2]
  simp

/-- C1, witness: the catalog `[N, A, D]` in a forward context, where `N` fails and `A` is
the first solver with a succeeded solution. -/
theorem C1_first_hit_selection_witness :
    timed_mode forward_context = false ∧
    (attempts (plain_env true) forward_context
        [failing_solver "N" miopenStatusNotInitialized, non_timeable "A"]
        empty_record).find? (fun a => a.2.Succeeded) =
      some (non_timeable "A", solution_named "A") ∧
    (solution_named "A").construction_params ≠ [] ∧
    SearchForSolution (plain_env true)
      ([failing_solver "N" miopenStatusNotInitialized, non_timeable "A"] ++ [non_timeable "D"])
      forward_context empty_record = .ok (solution_named "A") :=
  ⟨by decide, by rfl, by decide,
   C1_first_hit_selection (plain_env true)
    [failing_solver "N" miopenStatusNotInitialized, non_timeable "A"] [non_timeable "D"]
    forward_context empty_record (non_timeable "A", solution_named "A") (by decide) (by rfl)
    (by decide)⟩

/-- C1, counterexample to the claim as stated: the first solver with a succeeded solution
returns an empty `construction_params`; `SearchForSolution` does not return its solution. -/
theorem C1_counterexample :
    ∃ a : Solver × ConvSolution,
      timed_mode forward_context = false ∧
      (attempts (plain_env true) forward_context [internal_error_solver "Bad"]
          empty_record).find? (fun a => a.2.Succeeded) = some a ∧
      SearchForSolution (plain_env true) [internal_error_solver "Bad"] forward_context
          empty_record ≠ .ok a.2 :=
  ⟨(internal_error_solver "Bad", ConvSolution.ctor miopenStatusSuccess), by decide, by rfl,
    by decide⟩

theorem timed_hypothesis (env : Env) (ctx : ConvolutionContext) (cat : List Solver)
    (r : DbRecord) (H : env.throw_debug = true → no_internal_error env ctx cat r = true) :
    env.throw_debug = true → ∀ a ∈ attempts env ctx cat r, a.2.internal_error = false :=
  fun hd => (no_internal_error_iff env ctx cat r).1 (H hd)

theorem best_time_lt_of_timed (ps : List Probe) (p : Probe) (hp : p ∈ ps) (h0 : p.rc = 0)
    (hlt : float.lt p.elapsed_time FLT_MAX = true) :
    float.lt (ps.foldl pick initial_selection).best_time FLT_MAX = true := by
  have inv := pick_inv_probes ps
  rcases inv.bound with hb | hb
  · have := inv.least p hp (by simp [Probe.timed, h0])
    rw [hb, hlt] at this
    cases this
  · exact hb

theorem best_time_eq_of_no_timed (ps : List Probe)
    (h : ∀ p ∈ ps, p.rc = 0 → float.lt p.elapsed_time FLT_MAX = false) :
    (ps.foldl pick initial_selection).best_time = FLT_MAX := by
  have inv := pick_inv_probes ps
  rcases inv.bound with hb | hb
  · exact hb
  · obtain ⟨x, hx, _⟩ := inv.best hb
    have hmem := List.mem_of_find?_eq_some hx
    have hpred := List.find?_some hx
    simp only [Probe.timed_at, Probe.timed, Bool.and_eq_true, decide_eq_true_eq] at hpred
    have := h x hmem hpred.1
    rw [hpred.2, hb] at this
    cases this

/-- C2 (as amended). Timed selection: when direction is BackwardWeights and
`kernel_stride0 <= 1` and no solver-internal error is raised, (1) if some candidate was
timed (return code 0) with an `elapsed_time` below `FLT_MAX`, the initial `best_time`, then
`SearchForSolution` returns a timed candidate whose `elapsed_time` is minimal among all
timed candidates; (2) if no candidate was timed below `FLT_MAX`, in particular if none was
timed, it returns the first non-timeable candidate (return code -2) in catalog order, and
the `UnknownError` solution when there is none. (3) `[NonTimeableA, TimedB(5), TimedC(3),
NonTimeableD]` returns the solution of `TimedC` and `[NonTimeableA, NonTimeableD]` that of
`NonTimeableA`. -/
theorem C2_timed_selection (env : Env) (cat : List Solver) (ctx : ConvolutionContext)
    (r : DbRecord) (hm : timed_mode ctx = true)
    (H : env.throw_debug = true → no_internal_error env ctx cat r = true) :
    ((∃ p ∈ probes env ctx cat r, p.rc = 0 ∧ float.lt p.elapsed_time FLT_MAX = true) →
      ∃ p ∈ probes env ctx cat r, p.rc = 0 ∧
        SearchForSolution env cat ctx r = .ok p.candidate ∧
        ∀ q ∈ probes env ctx cat r, q.rc = 0 →
          float.lt q.elapsed_time p.elapsed_time = false) ∧
    ((∀ p ∈ probes env ctx cat r, p.rc = 0 → float.lt p.elapsed_time FLT_MAX = false) →
      SearchForSolution env cat ctx r = .ok (first_not_timeable (probes env ctx cat r))) ∧
    SearchForSolution (plain_env true)
      [non_timeable "NonTimeableA", timed "TimedB" (.finite 5), timed "TimedC" (.finite 3),
       non_timeable "NonTimeableD"] timed_context empty_record
      = .ok (solution_named "TimedC") ∧
    SearchForSolution (plain_env true) [non_timeable "NonTimeableA", non_timeable "NonTimeableD"]
      timed_context empty_record = .ok (solution_named "NonTimeableA") := by
  have heq := SearchForSolution_timed_eq env cat ctx r hm (timed_hypothesis env ctx cat r H)
  have inv := pick_inv_probes (probes env ctx cat r)
  refine ⟨?_, ?_, by decide, by decide⟩
  · rintro ⟨p, hp, h0, hlt⟩
    obtain ⟨x, hx, hsol⟩ := inv.best (best_time_lt_of_timed _ p hp h0 hlt)
    have hpred := List.find?_some hx
    simp only [Probe.timed_at, Probe.timed, Bool.and_eq_true, decide_eq_true_eq] at hpred
    refine ⟨x, List.mem_of_find?_eq_some hx, hpred.1, ?_, ?_⟩
    · rw [heq, hsol]
    · intro q hq hq0
      rw [hpred.2]
      exact inv.least q hq (by simp [Probe.timed, hq0])
  · intro h
    rw [heq, inv.fallback (best_time_eq_of_no_timed _ h)]

/-- C2, witness: the four-solver catalog of the claim; `TimedB` is timed below `FLT_MAX`. -/
theorem C2_timed_selection_witness :
    ∃ p ∈ probes (plain_env true) timed_context
        [non_timeable "NonTimeableA", timed "TimedB" (.finite 5), timed "TimedC" (.finite 3),
         non_timeable "NonTimeableD"] empty_record,
      p.rc = 0 ∧
      SearchForSolution (plain_env true)
        [non_timeable "NonTimeableA", timed "TimedB" (.finite 5), timed "TimedC" (.finite 3),
         non_timeable "NonTimeableD"] timed_context empty_record = .ok p.candidate ∧
      ∀ q ∈ probes (plain_env true) timed_context
          [non_timeable "NonTimeableA", timed "TimedB" (.finite 5), timed "TimedC" (.finite 3),
           non_timeable "NonTimeableD"] empty_record,
        q.rc = 0 → float.lt q.elapsed_time p.elapsed_time = false :=
  (C2_timed_selection (plain_env true)
    [non_timeable "NonTimeableA", timed "TimedB" (.finite 5), timed "TimedC" (.finite 3),
     non_timeable "NonTimeableD"] timed_context empty_record (by decide) (by decide)).1
    ⟨{ candidate := solution_named "TimedB", rc := 0, elapsed_time := .finite 5 },
      by decide, by decide, by decide⟩

/-- C2, counterexample to the claim as stated: `TimedMax` is timed (return code 0) and
reports `FLT_MAX`; `SearchForSolution` returns the solution of the non-timeable solver,
which is not a timed candidate. -/
theorem C2_counterexample :
    timed_mode timed_context = true ∧
    (∃ p ∈ probes (plain_env true) timed_context
        [non_timeable "NonTimeableA", timed "TimedMax" FLT_MAX] empty_record, p.rc = 0) ∧
    ¬ ∃ p ∈ probes (plain_env true) timed_context
        [non_timeable "NonTimeableA", timed "TimedMax" FLT_MAX] empty_record,
      p.rc = 0 ∧
      SearchForSolution (plain_env true) [non_timeable "NonTimeableA", timed "TimedMax" FLT_MAX]
        timed_context empty_record = .ok p.candidate := by
  decide

/-- C3 (as amended). Timed tie-break: in the timed branch, when no solver-internal error is
raised, if `e` is the minimum of the times of the timed candidates and lies below `FLT_MAX`,
the initial `best_time`, then the first candidate in catalog order that was timed with `e`
is the one returned, whatever later candidates report the same time; a timed candidate
replaces the selection only on strict `elapsed_time < best_time`. -/
theorem C3_timed_tie_break (env : Env) (cat : List Solver) (ctx : ConvolutionContext)
    (r : DbRecord) (hm : timed_mode ctx = true)
    (H : env.throw_debug = true → no_internal_error env ctx cat r = true)
    (p : Probe) (e : float)
    (hp : (probes env ctx cat r).find? (Probe.timed_at e) = some p)
    (hmax : float.lt e FLT_MAX = true)
    (hmin : ∀ q ∈ probes env ctx cat r, q.rc = 0 → float.lt q.elapsed_time e = false) :
    SearchForSolution env cat ctx r = .ok p.candidate ∧
    ∀ (sel : Selection) (candidate : ConvSolution) (elapsed_time : float),
      float.lt elapsed_time sel.best_time = false →
      SearchForSolution_switch 0 elapsed_time candidate sel = sel := by
  have heq := SearchForSolution_timed_eq env cat ctx r hm (timed_hypothesis env ctx cat r H)
  have inv := pick_inv_probes (probes env ctx cat r)
  have hpmem := List.mem_of_find?_eq_some hp
  have hppred := List.find?_some hp
  simp only [Probe.timed_at, Probe.timed, Bool.and_eq_true, decide_eq_true_eq] at hppred
  have hbest := best_time_lt_of_timed _ p hpmem hppred.1 (by rw [hppred.2]; exact hmax)
  obtain ⟨x, hx, hsol⟩ := inv.best hbest
  have hxmem := List.mem_of_find?_eq_some hx
  have hxpred := List.find?_some hx
  simp only [Probe.timed_at, Probe.timed, Bool.and_eq_true, decide_eq_true_eq] at hxpred
  have h1 : float.lt ((probes env ctx cat r).foldl pick initial_selection).best_time e
      = false := by
    have := hmin x hxmem hxpred.1
    rwa [hxpred.2] at this
  have h2 : float.lt e ((probes env ctx cat r).foldl pick initial_selection).best_time
      = false := by
    have := inv.least p hpmem (by simp [Probe.timed, hppred.1])
    rwa [hppred.2] at this
  have hbe := float_eq_of_not_lt hbest hmax h1 h2
  rw [hbe, hp] at hx
  cases hx
  refine ⟨by rw [heq, hsol], ?_⟩
  intro sel candidate elapsed_time h
  simp [SearchForSolution_switch, h]

/-- C3, witness: `TimedB` and `TimedC` both report 3, the minimum; `TimedB` comes first. -/
theorem C3_timed_tie_break_witness :
    SearchForSolution (plain_env true)
      [timed "TimedA" (.finite 5), timed "TimedB" (.finite 3), timed "TimedC" (.finite 3)]
      timed_context empty_record = .ok (solution_named "TimedB") :=
  (C3_timed_tie_break (plain_env true)
    [timed "TimedA" (.finite 5), timed "TimedB" (.finite 3), timed "TimedC" (.finite 3)]
    timed_context empty_record (by decide) (by decide)
    { candidate := solution_named "TimedB", rc := 0, elapsed_time := .finite 3 } (.finite 3)
    (by decide) (by decide) (by decide)).1

/-- C3, counterexample to the claim as stated: two timed candidates report the same time
`FLT_MAX`, which is the minimum; the earlier one is not returned. -/
theorem C3_counterexample :
    timed_mode timed_context = true ∧
    probes (plain_env true) timed_context [timed "Timed1" FLT_MAX, timed "Timed2" FLT_MAX]
        empty_record =
      [{ candidate := solution_named "Timed1", rc := 0, elapsed_time := FLT_MAX },
       { candidate := solution_named "Timed2", rc := 0, elapsed_time := FLT_MAX }] ∧
    SearchForSolution (plain_env true) [timed "Timed1" FLT_MAX, timed "Timed2" FLT_MAX]
        timed_context empty_record ≠ .ok (solution_named "Timed1") := by
  decide

theorem probes_eq_nil_of_none_succeeded (env : Env) (ctx : ConvolutionContext)
    (l : List (Solver × ConvSolution)) (h : ∀ a ∈ l, a.2.Succeeded = false) :
    l.filterMap (probe_of env ctx) = [] := by
  induction l with
  | nil => rfl
  | cons a l ih =>
    have ha := h a (List.mem_cons_self _ _)
    have : probe_of env ctx a = none := by simp [probe_of, ConvSolution.usable, ha]
    rw [List.filterMap_cons, this]
    exact ih (fun b hb => h b (List.mem_cons_of_mem _ hb))

/-- C4 (as amended). No applicable solver: whenever no solver that passes the filter has a
succeeded find-pipeline solution, `SearchForSolution` returns normally a solution that is
not succeeded: in the timed branch it is the initial solution, of status `UnknownError`; in
the other branch it is the initial `UnknownError` solution when no solver passes the filter
and otherwise the find-pipeline solution of the last solver that passes it, with the status
that solver gave it. -/
theorem C4_no_applicable_solver (env : Env) (cat : List Solver) (ctx : ConvolutionContext)
    (r : DbRecord) (h : none_succeeded env ctx cat r = true) :
    ∃ sol, SearchForSolution env cat ctx r = .ok sol ∧ sol.Succeeded = false ∧
      (timed_mode ctx = true → sol.status = miopenStatusUnknownError) ∧
      (timed_mode ctx = false → attempts env ctx cat r = [] →
        sol.status = miopenStatusUnknownError) ∧
      (timed_mode ctx = false → ∀ a, (attempts env ctx cat r).getLast? = some a →
        sol = a.2) := by
  have hall := (none_succeeded_iff env ctx cat r).1 h
  cases hm : timed_mode ctx with
  | true =>
    have H : env.throw_debug = true →
        ∀ a ∈ attempts env ctx cat r, a.2.internal_error = false :=
      fun _ a ha => not_internal_error_of_not_Succeeded _ (hall a ha)
    have heq := SearchForSolution_timed_eq env cat ctx r hm H
    have hnil : probes env ctx cat r = [] := probes_eq_nil_of_none_succeeded env ctx _ hall
    rw [hnil] at heq
    exact ⟨_, heq, by decide, fun _ => rfl, by simp, by simp⟩
  | false =>
    obtain ⟨st1, h1, h2⟩ := first_loop_miss env ctx cat
      { solution := ConvSolution.ctor miopenStatusUnknownError, dbRecord := r, trace := [] }
      ctor_UnknownError_not_Succeeded hall
    refine ⟨st1.solution, ?_, ?_, by simp, ?_, ?_⟩
    · simp only [SearchForSolution, SearchForSolution_run, hm, h1]
      simp
    · rw [h2]
      cases hl : (attempts env ctx cat r).getLast? with
      | none => simp [ctor_UnknownError_not_Succeeded]
      | some a =>
        simp only [Option.map_some', Option.getD_some]
        exact hall a (List.mem_of_getLast?_eq_some hl)
    · intro _ hnil
      rw [h2]
      simp only at hnil ⊢
      rw [hnil]
      rfl
    · intro _ a ha
      rw [h2]
      simp only at ha ⊢
      rw [ha]
      rfl

/-- C4, witness: in a forward context the only solver fails with `NotInitialized`. -/
theorem C4_no_applicable_solver_witness :
    none_succeeded (plain_env true) forward_context
      [failing_solver "N" miopenStatusNotInitialized] empty_record = true ∧
    ∃ sol, SearchForSolution (plain_env true) [failing_solver "N" miopenStatusNotInitialized]
        forward_context empty_record = .ok sol ∧ sol.Succeeded = false :=
  ⟨by decide,
    (C4_no_applicable_solver (plain_env true) [failing_solver "N" miopenStatusNotInitialized]
      forward_context empty_record (by decide)).imp (fun _ h => ⟨h.1, h.2.1⟩)⟩

/-- C4, counterexample to the claim as stated: in a forward context the only solver passes
the filter and its find pipeline returns a solution of status `NotInitialized`; the
solution `SearchForSolution` returns has that status, not `UnknownError`. -/
theorem C4_counterexample :
    timed_mode forward_context = false ∧
    none_succeeded (plain_env true) forward_context
      [failing_solver "N" miopenStatusNotInitialized] empty_record = true ∧
    SearchForSolution (plain_env true) [failing_solver "N" miopenStatusNotInitialized]
      forward_context empty_record = .ok (ConvSolution.ctor miopenStatusNotInitialized) ∧
    (ConvSolution.ctor miopenStatusNotInitialized).status ≠ miopenStatusUnknownError := by
  decide

/-- C5 (as amended). Solver-internal error. (1) In the branch that is not timed, if the
first solver that passes the filter and has a succeeded find-pipeline solution returns an
empty `construction_params`, `SearchForSolution` raises "Internal error in solver: <db id>"
for that solver. (2) In the timed branch, when `MIOPEN_THROW_DEBUG` throws, the same error
is raised for the first solver that passes the filter and has a succeeded solution with an
empty `construction_params`. (3) In the timed branch, when `MIOPEN_THROW_DEBUG` expands to
nothing, no error is raised: such a candidate is replaced by an `InternalError` solution,
is not measured, and the selection is made among the other candidates. -/
theorem C5_solver_internal_error (env : Env) (cat : List Solver) (ctx : ConvolutionContext)
    (r : DbRecord) :
    (timed_mode ctx = false → ∀ a : Solver × ConvSolution,
      (attempts env ctx cat r).find? (fun a => a.2.Succeeded) = some a →
      a.2.construction_params = [] →
      SearchForSolution env cat ctx r =
        .error (MIOPEN_THROW ("Internal error in solver: " ++ a.1.db_id))) ∧
    (timed_mode ctx = true → env.throw_debug = true → ∀ a : Solver × ConvSolution,
      (attempts env ctx cat r).find? (fun a => a.2.internal_error) = some a →
      SearchForSolution env cat ctx r =
        .error (MIOPEN_THROW ("Internal error in solver: " ++ a.1.db_id))) ∧
    (timed_mode ctx = true → env.throw_debug = false →
      SearchForSolution env cat ctx r =
        .ok ((probes env ctx cat r).foldl pick initial_selection).solution) := by
  refine ⟨?_, ?_, ?_⟩
  · intro hm a ha he
    obtain ⟨tr, h1⟩ := (first_loop_hit env ctx cat
      { solution := ConvSolution.ctor miopenStatusUnknownError, dbRecord := r, trace := [] }
      ctor_UnknownError_not_Succeeded a ha).2 he
    simp only [SearchForSolution, SearchForSolution_run, hm, h1]
    simp
  · intro hm hd a ha
    obtain ⟨tr, h1⟩ := timed_loop_error env ctx cat
      { sel := { solution := ConvSolution.ctor miopenStatusUnknownError, best_time := FLT_MAX
                 none_probing_failures_yet := true }
        dbRecord := r, trace := [] } hd a ha
    simp only [SearchForSolution, SearchForSolution_run, hm, h1]
    simp
  · intro hm hd
    exact SearchForSolution_timed_eq env cat ctx r hm (fun h => by rw [hd] at h; cases h)

/-- C5, witness: in a forward context the catalog `[N, Bad, A]`, where `N` fails and the
solution of `Bad` is succeeded with no kernel, raises the error that names `Bad`. -/
theorem C5_solver_internal_error_witness :
    timed_mode forward_context = false ∧
    SearchForSolution (plain_env false)
      [failing_solver "N" miopenStatusNotInitialized, internal_error_solver "Bad",
       non_timeable "A"] forward_context empty_record =
      .error (MIOPEN_THROW "Internal error in solver: Bad") :=
  ⟨by decide,
   (C5_solver_internal_error (plain_env false)
      [failing_solver "N" miopenStatusNotInitialized, internal_error_solver "Bad",
       non_timeable "A"] forward_context empty_record).1 (by decide)
      (internal_error_solver "Bad", ConvSolution.ctor miopenStatusSuccess) (by rfl) (by rfl)⟩

/-- C5, counterexample to the claim as stated: in the timed branch, with
`MIOPEN_THROW_DEBUG` expanding to nothing, the find pipeline of the applicable solver `Bad`
returns a succeeded solution with an empty `construction_params` and `SearchForSolution`
returns normally. -/
theorem C5_counterexample :
    ∃ a : Solver × ConvSolution,
      timed_mode timed_context = true ∧
      attempts (plain_env false) timed_context [internal_error_solver "Bad"] empty_record
        = [a] ∧
      a.2.Succeeded = true ∧ a.2.construction_params = [] ∧
      SearchForSolution (plain_env false) [internal_error_solver "Bad"] timed_context
        empty_record = .ok (ConvSolution.ctor miopenStatusUnknownError) :=
  ⟨(internal_error_solver "Bad", ConvSolution.ctor miopenStatusSuccess), by decide, by rfl,
    by decide, by decide, by decide⟩

/-! ## Claims C6 and C7: `SearchForAllSolutions` and the invariant of solutions -/

theorem FindSolution_trace_no_measure (enforce : FindEnforce) (s : Solver)
    (ctx : ConvolutionContext) (r : DbRecord) :
    ∀ e ∈ (FindSolution enforce s ctx r).trace, e.is_measure = false := by
  intro e he
  simp only [FindSolution] at he
  cases hk : s.kind with
  | fixed g =>
    simp only [hk, FindSolutionImpl_rank0, List.mem_cons, List.mem_singleton] at he
    simp only [List.not_mem_nil, or_false] at he
    rcases he with rfl | rfl <;> rfl
  | searchable PC ops =>
    simp only [hk, FindSolutionImpl_rank1, FindSolutionImpl_search,
      FindSolutionImpl_default] at he
    repeat' split at he
    all_goals
      simp only [List.mem_cons, List.mem_append, List.mem_singleton, List.not_mem_nil,
        or_false, false_or] at he
      casesm* _ ∨ _ <;> subst_vars <;> rfl

theorem SearchForAllSolutions_run_nil (env : Env) (cat : List Solver)
    (ctx : ConvolutionContext) (r : DbRecord) (hm : timed_mode ctx = true) :
    SearchForAllSolutions_run env cat ctx r [] =
      match MIOPEN_STATIC_FOR_EACH (SearchForAllSolutions_body env ctx) cat
          { ss := [], dbRecord := r, trace := [] } with
      | .ok st => .ok (st.ss, st.trace)
      | .error e => .error (.thrown e) := by
  simp only [timed_mode] at hm
  simp only [SearchForAllSolutions_run, hm, List.isEmpty_nil, Bool.not_true, Bool.not_false,
    Bool.false_eq_true, if_false]

theorem SearchForAllSolutions_run_ok (env : Env) (cat : List Solver)
    (ctx : ConvolutionContext) (r : DbRecord) (ss : List ConvSolution)
    (p : List ConvSolution × List Event)
    (h : SearchForAllSolutions_run env cat ctx r ss = .ok p) :
    ∃ st, MIOPEN_STATIC_FOR_EACH (SearchForAllSolutions_body env ctx) cat
        { ss := ss, dbRecord := r, trace := [] } = .ok st ∧ p = (st.ss, st.trace) := by
  simp only [SearchForAllSolutions_run] at h
  split at h
  · cases h
  · split at h
    · cases h
    · cases hl : MIOPEN_STATIC_FOR_EACH (SearchForAllSolutions_body env ctx) cat
          { ss := ss, dbRecord := r, trace := [] } with
      | error x => rw [hl] at h; cases h
      | ok st =>
        rw [hl] at h
        cases h
        exact ⟨st, rfl, rfl⟩

theorem all_body_skip (env : Env) (ctx : ConvolutionContext) (s : Solver) (st : AllState)
    (hp : passes_filter env ctx s = false) :
    SearchForAllSolutions_body env ctx s st = .ok st := by
  simp [SearchForAllSolutions_body, hp]

theorem all_body_error (env : Env) (ctx : ConvolutionContext) (s : Solver) (st : AllState)
    (hp : passes_filter env ctx s = true)
    (hi : (FindSolution env.enforce s ctx st.dbRecord).solution.internal_error = true)
    (hd : env.throw_debug = true) :
    SearchForAllSolutions_body env ctx s st =
      .error { ex := MIOPEN_THROW ("Internal error in solver: " ++ s.db_id)
               trace := st.trace ++ (FindSolution env.enforce s ctx st.dbRecord).trace } := by
  simp only [ConvSolution.internal_error, Bool.and_eq_true] at hi
  simp [SearchForAllSolutions_body, hp, hi.1, hi.2, hd]

theorem all_body_ok (env : Env) (ctx : ConvolutionContext) (s : Solver) (st : AllState)
    (hp : passes_filter env ctx s = true)
    (hi : ((FindSolution env.enforce s ctx st.dbRecord).solution.internal_error
            && env.throw_debug) = false) :
    SearchForAllSolutions_body env ctx s st =
      .ok { ss := st.ss ++
              (if (FindSolution env.enforce s ctx st.dbRecord).solution.usable then
                [(FindSolution env.enforce s ctx st.dbRecord).solution] else [])
            dbRecord := (FindSolution env.enforce s ctx st.dbRecord).dbRecord
            trace := st.trace ++ (FindSolution env.enforce s ctx st.dbRecord).trace } := by
  simp only [ConvSolution.internal_error] at hi
  simp only [SearchForAllSolutions_body, hp, if_true, ConvSolution.usable]
  by_cases hs : (FindSolution env.enforce s ctx st.dbRecord).solution.Succeeded = true
  · by_cases he : (FindSolution env.enforce s ctx st.dbRecord).solution.construction_params.isEmpty = true
    · have hd : env.throw_debug = false := by simpa [hs, he] using hi
      simp [hs, he, hd]
    · simp [hs, he]
  · simp [hs]

theorem all_loop_ok (env : Env) (ctx : ConvolutionContext) (cat : List Solver)
    (st : AllState)
    (H : env.throw_debug = true →
      ∀ a ∈ attempts env ctx cat st.dbRecord, a.2.internal_error = false) :
    ∃ st1, MIOPEN_STATIC_FOR_EACH (SearchForAllSolutions_body env ctx) cat st = .ok st1 ∧
      st1.ss = st.ss ++
        ((attempts env ctx cat st.dbRecord).filter (fun a => a.2.usable)).map Prod.snd := by
  induction cat generalizing st with
  | nil => exact ⟨st, rfl, by simp [attempts]⟩
  | cons s rest ih =>
    by_cases hp : passes_filter env ctx s = true
    · rw [attempts_cons_pass env ctx s rest _ hp] at H ⊢
      have hi : ((FindSolution env.enforce s ctx st.dbRecord).solution.internal_error
            && env.throw_debug) = false := by
        cases hd : env.throw_debug with
        | false => simp
        | true => simp [H hd _ (List.mem_cons_self _ _)]
      have hb := all_body_ok env ctx s st hp hi
      obtain ⟨st2, h1, h2⟩ := ih
        { ss := st.ss ++
              (if (FindSolution env.enforce s ctx st.dbRecord).solution.usable then
                [(FindSolution env.enforce s ctx st.dbRecord).solution] else [])
          dbRecord := (FindSolution env.enforce s ctx st.dbRecord).dbRecord
          trace := st.trace ++ (FindSolution env.enforce s ctx st.dbRecord).trace }
        (fun hd a ha => H hd a (List.mem_cons_of_mem _ ha))
      refine ⟨st2, ?_, ?_⟩
      · simp only [MIOPEN_STATIC_FOR_EACH, hb]
        exact h1
      · rw [h2]
        by_cases hu : (FindSolution env.enforce s ctx st.dbRecord).solution.usable = true
        · simp [List.filter_cons, hu]
        · simp [List.filter_cons, hu]
    · have hp1 : passes_filter env ctx s = false := by simpa using hp
      rw [attempts_cons_skip env ctx s rest _ hp1] at H ⊢
      obtain ⟨st2, h1, h2⟩ := ih st H
      exact ⟨st2, by simp only [MIOPEN_STATIC_FOR_EACH, all_body_skip env ctx s st hp1]; exact h1,
        h2⟩

theorem all_loop_trace (env : Env) (ctx : ConvolutionContext) (cat : List Solver)
    (st : AllState) (h0 : ∀ e ∈ st.trace, e.is_measure = false) :
    match MIOPEN_STATIC_FOR_EACH (SearchForAllSolutions_body env ctx) cat st with
    | .ok st1 => ∀ e ∈ st1.trace, e.is_measure = false
    | .error x => ∀ e ∈ x.trace, e.is_measure = false := by
  induction cat generalizing st with
  | nil => exact h0
  | cons s rest ih =>
    have htr : ∀ e ∈ st.trace ++ (FindSolution env.enforce s ctx st.dbRecord).trace,
        e.is_measure = false := by
      intro e he
      rcases List.mem_append.1 he with he | he
      · exact h0 e he
      · exact FindSolution_trace_no_measure _ _ _ _ e he
    by_cases hp : passes_filter env ctx s = true
    · by_cases hi : ((FindSolution env.enforce s ctx st.dbRecord).solution.internal_error
            && env.throw_debug) = true
      · simp only [Bool.and_eq_true] at hi
        simp only [MIOPEN_STATIC_FOR_EACH, all_body_error env ctx s st hp hi.1 hi.2]
        exact htr
      · have hi1 : ((FindSolution env.enforce s ctx st.dbRecord).solution.internal_error
            && env.throw_debug) = false := by simpa using hi
        simp only [MIOPEN_STATIC_FOR_EACH, all_body_ok env ctx s st hp hi1]
        exact ih _ htr
    · have hp1 : passes_filter env ctx s = false := by simpa using hp
      simp only [MIOPEN_STATIC_FOR_EACH, all_body_skip env ctx s st hp1]
      exact ih st h0

theorem attempts_sublist (env : Env) (ctx : ConvolutionContext) (cat : List Solver)
    (r : DbRecord) : List.Sublist ((attempts env ctx cat r).map Prod.fst) cat := by
  induction cat generalizing r with
  | nil => simp [attempts]
  | cons s rest ih =>
    by_cases hp : passes_filter env ctx s = true
    · rw [attempts_cons_pass env ctx s rest _ hp]
      simpa using ih _
    · have hp1 : passes_filter env ctx s = false := by simpa using hp
      rw [attempts_cons_skip env ctx s rest _ hp1]
      exact List.Sublist.cons _ (ih r)

/-- C7 (as amended). All-applicable selection: in a context that passes the two `assert`s
of the function, that is called with an empty list and with `direction.IsBackwardWrW()` and
`kernel_stride0 <= 1`, and when no solver-internal error is raised,
`SearchForAllSolutions` leaves in the list exactly the find-pipeline solutions of the
solvers that pass `IsApplicable(ctx) && (no_perf_filtering || IsFast(ctx))` and whose
solution is succeeded with a non-empty `construction_params`, one entry per such solver
and in catalog order: these solvers form a sub-sequence of the catalog. No call of
`RunAndMeasureSolution` is made, whether or not an error is raised. -/
theorem C7_all_applicable_selection (env : Env) (cat : List Solver)
    (ctx : ConvolutionContext) (r : DbRecord)
    (hdir : ctx.direction.IsBackwardWrW = true) (hstride : ctx.kernel_stride0 ≤ 1)
    (H : env.throw_debug = true → no_internal_error env ctx cat r = true) :
    SearchForAllSolutions env cat ctx r [] =
      .ok (((attempts env ctx cat r).filter (fun a => a.2.usable)).map Prod.snd) ∧
    List.Sublist (((attempts env ctx cat r).filter (fun a => a.2.usable)).map Prod.fst) cat ∧
    ∀ e ∈ SearchForAllSolutions_trace env cat ctx r [], e.is_measure = false := by
  have hm : timed_mode ctx = true := by simp [timed_mode, hdir, hstride]
  refine ⟨?_, ?_, ?_⟩
  · obtain ⟨st1, h1, h2⟩ := all_loop_ok env ctx cat { ss := [], dbRecord := r, trace := [] }
      (timed_hypothesis env ctx cat r H)
    simp only [SearchForAllSolutions, SearchForAllSolutions_run_nil env cat ctx r hm, h1, h2]
    simp
  · exact ((List.filter_sublist _).map Prod.fst).trans (attempts_sublist env ctx cat r)
  · have := all_loop_trace env ctx cat { ss := [], dbRecord := r, trace := [] } (by simp)
    simp only [SearchForAllSolutions_trace, SearchForAllSolutions_run_nil env cat ctx r hm]
    cases hl : MIOPEN_STATIC_FOR_EACH (SearchForAllSolutions_body env ctx) cat
        { ss := [], dbRecord := r, trace := [] } with
    | ok st1 => rw [hl] at this; exact this
    | error x => rw [hl] at this; exact this

/-- C7, witness: of `[N, A, Bad, B]` in the context of direction `BackwardWeights` and
stride 1, with `MIOPEN_THROW_DEBUG` expanding to nothing, the list holds the solutions of
`A` and `B`. -/
theorem C7_all_applicable_selection_witness :
    timed_context.direction.IsBackwardWrW = true ∧ timed_context.kernel_stride0 ≤ 1 ∧
    SearchForAllSolutions (plain_env false)
      [failing_solver "N" miopenStatusNotInitialized, non_timeable "A",
       internal_error_solver "Bad", timed "B" (.finite 2)] timed_context empty_record [] =
      .ok [solution_named "A", solution_named "B"] :=
  ⟨by decide, by decide,
   (C7_all_applicable_selection (plain_env false)
      [failing_solver "N" miopenStatusNotInitialized, non_timeable "A",
       internal_error_solver "Bad", timed "B" (.finite 2)] timed_context empty_record
      (by decide) (by decide) (by decide)).1⟩

/-- C7, counterexample to the claim as stated. (1) In the context of the asserts, `Bad`
passes the filter and its solution is succeeded, and yet the list `SearchForAllSolutions`
leaves has no entry for it. (2) In a forward context the solver `A` passes the filter and
its solution is succeeded, and the call, made with an empty list, is aborted by the second
`assert`: no list is returned. -/
theorem C7_counterexample :
    (((attempts (plain_env false) timed_context [internal_error_solver "Bad"]
        empty_record).filter (fun a => a.2.Succeeded)).map Prod.snd =
      [ConvSolution.ctor miopenStatusSuccess] ∧
    SearchForAllSolutions (plain_env false) [internal_error_solver "Bad"] timed_context
      empty_record [] = .ok []) ∧
    (((attempts (plain_env false) forward_context [non_timeable "A"]
        empty_record).filter (fun a => a.2.Succeeded)).map Prod.snd =
      [solution_named "A"] ∧
    SearchForAllSolutions (plain_env false) [non_timeable "A"] forward_context
      empty_record [] = .error (.assert_failed
        "search_params.direction.IsBackwardWrW() && search_params.kernel_stride0 <= 1")) := by
  decide

theorem pick_solution (s : Selection) (p : Probe) :
    (pick s p).solution = s.solution ∨ (pick s p).solution = p.candidate := by
  simp only [pick, SearchForSolution_switch]
  repeat' split
  all_goals simp

theorem usable_iff (sol : ConvSolution) :
    sol.usable = true ↔ sol.Succeeded = true ∧ sol.construction_params ≠ [] := by
  cases h : sol.construction_params <;> simp [ConvSolution.usable, h]

theorem probe_of_usable (env : Env) (ctx : ConvolutionContext) (a : Solver × ConvSolution)
    (p : Probe) (h : probe_of env ctx a = some p) :
    p.candidate = a.2 ∧ a.2.usable = true := by
  simp only [probe_of] at h
  split at h
  · cases h
    exact ⟨rfl, by assumption⟩
  · cases h

theorem timed_body_sane (env : Env) (ctx : ConvolutionContext) (s : Solver)
    (st st1 : TimedState)
    (h0 : st.sel.solution.Succeeded = true → st.sel.solution.construction_params ≠ [])
    (hb : SearchForSolution_timed_body env ctx s st = .ok st1) :
    st1.sel.solution.Succeeded = true → st1.sel.solution.construction_params ≠ [] := by
  by_cases hp : passes_filter env ctx s = true
  · by_cases hi : ((FindSolution env.enforce s ctx st.dbRecord).solution.internal_error
          && env.throw_debug) = true
    · simp only [Bool.and_eq_true] at hi
      rw [timed_body_error env ctx s st hp hi.1 hi.2] at hb
      cases hb
    · have hi1 : ((FindSolution env.enforce s ctx st.dbRecord).solution.internal_error
          && env.throw_debug) = false := by simpa using hi
      obtain ⟨st2, hb2, hsel, _⟩ := timed_body_ok_state env ctx s st hp hi1
      rw [hb2] at hb
      cases hb
      rw [hsel]
      cases hpr : probe_of env ctx (s, (FindSolution env.enforce s ctx st.dbRecord).solution) with
      | none => exact h0
      | some p =>
        simp only [Option.elim]
        obtain ⟨hc, hu⟩ := probe_of_usable env ctx _ p hpr
        rcases pick_solution st.sel p with h | h
        · rw [h]; exact h0
        · rw [h, hc]
          exact fun _ => ((usable_iff _).1 hu).2
  · have hp1 : passes_filter env ctx s = false := by simpa using hp
    rw [timed_body_skip env ctx s st hp1] at hb
    cases hb
    exact h0

theorem first_body_sane (env : Env) (ctx : ConvolutionContext) (s : Solver)
    (st st1 : SearchState)
    (h0 : st.solution.Succeeded = true → st.solution.construction_params ≠ [])
    (hb : SearchForSolution_first_body env ctx s st = .ok st1) :
    st1.solution.Succeeded = true → st1.solution.construction_params ≠ [] := by
  by_cases hs : st.solution.Succeeded = true
  · rw [first_body_done env ctx s st hs] at hb
    cases hb
    exact h0
  · have hs1 : st.solution.Succeeded = false := by simpa using hs
    by_cases hp : passes_filter env ctx s = true
    · rw [first_body_try env ctx s st hs1 hp] at hb
      by_cases hi : (FindSolution env.enforce s ctx st.dbRecord).solution.internal_error = true
      · rw [if_pos hi] at hb
        cases hb
      · rw [if_neg hi] at hb
        cases hb
        intro hsucc hnil
        exact hi (internal_error_of_isEmpty _ hsucc hnil)
    · have hp1 : passes_filter env ctx s = false := by simpa using hp
      rw [first_body_skip env ctx s st hp1] at hb
      cases hb
      exact h0

theorem all_body_sane (env : Env) (ctx : ConvolutionContext) (ss : List ConvSolution)
    (s : Solver) (st st1 : AllState)
    (h0 : ∃ appended, st.ss = ss ++ appended ∧
      ∀ x ∈ appended, x.Succeeded = true ∧ x.construction_params ≠ [])
    (hb : SearchForAllSolutions_body env ctx s st = .ok st1) :
    ∃ appended, st1.ss = ss ++ appended ∧
      ∀ x ∈ appended, x.Succeeded = true ∧ x.construction_params ≠ [] := by
  by_cases hp : passes_filter env ctx s = true
  · by_cases hi : ((FindSolution env.enforce s ctx st.dbRecord).solution.internal_error
          && env.throw_debug) = true
    · simp only [Bool.and_eq_true] at hi
      rw [all_body_error env ctx s st hp hi.1 hi.2] at hb
      cases hb
    · have hi1 : ((FindSolution env.enforce s ctx st.dbRecord).solution.internal_error
          && env.throw_debug) = false := by simpa using hi
      rw [all_body_ok env ctx s st hp hi1] at hb
      cases hb
      obtain ⟨app, happ, hgood⟩ := h0
      by_cases hu : (FindSolution env.enforce s ctx st.dbRecord).solution.usable = true
      · refine ⟨app ++ [(FindSolution env.enforce s ctx st.dbRecord).solution], ?_, ?_⟩
        · simp [happ, hu]
        · intro x hx
          rcases List.mem_append.1 hx with hx | hx
          · exact hgood x hx
          · simp only [List.mem_singleton] at hx
            subst hx
            exact (usable_iff _).1 hu
      · refine ⟨app, ?_, hgood⟩
        simp [happ, hu]
  · have hp1 : passes_filter env ctx s = false := by simpa using hp
    rw [all_body_skip env ctx s st hp1] at hb
    cases hb
    exact h0

/-- C6. Successful-solution invariant: for every catalog, context and record, a solution
that `SearchForSolution` returns normally and that is succeeded has a non-empty
`construction_params`; and every element that `SearchForAllSolutions` appends to its output
list is succeeded and has a non-empty `construction_params`. -/
theorem C6_successful_solution_invariant (env : Env) (cat : List Solver)
    (ctx : ConvolutionContext) (r : DbRecord) :
    (∀ sol, SearchForSolution env cat ctx r = .ok sol → sol.Succeeded = true →
      sol.construction_params ≠ []) ∧
    (∀ ss ss1, SearchForAllSolutions env cat ctx r ss = .ok ss1 →
      ∃ appended, ss1 = ss ++ appended ∧
        ∀ x ∈ appended, x.Succeeded = true ∧ x.construction_params ≠ []) := by
  constructor
  · intro sol h
    simp only [SearchForSolution, SearchForSolution_run] at h
    cases hm : timed_mode ctx with
    | true =>
      simp only [hm, if_true] at h
      cases hl : MIOPEN_STATIC_FOR_EACH (SearchForSolution_timed_body env ctx) cat
          { sel := { solution := ConvSolution.ctor miopenStatusUnknownError
                     best_time := FLT_MAX, none_probing_failures_yet := true }
            dbRecord := r, trace := [] } with
      | error x => rw [hl] at h; cases h
      | ok st1 =>
        rw [hl] at h
        cases h
        exact for_each_invariant _
          (fun st => st.sel.solution.Succeeded = true → st.sel.solution.construction_params ≠ [])
          (fun s st st1 => timed_body_sane env ctx s st st1) cat _ st1
          (fun hs => by rw [ctor_UnknownError_not_Succeeded] at hs; cases hs) hl
    | false =>
      simp only [hm] at h
      cases hl : MIOPEN_STATIC_FOR_EACH (SearchForSolution_first_body env ctx) cat
          { solution := ConvSolution.ctor miopenStatusUnknownError, dbRecord := r
            trace := [] } with
      | error x => rw [hl] at h; simp at h
      | ok st1 =>
        rw [hl] at h
        simp only [Bool.false_eq_true, if_false, Except.ok.injEq] at h
        subst h
        exact for_each_invariant _
          (fun st => st.solution.Succeeded = true → st.solution.construction_params ≠ [])
          (fun s st st1 => first_body_sane env ctx s st st1) cat _ st1
          (fun hs => by rw [ctor_UnknownError_not_Succeeded] at hs; cases hs) hl
  · intro ss ss1 h
    simp only [SearchForAllSolutions] at h
    cases hr : SearchForAllSolutions_run env cat ctx r ss with
    | error x => rw [hr] at h; cases x <;> cases h
    | ok p =>
      rw [hr] at h
      cases h
      obtain ⟨st1, hl, rfl⟩ := SearchForAllSolutions_run_ok env cat ctx r ss p hr
      exact for_each_invariant _
        (fun st => ∃ appended, st.ss = ss ++ appended ∧
          ∀ x ∈ appended, x.Succeeded = true ∧ x.construction_params ≠ [])
        (fun s st st1 => all_body_sane env ctx ss s st st1) cat _ st1
        ⟨[], by simp, by simp⟩ hl

/-- C6, witness: the solution returned for `[NonTimeableA, TimedB(5), TimedC(3)]` in the
timed branch is succeeded; its `construction_params` is not empty. -/
theorem C6_successful_solution_invariant_witness :
    SearchForSolution (plain_env true)
      [non_timeable "NonTimeableA", timed "TimedB" (.finite 5), timed "TimedC" (.finite 3)]
      timed_context empty_record = .ok (solution_named "TimedC") ∧
    (solution_named "TimedC").Succeeded = true ∧
    (solution_named "TimedC").construction_params ≠ [] :=
  ⟨by decide, by decide,
   (C6_successful_solution_invariant (plain_env true)
      [non_timeable "NonTimeableA", timed "TimedB" (.finite 5), timed "TimedC" (.finite 3)]
      timed_context empty_record).1 (solution_named "TimedC") (by decide) (by decide)⟩

/-! ## Claim C8: the performance filter -/

theorem for_each_congr {σ : Type} (body : Solver → σ → Except Raised σ)
    (R : Solver → Solver → Prop) (hR : ∀ s1 s2, R s1 s2 → body s1 = body s2)
    (l1 l2 : List Solver) (h : List.Forall₂ R l1 l2) (st : σ) :
    MIOPEN_STATIC_FOR_EACH body l1 st = MIOPEN_STATIC_FOR_EACH body l2 st := by
  induction h generalizing st with
  | nil => rfl
  | cons hab _ ih =>
    simp only [MIOPEN_STATIC_FOR_EACH, hR _ _ hab]
    split
    · exact ih _
    · rfl

theorem for_each_skip {σ : Type} (body : Solver → σ → Except Raised σ) (s : Solver)
    (hs : ∀ st, body s st = .ok st) (pre post : List Solver) (st : σ) :
    MIOPEN_STATIC_FOR_EACH body (pre ++ s :: post) st =
      MIOPEN_STATIC_FOR_EACH body (pre ++ post) st := by
  rw [for_each_append, for_each_append]
  cases MIOPEN_STATIC_FOR_EACH body pre st with
  | ok st1 => simp only [MIOPEN_STATIC_FOR_EACH, hs]
  | error e => rfl

theorem passes_filter_congr (env : Env) (hnp : env.no_perf_filtering = true)
    (ctx : ConvolutionContext) (s1 s2 : Solver) (h : same_but_IsFast s1 s2) :
    passes_filter env ctx s1 = passes_filter env ctx s2 := by
  obtain ⟨f, rfl⟩ := h
  simp [passes_filter, hnp]

theorem FindSolution_congr (enforce : FindEnforce) (ctx : ConvolutionContext)
    (s1 s2 : Solver) (h : same_but_IsFast s1 s2) :
    FindSolution enforce s1 ctx = FindSolution enforce s2 ctx := by
  obtain ⟨f, rfl⟩ := h
  rfl

theorem timed_body_congr (env : Env) (hnp : env.no_perf_filtering = true)
    (ctx : ConvolutionContext) (s1 s2 : Solver) (h : same_but_IsFast s1 s2) :
    SearchForSolution_timed_body env ctx s1 = SearchForSolution_timed_body env ctx s2 := by
  funext st
  have h1 := passes_filter_congr env hnp ctx s1 s2 h
  have h2 := FindSolution_congr env.enforce ctx s1 s2 h
  obtain ⟨f, rfl⟩ := h
  simp only [SearchForSolution_timed_body, h1, h2]

theorem first_body_congr (env : Env) (hnp : env.no_perf_filtering = true)
    (ctx : ConvolutionContext) (s1 s2 : Solver) (h : same_but_IsFast s1 s2) :
    SearchForSolution_first_body env ctx s1 = SearchForSolution_first_body env ctx s2 := by
  funext st
  have h1 := passes_filter_congr env hnp ctx s1 s2 h
  have h2 := FindSolution_congr env.enforce ctx s1 s2 h
  obtain ⟨f, rfl⟩ := h
  simp only [SearchForSolution_first_body, h1, h2]

theorem all_body_congr (env : Env) (hnp : env.no_perf_filtering = true)
    (ctx : ConvolutionContext) (s1 s2 : Solver) (h : same_but_IsFast s1 s2) :
    SearchForAllSolutions_body env ctx s1 = SearchForAllSolutions_body env ctx s2 := by
  funext st
  have h1 := passes_filter_congr env hnp ctx s1 s2 h
  have h2 := FindSolution_congr env.enforce ctx s1 s2 h
  obtain ⟨f, rfl⟩ := h
  simp only [SearchForAllSolutions_body, h1, h2]

theorem passes_filter_not_fast (env : Env) (hnp : env.no_perf_filtering = false)
    (ctx : ConvolutionContext) (s : Solver) (hf : s.IsFast ctx = false) :
    passes_filter env ctx s = false := by
  simp [passes_filter, hnp, hf]

/-- C8. Perf-filtering switch. (1) When `MIOPEN_DEBUG_AMD_ASM_KERNELS_PERF_FILTERING` is
disabled, two catalogs that differ only in the `IsFast` of their solvers give the same
result of `SearchForSolution`, in both branches, and of `SearchForAllSolutions`. (2) When it
is not disabled, a solver with `IsFast(ctx)` false is not passed to the find pipeline: the
loop body of each of the three loops leaves every variable and the call log as they are,
and the result and the call log of both functions are those of the catalog without that
solver. -/
theorem C8_perf_filtering_switch (env : Env) (ctx : ConvolutionContext) (r : DbRecord) :
    (env.no_perf_filtering = true → ∀ cat1 cat2 : List Solver,
      List.Forall₂ same_but_IsFast cat1 cat2 →
      SearchForSolution env cat1 ctx r = SearchForSolution env cat2 ctx r ∧
      ∀ ss, SearchForAllSolutions env cat1 ctx r ss = SearchForAllSolutions env cat2 ctx r ss) ∧
    (env.no_perf_filtering = false → ∀ s : Solver, s.IsFast ctx = false →
      (∀ st, SearchForSolution_timed_body env ctx s st = .ok st) ∧
      (∀ st, SearchForSolution_first_body env ctx s st = .ok st) ∧
      (∀ st, SearchForAllSolutions_body env ctx s st = .ok st) ∧
      ∀ pre post : List Solver,
        SearchForSolution_run env (pre ++ s :: post) ctx r =
          SearchForSolution_run env (pre ++ post) ctx r ∧
        ∀ ss, SearchForAllSolutions_run env (pre ++ s :: post) ctx r ss =
          SearchForAllSolutions_run env (pre ++ post) ctx r ss) := by
  constructor
  · intro hnp cat1 cat2 h
    constructor
    · simp only [SearchForSolution, SearchForSolution_run]
      rw [for_each_congr _ same_but_IsFast (timed_body_congr env hnp ctx) cat1 cat2 h,
        for_each_congr _ same_but_IsFast (first_body_congr env hnp ctx) cat1 cat2 h]
    · intro ss
      simp only [SearchForAllSolutions, SearchForAllSolutions_run]
      rw [for_each_congr _ same_but_IsFast (all_body_congr env hnp ctx) cat1 cat2 h]
  · intro hnp s hf
    have hp := passes_filter_not_fast env hnp ctx s hf
    have h1 := fun st => timed_body_skip env ctx s st hp
    have h2 := fun st => first_body_skip env ctx s st hp
    have h3 := fun st => all_body_skip env ctx s st hp
    refine ⟨h1, h2, h3, ?_⟩
    intro pre post
    constructor
    · simp only [SearchForSolution_run]
      rw [for_each_skip _ s h1 pre post, for_each_skip _ s h2 pre post]
    · intro ss
      simp only [SearchForAllSolutions_run]
      rw [for_each_skip _ s h3 pre post]

/-- C8, witness: with the filter on, the slow solver `Slow` in front of `A` changes neither
the result nor the call log. -/
theorem C8_perf_filtering_switch_witness :
    (plain_env true).no_perf_filtering = false ∧
    SearchForSolution_run (plain_env true)
      ([] ++ { non_timeable "Slow" with IsFast := fun _ => false } :: [non_timeable "A"])
      timed_context empty_record =
    SearchForSolution_run (plain_env true) ([] ++ [non_timeable "A"]) timed_context
      empty_record :=
  ⟨rfl,
   (((C8_perf_filtering_switch (plain_env true) timed_context empty_record).2 rfl
      { non_timeable "Slow" with IsFast := fun _ => false } rfl).2.2.2 [] [non_timeable "A"]).1⟩

/-! ## Claim C10: the persisted configuration -/

/-- C10. Find pipeline, persisted hit: for a searchable solver, when the enforce mode is
not clean, the load is not skipped, `Load` of the solver's db id from the record succeeds
with config `c` and `IsValidPerformanceConfig(ctx, c)` holds, `FindSolution` returns
`GetSolution(ctx, c)`, whatever `ctx.do_search` is; `Search` is not called and the record
is left as it was. -/
theorem C10_persisted_hit (enforce : FindEnforce) (s : Solver) (PC : Type)
    (ops : Searchable PC) (ctx : ConvolutionContext) (r : DbRecord) (c : PC)
    (hk : s.kind = .searchable PC ops)
    (hclean : enforce.IsDbClean ctx = false)
    (hload : ((ctx.do_search || enforce.IsSearch ctx) && enforce.IsDbUpdate ctx) = false)
    (hrec : r.Load s.db_id ops.Deserialize = some c)
    (hvalid : ops.IsValidPerformanceConfig ctx c = true) :
    (FindSolution enforce s ctx r).solution = ops.GetSolution ctx c ∧
    (FindSolution enforce s ctx r).dbRecord = r ∧
    ∀ e ∈ (FindSolution enforce s ctx r).trace, e.is_search = false := by
  have h : FindSolutionImpl_rank1 enforce ops s.db_id ctx r =
      { solution := ops.GetSolution ctx c
        dbRecord := r
        trace := [Event.Load s.db_id,
                  Event.IsValidPerformanceConfig s.db_id (ops.Serialize c),
                  Event.GetSolution s.db_id (some (ops.Serialize c))] } := by
    simp only [FindSolutionImpl_rank1, hclean, hload, hrec, hvalid]
    simp
  have hf : FindSolution enforce s ctx r =
      { solution := ops.GetSolution ctx c
        dbRecord := r
        trace := [Event.FindSolution s.db_id, Event.Load s.db_id,
                  Event.IsValidPerformanceConfig s.db_id (ops.Serialize c),
                  Event.GetSolution s.db_id (some (ops.Serialize c))] } := by
    simp only [FindSolution, hk, h]
  rw [hf]
  refine ⟨rfl, rfl, ?_⟩
  intro e he
  simp only [List.mem_cons, List.mem_singleton, List.not_mem_nil, or_false] at he
  casesm* _ ∨ _ <;> subst_vars <;> rfl

/-- C10, witness: a search is requested (`do_search` is true), the record holds the valid
config "tuned" for the solver `S`; the solution is the one built from "tuned". -/
theorem C10_persisted_hit_witness :
    tuning_context.do_search = true ∧
    (FindSolution (plain_env true).enforce (searchable_solver "S" "found" (fun t => (-2, t)))
      tuning_context { key := "k", map := [("S", "tuned")] }).solution =
      solution_named "tuned" :=
  ⟨rfl,
   (C10_persisted_hit (plain_env true).enforce
      (searchable_solver "S" "found" (fun t => (-2, t))) String
      { Serialize := fun c => c
        Deserialize := fun s => some s
        GetPerformanceConfig := fun _ => "default"
        IsValidPerformanceConfig := fun _ c => c != "bad"
        Search := fun _ => .ok "found"
        GetSolution := fun _ c => solution_named c }
      tuning_context { key := "k", map := [("S", "tuned")] } "tuned"
      rfl rfl rfl (by decide) (by decide)).1⟩

/-! ## Claim C9: a failed time measurement -/

theorem lookup_filter_self (m : List (String × String)) (id : String) :
    (m.filter (fun e => e.1 != id)).lookup id = none := by
  induction m with
  | nil => rfl
  | cons e m ih =>
    obtain ⟨k, v⟩ := e
    by_cases hk : k = id
    · subst hk
      simp [List.filter, ih]
    · have h1 : (k != id) = true := by simpa using hk
      have h2 : (id == k) = false := by simpa using fun h : id = k => hk h.symm
      simp only [List.filter, h1, List.lookup, h2]
      exact ih

theorem GetValues_SetValues_self (r : DbRecord) (id v : String) :
    (r.SetValues id v).GetValues id = some v := by
  simp [DbRecord.GetValues, DbRecord.SetValues, List.lookup]

theorem GetValues_Remove_self (r : DbRecord) (id : String) :
    (r.Remove id).2.GetValues id = none := by
  simp [DbRecord.GetValues, DbRecord.Remove, lookup_filter_self]

theorem agree_off_refl (id : String) (r : DbRecord) : agree_off id r r := fun _ _ => rfl

theorem agree_off_SetValues (id j v : String) (r1 r2 : DbRecord) (h : agree_off id r1 r2) :
    agree_off id (r1.SetValues j v) (r2.SetValues j v) := by
  intro k hk
  by_cases hkj : k = j
  · subst hkj
    rw [GetValues_SetValues_self, GetValues_SetValues_self]
  · rw [DbRecord.GetValues_SetValues_ne _ _ _ _ hkj, DbRecord.GetValues_SetValues_ne _ _ _ _ hkj]
    exact h k hk

theorem agree_off_Remove (id j : String) (r1 r2 : DbRecord) (h : agree_off id r1 r2) :
    agree_off id (r1.Remove j).2 (r2.Remove j).2 := by
  intro k hk
  by_cases hkj : k = j
  · subst hkj
    rw [GetValues_Remove_self, GetValues_Remove_self]
  · rw [DbRecord.GetValues_Remove_ne _ _ _ hkj, DbRecord.GetValues_Remove_ne _ _ _ hkj]
    exact h k hk

theorem agree_off_SetValues_self (id v : String) (r : DbRecord) :
    agree_off id (r.SetValues id v) r :=
  fun _ hk => DbRecord.GetValues_SetValues_ne _ _ _ _ hk

theorem agree_off_Remove_self (id : String) (r : DbRecord) :
    agree_off id (r.Remove id).2 r :=
  fun _ hk => DbRecord.GetValues_Remove_ne _ _ _ hk

theorem search_agree {PC : Type} (enforce : FindEnforce) (ops : Searchable PC)
    (id j : String) (ctx : ConvolutionContext) (r1 r2 : DbRecord) (t : List Event)
    (h : agree_off id r1 r2) :
    (FindSolutionImpl_search enforce ops j ctx r1 t).solution =
      (FindSolutionImpl_search enforce ops j ctx r2 t).solution ∧
    agree_off id (FindSolutionImpl_search enforce ops j ctx r1 t).dbRecord
      (FindSolutionImpl_search enforce ops j ctx r2 t).dbRecord := by
  simp only [FindSolutionImpl_search, FindSolutionImpl_default]
  split
  · split
    · exact ⟨rfl, agree_off_SetValues id j _ r1 r2 h⟩
    · exact ⟨rfl, h⟩
  · exact ⟨rfl, h⟩

theorem search_agree_self {PC : Type} (enforce : FindEnforce) (ops : Searchable PC)
    (id : String) (ctx : ConvolutionContext) (r : DbRecord) (t : List Event) :
    agree_off id (FindSolutionImpl_search enforce ops id ctx r t).dbRecord r := by
  simp only [FindSolutionImpl_search, FindSolutionImpl_default]
  split
  · split
    · exact agree_off_SetValues_self id _ r
    · exact agree_off_refl id r
  · exact agree_off_refl id r

theorem FindSolution_agree (enforce : FindEnforce) (s : Solver) (ctx : ConvolutionContext)
    (id : String) (r1 r2 : DbRecord) (hid : s.db_id ≠ id) (h : agree_off id r1 r2) :
    (FindSolution enforce s ctx r1).solution = (FindSolution enforce s ctx r2).solution ∧
    agree_off id (FindSolution enforce s ctx r1).dbRecord
      (FindSolution enforce s ctx r2).dbRecord := by
  simp only [FindSolution]
  cases hk : s.kind with
  | fixed g => exact ⟨rfl, h⟩
  | searchable PC ops =>
    simp only [FindSolutionImpl_rank1]
    have hload : r1.Load s.db_id ops.Deserialize = r2.Load s.db_id ops.Deserialize := by
      simp only [DbRecord.Load, h s.db_id hid]
    rw [hload]
    split
    · exact ⟨rfl, agree_off_Remove id s.db_id r1 r2 h⟩
    · split
      · exact search_agree enforce ops id s.db_id ctx r1 r2 _ h
      · split
        · split
          · exact ⟨rfl, h⟩
          · exact search_agree enforce ops id s.db_id ctx r1 r2 _ h
        · exact search_agree enforce ops id s.db_id ctx r1 r2 _ h

theorem FindSolution_agree_self (enforce : FindEnforce) (s : Solver)
    (ctx : ConvolutionContext) (r : DbRecord) :
    agree_off s.db_id (FindSolution enforce s ctx r).dbRecord r := by
  simp only [FindSolution]
  cases hk : s.kind with
  | fixed g => exact agree_off_refl _ r
  | searchable PC ops =>
    simp only [FindSolutionImpl_rank1]
    split
    · exact agree_off_Remove_self s.db_id r
    · split
      · exact search_agree_self enforce ops s.db_id ctx r _
      · split
        · split
          · exact agree_off_refl _ r
          · exact search_agree_self enforce ops s.db_id ctx r _
        · exact search_agree_self enforce ops s.db_id ctx r _

theorem timed_loop_agree (env : Env) (ctx : ConvolutionContext) (id : String)
    (post : List Solver) (hpost : ∀ y ∈ post, y.db_id ≠ id) (st1 st2 : TimedState)
    (hsel : st1.sel = st2.sel) (hrec : agree_off id st1.dbRecord st2.dbRecord) :
    match MIOPEN_STATIC_FOR_EACH (SearchForSolution_timed_body env ctx) post st1,
          MIOPEN_STATIC_FOR_EACH (SearchForSolution_timed_body env ctx) post st2 with
    | .ok a, .ok b => a.sel = b.sel
    | .error a, .error b => a.ex = b.ex
    | _, _ => False := by
  induction post generalizing st1 st2 with
  | nil => exact hsel
  | cons y rest ih =>
    have hy := hpost y (List.mem_cons_self _ _)
    have hrest : ∀ z ∈ rest, z.db_id ≠ id := fun z hz => hpost z (List.mem_cons_of_mem _ hz)
    by_cases hp : passes_filter env ctx y = true
    · obtain ⟨hsol, hag⟩ := FindSolution_agree env.enforce y ctx id _ _ hy hrec
      by_cases hi : ((FindSolution env.enforce y ctx st1.dbRecord).solution.internal_error
            && env.throw_debug) = true
      · have hi2 := hi
        rw [hsol] at hi2
        simp only [Bool.and_eq_true] at hi hi2
        simp only [MIOPEN_STATIC_FOR_EACH, timed_body_error env ctx y st1 hp hi.1 hi.2,
          timed_body_error env ctx y st2 hp hi2.1 hi2.2]
      · have hi1 : ((FindSolution env.enforce y ctx st1.dbRecord).solution.internal_error
            && env.throw_debug) = false := by simpa using hi
        have hi2 := hi1
        rw [hsol] at hi2
        obtain ⟨a, ha, hasel, harec⟩ := timed_body_ok_state env ctx y st1 hp hi1
        obtain ⟨b, hb, hbsel, hbrec⟩ := timed_body_ok_state env ctx y st2 hp hi2
        simp only [MIOPEN_STATIC_FOR_EACH, ha, hb]
        refine ih hrest a b ?_ ?_
        · rw [hasel, hbsel, hsol, hsel]
        · rw [harec, hbrec]
          exact hag
    · have hp1 : passes_filter env ctx y = false := by simpa using hp
      simp only [MIOPEN_STATIC_FOR_EACH, timed_body_skip env ctx y _ hp1]
      exact ih hrest st1 st2 hsel hrec

/-- C9 (as amended). Timing failure: in the timed branch, let `st` be the state in which
the loop reaches the solver `x`, and let `x` pass the filter, have a usable find-pipeline
solution and get from `RunAndMeasureSolution` a return code other than 0 and -2. Then
(1) the loop body leaves `solution`, `best_time` and `none_probing_failures_yet` as they
are and the iteration continues; (2) if no later solver of the catalog has the db id of
`x`, the result of `SearchForSolution` is the one obtained with `x` absent from the
catalog. -/
theorem C9_timing_failure (env : Env) (pre : List Solver) (x : Solver) (post : List Solver)
    (ctx : ConvolutionContext) (r : DbRecord) (st : TimedState)
    (hm : timed_mode ctx = true)
    (hpre : MIOPEN_STATIC_FOR_EACH (SearchForSolution_timed_body env ctx) pre
      { sel := initial_selection, dbRecord := r, trace := [] } = .ok st)
    (hp : passes_filter env ctx x = true)
    (hu : (FindSolution env.enforce x ctx st.dbRecord).solution.usable = true)
    (hrc0 : (x.RunAndMeasureSolution ctx (FindSolution env.enforce x ctx st.dbRecord).solution
      env.elapsed_time_init).1 ≠ 0)
    (hrc2 : (x.RunAndMeasureSolution ctx (FindSolution env.enforce x ctx st.dbRecord).solution
      env.elapsed_time_init).1 ≠ -2) :
    (∃ st1, SearchForSolution_timed_body env ctx x st = .ok st1 ∧ st1.sel = st.sel) ∧
    ((∀ y ∈ post, y.db_id ≠ x.db_id) →
      SearchForSolution env (pre ++ x :: post) ctx r =
        SearchForSolution env (pre ++ post) ctx r) := by
  have hne := ((usable_iff _).1 hu).2
  have hi : ((FindSolution env.enforce x ctx st.dbRecord).solution.internal_error
      && env.throw_debug) = false := by
    rw [not_internal_error_of_ne _ hne]
    rfl
  obtain ⟨st1, hb, hsel, hrec⟩ := timed_body_ok_state env ctx x st hp hi
  have hsel1 : st1.sel = st.sel := by
    rw [hsel]
    simp only [probe_of, hu, if_true, Option.elim]
    exact pick_failed _ _ hrc0 hrc2
  refine ⟨⟨st1, hb, hsel1⟩, ?_⟩
  intro hpost
  have hag : agree_off x.db_id st1.dbRecord st.dbRecord := by
    rw [hrec]
    exact FindSolution_agree_self env.enforce x ctx st.dbRecord
  have key := timed_loop_agree env ctx x.db_id post hpost st1 st hsel1 hag
  simp only [initial_selection] at hpre
  simp only [SearchForSolution, SearchForSolution_run, hm, if_true, for_each_append, hpre,
    MIOPEN_STATIC_FOR_EACH, hb]
  cases h1 : MIOPEN_STATIC_FOR_EACH (SearchForSolution_timed_body env ctx) post st1 with
  | ok a =>
    cases h2 : MIOPEN_STATIC_FOR_EACH (SearchForSolution_timed_body env ctx) post st with
    | ok b =>
      rw [h1, h2] at key
      simp only at key
      simp [key]
    | error b => rw [h1, h2] at key; exact key.elim
  | error a =>
    cases h2 : MIOPEN_STATIC_FOR_EACH (SearchForSolution_timed_body env ctx) post st with
    | ok b => rw [h1, h2] at key; exact key.elim
    | error b =>
      rw [h1, h2] at key
      simp only at key
      simp [key]

/-- C9, witness: `Broken` is measured with return code -1 between `TimedB` and `TimedC`;
the result is the one of the catalog without it. -/
theorem C9_timing_failure_witness :
    SearchForSolution (plain_env true)
      ([timed "TimedB" (.finite 5)] ++
        fixed_solver "Broken" (solution_named "Broken") (fun t => (-1, t)) ::
        [timed "TimedC" (.finite 3)]) timed_context empty_record =
    SearchForSolution (plain_env true)
      ([timed "TimedB" (.finite 5)] ++ [timed "TimedC" (.finite 3)]) timed_context
      empty_record :=
  (C9_timing_failure (plain_env true) [timed "TimedB" (.finite 5)]
    (fixed_solver "Broken" (solution_named "Broken") (fun t => (-1, t)))
    [timed "TimedC" (.finite 3)] timed_context empty_record
    { sel := { solution := solution_named "TimedB", best_time := .finite 5
               none_probing_failures_yet := true }
      dbRecord := empty_record
      trace := [Event.FindSolution "TimedB", Event.GetSolution "TimedB" none,
                Event.RunAndMeasureSolution "TimedB"] }
    (by decide) (by decide) (by decide) (by decide) (by decide) (by decide)).2 (by decide)

/-- C9, counterexample to the claim as stated: `X` and `Y` share the db id `S` and a search
is requested. `X` is measured with return code -1, but its search result stays in the
record, where `Y` loads it; without `X` in the catalog `Y` runs its own search, and the
solution returned differs. -/
theorem C9_counterexample :
    timed_mode tuning_context = true ∧
    probes (plain_env true) tuning_context
        [searchable_solver "S" "x" (fun t => (-1, t)),
         searchable_solver "S" "y" (fun _ => (0, .finite 1))] empty_record =
      [{ candidate := solution_named "x", rc := -1, elapsed_time := float.nan },
       { candidate := solution_named "x", rc := 0, elapsed_time := .finite 1 }] ∧
    SearchForSolution (plain_env true)
        [searchable_solver "S" "x" (fun t => (-1, t)),
         searchable_solver "S" "y" (fun _ => (0, .finite 1))] tuning_context empty_record =
      .ok (solution_named "x") ∧
    SearchForSolution (plain_env true) [searchable_solver "S" "y" (fun _ => (0, .finite 1))]
        tuning_context empty_record = .ok (solution_named "y") ∧
    solution_named "x" ≠ solution_named "y" := by
  decide

/-! ## Claims C11 to C17: the find pipeline -/

theorem FindSolution_searchable (enforce : FindEnforce) (s : Solver) (PC : Type)
    (ops : Searchable PC) (ctx : ConvolutionContext) (r : DbRecord)
    (hk : s.kind = .searchable PC ops) :
    FindSolution enforce s ctx r =
      { solution := (FindSolutionImpl_rank1 enforce ops s.db_id ctx r).solution
        dbRecord := (FindSolutionImpl_rank1 enforce ops s.db_id ctx r).dbRecord
        trace := Event.FindSolution s.db_id ::
          (FindSolutionImpl_rank1 enforce ops s.db_id ctx r).trace } := by
  simp only [FindSolution, hk]

theorem rank1_clean {PC : Type} (enforce : FindEnforce) (ops : Searchable PC) (id : String)
    (ctx : ConvolutionContext) (r : DbRecord) (hclean : enforce.IsDbClean ctx = true) :
    FindSolutionImpl_rank1 enforce ops id ctx r =
      { solution := default_solution ops ctx
        dbRecord := (r.Remove id).2
        trace := [Event.Remove id, Event.GetPerformanceConfig id,
                  Event.GetSolution id (some (ops.Serialize (ops.GetPerformanceConfig ctx)))] } := by
  simp [FindSolutionImpl_rank1, hclean, FindSolutionImpl_default, default_solution]

theorem search_ok {PC : Type} (enforce : FindEnforce) (ops : Searchable PC) (id : String)
    (ctx : ConvolutionContext) (r : DbRecord) (t : List Event) (c : PC)
    (hreq : search_requested enforce ctx = true) (hs : ops.Search ctx = .ok c) :
    FindSolutionImpl_search enforce ops id ctx r t =
      { solution := ops.GetSolution ctx c
        dbRecord := r.Store id ops.Serialize c
        trace := t ++ [Event.Search id, Event.Store id (ops.Serialize c),
                       Event.GetSolution id (some (ops.Serialize c))] } := by
  simp only [search_requested] at hreq
  simp [FindSolutionImpl_search, hreq, hs]

theorem search_raise {PC : Type} (enforce : FindEnforce) (ops : Searchable PC) (id : String)
    (ctx : ConvolutionContext) (r : DbRecord) (t : List Event) (e : Exception)
    (hreq : search_requested enforce ctx = true) (hs : ops.Search ctx = .error e) :
    FindSolutionImpl_search enforce ops id ctx r t =
      { solution := default_solution ops ctx
        dbRecord := r
        trace := t ++ [Event.Search id, Event.GetPerformanceConfig id,
                  Event.GetSolution id (some (ops.Serialize (ops.GetPerformanceConfig ctx)))] } := by
  simp only [search_requested] at hreq
  simp [FindSolutionImpl_search, hreq, hs, FindSolutionImpl_default, default_solution]

theorem search_not_requested {PC : Type} (enforce : FindEnforce) (ops : Searchable PC)
    (id : String) (ctx : ConvolutionContext) (r : DbRecord) (t : List Event)
    (hreq : search_requested enforce ctx = false) :
    FindSolutionImpl_search enforce ops id ctx r t =
      { solution := default_solution ops ctx
        dbRecord := r
        trace := t ++ [Event.GetPerformanceConfig id,
                  Event.GetSolution id (some (ops.Serialize (ops.GetPerformanceConfig ctx)))] } := by
  simp only [search_requested] at hreq
  simp [FindSolutionImpl_search, hreq, FindSolutionImpl_default, default_solution]

/-- What the load phase of `FindSolutionImpl(rank<1>, ...)` hands to the search phase when
the enforce mode is not clean and no valid persisted config is returned: the record is
passed on as it is, and the calls made so far are at most a `Load` and a validity check. -/
theorem rank1_no_valid {PC : Type} (enforce : FindEnforce) (ops : Searchable PC) (id : String)
    (ctx : ConvolutionContext) (r : DbRecord) (hclean : enforce.IsDbClean ctx = false)
    (hmiss : load_skipped enforce ctx = false →
      ∀ c0, r.Load id ops.Deserialize = some c0 → ops.IsValidPerformanceConfig ctx c0 = false) :
    ∃ t, FindSolutionImpl_rank1 enforce ops id ctx r =
        FindSolutionImpl_search enforce ops id ctx r t ∧
      (∀ e ∈ t, e.is_search = false ∧ e.is_store = false ∧ e.is_get_solution = false) ∧
      (load_skipped enforce ctx = true → t = []) ∧
      (load_skipped enforce ctx = false → Event.Load id ∈ t) := by
  simp only [load_skipped] at hmiss ⊢
  simp only [FindSolutionImpl_rank1, hclean]
  cases hskip : ((ctx.do_search || enforce.IsSearch ctx) && enforce.IsDbUpdate ctx) with
  | true => exact ⟨[], by simp, by simp, by simp, by simp⟩
  | false =>
    cases hl : r.Load id ops.Deserialize with
    | none =>
      refine ⟨[Event.Load id], by simp, ?_, by simp, by simp⟩
      intro e he
      simp only [List.mem_singleton] at he
      subst he
      exact ⟨rfl, rfl, rfl⟩
    | some c0 =>
      have hv := hmiss hskip c0 hl
      refine ⟨[Event.Load id, Event.IsValidPerformanceConfig id (ops.Serialize c0)],
        by simp [hv], ?_, by simp, by simp⟩
      intro e he
      simp only [List.mem_cons, List.mem_singleton, List.not_mem_nil, or_false] at he
      rcases he with rfl | rfl <;> exact ⟨rfl, rfl, rfl⟩

/-- C11 (as amended). Find pipeline, successful search: for a searchable solver, when the
enforce mode is not clean, no valid persisted config is returned (the load is skipped, or
fails, or gives a config that is not valid), a search is requested (`ctx.do_search` or
enforce search) and `Search(ctx)` returns the config `c`, `FindSolution` stores `c` in the
record under the db id of the solver and returns `GetSolution(ctx, c)`; afterwards the
entry of that id is the encoding of `c`, and loading that id from the record yields `c`
when the encoding of `c` decodes to `c`. -/
theorem C11_successful_search (enforce : FindEnforce) (s : Solver) (PC : Type)
    (ops : Searchable PC) (ctx : ConvolutionContext) (r : DbRecord) (c : PC)
    (hk : s.kind = .searchable PC ops)
    (hclean : enforce.IsDbClean ctx = false)
    (hmiss : load_skipped enforce ctx = false →
      ∀ c0, r.Load s.db_id ops.Deserialize = some c0 →
        ops.IsValidPerformanceConfig ctx c0 = false)
    (hreq : search_requested enforce ctx = true)
    (hsearch : ops.Search ctx = .ok c)
    (hcodec : ops.Deserialize (ops.Serialize c) = some c) :
    (FindSolution enforce s ctx r).solution = ops.GetSolution ctx c ∧
    (FindSolution enforce s ctx r).dbRecord = r.Store s.db_id ops.Serialize c ∧
    (FindSolution enforce s ctx r).dbRecord.GetValues s.db_id = some (ops.Serialize c) ∧
    (FindSolution enforce s ctx r).dbRecord.Load s.db_id ops.Deserialize = some c := by
  obtain ⟨t, ht, _⟩ := rank1_no_valid enforce ops s.db_id ctx r hclean hmiss
  rw [FindSolution_searchable enforce s PC ops ctx r hk, ht,
    search_ok enforce ops s.db_id ctx r t c hreq hsearch]
  refine ⟨rfl, rfl, ?_, ?_⟩
  · exact GetValues_SetValues_self r s.db_id _
  · simp only [DbRecord.Load, DbRecord.Store, GetValues_SetValues_self, Option.some_bind, hcodec]

/-- C11, witness: a search is requested, the record holds the invalid config "bad" for
`S`, and `Search` finds "found". -/
theorem C11_successful_search_witness :
    (FindSolution (plain_env true).enforce (searchable_solver "S" "found" (fun t => (-2, t)))
      tuning_context (tuned_record "bad")).solution = solution_named "found" ∧
    (FindSolution (plain_env true).enforce (searchable_solver "S" "found" (fun t => (-2, t)))
      tuning_context (tuned_record "bad")).dbRecord.GetValues "S" = some "found" :=
  have h := C11_successful_search (plain_env true).enforce
    (searchable_solver "S" "found" (fun t => (-2, t))) String (searchable_ops (.ok "found"))
    tuning_context (tuned_record "bad") "found" rfl rfl
    (fun _ c0 h0 => by
      have h1 : some "bad" = some c0 := h0
      cases h1
      decide)
    (by decide) rfl rfl
  ⟨h.1, h.2.2.1⟩

/-- C11, counterexample to the claim as stated: the enforce mode is clean; no persisted
config is returned, `ctx.do_search` is true and `Search(ctx)` would return "found", and yet
`FindSolution` returns the solution of the default config and stores nothing. -/
theorem C11_counterexample :
    tuning_context.do_search = true ∧
    (searchable_ops (.ok "found")).Search tuning_context = .ok "found" ∧
    (FindSolution clean_enforce (searchable_solver "S" "found" (fun t => (-2, t)))
      tuning_context empty_record).solution = solution_named "default" ∧
    solution_named "default" ≠ solution_named "found" ∧
    (FindSolution clean_enforce (searchable_solver "S" "found" (fun t => (-2, t)))
      tuning_context empty_record).dbRecord.GetValues "S" = none := by
  decide

/-- The calls of `FindSolutionImpl(rank<1>, ...)` contain a `Search` only when the enforce
mode is not clean, no valid persisted config is returned and a search is requested. -/
theorem rank1_search_called {PC : Type} (enforce : FindEnforce) (ops : Searchable PC)
    (id : String) (ctx : ConvolutionContext) (r : DbRecord)
    (h : ∃ e ∈ (FindSolutionImpl_rank1 enforce ops id ctx r).trace, e.is_search = true) :
    enforce.IsDbClean ctx = false ∧ search_requested enforce ctx = true ∧
    (load_skipped enforce ctx = false →
      ∀ c0, r.Load id ops.Deserialize = some c0 →
        ops.IsValidPerformanceConfig ctx c0 = false) := by
  obtain ⟨e, he, hs⟩ := h
  cases hclean : enforce.IsDbClean ctx with
  | true =>
    rw [rank1_clean enforce ops id ctx r hclean] at he
    simp only [List.mem_cons, List.mem_singleton, List.not_mem_nil, or_false] at he
    rcases he with rfl | rfl | rfl <;> cases hs
  | false =>
    cases hreq : search_requested enforce ctx with
    | false =>
      exfalso
      have hskip : ((ctx.do_search || enforce.IsSearch ctx) && enforce.IsDbUpdate ctx)
          = false := by
        simp only [search_requested] at hreq
        simp [hreq]
      simp only [FindSolutionImpl_rank1, hclean, hskip, Bool.false_eq_true, if_false] at he
      cases hl : r.Load id ops.Deserialize with
      | none =>
        simp only [hl, search_not_requested enforce ops id ctx r _ hreq] at he
        simp only [List.mem_cons, List.mem_append, List.mem_singleton, List.not_mem_nil,
          or_false, false_or] at he
        casesm* _ ∨ _ <;> subst_vars <;> cases hs
      | some c0 =>
        simp only [hl] at he
        cases hv : ops.IsValidPerformanceConfig ctx c0 with
        | true =>
          simp only [hv, if_true] at he
          simp only [List.mem_cons, List.mem_singleton, List.not_mem_nil, or_false] at he
          casesm* _ ∨ _ <;> subst_vars <;> cases hs
        | false =>
          simp only [hv, search_not_requested enforce ops id ctx r _ hreq, Bool.false_eq_true,
            if_false] at he
          simp only [List.mem_cons, List.mem_append, List.mem_singleton, List.not_mem_nil,
            or_false, false_or] at he
          casesm* _ ∨ _ <;> subst_vars <;> cases hs
    | true =>
      refine ⟨rfl, rfl, ?_⟩
      intro hskip c0 hl
      cases hv : ops.IsValidPerformanceConfig ctx c0 with
      | false => rfl
      | true =>
        exfalso
        simp only [load_skipped] at hskip
        simp only [FindSolutionImpl_rank1, hclean, hskip, hl, hv, if_true, Bool.false_eq_true,
          if_false] at he
        simp only [List.mem_cons, List.mem_singleton, List.not_mem_nil, or_false] at he
        casesm* _ ∨ _ <;> subst_vars <;> cases hs

/-- C12. Find pipeline, failed search: for a searchable solver, if `Search(ctx)` is called
and raises a `miopen::Exception`, `FindSolution` does not propagate it: it returns
`GetSolution(ctx, GetPerformanceConfig(ctx))`, makes no `Store`, and the record is as it was
before the call. -/
theorem C12_failed_search (enforce : FindEnforce) (s : Solver) (PC : Type)
    (ops : Searchable PC) (ctx : ConvolutionContext) (r : DbRecord) (ex : Exception)
    (hk : s.kind = .searchable PC ops)
    (hcalled : ∃ e ∈ (FindSolution enforce s ctx r).trace, e.is_search = true)
    (hraise : ops.Search ctx = .error ex) :
    (FindSolution enforce s ctx r).solution =
      ops.GetSolution ctx (ops.GetPerformanceConfig ctx) ∧
    (FindSolution enforce s ctx r).dbRecord = r ∧
    ∀ e ∈ (FindSolution enforce s ctx r).trace, e.is_store = false := by
  rw [FindSolution_searchable enforce s PC ops ctx r hk] at hcalled ⊢
  have hcalled1 : ∃ e ∈ (FindSolutionImpl_rank1 enforce ops s.db_id ctx r).trace,
      e.is_search = true := by
    obtain ⟨e, he, hs⟩ := hcalled
    simp only [List.mem_cons] at he
    rcases he with rfl | he
    · cases hs
    · exact ⟨e, he, hs⟩
  obtain ⟨hclean, hreq, hmiss⟩ := rank1_search_called enforce ops s.db_id ctx r hcalled1
  obtain ⟨t, ht, htr, _⟩ := rank1_no_valid enforce ops s.db_id ctx r hclean hmiss
  rw [ht, search_raise enforce ops s.db_id ctx r t ex hreq hraise]
  refine ⟨rfl, rfl, ?_⟩
  intro e he
  simp only [List.mem_cons, List.mem_append, List.mem_singleton, List.not_mem_nil,
    or_false] at he
  rcases he with rfl | he | rfl | rfl | rfl
  · rfl
  · exact (htr e he).2.1
  · rfl
  · rfl
  · rfl

/-- C12, witness: a search is requested, the record has no entry for `S` and `Search`
throws; the solution is the one of the default config and the record is unchanged. -/
theorem C12_failed_search_witness :
    (FindSolution (plain_env true).enforce (search_failing_solver "S") tuning_context
      empty_record).solution = solution_named "default" ∧
    (FindSolution (plain_env true).enforce (search_failing_solver "S") tuning_context
      empty_record).dbRecord = empty_record :=
  have h := C12_failed_search (plain_env true).enforce (search_failing_solver "S") String
    (searchable_ops (.error (MIOPEN_THROW "Search failed"))) tuning_context empty_record
    (MIOPEN_THROW "Search failed") rfl ⟨Event.Search "S", by decide, rfl⟩ rfl
  ⟨h.1, h.2.1⟩

/-- C14. Find pipeline, clean enforcement: for a searchable solver, when the enforce mode
is clean, `FindSolution` removes the entry of the db id of the solver from the record and
leaves the key and the entries of the other ids as they are, makes no `Load` and no
`Search`, whatever `ctx.do_search` is, and returns
`GetSolution(ctx, GetPerformanceConfig(ctx))`. -/
theorem C14_clean_enforcement (enforce : FindEnforce) (s : Solver) (PC : Type)
    (ops : Searchable PC) (ctx : ConvolutionContext) (r : DbRecord)
    (hk : s.kind = .searchable PC ops) (hclean : enforce.IsDbClean ctx = true) :
    (FindSolution enforce s ctx r).solution =
      ops.GetSolution ctx (ops.GetPerformanceConfig ctx) ∧
    (FindSolution enforce s ctx r).dbRecord.GetValues s.db_id = none ∧
    (∀ j, j ≠ s.db_id → (FindSolution enforce s ctx r).dbRecord.GetValues j = r.GetValues j) ∧
    (FindSolution enforce s ctx r).dbRecord.map = r.map.filter (fun e => e.1 != s.db_id) ∧
    (FindSolution enforce s ctx r).dbRecord.key = r.key ∧
    ∀ e ∈ (FindSolution enforce s ctx r).trace, e.is_load = false ∧ e.is_search = false := by
  rw [FindSolution_searchable enforce s PC ops ctx r hk,
    rank1_clean enforce ops s.db_id ctx r hclean]
  refine ⟨rfl, GetValues_Remove_self r s.db_id,
    fun j hj => DbRecord.GetValues_Remove_ne r s.db_id j hj, rfl, rfl, ?_⟩
  intro e he
  simp only [List.mem_cons, List.mem_singleton, List.not_mem_nil, or_false] at he
  casesm* _ ∨ _ <;> subst_vars <;> exact ⟨rfl, rfl⟩

/-- C14, witness: the enforce mode is clean and `ctx.do_search` is true; the entry of `S`
is removed, the entry of `T` stays, and the solution is the one of the default config. -/
theorem C14_clean_enforcement_witness :
    tuning_context.do_search = true ∧
    (FindSolution clean_enforce (searchable_solver "S" "found" (fun t => (-2, t)))
      tuning_context (tuned_record "tuned")) =
      { solution := solution_named "default"
        dbRecord := { key := "k", map := [("T", "other")] }
        trace := [Event.FindSolution "S", Event.Remove "S", Event.GetPerformanceConfig "S",
                  Event.GetSolution "S" (some "default")] } ∧
    (FindSolution clean_enforce (searchable_solver "S" "found" (fun t => (-2, t)))
      tuning_context (tuned_record "tuned")).solution = solution_named "default" :=
  ⟨rfl, by decide,
   (C14_clean_enforcement clean_enforce (searchable_solver "S" "found" (fun t => (-2, t)))
      String (searchable_ops (.ok "found")) tuning_context (tuned_record "tuned") rfl rfl).1⟩

theorem rank1_solution_some {PC : Type} (enforce : FindEnforce) (ops : Searchable PC)
    (id : String) (ctx : ConvolutionContext) (r : DbRecord) :
    ∃ c, (FindSolutionImpl_rank1 enforce ops id ctx r).solution = ops.GetSolution ctx c := by
  simp only [FindSolutionImpl_rank1, FindSolutionImpl_search, FindSolutionImpl_default]
  repeat' split
  all_goals exact ⟨_, rfl⟩

/-- C15. Find pipeline, no tuning requested: for a searchable solver, when the enforce mode
is not clean, neither `ctx.do_search` nor enforce search is set, and the record has no
valid config for the db id of the solver (the load fails or gives a config that is not
valid), `FindSolution` returns `GetSolution(ctx, GetPerformanceConfig(ctx))`, does not call
`Search` and leaves the record unchanged. And for every enforce mode, context and record
`FindSolution` returns a solution: the one `GetSolution` builds from some config. -/
theorem C15_no_tuning_requested (enforce : FindEnforce) (s : Solver) (PC : Type)
    (ops : Searchable PC) (ctx : ConvolutionContext) (r : DbRecord)
    (hk : s.kind = .searchable PC ops)
    (hclean : enforce.IsDbClean ctx = false)
    (hds : ctx.do_search = false) (hes : enforce.IsSearch ctx = false)
    (hnovalid : ∀ c0, r.Load s.db_id ops.Deserialize = some c0 →
      ops.IsValidPerformanceConfig ctx c0 = false) :
    (FindSolution enforce s ctx r).solution =
      ops.GetSolution ctx (ops.GetPerformanceConfig ctx) ∧
    (∀ e ∈ (FindSolution enforce s ctx r).trace, e.is_search = false) ∧
    (FindSolution enforce s ctx r).dbRecord = r ∧
    ∀ (enforce1 : FindEnforce) (ctx1 : ConvolutionContext) (r1 : DbRecord),
      ∃ c, (FindSolution enforce1 s ctx1 r1).solution = ops.GetSolution ctx1 c := by
  have hreq : search_requested enforce ctx = false := by simp [search_requested, hds, hes]
  obtain ⟨t, ht, htr, _⟩ := rank1_no_valid enforce ops s.db_id ctx r hclean
    (fun _ => hnovalid)
  refine ⟨?_, ?_, ?_, ?_⟩
  · rw [FindSolution_searchable enforce s PC ops ctx r hk, ht,
      search_not_requested enforce ops s.db_id ctx r t hreq]
    rfl
  · rw [FindSolution_searchable enforce s PC ops ctx r hk, ht,
      search_not_requested enforce ops s.db_id ctx r t hreq]
    intro e he
    simp only [List.mem_cons, List.mem_append, List.mem_singleton, List.not_mem_nil,
      or_false] at he
    rcases he with rfl | he | rfl | rfl
    · rfl
    · exact (htr e he).1
    · rfl
    · rfl
  · rw [FindSolution_searchable enforce s PC ops ctx r hk, ht,
      search_not_requested enforce ops s.db_id ctx r t hreq]
  · intro enforce1 ctx1 r1
    rw [FindSolution_searchable enforce1 s PC ops ctx1 r1 hk]
    exact rank1_solution_some enforce1 ops s.db_id ctx1 r1

/-- C15, witness: no search is requested and the record holds the invalid config "bad". -/
theorem C15_no_tuning_requested_witness :
    (FindSolution (plain_env true).enforce (searchable_solver "S" "found" (fun t => (-2, t)))
      timed_context (tuned_record "bad")).solution = solution_named "default" ∧
    (FindSolution (plain_env true).enforce (searchable_solver "S" "found" (fun t => (-2, t)))
      timed_context (tuned_record "bad")).dbRecord = tuned_record "bad" :=
  have h := C15_no_tuning_requested (plain_env true).enforce
    (searchable_solver "S" "found" (fun t => (-2, t))) String (searchable_ops (.ok "found"))
    timed_context (tuned_record "bad") rfl rfl rfl rfl
    (fun c0 h0 => by
      have h1 : some "bad" = some c0 := h0
      cases h1
      decide)
  ⟨h.1, h.2.2.1⟩

/-- C16. Find pipeline, non-searchable solver: for a solver that has no `Search` (only
`GetSolution(ctx)`), whatever the enforce mode, `ctx.do_search` and the record are,
`FindSolution` returns exactly `GetSolution(ctx)`, leaves the record as it is and makes no
`Load`, `Store` or `Remove`: its only call is `GetSolution(ctx)`, and the solution is the
same for every other record. -/
theorem C16_non_searchable_solver (enforce : FindEnforce) (s : Solver)
    (GetSolution : ConvolutionContext → ConvSolution) (ctx : ConvolutionContext)
    (r : DbRecord) (hk : s.kind = .fixed GetSolution) :
    (FindSolution enforce s ctx r).solution = GetSolution ctx ∧
    (FindSolution enforce s ctx r).dbRecord = r ∧
    (FindSolution enforce s ctx r).trace =
      [Event.FindSolution s.db_id, Event.GetSolution s.db_id none] ∧
    (∀ e ∈ (FindSolution enforce s ctx r).trace, e.is_record_access = false) ∧
    ∀ (enforce1 : FindEnforce) (r1 : DbRecord),
      (FindSolution enforce1 s ctx r1).solution = (FindSolution enforce s ctx r).solution := by
  have h : ∀ (enforce1 : FindEnforce) (r1 : DbRecord), FindSolution enforce1 s ctx r1 =
      { solution := GetSolution ctx, dbRecord := r1
        trace := [Event.FindSolution s.db_id, Event.GetSolution s.db_id none] } := by
    intro enforce1 r1
    simp only [FindSolution, hk, FindSolutionImpl_rank0]
  rw [h enforce r]
  refine ⟨rfl, rfl, rfl, ?_, fun enforce1 r1 => by rw [h enforce1 r1]⟩
  intro e he
  simp only [List.mem_cons, List.mem_singleton, List.not_mem_nil, or_false] at he
  rcases he with rfl | rfl <;> rfl

/-- C16, witness: a solver without `Search`, the clean enforce mode, a search requested. -/
theorem C16_non_searchable_solver_witness :
    (FindSolution clean_enforce (non_timeable "A") tuning_context
      (tuned_record "tuned")).solution = solution_named "A" ∧
    (FindSolution clean_enforce (non_timeable "A") tuning_context
      (tuned_record "tuned")).dbRecord = tuned_record "tuned" :=
  have h := C16_non_searchable_solver clean_enforce (non_timeable "A")
    (fun _ => solution_named "A") tuning_context (tuned_record "tuned") rfl
  ⟨h.1, h.2.1⟩

/-- C17. Find pipeline, skipped load: for a searchable solver with the enforce mode not
clean, `Load` is not called exactly when a search is requested (`ctx.do_search` or enforce
search) and the enforce mode requests a db update, and it is called in every other
non-clean case; when it is not called and `Search` succeeds with `c`, the solution is
`GetSolution(ctx, c)` and the entry of the db id of the solver becomes the encoding of `c`,
whatever the record held before. -/
theorem C17_skipped_load (enforce : FindEnforce) (s : Solver) (PC : Type)
    (ops : Searchable PC) (ctx : ConvolutionContext) (r : DbRecord)
    (hk : s.kind = .searchable PC ops) (hclean : enforce.IsDbClean ctx = false) :
    ((∀ e ∈ (FindSolution enforce s ctx r).trace, e.is_load = false) ↔
      ((ctx.do_search || enforce.IsSearch ctx) && enforce.IsDbUpdate ctx) = true) ∧
    (((ctx.do_search || enforce.IsSearch ctx) && enforce.IsDbUpdate ctx) = false →
      Event.Load s.db_id ∈ (FindSolution enforce s ctx r).trace) ∧
    (((ctx.do_search || enforce.IsSearch ctx) && enforce.IsDbUpdate ctx) = true →
      ∀ c, ops.Search ctx = .ok c →
        (FindSolution enforce s ctx r).solution = ops.GetSolution ctx c ∧
        (FindSolution enforce s ctx r).dbRecord = r.Store s.db_id ops.Serialize c ∧
        (FindSolution enforce s ctx r).dbRecord.GetValues s.db_id =
          some (ops.Serialize c)) := by
  rw [FindSolution_searchable enforce s PC ops ctx r hk]
  cases hskip : ((ctx.do_search || enforce.IsSearch ctx) && enforce.IsDbUpdate ctx) with
  | true =>
    have hreq : search_requested enforce ctx = true := by
      simp only [Bool.and_eq_true] at hskip
      exact hskip.1
    obtain ⟨t, ht, _, hnil, _⟩ := rank1_no_valid enforce ops s.db_id ctx r hclean
      (fun h => by rw [load_skipped, hskip] at h; cases h)
    have htnil := hnil hskip
    subst htnil
    rw [ht]
    refine ⟨⟨fun _ => rfl, fun _ => ?_⟩, (fun h => by cases h), ?_⟩
    · intro e he
      simp only [FindSolutionImpl_search, FindSolutionImpl_default] at he
      simp only [search_requested] at hreq
      simp only [hreq, if_true] at he
      split at he
      all_goals
        simp only [List.mem_cons, List.mem_append, List.mem_singleton, List.not_mem_nil,
          or_false, false_or] at he
        casesm* _ ∨ _ <;> subst_vars <;> rfl
    · intro _ c hc
      rw [search_ok enforce ops s.db_id ctx r [] c hreq hc]
      exact ⟨rfl, rfl, GetValues_SetValues_self r s.db_id _⟩
  | false =>
    have hmem : Event.Load s.db_id ∈ (FindSolutionImpl_rank1 enforce ops s.db_id ctx r).trace := by
      simp only [FindSolutionImpl_rank1, hclean, hskip, Bool.false_eq_true, if_false,
        FindSolutionImpl_search, FindSolutionImpl_default]
      repeat' split
      all_goals simp
    refine ⟨⟨fun h => ?_, (fun h => by cases h)⟩, fun _ => List.mem_cons_of_mem _ hmem,
      (fun h => by cases h)⟩
    have := h _ (List.mem_cons_of_mem _ hmem)
    cases this

/-- C17, witness: the enforce mode requests a search and a db update; the record holds the
valid config "tuned", which is not loaded: the search result replaces it. -/
theorem C17_skipped_load_witness :
    (FindSolution search_update_enforce (searchable_solver "S" "found" (fun t => (-2, t)))
      timed_context (tuned_record "tuned")).solution = solution_named "found" ∧
    (FindSolution search_update_enforce (searchable_solver "S" "found" (fun t => (-2, t)))
      timed_context (tuned_record "tuned")).dbRecord.GetValues "S" = some "found" :=
  have h := (C17_skipped_load search_update_enforce
    (searchable_solver "S" "found" (fun t => (-2, t))) String (searchable_ops (.ok "found"))
    timed_context (tuned_record "tuned") rfl rfl).2.2 rfl "found" rfl
  ⟨h.1, h.2.2⟩

/-! ## Claims C18 and C19: the default db id and the defaults of `SolverBase` -/

theorem last_index_none (c : Char) (l : List Char) :
    last_index c l = none ↔ c ∉ l := by
  induction l with
  | nil => simp [last_index]
  | cons x xs ih =>
    simp only [last_index]
    cases h : last_index c xs with
    | some k =>
      have : ¬ c ∉ xs := fun hn => by rw [ih.2 hn] at h; cases h
      simp only [List.mem_cons, not_or]
      constructor
      · intro h0; cases h0
      · intro h0; exact (this h0.2).elim
    | none =>
      have hc := ih.1 h
      by_cases hx : x = c
      · subst hx
        simp
      · simp only [hx, if_false, List.mem_cons, not_or, true_iff]
        exact ⟨fun h0 => hx h0.symm, hc⟩

theorem last_index_some (c : Char) (l : List Char) (k : Nat) (h : last_index c l = some k) :
    k < l.length ∧ l = l.take k ++ c :: l.drop (k + 1) ∧ c ∉ l.drop (k + 1) := by
  induction l generalizing k with
  | nil => simp [last_index] at h
  | cons x xs ih =>
    simp only [last_index] at h
    cases h1 : last_index c xs with
    | some j =>
      rw [h1] at h
      cases h
      obtain ⟨h2, h3, h4⟩ := ih j h1
      refine ⟨by simp only [List.length_cons]; omega, ?_, ?_⟩
      · simp only [List.take_succ_cons, List.drop_succ_cons, List.cons_append]
        rw [← h3]
      · simpa using h4
    | none =>
      rw [h1] at h
      by_cases hx : x = c
      · subst hx
        simp only [if_true] at h
        cases h
        refine ⟨by simp, by simp, ?_⟩
        simpa using (last_index_none x xs).1 h1
      · simp [hx] at h

/-- C18. Default solver db id: for every type name `n` (a `std::string`, so shorter than
`npos`), `ComputeSolverDbId` returns, without throwing, the part of `n` after its last ':':
the result contains no ':'; when `n` contains a ':', `n` is a prefix that ends in ':'
followed by the result; when `n` contains no ':', the result is `n`; and
"miopen::solver::ConvAsm3x3U" gives "ConvAsm3x3U". -/
theorem C18_default_solver_db_id (n : String) (hlen : n.data.length < npos) :
    ∃ res, ComputeSolverDbId n = some res ∧
      ':' ∉ res.data ∧
      (':' ∈ n.data → ∃ pre : List Char, n.data = pre ++ ':' :: res.data) ∧
      (':' ∉ n.data → res = n) ∧
      ComputeSolverDbId "miopen::solver::ConvAsm3x3U" = some "ConvAsm3x3U" := by
  cases h : last_index ':' n.data with
  | none =>
    have hno := (last_index_none ':' n.data).1 h
    refine ⟨n, ?_, hno, fun hm => (hno hm).elim, fun _ => rfl, by decide⟩
    simp [ComputeSolverDbId, find_last_of, h, npos, substr]
  | some k =>
    obtain ⟨h1, h2, h3⟩ := last_index_some ':' n.data k h
    have hk : (k + 1) % 2 ^ 64 = k + 1 := by
      apply Nat.mod_eq_of_lt
      simp only [npos] at hlen
      omega
    refine ⟨⟨n.data.drop (k + 1)⟩, ?_, h3, fun _ => ⟨n.data.take k, h2⟩, ?_, by decide⟩
    · simp only [ComputeSolverDbId, find_last_of, h, Option.getD_some, hk, substr]
      rw [if_pos (by omega)]
    · intro hno
      rw [(last_index_none ':' n.data).2 hno] at h
      cases h

/-- C18, witness: the type name of the claim. -/
theorem C18_default_solver_db_id_witness :
    ∃ res, ComputeSolverDbId "miopen::solver::ConvAsm3x3U" = some res ∧ ':' ∉ res.data :=
  (C18_default_solver_db_id "miopen::solver::ConvAsm3x3U" (by decide)).imp
    (fun _ h => ⟨h.1, h.2.1⟩)

/-- C19. Solver defaults: for every context `SolverBase::IsApplicable` and
`SolverBase::IsFast` return true and `SolverBase::RunAndMeasureSolution` returns -2 and
leaves the elapsed-time output as it was; `IsValidPerformanceConfig` of
`ConvOclDirectFwdLegacyExhaustiveSearch` returns true for every config. Consequently a
solver that overrides none of the first three passes the filter of the timed branch in
every context, whatever the state of the performance filter, and every measurement of a
candidate of it is a non-timeable one (return code -2, handled by `case -2`). -/
theorem C19_solver_defaults :
    (∀ ctx, SolverBase.IsApplicable ctx = true) ∧
    (∀ ctx, SolverBase.IsFast ctx = true) ∧
    (∀ ctx sol elapsed_time,
      SolverBase.RunAndMeasureSolution ctx sol elapsed_time = (-2, elapsed_time)) ∧
    (∀ (LegacyPerformanceConfig : Type) ctx (c : LegacyPerformanceConfig),
      ConvOclDirectFwdLegacyExhaustiveSearch.IsValidPerformanceConfig ctx c = true) ∧
    (∀ (env : Env) (ctx : ConvolutionContext) (db_id : String) (kind : SolverKind),
      passes_filter env ctx (SolverBase.derived db_id kind) = true ∧
      (∀ sol, sol.usable = true →
        probe_of env ctx (SolverBase.derived db_id kind, sol) =
          some { candidate := sol, rc := -2, elapsed_time := env.elapsed_time_init }) ∧
      ∀ sol (sel : Selection),
        SearchForSolution_switch
          ((SolverBase.derived db_id kind).RunAndMeasureSolution ctx sol
            env.elapsed_time_init).1
          ((SolverBase.derived db_id kind).RunAndMeasureSolution ctx sol
            env.elapsed_time_init).2 sol sel =
        if sel.none_probing_failures_yet then
          if float.ge sel.best_time FLT_MAX then
            { sel with none_probing_failures_yet := false, solution := sol }
          else { sel with none_probing_failures_yet := false }
        else sel) := by
  refine ⟨fun _ => rfl, fun _ => rfl, fun _ _ _ => rfl, fun _ _ _ => rfl, ?_⟩
  intro env ctx db_id kind
  refine ⟨?_, ?_, ?_⟩
  · simp [passes_filter, SolverBase.derived, SolverBase.IsApplicable, SolverBase.IsFast]
  · intro sol hu
    simp [probe_of, hu, SolverBase.derived, SolverBase.RunAndMeasureSolution]
  · intro sol sel
    simp [SearchForSolution_switch, SolverBase.derived, SolverBase.RunAndMeasureSolution]

end solver

/-! ## Claim C20: write and read of the performance database -/

theorem split_first_append (c : Char) (a b : List Char) (h : c ∉ a) :
    split_first c (a ++ c :: b) = some (a, b) := by
  induction a with
  | nil => simp [split_first]
  | cons x xs ih =>
    have hx : x ≠ c := fun e => h (by simp [e])
    have hxs : c ∉ xs := fun e => h (List.mem_cons_of_mem _ e)
    simp [split_first, hx, ih hxs]

theorem split_first_some (c : Char) (l a b : List Char) (h : split_first c l = some (a, b)) :
    c ∉ a ∧ l = a ++ c :: b := by
  induction l generalizing a with
  | nil => simp [split_first] at h
  | cons x xs ih =>
    simp only [split_first] at h
    by_cases hx : x = c
    · simp only [hx, if_true, Option.some.injEq, Prod.mk.injEq] at h
      obtain ⟨rfl, rfl⟩ := h
      simp [hx]
    · simp only [hx, if_false] at h
      cases hs : split_first c xs with
      | none => simp [hs] at h
      | some p =>
        obtain ⟨p1, p2⟩ := p
        simp only [hs, Option.some.injEq, Prod.mk.injEq] at h
        obtain ⟨rfl, rfl⟩ := h
        obtain ⟨h1, h2⟩ := ih p1 hs
        refine ⟨?_, by simp [h2]⟩
        simp only [List.mem_cons, not_or]
        exact ⟨fun e => hx e.symm, h1⟩

theorem split_all_ne_nil (c : Char) (l : List Char) : split_all c l ≠ [] := by
  induction l with
  | nil => simp [split_all]
  | cons x xs ih =>
    simp only [split_all]
    split
    · simp
    · split <;> simp

theorem split_all_not_mem (c : Char) (l : List Char) (h : c ∉ l) : split_all c l = [l] := by
  induction l with
  | nil => rfl
  | cons x xs ih =>
    have hx : x ≠ c := fun e => h (by simp [e])
    have hxs : c ∉ xs := fun e => h (List.mem_cons_of_mem _ e)
    simp [split_all, hx, ih hxs]

theorem split_all_append (c : Char) (a b : List Char) (h : c ∉ a) :
    split_all c (a ++ c :: b) = a :: split_all c b := by
  induction a with
  | nil => simp [split_all]
  | cons x xs ih =>
    have hx : x ≠ c := fun e => h (by simp [e])
    have hxs : c ∉ xs := fun e => h (List.mem_cons_of_mem _ e)
    simp [split_all, hx, ih hxs]

theorem split_all_join (c : Char) (ps : List (List Char)) (hne : ps ≠ [])
    (h : ∀ p ∈ ps, c ∉ p) : split_all c (join_with c ps) = ps := by
  induction ps with
  | nil => exact absurd rfl hne
  | cons p rest ih =>
    cases rest with
    | nil => simpa [join_with] using split_all_not_mem c p (h p (by simp))
    | cons q rest =>
      simp only [join_with]
      rw [split_all_append c p _ (h p (by simp)), ih (by simp)
        (fun x hx => h x (List.mem_cons_of_mem _ hx))]

theorem split_all_pieces (c : Char) (l : List Char) : ∀ p ∈ split_all c l, c ∉ p := by
  induction l with
  | nil => simp [split_all]
  | cons x xs ih =>
    simp only [split_all]
    by_cases hx : x = c
    · simp only [hx, if_true, List.mem_cons]
      rintro p (rfl | hp)
      · simp
      · exact ih p hp
    · simp only [hx, if_false]
      cases hs : split_all c xs with
      | nil => exact absurd hs (split_all_ne_nil c xs)
      | cons h t =>
        rw [hs] at ih
        simp only [List.mem_cons]
        rintro p (rfl | hp)
        · simp only [List.mem_cons, not_or]
          exact ⟨fun e => hx e.symm, ih h (by simp)⟩
        · exact ih p (by simp [hp])

theorem split_all_other (c d : Char) (l : List Char) (hd : d ∉ l) :
    ∀ p ∈ split_all c l, d ∉ p := by
  induction l with
  | nil => simp [split_all]
  | cons x xs ih =>
    have hx : d ≠ x := fun e => hd (by simp [e])
    have hxs : d ∉ xs := fun e => hd (List.mem_cons_of_mem _ e)
    simp only [split_all]
    by_cases hxc : x = c
    · simp only [hxc, if_true, List.mem_cons]
      rintro p (rfl | hp)
      · simp
      · exact ih hxs p hp
    · simp only [hxc, if_false]
      cases hs : split_all c xs with
      | nil => exact absurd hs (split_all_ne_nil c xs)
      | cons h t =>
        have ih1 := ih hxs
        rw [hs] at ih1
        simp only [List.mem_cons]
        rintro p (rfl | hp)
        · simp only [List.mem_cons, not_or]
          exact ⟨hx, ih1 h (by simp)⟩
        · exact ih1 p (by simp [hp])

theorem split_first_other (c d : Char) (l a b : List Char) (hd : d ∉ l)
    (h : split_first c l = some (a, b)) : d ∉ a ∧ d ∉ b := by
  obtain ⟨_, h2⟩ := split_first_some c l a b h
  subst h2
  simp only [List.mem_append, List.mem_cons, not_or] at hd
  exact ⟨hd.1, hd.2.2⟩

namespace DbRecord

theorem parse_entry_text (e : String × String) (h : ':' ∉ e.1.data) :
    parse_entry (entry_text e) = some e := by
  simp only [parse_entry, entry_text, split_first_append ':' e.1.data e.2.data h]

theorem parse_entries_text (es : List (String × String)) (h : ∀ e ∈ es, ':' ∉ e.1.data) :
    parse_entries (es.map entry_text) = some es := by
  induction es with
  | nil => rfl
  | cons e es ih =>
    simp only [List.map_cons, parse_entries, parse_entry_text e (h e (by simp)),
      ih (fun x hx => h x (List.mem_cons_of_mem _ hx))]

theorem parse_entries_length (ps : List (List Char)) (es : List (String × String))
    (h : parse_entries ps = some es) : es.length = ps.length := by
  induction ps generalizing es with
  | nil =>
    simp only [parse_entries, Option.some.injEq] at h
    subst h
    rfl
  | cons p ps ih =>
    simp only [parse_entries] at h
    cases h1 : parse_entry p with
    | none => simp [h1] at h
    | some e =>
      cases h2 : parse_entries ps with
      | none => simp [h1, h2] at h
      | some es1 =>
        simp only [h1, h2, Option.some.injEq] at h
        subst h
        simp [ih es1 h2]

theorem parse_entries_ok (ps : List (List Char)) (es : List (String × String))
    (hsemi : ∀ p ∈ ps, ';' ∉ p) (hlf : ∀ p ∈ ps, '\n' ∉ p)
    (h : parse_entries ps = some es) :
    ∀ e ∈ es, Db.id_ok e.1 ∧ Db.values_ok e.2 := by
  induction ps generalizing es with
  | nil =>
    simp only [parse_entries, Option.some.injEq] at h
    subst h
    simp
  | cons p ps ih =>
    simp only [parse_entries] at h
    cases h1 : parse_entry p with
    | none => simp [h1] at h
    | some e =>
      cases h2 : parse_entries ps with
      | none => simp [h1, h2] at h
      | some es1 =>
        simp only [h1, h2, Option.some.injEq] at h
        subst h
        intro x hx
        simp only [List.mem_cons] at hx
        rcases hx with rfl | hx
        · simp only [parse_entry] at h1
          cases h3 : split_first ':' p with
          | none => simp [h3] at h1
          | some q =>
            obtain ⟨q1, q2⟩ := q
            simp only [h3, Option.some.injEq] at h1
            subst h1
            obtain ⟨h4, _⟩ := split_first_some ':' p q1 q2 h3
            obtain ⟨h5, h6⟩ := split_first_other ':' ';' p q1 q2 (hsemi p (by simp)) h3
            obtain ⟨h7, h8⟩ := split_first_other ':' '\n' p q1 q2 (hlf p (by simp)) h3
            exact ⟨⟨h4, h5, h7⟩, ⟨h6, h8⟩⟩
        · exact ih es1 (fun q hq => hsemi q (List.mem_cons_of_mem _ hq))
            (fun q hq => hlf q (List.mem_cons_of_mem _ hq)) h2 x hx

theorem parse_line_ok (line : String) (r : DbRecord) (hlf : '\n' ∉ line.data)
    (h : parse_line line = some r) : Db.record_ok r := by
  simp only [parse_line] at h
  cases h1 : split_first '=' line.data with
  | none => simp [h1] at h
  | some p =>
    obtain ⟨p1, p2⟩ := p
    simp only [h1] at h
    cases h2 : parse_entries (split_all ';' p2) with
    | none => simp [h2] at h
    | some es =>
      simp only [h2, Option.some.injEq] at h
      subst h
      obtain ⟨h3, _⟩ := split_first_some '=' line.data p1 p2 h1
      obtain ⟨h4, h5⟩ := split_first_other '=' '\n' line.data p1 p2 hlf h1
      refine ⟨⟨h3, h4⟩, ?_, ?_⟩
      · intro hnil
        have hlen := parse_entries_length _ _ h2
        simp only at hnil
        rw [hnil] at hlen
        exact split_all_ne_nil ';' p2 (List.length_eq_zero.1 hlen.symm)
      · exact parse_entries_ok _ es (split_all_pieces ';' p2)
          (split_all_other ';' '\n' p2 h5) h2

theorem entry_text_not_mem (c : Char) (e : String × String) (hc : c ≠ ':')
    (h1 : c ∉ e.1.data) (h2 : c ∉ e.2.data) : c ∉ entry_text e := by
  simp only [entry_text, List.mem_append, List.mem_cons, not_or]
  exact ⟨h1, hc, h2⟩

theorem join_with_not_mem (c d : Char) (ps : List (List Char)) (hcd : d ≠ c)
    (h : ∀ p ∈ ps, d ∉ p) : d ∉ join_with c ps := by
  induction ps with
  | nil => simp [join_with]
  | cons p rest ih =>
    cases rest with
    | nil => simpa [join_with] using h p (by simp)
    | cons q rest =>
      simp only [join_with, List.mem_append, List.mem_cons, not_or]
      exact ⟨h p (by simp), hcd, ih (fun x hx => h x (List.mem_cons_of_mem _ hx))⟩

theorem parse_line_text (r : DbRecord) (h : Db.record_ok r) :
    parse_line r.line_text = some r ∧ '\n' ∉ r.line_text.data := by
  obtain ⟨⟨hk1, hk2⟩, hne, hes⟩ := h
  constructor
  · simp only [parse_line, line_text, split_first_append '=' r.key.data _ hk1]
    rw [split_all_join ';' _ (by simpa using hne)]
    · rw [parse_entries_text r.map (fun e he => (hes e he).1.1)]
    · intro p hp
      simp only [List.mem_map] at hp
      obtain ⟨e, he, rfl⟩ := hp
      exact entry_text_not_mem ';' e (by decide) (hes e he).1.2.1 (hes e he).2.1
  · simp only [line_text, List.mem_append, List.mem_cons, not_or]
    refine ⟨hk2, by decide, ?_⟩
    apply join_with_not_mem ';' '\n' _ (by decide)
    intro p hp
    simp only [List.mem_map] at hp
    obtain ⟨e, he, rfl⟩ := hp
    exact entry_text_not_mem '\n' e (by decide) (hes e he).1.2.2 (hes e he).2.2

end DbRecord

namespace Db

theorem read_lines_no_lf (file : String) : ∀ l ∈ read_lines file, '\n' ∉ l.data := by
  intro l hl
  simp only [read_lines] at hl
  have hp := split_all_pieces '\n' file.data
  split at hl
  · simp only [List.mem_map] at hl
    obtain ⟨p, hp1, rfl⟩ := hl
    exact hp p (List.mem_of_mem_dropLast hp1)
  · simp only [List.mem_map] at hl
    obtain ⟨p, hp1, rfl⟩ := hl
    exact hp p hp1

theorem split_all_write_lines (ls : List String) (h : ∀ l ∈ ls, '\n' ∉ l.data) :
    split_all '\n' (write_lines ls) = ls.map String.data ++ [[]] := by
  induction ls with
  | nil => rfl
  | cons l rest ih =>
    simp only [write_lines, List.map_cons, List.cons_append]
    rw [split_all_append '\n' l.data _ (h l (by simp)),
      ih (fun x hx => h x (List.mem_cons_of_mem _ hx))]

theorem map_mk_data (ls : List String) : (ls.map String.data).map String.mk = ls := by
  induction ls with
  | nil => rfl
  | cons l rest ih => simp only [List.map_cons, ih]

theorem read_write_lines (ls : List String) (h : ∀ l ∈ ls, '\n' ∉ l.data) :
    read_lines ⟨write_lines ls⟩ = ls := by
  simp only [read_lines, split_all_write_lines ls h]
  have h1 : (ls.map String.data ++ [[]]).getLast? = some [] := by simp
  rw [h1, if_pos rfl, List.dropLast_concat]
  exact map_mk_data ls

theorem record_of_some (key : String) (line : String) (r : DbRecord)
    (h : record_of key line = some r) : DbRecord.parse_line line = some r ∧ r.key = key := by
  simp only [record_of] at h
  cases hp : DbRecord.parse_line line with
  | none => simp [hp] at h
  | some r1 =>
    simp only [hp] at h
    by_cases hk : r1.key = key
    · simp only [hk, if_true, Option.some.injEq] at h
      subst h
      exact ⟨rfl, hk⟩
    · simp [hk] at h

theorem FindRecordText_ok (file key : String) (r : DbRecord)
    (h : FindRecordText file key = some r) : record_ok r ∧ r.key = key := by
  simp only [FindRecordText] at h
  obtain ⟨l, hl, hr⟩ := List.exists_of_findSome?_eq_some h
  obtain ⟨hp, hk⟩ := record_of_some key l r hr
  exact ⟨DbRecord.parse_line_ok l r (read_lines_no_lf file l hl) hp, hk⟩

theorem FindRecordText_rewrite (file key : String) (r : DbRecord) (hr : record_ok r)
    (hk : r.key = key) : FindRecordText (rewrite file key r) key = some r := by
  obtain ⟨hparse, hlf⟩ := DbRecord.parse_line_text r hr
  have hne : r.map.isEmpty = false := by
    cases hm : r.map with
    | nil => exact absurd hm hr.2.1
    | cons e es => rfl
  simp only [FindRecordText, rewrite, hne, Bool.false_eq_true, if_false]
  rw [read_write_lines]
  · rw [List.findSome?_append]
    have h1 : List.findSome? (record_of key)
        ((read_lines file).filter (fun l => (record_of key l).isNone)) = none := by
      rw [List.findSome?_eq_none_iff]
      intro l hl
      have := (List.mem_filter.1 hl).2
      simpa using this
    rw [h1]
    simp [List.findSome?_cons, record_of, hparse, hk]
  · intro l hl
    rcases List.mem_append.1 hl with hl | hl
    · exact read_lines_no_lf file l (List.mem_filter.1 hl).1
    · simp only [List.mem_singleton] at hl
      subst hl
      exact hlf

end Db

namespace Db

theorem merge_single (old : DbRecord) (key id values : String) :
    DbRecord.merge old { key := key, map := [(id, values)] } =
      { key := key, map := (id, values) :: old.map.filter (fun e => e.1 != id) } := by
  simp only [DbRecord.merge, List.singleton_append, DbRecord.mk.injEq, List.cons.injEq,
    true_and]
  congr 1
  funext e
  by_cases h : e.1 = id
  · simp [List.lookup, h]
  · have : (e.1 == id) = false := by simpa using h
    simp [List.lookup, this, h]

theorem record_ok_single (key id values : String) (hk : key_ok key) (hi : id_ok id)
    (hv : values_ok values) (rest : List (String × String))
    (hrest : ∀ e ∈ rest, id_ok e.1 ∧ values_ok e.2) :
    record_ok { key := key, map := (id, values) :: rest } := by
  refine ⟨hk, by simp, ?_⟩
  intro e he
  simp only [List.mem_cons] at he
  rcases he with rfl | he
  · exact ⟨hi, hv⟩
  · exact hrest e he

theorem UpdateRecordText_single (file : String) (write_ok : Bool) (key id values : String)
    (hk : key_ok key) (hi : id_ok id) (hv : values_ok values)
    (hup : (UpdateRecordText file write_ok { key := key, map := [(id, values)] }).1 = true) :
    ∃ r, FindRecordText
        (UpdateRecordText file write_ok { key := key, map := [(id, values)] }).2.1 key
          = some r ∧
      r.GetValues id = some values ∧
      ∀ j, j ≠ id → r.GetValues j = (FindRecordText file key).bind (fun o => o.GetValues j) := by
  cases hw : write_ok with
  | false => simp [UpdateRecordText, hw] at hup
  | true =>
    simp only [UpdateRecordText, if_true]
    cases hf : FindRecordText file key with
    | none =>
      simp only
      refine ⟨{ key := key, map := [(id, values)] }, ?_, ?_, ?_⟩
      · exact FindRecordText_rewrite file key _
          (record_ok_single key id values hk hi hv [] (by simp)) rfl
      · simp [DbRecord.GetValues, List.lookup]
      · intro j hj
        have : (j == id) = false := by simpa using hj
        simp [DbRecord.GetValues, List.lookup, this]
    | some old =>
      simp only [merge_single]
      obtain ⟨hok, _⟩ := FindRecordText_ok file key old hf
      refine ⟨{ key := key, map := (id, values) :: old.map.filter (fun e => e.1 != id) },
        ?_, ?_, ?_⟩
      · exact FindRecordText_rewrite file key _
          (record_ok_single key id values hk hi hv _
            (fun e he => hok.2.2 e (List.mem_filter.1 he).1)) rfl
      · simp [DbRecord.GetValues, List.lookup]
      · intro j hj
        have : (j == id) = false := by simpa using hj
        simp only [DbRecord.GetValues, List.lookup, this, Option.some_bind]
        exact DbRecord.lookup_filter_ne old.map id j hj

theorem UpdateText_true (file : String) (write_ok : Bool) (key id values : String)
    (hk : key_ok key) (hi : id_ok id) (hv : values_ok values)
    (hup : (UpdateText file write_ok key id values).1 = true) :
    ∃ r, FindRecordText (UpdateText file write_ok key id values).2 key = some r ∧
      r.GetValues id = some values ∧
      ∀ j, j ≠ id → r.GetValues j = (FindRecordText file key).bind (fun o => o.GetValues j) := by
  simp only [UpdateText] at hup ⊢
  cases hf : FindRecordText file key with
  | none =>
    simp only [hf] at hup ⊢
    have := UpdateRecordText_single file write_ok key id values hk hi hv hup
    rw [hf] at this
    exact this
  | some old =>
    simp only [hf] at hup ⊢
    by_cases hsame : old.GetValues id = some values
    · simp only [hsame, if_true]
      exact ⟨old, hf, hsame, fun j _ => rfl⟩
    · simp only [hsame, if_false] at hup ⊢
      have := UpdateRecordText_single file write_ok key id values hk hi hv hup
      rw [hf] at this
      exact this

theorem UpdateText_false (file : String) (write_ok : Bool) (key id values : String)
    (hup : (UpdateText file write_ok key id values).1 = false) :
    (UpdateText file write_ok key id values).2 = file := by
  simp only [UpdateText, UpdateRecordText] at hup ⊢
  cases hw : write_ok with
  | true =>
    rw [hw] at hup
    split at hup
    · split at hup <;> simp at hup
    · simp at hup
  | false =>
    split
    · split <;> simp
    · simp

end Db

/-- C20. PerfDb write-then-read: for every key, id and value of the file format, after
`Db::Update(k, i, v)` returns true, `Db::Load(k, i, out)` on the same file returns true and
sets `out` to `v`; a later update of another id of the same key, whether it succeeds or
not, does not disturb it. The keys, ids and values are those of sections 4.1 and 6 of the
specification: the texts hold no delimiter of the line grammar, of which is used that the
encoded key has no '=' and no LF, an id no ':', ';' or LF and an encoded value no ';' and
no LF, and the encoded value decodes to the value. Witness: after
`Update(key, "0", (3,4))` and `Update(key, "1", (5,6))` on an empty file both loads return
their values and the file has one line. -/
theorem C20_write_then_read {K V : Type} (ck : Codec K) (cv : Codec V) (file : String)
    (write_ok : Bool) (k : K) (i : String) (v out : V)
    (hk : Db.key_ok (ck.Serialize k)) (hi : Db.id_ok i) (hv : Db.values_ok (cv.Serialize v))
    (hcodec : ∀ o, cv.Deserialize (cv.Serialize v) o = (true, v))
    (hup : (Db.Update ck cv file write_ok k i v).1 = true) :
    Db.Load ck cv (Db.Update ck cv file write_ok k i v).2 k i out = (true, v) ∧
    (∀ (write_ok2 : Bool) (i2 : String) (v2 : V), i2 ≠ i → Db.id_ok i2 →
      Db.values_ok (cv.Serialize v2) →
      Db.Load ck cv
        (Db.Update ck cv (Db.Update ck cv file write_ok k i v).2 write_ok2 k i2 v2).2
        k i out = (true, v)) ∧
    (Db.Load tests.TestData.codec tests.TestData.codec
        (Db.Update tests.TestData.codec tests.TestData.codec
          (Db.Update tests.TestData.codec tests.TestData.codec "" true ⟨1, 2⟩ "0" ⟨3, 4⟩).2
          true ⟨1, 2⟩ "1" ⟨5, 6⟩).2 ⟨1, 2⟩ "0" ⟨0, 0⟩ = (true, ⟨3, 4⟩) ∧
     Db.Load tests.TestData.codec tests.TestData.codec
        (Db.Update tests.TestData.codec tests.TestData.codec
          (Db.Update tests.TestData.codec tests.TestData.codec "" true ⟨1, 2⟩ "0" ⟨3, 4⟩).2
          true ⟨1, 2⟩ "1" ⟨5, 6⟩).2 ⟨1, 2⟩ "1" ⟨0, 0⟩ = (true, ⟨5, 6⟩) ∧
     (Db.read_lines (Db.Update tests.TestData.codec tests.TestData.codec
          (Db.Update tests.TestData.codec tests.TestData.codec "" true ⟨1, 2⟩ "0" ⟨3, 4⟩).2
          true ⟨1, 2⟩ "1" ⟨5, 6⟩).2).length = 1) := by
  have hload : ∀ (f : String) (r : DbRecord), Db.FindRecordText f (ck.Serialize k) = some r →
      r.GetValues i = some (cv.Serialize v) → Db.Load ck cv f k i out = (true, v) := by
    intro f r hf hg
    simp only [Db.Load, Db.FindRecord, hf, hg, hcodec]
  obtain ⟨r, hf, hg, _⟩ := Db.UpdateText_true file write_ok (ck.Serialize k) i
    (cv.Serialize v) hk hi hv hup
  refine ⟨hload _ r hf hg, ?_, by decide, by decide, by decide⟩
  intro write_ok2 i2 v2 hne hi2 hv2
  cases hup2 : (Db.Update ck cv (Db.Update ck cv file write_ok k i v).2 write_ok2 k i2 v2).1 with
  | false =>
    have := Db.UpdateText_false _ write_ok2 (ck.Serialize k) i2 (cv.Serialize v2) hup2
    simp only [Db.Update] at this ⊢
    rw [this]
    exact hload _ r hf hg
  | true =>
    obtain ⟨r2, hf2, _, hg2⟩ := Db.UpdateText_true _ write_ok2 (ck.Serialize k) i2
      (cv.Serialize v2) hk hi2 hv2 hup2
    refine hload _ r2 hf2 ?_
    rw [hg2 i (fun e => hne e.symm)]
    have hf1 : Db.FindRecordText (Db.Update ck cv file write_ok k i v).2 (ck.Serialize k)
        = some r := hf
    rw [hf1]
    exact hg

/-- C20, witness: the key (1,2), the id "0" and the value (3,4) of the test, written to an
empty file. -/
theorem C20_write_then_read_witness :
    Db.Load tests.TestData.codec tests.TestData.codec
      (Db.Update tests.TestData.codec tests.TestData.codec "" true ⟨1, 2⟩ "0" ⟨3, 4⟩).2
      ⟨1, 2⟩ "0" ⟨0, 0⟩ = (true, ⟨3, 4⟩) :=
  (C20_write_then_read tests.TestData.codec tests.TestData.codec "" true ⟨1, 2⟩ "0" ⟨3, 4⟩
    ⟨0, 0⟩ (by decide) (by decide) (by decide) (fun _ => by rfl) (by decide)).1

/-! ## Claims C21 to C26: the operations of the performance database -/

namespace DbRecord

theorem lookup_filter_isNone (m n : List (String × String)) (id : String)
    (h : n.lookup id = none) :
    (m.filter (fun e => (n.lookup e.1).isNone)).lookup id = m.lookup id := by
  induction m with
  | nil => rfl
  | cons e m ih =>
    obtain ⟨k, v⟩ := e
    by_cases hk : id = k
    · subst hk
      simp [List.filter, h, List.lookup]
    · have h1 : (id == k) = false := by simpa using hk
      cases hn : (n.lookup k).isNone with
      | true => simp only [List.filter, hn, List.lookup, h1, ih]
      | false => simp only [List.filter, hn, List.lookup, h1, ih]

theorem GetValues_merge (old new : DbRecord) (id : String) :
    (merge old new).GetValues id = (new.GetValues id).or (old.GetValues id) := by
  simp only [merge, GetValues, List.lookup_append]
  cases hn : new.map.lookup id with
  | some v => rfl
  | none =>
    simp only [Option.or]
    exact lookup_filter_isNone old.map new.map id hn

theorem merge_key (old new : DbRecord) : (merge old new).key = new.key := rfl

end DbRecord

namespace Db

theorem read_lines_rewrite (file key : String) (r : DbRecord)
    (h : r.map.isEmpty = false → '\n' ∉ r.line_text.data) :
    read_lines (rewrite file key r) =
      (read_lines file).filter (fun l => (record_of key l).isNone) ++
        (if r.map.isEmpty then [] else [r.line_text]) := by
  simp only [rewrite]
  apply read_write_lines
  intro l hl
  rcases List.mem_append.1 hl with hl | hl
  · exact read_lines_no_lf file l (List.mem_filter.1 hl).1
  · cases he : r.map.isEmpty with
    | true => simp [he] at hl
    | false =>
      simp only [he, Bool.false_eq_true, if_false, List.mem_singleton] at hl
      subst hl
      exact h he

theorem findSome_kept (file key : String) :
    List.findSome? (record_of key)
      ((read_lines file).filter (fun l => (record_of key l).isNone)) = none := by
  rw [List.findSome?_eq_none_iff]
  intro l hl
  have := (List.mem_filter.1 hl).2
  simpa using this

theorem filter_kept (file key : String) :
    ((read_lines file).filter (fun l => (record_of key l).isNone)).filter
      (fun l => (record_of key l).isSome) = [] := by
  rw [List.filter_eq_nil_iff]
  intro l hl
  have := (List.mem_filter.1 hl).2
  cases h : record_of key l with
  | none => simp
  | some r => simp [h] at this

theorem FindRecordText_rewrite_empty (file key : String) (r : DbRecord) (h : r.map = []) :
    FindRecordText (rewrite file key r) key = none := by
  have he : r.map.isEmpty = true := by rw [h]; rfl
  simp only [FindRecordText]
  rw [read_lines_rewrite file key r (by simp [he])]
  simp only [he, if_true, List.append_nil]
  exact findSome_kept file key

theorem lines_of_rewrite_empty (file key : String) (r : DbRecord) (h : r.map = []) :
    lines_of (rewrite file key r) key = [] := by
  have he : r.map.isEmpty = true := by rw [h]; rfl
  simp only [lines_of]
  rw [read_lines_rewrite file key r (by simp [he])]
  simp only [he, if_true, List.append_nil]
  exact filter_kept file key

theorem lines_of_rewrite (file key : String) (r : DbRecord) (hr : record_ok r)
    (hk : r.key = key) : lines_of (rewrite file key r) key = [r.line_text] := by
  obtain ⟨hparse, hlf⟩ := DbRecord.parse_line_text r hr
  have hne : r.map.isEmpty = false := by
    cases hm : r.map with
    | nil => exact absurd hm hr.2.1
    | cons e es => rfl
  simp only [lines_of]
  rw [read_lines_rewrite file key r (fun _ => hlf)]
  simp only [hne, Bool.false_eq_true, if_false, List.filter_append, filter_kept,
    List.nil_append]
  simp [List.filter, record_of, hparse, hk]

theorem lines_of_nil_iff (file key : String) :
    lines_of file key = [] ↔ FindRecordText file key = none := by
  simp only [lines_of, FindRecordText, List.filter_eq_nil_iff, List.findSome?_eq_none_iff]
  constructor
  · intro h l hl
    have := h l hl
    cases hr : record_of key l with
    | none => rfl
    | some r => simp [hr] at this
  · intro h l hl
    simp [h l hl]

theorem record_ok_of_entries (r : DbRecord) (hk : key_ok r.key) (he : entries_ok r)
    (hne : r.map ≠ []) : record_ok r := ⟨hk, hne, he⟩

theorem entries_ok_merge (old new : DbRecord) (ho : entries_ok old) (hn : entries_ok new) :
    entries_ok (DbRecord.merge old new) := by
  intro e he
  simp only [DbRecord.merge, List.mem_append, List.mem_filter] at he
  rcases he with he | he
  · exact hn e he
  · exact ho e he.1

theorem entries_ok_Remove (r : DbRecord) (id : String) (h : entries_ok r) :
    entries_ok (r.Remove id).2 := by
  intro e he
  simp only [DbRecord.Remove, List.mem_filter] at he
  exact h e he.1

/-- The payloads in the file after a rewrite with a record that a line can hold. -/
theorem stored_rewrite (file key : String) (r : DbRecord) (hk : r.key = key)
    (hkey : key_ok key) (he : entries_ok r) (id : String) :
    stored (rewrite file key r) key id = r.GetValues id := by
  simp only [stored]
  cases hm : r.map with
  | nil =>
    rw [FindRecordText_rewrite_empty file key r hm]
    simp [DbRecord.GetValues, hm]
  | cons e es =>
    have hr : record_ok r := ⟨hk ▸ hkey, by simp [hm], he⟩
    rw [FindRecordText_rewrite file key r hr hk]
    simp [DbRecord.GetValues, hm]

theorem stored_UpdateRecord (file : String) (r : DbRecord) (hkey : key_ok r.key)
    (he : entries_ok r) (id : String) :
    stored (UpdateRecord file true r).2.1 r.key id =
      (r.GetValues id).or (stored file r.key id) := by
  simp only [UpdateRecord, UpdateRecordText, if_true]
  cases hf : FindRecordText file r.key with
  | none =>
    simp only
    rw [stored_rewrite file r.key r rfl hkey he]
    simp [stored, hf]
  | some old =>
    simp only
    obtain ⟨hold, _⟩ := FindRecordText_ok file r.key old hf
    rw [stored_rewrite file r.key _ (DbRecord.merge_key old r) hkey
      (entries_ok_merge old r hold.2.2 he)]
    rw [DbRecord.GetValues_merge]
    simp [stored, hf]

end Db

namespace DbRecord

theorem lookup_perm (l1 l2 : List (String × String)) (h : l1.Perm l2)
    (hn : (l1.map Prod.fst).Nodup) (id : String) : l1.lookup id = l2.lookup id := by
  induction h with
  | nil => rfl
  | cons x _ ih =>
    obtain ⟨k, v⟩ := x
    simp only [List.map_cons, List.nodup_cons] at hn
    simp only [List.lookup]
    rw [ih hn.2]
  | swap x y l =>
    obtain ⟨k, v⟩ := x
    obtain ⟨k2, v2⟩ := y
    simp only [List.map_cons, List.nodup_cons, List.mem_cons, not_or] at hn
    by_cases h1 : id = k
    · by_cases h2 : id = k2
      · exact absurd (h2.symm.trans h1) hn.1.1
      · subst h1
        have e2 : (id == k2) = false := by simpa using h2
        simp [List.lookup, e2]
    · have e1 : (id == k) = false := by simpa using h1
      simp [List.lookup, e1]
  | trans hp _ ih1 ih2 =>
    rw [ih1 hn]
    exact ih2 ((hp.map Prod.fst).nodup_iff.1 hn)

end DbRecord

namespace Db

theorem Load_eq_stored {K V : Type} (ck : Codec K) (cv : Codec V) (file : String) (k : K)
    (id : String) (out : V) :
    Load ck cv file k id out =
      match stored file (ck.Serialize k) id with
      | some s => cv.Deserialize s out
      | none => (false, out) := by
  simp only [Load, FindRecord, stored]
  cases FindRecordText file (ck.Serialize k) with
  | none => rfl
  | some r =>
    simp only [Option.bind]

theorem RemoveText_stored_none (file : String) (write_ok : Bool) (key id : String)
    (h : stored file key id = none) : (RemoveText file write_ok key id).1 = false := by
  simp only [stored] at h
  simp only [RemoveText]
  cases hf : FindRecordText file key with
  | none => rfl
  | some r =>
    simp only [hf, Option.bind] at h
    simp only [h]

theorem UpdateRecord_true (file : String) (write_ok : Bool) (r : DbRecord)
    (h : (UpdateRecord file write_ok r).1 = true) : write_ok = true := by
  cases write_ok with
  | true => rfl
  | false => simp [UpdateRecord, UpdateRecordText] at h

theorem StoreRecord_true (file : String) (write_ok : Bool) (r : DbRecord)
    (h : (StoreRecord file write_ok r).1 = true) : write_ok = true := by
  cases write_ok with
  | true => rfl
  | false => simp [StoreRecord] at h

end Db

/-- C21 (as amended). PerfDb store-then-find: for every non-empty record r of the file
format (section 6 of the specification: the key has no '=' and no LF, each id no ':', ';'
or LF, each payload no ';' and no LF), after `StoreRecord(r)` returns true
`FindRecord(r.key)` returns a record with exactly the pairs of r, whatever the file held
under that key before, and the file holds exactly one line for that key; for an empty
record r, after `StoreRecord(r)` returns true `FindRecord(r.key)` returns none and the file
holds no line for that key. -/
theorem C21_store_then_find (file : String) (write_ok : Bool) (r : DbRecord)
    (hs : (Db.StoreRecord file write_ok r).1 = true) :
    (r.map ≠ [] → Db.key_ok r.key → Db.entries_ok r →
      Db.FindRecordText (Db.StoreRecord file write_ok r).2 r.key = some r ∧
      Db.lines_of (Db.StoreRecord file write_ok r).2 r.key = [r.line_text]) ∧
    (r.map = [] →
      Db.FindRecordText (Db.StoreRecord file write_ok r).2 r.key = none ∧
      Db.lines_of (Db.StoreRecord file write_ok r).2 r.key = []) := by
  have hw := Db.StoreRecord_true file write_ok r hs
  subst hw
  simp only [Db.StoreRecord, if_true]
  constructor
  · intro hne hk he
    exact ⟨Db.FindRecordText_rewrite file r.key r ⟨hk, hne, he⟩ rfl,
      Db.lines_of_rewrite file r.key r ⟨hk, hne, he⟩ rfl⟩
  · intro hm
    exact ⟨Db.FindRecordText_rewrite_empty file r.key r hm,
      Db.lines_of_rewrite_empty file r.key r hm⟩

/-- C21, witness: the record of `DbStoreTest` with the ids "0" and "1", stored in a file
that holds another record of the same key and a record of another key. -/
theorem C21_store_then_find_witness :
    Db.FindRecordText
        (Db.StoreRecord "1,2=2:7,8\n9,9=0:1,1\n" true
          { key := "1,2", map := [("1", "5,6"), ("0", "3,4")] }).2 "1,2"
      = some { key := "1,2", map := [("1", "5,6"), ("0", "3,4")] } ∧
    Db.lines_of
        (Db.StoreRecord "1,2=2:7,8\n9,9=0:1,1\n" true
          { key := "1,2", map := [("1", "5,6"), ("0", "3,4")] }).2 "1,2"
      = ["1,2=1:5,6;0:3,4"] :=
  (C21_store_then_find "1,2=2:7,8\n9,9=0:1,1\n" true
    { key := "1,2", map := [("1", "5,6"), ("0", "3,4")] } (by decide)).1
    (by decide) (by decide) (by unfold Db.entries_ok; decide)

/-- C21, counterexample to the claim as stated: when the write of the file fails, which
section 4.3 of the specification counts among the outcomes of an operation, `StoreRecord`
returns false and the file is as before. (1) The non-empty record of `DbStoreTest` is
stored in an empty file: `FindRecord` of its key returns none. (2) An empty record is
stored in a file with a record of its key: `FindRecord` returns that record, not none. -/
theorem C21_counterexample :
    (({ key := "1,2", map := [("0", "3,4"), ("1", "5,6")] } : DbRecord).map ≠ [] ∧
     Db.StoreRecord "" false { key := "1,2", map := [("0", "3,4"), ("1", "5,6")] }
      = (false, "") ∧
     Db.FindRecordText
        (Db.StoreRecord "" false { key := "1,2", map := [("0", "3,4"), ("1", "5,6")] }).2
        "1,2" = none) ∧
    (Db.StoreRecord "1,2=0:3,4\n" false { key := "1,2", map := [] }
      = (false, "1,2=0:3,4\n") ∧
     Db.FindRecordText (Db.StoreRecord "1,2=0:3,4\n" false { key := "1,2", map := [] }).2
        "1,2" = some { key := "1,2", map := [("0", "3,4")] }) := by
  decide

/-- C22 (as amended). PerfDb merge-update: for all records r1 and r2 with the same key of
the file format (section 6 of the specification: the key has no '=' and no LF, each id no
':', ';' or LF, each payload no ';' and no LF), after `UpdateRecord(r1)` and then
`UpdateRecord(r2)` have both returned true the stored record contains every id of r2 with
the value of r2 and every id present only in r1 with the value of r1; in particular the
two handles of `DbParallelTest`, which each read the record with "0", add "1" and "2"
locally and each call `UpdateRecord`, leave the record with "0", "1" and "2" and their
values. -/
theorem C22_merge_update (file : String) (w1 w2 : Bool) (r1 r2 : DbRecord)
    (hkey : r1.key = r2.key) (hk : Db.key_ok r1.key) (h1 : Db.entries_ok r1)
    (h2 : Db.entries_ok r2)
    (hu1 : (Db.UpdateRecord file w1 r1).1 = true)
    (hu2 : (Db.UpdateRecord (Db.UpdateRecord file w1 r1).2.1 w2 r2).1 = true) :
    (∀ id v, r2.GetValues id = some v →
      Db.stored (Db.UpdateRecord (Db.UpdateRecord file w1 r1).2.1 w2 r2).2.1 r2.key id
        = some v) ∧
    (∀ id v, r2.GetValues id = none → r1.GetValues id = some v →
      Db.stored (Db.UpdateRecord (Db.UpdateRecord file w1 r1).2.1 w2 r2).2.1 r2.key id
        = some v) ∧
    (tests.DbParallelTest.map fun f =>
        (Db.Load tests.TestData.codec tests.TestData.codec f tests.DbTest.key
            tests.DbTest.id0 ⟨0, 0⟩,
          Db.Load tests.TestData.codec tests.TestData.codec f tests.DbTest.key
            tests.DbTest.id1 ⟨0, 0⟩,
          Db.Load tests.TestData.codec tests.TestData.codec f tests.DbTest.key
            tests.DbTest.id2 ⟨0, 0⟩,
          (Db.FindRecord tests.TestData.codec f tests.DbTest.key).map
            (fun r => r.map.length)))
      = some ((true, tests.DbTest.value0), (true, tests.DbTest.value1),
          (true, tests.DbTest.value2), some 3) := by
  have hw1 := Db.UpdateRecord_true _ _ _ hu1
  have hw2 := Db.UpdateRecord_true _ _ _ hu2
  subst hw1
  subst hw2
  have hk2 : Db.key_ok r2.key := hkey ▸ hk
  have e : ∀ id, Db.stored (Db.UpdateRecord (Db.UpdateRecord file true r1).2.1 true r2).2.1
      r2.key id = (r2.GetValues id).or ((r1.GetValues id).or (Db.stored file r1.key id)) := by
    intro id
    rw [Db.stored_UpdateRecord _ r2 hk2 h2 id, ← hkey, Db.stored_UpdateRecord _ r1 hk h1 id]
  refine ⟨?_, ?_, by decide⟩
  · intro id v hv
    rw [e, hv]
    rfl
  · intro id v hn hv
    rw [e, hn, hv]
    rfl

/-- C22, witness: the record with "1" and then the record with "2" of the same key,
written to a file that holds "0" under that key. -/
theorem C22_merge_update_witness :
    Db.stored
        (Db.UpdateRecord
          (Db.UpdateRecord "1,2=0:3,4\n" true { key := "1,2", map := [("1", "5,6")] }).2.1
          true { key := "1,2", map := [("2", "7,8")] }).2.1 "1,2" "1"
      = some "5,6" :=
  (C22_merge_update "1,2=0:3,4\n" true true { key := "1,2", map := [("1", "5,6")] }
    { key := "1,2", map := [("2", "7,8")] } rfl (by decide) (by unfold Db.entries_ok; decide)
    (by unfold Db.entries_ok; decide) (by decide) (by decide)).2.1 "1" "5,6" (by decide)
    (by decide)

/-- C22, counterexample to the claim as stated: the write of the first `UpdateRecord`
fails, which section 4.3 of the specification counts among the outcomes of an operation:
the call returns false and the file is as before. The second `UpdateRecord` returns true,
and the id "1", present only in the first record, is not in the stored record. -/
theorem C22_counterexample :
    (Db.UpdateRecord "" false { key := "1,2", map := [("1", "5,6")] }).1 = false ∧
    (Db.UpdateRecord (Db.UpdateRecord "" false { key := "1,2", map := [("1", "5,6")] }).2.1
      true { key := "1,2", map := [("2", "7,8")] }).1 = true ∧
    ({ key := "1,2", map := [("2", "7,8")] } : DbRecord).GetValues "1" = none ∧
    ({ key := "1,2", map := [("1", "5,6")] } : DbRecord).GetValues "1" = some "5,6" ∧
    Db.stored
      (Db.UpdateRecord (Db.UpdateRecord "" false { key := "1,2", map := [("1", "5,6")] }).2.1
        true { key := "1,2", map := [("2", "7,8")] }).2.1 "1,2" "1" = none := by
  decide

/-- C23 (as amended). PerfDb remove-by-id: for every key k with a stored record r that
holds the id i, `Remove(k, i)` returns true when the write of the file succeeds and false
when it fails; after a `Remove(k, i)` that returned true, `Load(k, i, _)` returns false and
leaves its target as it was, `Load(k, j, _)` of every other id j of the record still
decodes the payload of j, as before the removal, and a second `Remove(k, i)` returns
false; when the record holds only i, a `Remove(k, i)` that returned true leaves the file
with no line for k. -/
theorem C23_remove_by_id {K V : Type} (ck : Codec K) (cv : Codec V) (file : String) (k : K)
    (i : String) (r : DbRecord) (vi : String) (out : V)
    (hf : Db.FindRecord ck file k = some r) (hi : r.GetValues i = some vi) :
    (∀ write_ok, (Db.Remove ck file write_ok k i).1 = write_ok) ∧
    ∀ write_ok, (Db.Remove ck file write_ok k i).1 = true →
      Db.Load ck cv (Db.Remove ck file write_ok k i).2 k i out = (false, out) ∧
      (∀ j vj, i ≠ j → r.GetValues j = some vj →
        Db.Load ck cv (Db.Remove ck file write_ok k i).2 k j out = cv.Deserialize vj out ∧
        Db.Load ck cv (Db.Remove ck file write_ok k i).2 k j out
          = Db.Load ck cv file k j out) ∧
      (∀ write_ok2,
        (Db.Remove ck (Db.Remove ck file write_ok k i).2 write_ok2 k i).1 = false) ∧
      ((∀ e ∈ r.map, e.1 = i) →
        Db.lines_of (Db.Remove ck file write_ok k i).2 (ck.Serialize k) = []) := by
  have hf1 : Db.FindRecordText file (ck.Serialize k) = some r := hf
  have hflag : ∀ write_ok, (Db.Remove ck file write_ok k i).1 = write_ok := by
    intro write_ok
    cases write_ok <;> simp only [Db.Remove, Db.RemoveText, hf1, hi] <;> rfl
  refine ⟨hflag, ?_⟩
  intro write_ok hret
  have hw : write_ok = true := (hflag write_ok).symm.trans hret
  subst hw
  obtain ⟨hok, hkey⟩ := Db.FindRecordText_ok file (ck.Serialize k) r hf1
  have hfile : (Db.Remove ck file true k i).2
      = Db.rewrite file (ck.Serialize k) (r.Remove i).2 := by
    simp only [Db.Remove, Db.RemoveText, hf1, hi, if_true]
  have hst : ∀ id, Db.stored (Db.Remove ck file true k i).2 (ck.Serialize k) id
      = (r.Remove i).2.GetValues id := by
    intro id
    rw [hfile]
    exact Db.stored_rewrite file (ck.Serialize k) (r.Remove i).2 hkey (hkey ▸ hok.1)
      (Db.entries_ok_Remove r i hok.2.2) id
  have hsi : Db.stored (Db.Remove ck file true k i).2 (ck.Serialize k) i = none := by
    rw [hst]
    exact solver.lookup_filter_self r.map i
  refine ⟨?_, ?_, ?_, ?_⟩
  · rw [Db.Load_eq_stored, hsi]
  · intro j vj hij hj
    have hsj : Db.stored (Db.Remove ck file true k i).2 (ck.Serialize k) j = some vj := by
      rw [hst]
      exact (DbRecord.lookup_filter_ne r.map i j (fun e => hij e.symm)).trans hj
    have hs0 : Db.stored file (ck.Serialize k) j = some vj := by
      simp only [Db.stored, hf1, Option.bind]
      exact hj
    rw [Db.Load_eq_stored, hsj, Db.Load_eq_stored, hs0]
    exact ⟨rfl, rfl⟩
  · intro write_ok
    exact Db.RemoveText_stored_none _ write_ok (ck.Serialize k) i hsi
  · intro hall
    rw [hfile]
    apply Db.lines_of_rewrite_empty
    simp only [DbRecord.Remove, List.filter_eq_nil_iff]
    intro e he
    simp [hall e he]

/-- C23, witness: the steps of `DbOperationsTest` on the file with the ids "0" and "1" of
the key (1,2): `Remove` of "0", the loads of "0" and "1", and the second `Remove`. -/
theorem C23_remove_by_id_witness :
    (Db.Remove tests.TestData.codec "1,2=0:3,4;1:5,6\n" true tests.DbTest.key "0").1 = true ∧
    Db.Load tests.TestData.codec tests.TestData.codec
        (Db.Remove tests.TestData.codec "1,2=0:3,4;1:5,6\n" true tests.DbTest.key "0").2
        tests.DbTest.key "0" ⟨0, 0⟩ = (false, ⟨0, 0⟩) ∧
    Db.Load tests.TestData.codec tests.TestData.codec
        (Db.Remove tests.TestData.codec "1,2=0:3,4;1:5,6\n" true tests.DbTest.key "0").2
        tests.DbTest.key "1" ⟨0, 0⟩ = tests.TestData.codec.Deserialize "5,6" ⟨0, 0⟩ ∧
    (Db.Remove tests.TestData.codec
        (Db.Remove tests.TestData.codec "1,2=0:3,4;1:5,6\n" true tests.DbTest.key "0").2
        true tests.DbTest.key "0").1 = false :=
  have h := C23_remove_by_id tests.TestData.codec tests.TestData.codec "1,2=0:3,4;1:5,6\n"
    tests.DbTest.key "0" { key := "1,2", map := [("0", "3,4"), ("1", "5,6")] } "3,4" ⟨0, 0⟩
    (by decide) (by decide)
  ⟨h.1 true, (h.2 true (h.1 true)).1,
    ((h.2 true (h.1 true)).2.1 "1" "5,6" (by decide) (by decide)).1,
    (h.2 true (h.1 true)).2.2.1 true⟩

/-- C23, counterexample to the claim as stated: the record of the key (1,2) holds the ids
"0" and "1" and the write of the file fails, which section 4.3 of the specification counts
among the outcomes of an operation: `Remove` of "0" returns false, and `Load` of "0" then
returns true with the value (3,4). -/
theorem C23_counterexample :
    Db.FindRecord tests.TestData.codec "1,2=0:3,4;1:5,6\n" tests.DbTest.key
      = some { key := "1,2", map := [("0", "3,4"), ("1", "5,6")] } ∧
    Db.Remove tests.TestData.codec "1,2=0:3,4;1:5,6\n" false tests.DbTest.key "0"
      = (false, "1,2=0:3,4;1:5,6\n") ∧
    Db.Load tests.TestData.codec tests.TestData.codec
        (Db.Remove tests.TestData.codec "1,2=0:3,4;1:5,6\n" false tests.DbTest.key "0").2
        tests.DbTest.key "0" ⟨0, 0⟩ = (true, ⟨3, 4⟩) := by
  decide

/-- C24. PerfDb failed load is side-effect free: for every key k and id i such that k has
no record or its record has no id i, `Load(k, i, out)` returns false and leaves `out` equal
to its value before the call. -/
theorem C24_failed_load {K V : Type} (ck : Codec K) (cv : Codec V) (file : String) (k : K)
    (i : String) (out : V)
    (h : Db.FindRecord ck file k = none ∨
      ∃ r, Db.FindRecord ck file k = some r ∧ r.GetValues i = none) :
    Db.Load ck cv file k i out = (false, out) := by
  rcases h with h | ⟨r, h, hi⟩
  · simp only [Db.Load, h]
  · simp only [Db.Load, h, hi]

/-- C24, witness: the load of the missing id "2" of `DbOperationsTest` from the record
with the ids "0" and "1". -/
theorem C24_failed_load_witness :
    Db.Load tests.TestData.codec tests.TestData.codec "1,2=0:3,4;1:5,6\n" tests.DbTest.key
      tests.DbTest.missing_id ⟨0, 0⟩ = (false, ⟨0, 0⟩) :=
  C24_failed_load tests.TestData.codec tests.TestData.codec "1,2=0:3,4;1:5,6\n"
    tests.DbTest.key tests.DbTest.missing_id ⟨0, 0⟩
    (Or.inr ⟨{ key := "1,2", map := [("0", "3,4"), ("1", "5,6")] }, by decide, by decide⟩)

/-- C25 (as amended). PerfDb whole-record find and remove: `FindRecord(k)` returns the
record of the line of k whatever the order of the ids on that line, so that two lines with
the same entries in different orders give every id the same value (the file
`1,2=1:5,6;0:3,4` gives (3,4) for "0" and (5,6) for "1"), and none for a key with no line;
`RemoveRecord(k)` returns true iff a record for k existed and the write of the file
succeeded, and after a `RemoveRecord(k)` that returned true, or that found no record,
`FindRecord(k)` returns none. -/
theorem C25_find_and_remove_record {K : Type} (ck : Codec K) (file : String) (k : K) :
    (∀ (pre post : List String) (r1 r2 : DbRecord),
      Db.record_ok r1 → Db.record_ok r2 → r1.key = ck.Serialize k → r2.key = ck.Serialize k →
      r1.map.Perm r2.map → (r1.map.map Prod.fst).Nodup →
      (∀ l ∈ pre, '\n' ∉ l.data ∧ Db.record_of (ck.Serialize k) l = none) →
      (∀ l ∈ post, '\n' ∉ l.data) →
      Db.FindRecord ck ⟨Db.write_lines (pre ++ r1.line_text :: post)⟩ k = some r1 ∧
      Db.FindRecord ck ⟨Db.write_lines (pre ++ r2.line_text :: post)⟩ k = some r2 ∧
      ∀ id, r1.GetValues id = r2.GetValues id) ∧
    (Db.lines_of file (ck.Serialize k) = [] → Db.FindRecord ck file k = none) ∧
    (∀ write_ok, (Db.RemoveRecord ck file write_ok k).1
      = ((Db.FindRecord ck file k).isSome && write_ok)) ∧
    (∀ write_ok,
      (Db.RemoveRecord ck file write_ok k).1 = true ∨ Db.FindRecord ck file k = none →
      Db.FindRecord ck (Db.RemoveRecord ck file write_ok k).2 k = none) ∧
    (∀ write_ok, (Db.RemoveRecord ck file write_ok k).1 = true →
      (Db.FindRecord ck file k).isSome = true ∧
      Db.FindRecord ck (Db.RemoveRecord ck file write_ok k).2 k = none) ∧
    ((Db.FindRecord tests.TestData.codec "1,2=1:5,6;0:3,4\n" tests.DbTest.key).map
        (fun r => (r.GetValuesOf tests.TestData.codec "0" ⟨0, 0⟩,
          r.GetValuesOf tests.TestData.codec "1" ⟨0, 0⟩, r.map.length))
      = some ((true, ⟨3, 4⟩), (true, ⟨5, 6⟩), 2) ∧
     Db.FindRecord tests.TestData.codec "1,2=1:5,6;0:3,4\n" ⟨100, 200⟩ = none) := by
  have hfind : ∀ (pre post : List String) (r : DbRecord), Db.record_ok r →
      r.key = ck.Serialize k →
      (∀ l ∈ pre, '\n' ∉ l.data ∧ Db.record_of (ck.Serialize k) l = none) →
      (∀ l ∈ post, '\n' ∉ l.data) →
      Db.FindRecord ck ⟨Db.write_lines (pre ++ r.line_text :: post)⟩ k = some r := by
    intro pre post r hr hk hpre hpost
    obtain ⟨hparse, hlf⟩ := DbRecord.parse_line_text r hr
    simp only [Db.FindRecord, Db.FindRecordText]
    rw [Db.read_write_lines]
    · rw [List.findSome?_append]
      have h1 : List.findSome? (Db.record_of (ck.Serialize k)) pre = none := by
        rw [List.findSome?_eq_none_iff]
        exact fun l hl => (hpre l hl).2
      rw [h1]
      simp [List.findSome?_cons, Db.record_of, hparse, hk]
    · intro l hl
      rcases List.mem_append.1 hl with hl | hl
      · exact (hpre l hl).1
      · rcases List.mem_cons.1 hl with hl | hl
        · subst hl
          exact hlf
        · exact hpost l hl
  have hnone : Db.FindRecord ck (Db.RemoveRecord ck file true k).2 k = none := by
    simp only [Db.FindRecord, Db.RemoveRecord, Db.RemoveRecordText]
    cases hf : Db.FindRecordText file (ck.Serialize k) with
    | none => exact hf
    | some r => exact Db.FindRecordText_rewrite_empty file (ck.Serialize k) _ rfl
  have hflag : ∀ write_ok, (Db.RemoveRecord ck file write_ok k).1
      = ((Db.FindRecord ck file k).isSome && write_ok) := by
    intro write_ok
    simp only [Db.FindRecord, Db.RemoveRecord, Db.RemoveRecordText]
    cases hf : Db.FindRecordText file (ck.Serialize k) with
    | none => rfl
    | some r => cases write_ok <;> rfl
  refine ⟨?_, ?_, hflag, ?_, ?_, by decide, by decide⟩
  · intro pre post r1 r2 h1 h2 hk1 hk2 hperm hnd hpre hpost
    exact ⟨hfind pre post r1 h1 hk1 hpre hpost, hfind pre post r2 h2 hk2 hpre hpost,
      fun id => DbRecord.lookup_perm r1.map r2.map hperm hnd id⟩
  · intro h
    exact (Db.lines_of_nil_iff file (ck.Serialize k)).1 h
  · intro write_ok h
    rcases h with h | h
    · have hw : write_ok = true := by
        rw [hflag write_ok] at h
        exact (Bool.and_eq_true_iff.1 h).2
      subst hw
      exact hnone
    · have h1 : Db.FindRecordText file (ck.Serialize k) = none := h
      simp only [Db.FindRecord, Db.RemoveRecord, Db.RemoveRecordText, h1]
  · intro write_ok h
    cases write_ok with
    | true =>
      refine ⟨?_, hnone⟩
      simp only [Db.FindRecord, Db.RemoveRecord, Db.RemoveRecordText] at h ⊢
      cases hf : Db.FindRecordText file (ck.Serialize k) with
      | none => simp [hf] at h
      | some r => rfl
    | false =>
      simp only [Db.RemoveRecord, Db.RemoveRecordText] at h
      cases hf : Db.FindRecordText file (ck.Serialize k) with
      | none => simp [hf] at h
      | some r => simp [hf] at h

/-- C25, witness: the lines `1,2=1:5,6;0:3,4` and `1,2=0:3,4;1:5,6` after a line of
another key give the same value for the id "0". -/
theorem C25_find_and_remove_record_witness :
    Db.FindRecord tests.TestData.codec
        ⟨Db.write_lines (["9,9=0:1,1"] ++
          DbRecord.line_text { key := "1,2", map := [("1", "5,6"), ("0", "3,4")] } :: [])⟩
        tests.DbTest.key
      = some { key := "1,2", map := [("1", "5,6"), ("0", "3,4")] } ∧
    Db.FindRecord tests.TestData.codec
        ⟨Db.write_lines (["9,9=0:1,1"] ++
          DbRecord.line_text { key := "1,2", map := [("0", "3,4"), ("1", "5,6")] } :: [])⟩
        tests.DbTest.key
      = some { key := "1,2", map := [("0", "3,4"), ("1", "5,6")] } ∧
    ∀ id, DbRecord.GetValues { key := "1,2", map := [("1", "5,6"), ("0", "3,4")] } id
      = DbRecord.GetValues { key := "1,2", map := [("0", "3,4"), ("1", "5,6")] } id :=
  (C25_find_and_remove_record tests.TestData.codec "" tests.DbTest.key).1
    ["9,9=0:1,1"] [] { key := "1,2", map := [("1", "5,6"), ("0", "3,4")] }
    { key := "1,2", map := [("0", "3,4"), ("1", "5,6")] }
    (by unfold Db.record_ok; decide) (by unfold Db.record_ok; decide) (by decide) (by decide)
    (List.Perm.swap _ _ _) (by decide) (by decide) (by decide)

/-- C25, counterexample to the claim as stated: the file holds a record of the key (1,2)
and the write of the file fails, which section 4.3 of the specification counts among the
outcomes of an operation: `RemoveRecord` returns false although a record existed, and
`FindRecord` afterwards returns that record, not none. -/
theorem C25_counterexample :
    Db.FindRecord tests.TestData.codec "1,2=0:3,4\n" tests.DbTest.key
      = some { key := "1,2", map := [("0", "3,4")] } ∧
    Db.RemoveRecord tests.TestData.codec "1,2=0:3,4\n" false tests.DbTest.key
      = (false, "1,2=0:3,4\n") ∧
    Db.FindRecord tests.TestData.codec
        (Db.RemoveRecord tests.TestData.codec "1,2=0:3,4\n" false tests.DbTest.key).2
        tests.DbTest.key = some { key := "1,2", map := [("0", "3,4")] } := by
  decide

/-- C26. UpdateRecord merges into its argument: after `Db::UpdateRecord(r)` returns true
the record of the caller holds the merged content: every id that was stored under the key
of r before the call and is absent from r is readable from r with its stored value, and
the ids of r keep their values (`DbUpdateTest`: store the record with "0" as (3,4), call
`UpdateRecord` with a record that holds "1" as (5,6), then that record gives (3,4) for
"0"). -/
theorem C26_update_merges_into_argument (file : String) (write_ok : Bool) (r : DbRecord)
    (hu : (Db.UpdateRecord file write_ok r).1 = true) :
    (∀ id v, Db.stored file r.key id = some v → r.GetValues id = none →
      (Db.UpdateRecord file write_ok r).2.2.GetValues id = some v) ∧
    (∀ id v, r.GetValues id = some v →
      (Db.UpdateRecord file write_ok r).2.2.GetValues id = some v) ∧
    (Db.UpdateRecord file write_ok r).2.2.key = r.key ∧
    ((Db.UpdateRecord
        (Db.StoreRecord "" true
          ((DbRecord.ctor tests.TestData.codec tests.DbTest.key).SetValuesOf
            tests.TestData.codec tests.DbTest.id0 tests.DbTest.value0)).2
        true
        ((DbRecord.ctor tests.TestData.codec tests.DbTest.key).SetValuesOf
          tests.TestData.codec tests.DbTest.id1 tests.DbTest.value1)).2.2.GetValuesOf
      tests.TestData.codec tests.DbTest.id0 ⟨0, 0⟩ = (true, tests.DbTest.value0)) := by
  have hw := Db.UpdateRecord_true file write_ok r hu
  subst hw
  have e : ∀ id, (Db.UpdateRecord file true r).2.2.GetValues id
      = (r.GetValues id).or (Db.stored file r.key id) := by
    intro id
    simp only [Db.UpdateRecord, Db.UpdateRecordText, if_true, Db.stored]
    cases hf : Db.FindRecordText file r.key with
    | none =>
      simp only [Option.bind]
      cases r.GetValues id <;> rfl
    | some old =>
      simp only [Option.bind]
      exact DbRecord.GetValues_merge old r id
  refine ⟨?_, ?_, ?_, by decide⟩
  · intro id v hs hn
    rw [e, hn, hs]
    rfl
  · intro id v hv
    rw [e, hv]
    rfl
  · simp only [Db.UpdateRecord, Db.UpdateRecordText, if_true]
    cases hf : Db.FindRecordText file r.key with
    | none => rfl
    | some old => rfl

/-- C26, witness: the file holds "0" under the key `1,2` and `UpdateRecord` is called with
the record that holds "1"; the record of the caller then has the payload of "0". -/
theorem C26_update_merges_into_argument_witness :
    (Db.UpdateRecord "1,2=0:3,4\n" true { key := "1,2", map := [("1", "5,6")] }).2.2.GetValues
      "0" = some "3,4" :=
  (C26_update_merges_into_argument "1,2=0:3,4\n" true { key := "1,2", map := [("1", "5,6")] }
    (by decide)).1 "0" "3,4" (by decide) (by decide)

/-! ## Claims C28 to C30: the codec of `TestData` -/

namespace tests

theorem digit_value_digit_char : ∀ d, d < 10 → digit_value (digit_char d) = some d := by
  decide

theorem digit_char_plain : ∀ d, d < 10 →
    isspace (digit_char d) = false ∧ digit_char d ≠ '-' ∧ digit_char d ≠ '+' ∧
      digit_char d ≠ ',' := by
  decide

theorem leading_digits_digit (d : Nat) (hd : d < 10) (rest : List Char) (v c : Nat) :
    leading_digits (digit_char d :: rest) v c = leading_digits rest (10 * v + d) (c + 1) := by
  simp only [leading_digits, digit_value_digit_char d hd]

theorem nat_text_aux_spec (fuel : Nat) : ∀ (n : Nat) (acc : List Char), n < fuel →
    ∃ ds, nat_text_aux fuel n acc = ds ++ acc ∧ ds ≠ [] ∧ (∀ c ∈ ds, ∃ d, d < 10 ∧ c = digit_char d) ∧
      ∀ rest v c, leading_digits (ds ++ rest) v c
        = leading_digits rest (v * 10 ^ ds.length + n) (c + ds.length) := by
  induction fuel with
  | zero => intro n acc h; omega
  | succ fuel ih =>
    intro n acc h
    by_cases h0 : n / 10 = 0
    · have hn : n < 10 := by omega
      refine ⟨[digit_char (n % 10)], ?_, by simp, ?_, ?_⟩
      · simp only [nat_text_aux, h0, if_true, List.singleton_append]
      · intro c hc
        simp only [List.mem_singleton] at hc
        exact ⟨n % 10, Nat.mod_lt _ (by decide), hc⟩
      · intro rest v c
        simp only [List.singleton_append, List.length_singleton, pow_one]
        rw [leading_digits_digit _ (Nat.mod_lt _ (by decide))]
        congr 1
        omega
    · obtain ⟨ds, h1, h2, h3, h4⟩ := ih (n / 10) (digit_char (n % 10) :: acc) (by omega)
      refine ⟨ds ++ [digit_char (n % 10)], ?_, by simp, ?_, ?_⟩
      · simp only [nat_text_aux, h0, if_false, h1, List.append_assoc, List.singleton_append]
      · intro c hc
        rcases List.mem_append.1 hc with hc | hc
        · exact h3 c hc
        · simp only [List.mem_singleton] at hc
          exact ⟨n % 10, Nat.mod_lt _ (by decide), hc⟩
      · intro rest v c
        simp only [List.append_assoc, List.singleton_append, List.length_append,
          List.length_singleton]
        rw [h4, leading_digits_digit _ (Nat.mod_lt _ (by decide))]
        congr 1
        · rw [pow_succ]
          have := Nat.div_add_mod n 10
          nlinarith [Nat.div_add_mod n 10]

theorem nat_text_spec (n : Nat) :
    nat_text n ≠ [] ∧ (∀ c ∈ nat_text n, ∃ d, d < 10 ∧ c = digit_char d) ∧
      ∀ v c, leading_digits (nat_text n) v c
        = (v * 10 ^ (nat_text n).length + n, c + (nat_text n).length) := by
  obtain ⟨ds, h1, h2, h3, h4⟩ := nat_text_aux_spec (n + 1) n [] (Nat.lt_succ_self n)
  simp only [List.append_nil] at h1
  have e : nat_text n = ds := h1
  rw [e]
  refine ⟨h2, h3, ?_⟩
  intro v c
  have := h4 [] v c
  simpa [leading_digits] using this

end tests

namespace tests

theorem strtol_digits (t : List Char) (hne : t ≠ [])
    (hd : ∀ c ∈ t, ∃ d, d < 10 ∧ c = digit_char d) :
    strtol t = (if (leading_digits t 0 0).2 = 0 then none
      else some (min ((leading_digits t 0 0).1 : Int) (2 ^ 63 - 1))) ∧
    strtol ('-' :: t) = (if (leading_digits t 0 0).2 = 0 then none
      else some (max (-((leading_digits t 0 0).1 : Int)) (-(2 ^ 63 : Int)))) := by
  cases t with
  | nil => exact absurd rfl hne
  | cons c cs =>
    obtain ⟨d, hd1, hd2⟩ := hd c (List.mem_cons_self c cs)
    obtain ⟨h1, h2, h3, _⟩ := digit_char_plain d hd1
    rw [← hd2] at h1 h2 h3
    constructor
    · have e1 : (c :: cs).dropWhile isspace = c :: cs := by
        simp only [List.dropWhile, h1]
      simp only [strtol, e1, List.head?_cons, Option.some.injEq, h2, h3, or_self, if_false]
    · have e1 : ('-' :: c :: cs).dropWhile isspace = '-' :: c :: cs := by
        have : isspace '-' = false := by decide
        simp only [List.dropWhile, this]
      simp only [strtol, e1, List.head?_cons, true_or, if_true, List.tail_cons]

theorem strtol_int_text (x : Int) (h1 : -(2 ^ 63 : Int) ≤ x) (h2 : x ≤ 2 ^ 63 - 1) :
    strtol (int_text x) = some x := by
  by_cases hx : x < 0
  · obtain ⟨hne, hd, hl⟩ := nat_text_spec x.natAbs
    have hlen : (nat_text x.natAbs).length ≠ 0 := by
      intro h
      exact hne (List.length_eq_zero.1 h)
    simp only [int_text, hx, if_true]
    rw [(strtol_digits _ hne hd).2, hl 0 0]
    simp only [Nat.zero_mul, Nat.zero_add, hlen, if_false, Option.some.injEq]
    omega
  · obtain ⟨hne, hd, hl⟩ := nat_text_spec x.toNat
    have hlen : (nat_text x.toNat).length ≠ 0 := by
      intro h
      exact hne (List.length_eq_zero.1 h)
    simp only [int_text, hx, if_false]
    rw [(strtol_digits _ hne hd).1, hl 0 0]
    simp only [Nat.zero_mul, Nat.zero_add, hlen, if_false, Option.some.injEq]
    omega

theorem long_to_int_id (x : Int) (h1 : -(2 ^ 31 : Int) ≤ x) (h2 : x < 2 ^ 31) :
    long_to_int x = x := by
  simp only [long_to_int]
  omega

theorem int_text_plain (x : Int) : int_text x ≠ [] ∧ ',' ∉ int_text x := by
  have hd : ∀ n, ',' ∉ nat_text n := by
    intro n hm
    obtain ⟨d, hd1, hd2⟩ := (nat_text_spec n).2.1 ',' hm
    exact (digit_char_plain d hd1).2.2.2 hd2.symm
  by_cases hx : x < 0
  · simp only [int_text, hx, if_true]
    refine ⟨by simp, ?_⟩
    simp only [List.mem_cons, not_or]
    exact ⟨by decide, hd _⟩
  · simp only [int_text, hx, if_false]
    exact ⟨(nat_text_spec _).1, hd _⟩

theorem getline_field (t rest : List Char) (hne : t ≠ []) (hc : ',' ∉ t) :
    getline (some (t ++ ',' :: rest)) ',' = (some t, some rest) ∧
    getline (some t) ',' = (some t, none) := by
  cases t with
  | nil => exact absurd rfl hne
  | cons c cs =>
    constructor
    · have := split_first_append ',' (c :: cs) rest hc
      simp only [List.cons_append] at this ⊢
      simp only [getline, this]
    · have h1 : split_first ',' (c :: cs) = none := by
        cases h : split_first ',' (c :: cs) with
        | none => rfl
        | some p =>
          obtain ⟨a, b⟩ := p
          obtain ⟨_, h3⟩ := split_first_some ',' (c :: cs) a b h
          rw [h3] at hc
          simp at hc
      simp only [getline, h1]

theorem DeserializeField_int_text (x : Int) (h1 : -(2 ^ 31 : Int) ≤ x) (h2 : x < 2 ^ 31)
    (rest : List Char) :
    TestData.DeserializeField (some (int_text x ++ ',' :: rest)) ',' = (some x, some rest) ∧
    TestData.DeserializeField (some (int_text x)) ',' = (some x, none) := by
  obtain ⟨hne, hc⟩ := int_text_plain x
  obtain ⟨g1, g2⟩ := getline_field (int_text x) rest hne hc
  have hs := strtol_int_text x (by omega) (by omega)
  simp only [TestData.DeserializeField, g1, g2, hs, long_to_int_id x h1 h2, and_self]

theorem Deserialize_Serialize (t self : TestData) (hx1 : -(2 ^ 31 : Int) ≤ t.x)
    (hx2 : t.x < 2 ^ 31) (hy1 : -(2 ^ 31 : Int) ≤ t.y) (hy2 : t.y < 2 ^ 31) :
    TestData.Deserialize t.Serialize self = (true, t) := by
  simp only [TestData.Deserialize, TestData.Serialize,
    (DeserializeField_int_text t.x hx1 hx2 (int_text t.y)).1,
    (DeserializeField_int_text t.y hy1 hy2 []).2]

end tests

theorem split_first_none_iff (c : Char) (l : List Char) : split_first c l = none ↔ c ∉ l := by
  induction l with
  | nil => simp [split_first]
  | cons x xs ih =>
    by_cases hx : x = c
    · simp [split_first, hx]
    · have hx2 : ¬ c = x := fun e => hx e.symm
      cases h : split_first c xs with
      | none => simp [split_first, hx, hx2, h, ih.1 h]
      | some p =>
        have : c ∈ xs := by
          by_contra hn
          rw [ih.2 hn] at h
          cases h
        simp [split_first, hx, h, this]

theorem split_first_append_right (c : Char) (l j a b : List Char)
    (h : split_first c l = some (a, b)) : split_first c (l ++ j) = some (a, b ++ j) := by
  obtain ⟨h1, h2⟩ := split_first_some c l a b h
  rw [h2, List.append_assoc, List.cons_append]
  exact split_first_append c a (b ++ j) h1

namespace tests

theorem leading_digits_append (s j : List Char)
    (hj : ∀ c, j.head? = some c → digit_value c = none) (v n : Nat) :
    leading_digits (s ++ j) v n = leading_digits s v n := by
  induction s generalizing v n with
  | nil =>
    cases j with
    | nil => rfl
    | cons c cs => simp only [List.nil_append, leading_digits, hj c rfl]
  | cons x xs ih =>
    simp only [List.cons_append, leading_digits]
    cases digit_value x with
    | none => rfl
    | some d => exact ih _ _

theorem leading_digits_count (s : List Char) (v n : Nat) :
    n ≤ (leading_digits s v n).2 := by
  induction s generalizing v n with
  | nil => exact Nat.le_refl n
  | cons x xs ih =>
    simp only [leading_digits]
    cases digit_value x with
    | none => exact Nat.le_refl n
    | some d => exact Nat.le_trans (Nat.le_succ n) (ih _ _)

theorem dropWhile_append_of_ne (p : Char → Bool) (a j : List Char)
    (h : a.dropWhile p ≠ []) : (a ++ j).dropWhile p = a.dropWhile p ++ j := by
  induction a with
  | nil => exact absurd rfl h
  | cons x xs ih =>
    cases hp : p x with
    | true =>
      simp only [List.cons_append, List.dropWhile, hp] at h ⊢
      exact ih h
    | false =>
      simp only [List.cons_append, List.dropWhile, hp]
      rfl

theorem strtol_append (a j : List Char) (v : Int) (h : strtol a = some v)
    (hj : ∀ c, j.head? = some c → digit_value c = none) : strtol (a ++ j) = some v := by
  have hne : a.dropWhile isspace ≠ [] := by
    intro e
    simp [strtol, e, leading_digits] at h
  rw [← h]
  simp only [strtol, dropWhile_append_of_ne isspace a j hne]
  cases hs : a.dropWhile isspace with
  | nil => exact absurd hs hne
  | cons x xs =>
    simp only [List.cons_append, List.head?_cons, List.tail_cons]
    by_cases hx : some x = some '-' ∨ some x = some '+'
    · simp only [hx, if_true, leading_digits_append xs j hj]
    · simp only [hx, if_false]
      rw [← List.cons_append, leading_digits_append (x :: xs) j hj]

theorem getline_append (rest junk : List Char) (hr : rest ≠ []) (hc : ',' ∉ rest) :
    ∃ j st, getline (some (rest ++ junk)) ',' = (some (rest ++ j), st) ∧
      ∀ c, j.head? = some c → junk.head? = some c := by
  cases rest with
  | nil => exact absurd rfl hr
  | cons x xs =>
    cases hs : split_first ',' junk with
    | none =>
      refine ⟨junk, none, ?_, fun c h => h⟩
      have : split_first ',' (x :: xs ++ junk) = none := by
        rw [split_first_none_iff] at hs ⊢
        simp only [List.mem_append, not_or]
        exact ⟨hc, hs⟩
      simp only [List.cons_append] at this ⊢
      simp only [getline, this]
    | some p =>
      obtain ⟨jb, ja⟩ := p
      obtain ⟨h1, h2⟩ := split_first_some ',' junk jb ja hs
      refine ⟨jb, some ja, ?_, ?_⟩
      · have : split_first ',' (x :: xs ++ junk) = some (x :: xs ++ jb, ja) := by
          rw [h2, ← List.append_assoc]
          apply split_first_append
          simp only [List.mem_append, not_or]
          exact ⟨hc, h1⟩
        simp only [List.cons_append] at this ⊢
        simp only [getline, this]
      · intro c hcj
        rw [h2]
        cases jb with
        | nil => cases hcj
        | cons y ys => exact hcj

theorem DeserializeField_append (st junk : List Char) (v : Int) (st2 : stream)
    (h : TestData.DeserializeField (some st) ',' = (some v, st2))
    (hj : ∀ c, junk.head? = some c → digit_value c = none) :
    ∃ st3, TestData.DeserializeField (some (st ++ junk)) ',' = (some v, st3) ∧
      ∀ rest, st2 = some rest → st3 = some (rest ++ junk) := by
  cases st with
  | nil => simp [TestData.DeserializeField, getline] at h
  | cons x xs =>
    cases hs : split_first ',' (x :: xs) with
    | some p =>
      obtain ⟨a, b⟩ := p
      have hs2 := split_first_append_right ',' (x :: xs) junk a b hs
      simp only [List.cons_append] at hs2
      simp only [TestData.DeserializeField, getline, hs] at h
      simp only [TestData.DeserializeField, List.cons_append, getline, hs2]
      cases hv : strtol a with
      | none => simp [hv] at h
      | some w =>
        simp only [hv, Prod.mk.injEq, Option.some.injEq] at h
        refine ⟨some (b ++ junk), by simp only [h.1], ?_⟩
        intro rest hrest
        rw [← h.2] at hrest
        cases hrest
        rfl
    | none =>
      simp only [TestData.DeserializeField, getline, hs] at h
      obtain ⟨j, st3, hg, hhead⟩ := getline_append (x :: xs) junk (by simp)
        ((split_first_none_iff ',' (x :: xs)).1 hs)
      cases hv : strtol (x :: xs) with
      | none => simp [hv] at h
      | some w =>
        simp only [hv, Prod.mk.injEq, Option.some.injEq] at h
        have hv2 := strtol_append (x :: xs) j w hv (fun c hc => hj c (hhead c hc))
        refine ⟨st3, ?_, ?_⟩
        · simp only [TestData.DeserializeField, hg, hv2, h.1]
        · intro rest hrest
          rw [← h.2] at hrest
          cases hrest

theorem Deserialize_append (s : String) (junk : List Char) (self t : TestData)
    (h : TestData.Deserialize s self = (true, t))
    (hj : ∀ c, junk.head? = some c → digit_value c = none) :
    TestData.Deserialize ⟨s.data ++ junk⟩ self = (true, t) := by
  simp only [TestData.Deserialize] at h ⊢
  cases h1 : TestData.DeserializeField (some s.data) ',' with
  | mk r1 st1 =>
    cases r1 with
    | none => simp [h1] at h
    | some x =>
      simp only [h1] at h
      cases st1 with
      | none =>
        simp [TestData.DeserializeField, getline] at h
      | some rest =>
        obtain ⟨st3, e1, e2⟩ := DeserializeField_append s.data junk x (some rest) h1 hj
        have e3 := e2 rest rfl
        subst e3
        cases h2 : TestData.DeserializeField (some rest) ',' with
        | mk r2 st2 =>
          cases r2 with
          | none => simp [h2] at h
          | some y =>
            simp only [h2] at h
            obtain ⟨st4, e4, _⟩ := DeserializeField_append rest junk y st2 h2 hj
            simp only [e1, e4]
            exact h

end tests

namespace tests

theorem leading_digits_append_count (s j : List Char) (v n : Nat) :
    (leading_digits s v n).2 ≤ (leading_digits (s ++ j) v n).2 := by
  induction s generalizing v n with
  | nil => exact leading_digits_count j v n
  | cons x xs ih =>
    simp only [List.cons_append, leading_digits]
    cases digit_value x with
    | none => exact Nat.le_refl n
    | some d => exact ih _ _

theorem strtol_isSome_iff (a : List Char) :
    (strtol a).isSome = true ↔
      (leading_digits
        (if (a.dropWhile isspace).head? = some '-' ∨ (a.dropWhile isspace).head? = some '+'
          then (a.dropWhile isspace).tail else a.dropWhile isspace) 0 0).2 ≠ 0 := by
  simp only [strtol]
  by_cases hx : (a.dropWhile isspace).head? = some '-' ∨ (a.dropWhile isspace).head? = some '+'
  · simp only [hx, if_true]
    by_cases hc : (leading_digits (a.dropWhile isspace).tail 0 0).2 = 0
    · simp [hc]
    · by_cases hn : (a.dropWhile isspace).head? = some '-' <;> simp [hc, hn]
  · simp only [hx, if_false]
    by_cases hc : (leading_digits (a.dropWhile isspace) 0 0).2 = 0
    · simp [hc]
    · by_cases hn : (a.dropWhile isspace).head? = some '-' <;> simp [hc, hn]

theorem strtol_append_isSome (a j : List Char) (h : (strtol a).isSome = true) :
    (strtol (a ++ j)).isSome = true := by
  have hne : a.dropWhile isspace ≠ [] := by
    intro e
    simp [strtol, e, leading_digits] at h
  rw [strtol_isSome_iff] at h ⊢
  rw [dropWhile_append_of_ne isspace a j hne]
  cases hs : a.dropWhile isspace with
  | nil => exact absurd hs hne
  | cons x xs =>
    simp only [hs, List.cons_append, List.head?_cons, List.tail_cons] at h ⊢
    by_cases hx : some x = some '-' ∨ some x = some '+'
    · simp only [hx, if_true] at h ⊢
      have := leading_digits_append_count xs j 0 0
      omega
    · simp only [hx, if_false] at h ⊢
      have := leading_digits_append_count (x :: xs) j 0 0
      simp only [List.cons_append] at this
      omega

theorem DeserializeField_append_isSome (st junk : List Char) (v : Int) (st2 : stream)
    (h : TestData.DeserializeField (some st) ',' = (some v, st2)) :
    ∃ w st3, TestData.DeserializeField (some (st ++ junk)) ',' = (some w, st3) ∧
      ∀ rest, st2 = some rest → st3 = some (rest ++ junk) := by
  cases st with
  | nil => simp [TestData.DeserializeField, getline] at h
  | cons x xs =>
    cases hs : split_first ',' (x :: xs) with
    | some p =>
      obtain ⟨a, b⟩ := p
      have hs2 := split_first_append_right ',' (x :: xs) junk a b hs
      simp only [List.cons_append] at hs2
      simp only [TestData.DeserializeField, getline, hs] at h
      simp only [TestData.DeserializeField, List.cons_append, getline, hs2]
      cases hv : strtol a with
      | none => simp [hv] at h
      | some w =>
        simp only [hv, Prod.mk.injEq, Option.some.injEq] at h
        refine ⟨long_to_int w, some (b ++ junk), rfl, ?_⟩
        intro rest hrest
        rw [← h.2] at hrest
        cases hrest
        rfl
    | none =>
      simp only [TestData.DeserializeField, getline, hs] at h
      obtain ⟨j, st3, hg, _⟩ := getline_append (x :: xs) junk (by simp)
        ((split_first_none_iff ',' (x :: xs)).1 hs)
      cases hv : strtol (x :: xs) with
      | none => simp [hv] at h
      | some w =>
        simp only [hv, Prod.mk.injEq, Option.some.injEq] at h
        have hv2 := strtol_append_isSome (x :: xs) j (by rw [hv]; rfl)
        obtain ⟨w2, hv3⟩ := Option.isSome_iff_exists.1 hv2
        refine ⟨long_to_int w2, st3, ?_, ?_⟩
        · simp only [TestData.DeserializeField, hg, hv3]
        · intro rest hrest
          rw [← h.2] at hrest
          cases hrest

theorem Deserialize_append_true (s : String) (junk : List Char) (self t : TestData)
    (h : TestData.Deserialize s self = (true, t)) :
    (TestData.Deserialize ⟨s.data ++ junk⟩ self).1 = true := by
  simp only [TestData.Deserialize] at h ⊢
  cases h1 : TestData.DeserializeField (some s.data) ',' with
  | mk r1 st1 =>
    cases r1 with
    | none => simp [h1] at h
    | some x =>
      simp only [h1] at h
      cases st1 with
      | none =>
        simp [TestData.DeserializeField, getline] at h
      | some rest =>
        obtain ⟨w, st3, e1, e2⟩ := DeserializeField_append_isSome s.data junk x (some rest) h1
        have e3 := e2 rest rfl
        subst e3
        cases h2 : TestData.DeserializeField (some rest) ',' with
        | mk r2 st2 =>
          cases r2 with
          | none => simp [h2] at h
          | some y =>
            obtain ⟨w2, st4, e4, _⟩ := DeserializeField_append_isSome rest junk y st2 h2
            simp only [e1, e4]

end tests

/-- C28. TestData codec round trip: for every pair of ints (x, y), `TestData::Serialize`
writes the decimal text of x, a comma and the decimal text of y, each of which `strtol`
reads back as the number, and `TestData::Deserialize` applied to that text returns true
and sets the target to (x, y); the encoding is therefore injective on pairs of ints, and
(1,2) is written as "1,2". -/
theorem C28_codec_round_trip (t self : tests.TestData)
    (hx : -(2 ^ 31 : Int) ≤ t.x ∧ t.x < 2 ^ 31) (hy : -(2 ^ 31 : Int) ≤ t.y ∧ t.y < 2 ^ 31) :
    t.Serialize = ⟨tests.int_text t.x ++ ',' :: tests.int_text t.y⟩ ∧
    tests.strtol (tests.int_text t.x) = some t.x ∧
    tests.strtol (tests.int_text t.y) = some t.y ∧
    tests.TestData.Deserialize t.Serialize self = (true, t) ∧
    (∀ u : tests.TestData, -(2 ^ 31 : Int) ≤ u.x ∧ u.x < 2 ^ 31 →
      -(2 ^ 31 : Int) ≤ u.y ∧ u.y < 2 ^ 31 → u.Serialize = t.Serialize → u = t) ∧
    (tests.TestData.Serialize ⟨1, 2⟩ = "1,2" ∧
      tests.TestData.Deserialize "1,2" self = (true, ⟨1, 2⟩)) := by
  have h1 := tests.Deserialize_Serialize t self hx.1 hx.2 hy.1 hy.2
  refine ⟨rfl, tests.strtol_int_text t.x (by omega) (by omega),
    tests.strtol_int_text t.y (by omega) (by omega), h1, ?_, by decide, rfl⟩
  intro u hux huy he
  have h2 := tests.Deserialize_Serialize u self hux.1 hux.2 huy.1 huy.2
  rw [he, h1] at h2
  exact (Prod.mk.inj h2).2.symm

/-- C28, witness: the pair (3, -42), written as "3,-42" and read into (0, 0). -/
theorem C28_codec_round_trip_witness :
    tests.TestData.Serialize ⟨3, -42⟩ = "3,-42" ∧
    tests.TestData.Deserialize (tests.TestData.Serialize ⟨3, -42⟩) ⟨0, 0⟩
      = (true, ⟨3, -42⟩) :=
  have h := C28_codec_round_trip ⟨3, -42⟩ ⟨0, 0⟩ (by decide) (by decide)
  ⟨by decide, h.2.2.2.1⟩

/-- C29. TestData decode is atomic on failure: for every input string on which
`TestData::Deserialize` returns false the target object is left exactly as it was; so it
is when the second field is missing ("1"), empty ("1,") or does not start with a number
("1,b"), and when the first field is empty (",2") or does not start with a number
("a,2"). -/
theorem C29_decode_atomic_on_failure (s : String) (self : tests.TestData)
    (h : (tests.TestData.Deserialize s self).1 = false) :
    (tests.TestData.Deserialize s self).2 = self ∧
    (tests.TestData.Deserialize "1" self = (false, self) ∧
      tests.TestData.Deserialize "1," self = (false, self) ∧
      tests.TestData.Deserialize "1,b" self = (false, self) ∧
      tests.TestData.Deserialize ",2" self = (false, self) ∧
      tests.TestData.Deserialize "a,2" self = (false, self)) := by
  refine ⟨?_, rfl, rfl, rfl, rfl, rfl⟩
  simp only [tests.TestData.Deserialize] at h ⊢
  cases h1 : tests.TestData.DeserializeField (some s.data) ',' with
  | mk r1 st1 =>
    cases r1 with
    | none => rfl
    | some x =>
      simp only [h1] at h ⊢
      cases h2 : tests.TestData.DeserializeField st1 ',' with
      | mk r2 st2 =>
        cases r2 with
        | none => rfl
        | some y => simp [h2] at h

/-- C29, witness: the text "7,x", whose second field is not a number, read into (3, 4). -/
theorem C29_decode_atomic_on_failure_witness :
    (tests.TestData.Deserialize "7,x" ⟨3, 4⟩).1 = false ∧
    (tests.TestData.Deserialize "7,x" ⟨3, 4⟩).2 = ⟨3, 4⟩ :=
  ⟨by decide, (C29_decode_atomic_on_failure "7,x" ⟨3, 4⟩ (by decide)).1⟩

/-- C30 (as amended). TestData decode accepts trailing data: for every input string that
holds two parseable comma-separated fields, on which `TestData::Deserialize` returns true,
followed by further data, `TestData::Deserialize` returns true; when the further data does
not begin with a digit (a third field as in "1,2,3", or non-numeric characters after a
number as in "1,2abc") the target is set to the same two fields. -/
theorem C30_decode_accepts_trailing_data (s : String) (junk : List Char)
    (self t : tests.TestData) (h : tests.TestData.Deserialize s self = (true, t)) :
    (tests.TestData.Deserialize ⟨s.data ++ junk⟩ self).1 = true ∧
    ((∀ c, junk.head? = some c → tests.digit_value c = none) →
      tests.TestData.Deserialize ⟨s.data ++ junk⟩ self = (true, t)) :=
  ⟨tests.Deserialize_append_true s junk self t h,
    fun hj => tests.Deserialize_append s junk self t h hj⟩

/-- C30, witness: the text "1,2" followed by "abc", read into (0, 0). -/
theorem C30_decode_accepts_trailing_data_witness :
    tests.TestData.Deserialize "1,2" ⟨0, 0⟩ = (true, ⟨1, 2⟩) ∧
    tests.TestData.Deserialize ⟨"1,2".data ++ "abc".data⟩ ⟨0, 0⟩ = (true, ⟨1, 2⟩) :=
  ⟨by decide, (C30_decode_accepts_trailing_data "1,2" "abc".data ⟨0, 0⟩ ⟨1, 2⟩ (by decide)).2
    (fun c hc => by cases hc; decide)⟩

/-- C30, counterexample to the claim as stated: the text "1,2,3" holds two parseable fields
followed by a third, and "1,2abc" holds non-numeric characters after a number; on both
`TestData::Deserialize` returns true and sets the target to (1, 2). -/
theorem C30_counterexample :
    tests.TestData.Deserialize "1,2,3" ⟨0, 0⟩ = (true, ⟨1, 2⟩) ∧
    tests.TestData.Deserialize "1,2abc" ⟨0, 0⟩ = (true, ⟨1, 2⟩) := by
  decide

namespace solver

/-! ## Claims C32 to C34: the default solution and the performance configs -/

/-- C32. Solution defaults: for every status st, `ConvSolution(st)` has status st, an empty
`construction_params`, `workspce_sz` 0 and each of the nine tile and grouping integers
equal to -1; `Succeeded()` is true iff the status is `miopenStatusSuccess`, and the
default-constructed solution is succeeded. -/
theorem C32_solution_defaults (st : miopenStatus_t) :
    (ConvSolution.ctor st).status = st ∧
    (ConvSolution.ctor st).construction_params = [] ∧
    (ConvSolution.ctor st).workspce_sz = 0 ∧
    ((ConvSolution.ctor st).grp_tile1 = -1 ∧ (ConvSolution.ctor st).grp_tile0 = -1 ∧
      (ConvSolution.ctor st).in_tile1 = -1 ∧ (ConvSolution.ctor st).in_tile0 = -1 ∧
      (ConvSolution.ctor st).out_pix_tile1 = -1 ∧ (ConvSolution.ctor st).out_pix_tile0 = -1 ∧
      (ConvSolution.ctor st).n_out_pix_tiles = -1 ∧
      (ConvSolution.ctor st).n_in_data_tiles = -1 ∧ (ConvSolution.ctor st).n_stacks = -1) ∧
    (∀ s : ConvSolution, s.Succeeded = true ↔ s.status = miopenStatusSuccess) ∧
    ((ConvSolution.ctor st).Succeeded = true ↔ st = miopenStatusSuccess) ∧
    ConvSolution.ctor_default.status = miopenStatusSuccess ∧
    ConvSolution.ctor_default.Succeeded = true := by
  refine ⟨rfl, rfl, rfl, ⟨rfl, rfl, rfl, rfl, rfl, rfl, rfl, rfl, rfl⟩, ?_, ?_, rfl, rfl⟩
  · intro s
    simp [ConvSolution.Succeeded]
  · simp [ConvSolution.Succeeded, ConvSolution.ctor]

/-- C33. Field order of the performance configs: for each of
`PerformanceConfigConvAsm3x3U`, `PerformanceConfigAsmDirect3x3WrW` and
`PerformanceConfigConvAsmBwdWrW1x1`, `Visit` calls the visitor on every declared field
exactly once, in declaration order and with the name of the field as tag, so two configs
are visited to the same value sequence iff they are field-wise equal. -/
theorem C33_visit_field_order :
    ((∀ (σ : Type) (c : PerformanceConfigConvAsm3x3U) (f : Int → String → σ → σ) (st : σ),
        c.Visit f st =
          f c.output_lines_per_wave "output_lines_per_wave"
            (f c.filters_per_wave "filters_per_wave"
              (f c.limit_wave_cnt "limit_wave_cnt" st))) ∧
      (∀ c : PerformanceConfigConvAsm3x3U, c.Visit record_call [] =
        [(c.limit_wave_cnt, "limit_wave_cnt"), (c.filters_per_wave, "filters_per_wave"),
         (c.output_lines_per_wave, "output_lines_per_wave")]) ∧
      (∀ c1 c2 : PerformanceConfigConvAsm3x3U,
        (c1.Visit record_call []).map Prod.fst = (c2.Visit record_call []).map Prod.fst ↔
          c1 = c2)) ∧
    ((∀ (σ : Type) (c : PerformanceConfigAsmDirect3x3WrW) (f : Int → String → σ → σ) (st : σ),
        c.Visit f st =
          f c.n_per_group "n_per_group"
            (f c.pipe_lines_depth "pipe_lines_depth"
              (f c.k_per_wave "k_per_wave"
                (f c.chunk_size "chunk_size"
                  (f c.reverse_inout "reverse_inout"
                    (f c.limit_wave_cnt "limit_wave_cnt" st)))))) ∧
      (∀ c : PerformanceConfigAsmDirect3x3WrW, c.Visit record_call [] =
        [(c.limit_wave_cnt, "limit_wave_cnt"), (c.reverse_inout, "reverse_inout"),
         (c.chunk_size, "chunk_size"), (c.k_per_wave, "k_per_wave"),
         (c.pipe_lines_depth, "pipe_lines_depth"), (c.n_per_group, "n_per_group")]) ∧
      (∀ c1 c2 : PerformanceConfigAsmDirect3x3WrW,
        (c1.Visit record_call []).map Prod.fst = (c2.Visit record_call []).map Prod.fst ↔
          c1 = c2)) ∧
    ((∀ (σ : Type) (c : PerformanceConfigConvAsmBwdWrW1x1) (f : Int → String → σ → σ) (st : σ),
        c.Visit f st =
          f c.n_per_gpr "n_per_gpr"
            (f c.read_size "read_size"
              (f c.k_mult "k_mult"
                (f c.k_per_gpr "k_per_gpr"
                  (f c.c_mult "c_mult"
                    (f c.c_per_gpr "c_per_gpr" st)))))) ∧
      (∀ c : PerformanceConfigConvAsmBwdWrW1x1, c.Visit record_call [] =
        [(c.c_per_gpr, "c_per_gpr"), (c.c_mult, "c_mult"), (c.k_per_gpr, "k_per_gpr"),
         (c.k_mult, "k_mult"), (c.read_size, "read_size"), (c.n_per_gpr, "n_per_gpr")]) ∧
      (∀ c1 c2 : PerformanceConfigConvAsmBwdWrW1x1,
        (c1.Visit record_call []).map Prod.fst = (c2.Visit record_call []).map Prod.fst ↔
          c1 = c2)) := by
  refine ⟨⟨fun _ _ _ _ => rfl, fun _ => rfl, ?_⟩, ⟨fun _ _ _ _ => rfl, fun _ => rfl, ?_⟩,
    ⟨fun _ _ _ _ => rfl, fun _ => rfl, ?_⟩⟩
  · intro c1 c2
    constructor
    · intro h
      obtain ⟨a1, b1, d1⟩ := c1
      obtain ⟨a2, b2, d2⟩ := c2
      simp only [PerformanceConfigConvAsm3x3U.Visit, record_call, List.nil_append,
        List.cons_append, List.map_cons, List.map_nil, List.cons.injEq, and_true] at h
      obtain ⟨h1, h2, h3⟩ := h
      subst h1 h2 h3
      rfl
    · intro h
      rw [h]
  · intro c1 c2
    constructor
    · intro h
      obtain ⟨a1, b1, d1, e1, g1, i1⟩ := c1
      obtain ⟨a2, b2, d2, e2, g2, i2⟩ := c2
      simp only [PerformanceConfigAsmDirect3x3WrW.Visit, record_call, List.nil_append,
        List.cons_append, List.map_cons, List.map_nil, List.cons.injEq, and_true] at h
      obtain ⟨h1, h2, h3, h4, h5, h6⟩ := h
      subst h1 h2 h3 h4 h5 h6
      rfl
    · intro h
      rw [h]
  · intro c1 c2
    constructor
    · intro h
      obtain ⟨a1, b1, d1, e1, g1, i1⟩ := c1
      obtain ⟨a2, b2, d2, e2, g2, i2⟩ := c2
      simp only [PerformanceConfigConvAsmBwdWrW1x1.Visit, record_call, List.nil_append,
        List.cons_append, List.map_cons, List.map_nil, List.cons.injEq, and_true] at h
      obtain ⟨h1, h2, h3, h4, h5, h6⟩ := h
      subst h1 h2 h3 h4 h5 h6
      rfl
    · intro h
      rw [h]

/-- C34. Derived config quantities are exact on the declared domains: for every
`c_per_gpr` in {1,2,4,8,16}, `GetChunkSize() * c_per_gpr == 16`; for every `n_per_gpr` in
{1,2,4}, `GetHwPerGpr() * n_per_gpr == 4`; for every `chunk_size` in {16,8},
`GetCPerWave() * chunk_size == 64`; on these domains the assertions on the divisors hold
and no division by zero occurs. -/
theorem C34_derived_quantities :
    (∀ c : PerformanceConfigConvAsmBwdWrW1x1, c.c_per_gpr ∈ [1, 2, 4, 8, 16] →
      c.c_per_gpr ≠ 0 ∧ ∃ q, c.GetChunkSize = some q ∧ q * c.c_per_gpr = 16) ∧
    (∀ c : PerformanceConfigConvAsmBwdWrW1x1, c.n_per_gpr ∈ [1, 2, 4] →
      c.n_per_gpr ≠ 0 ∧ ∃ q, c.GetHwPerGpr = some q ∧ q * c.n_per_gpr = 4) ∧
    (∀ c : PerformanceConfigAsmDirect3x3WrW, c.chunk_size ∈ [16, 8] →
      c.chunk_size ≠ 0 ∧ ∃ q, c.GetCPerWave = some q ∧ q * c.chunk_size = 64) := by
  refine ⟨?_, ?_, ?_⟩
  · intro c h
    simp only [List.mem_cons, List.mem_singleton, List.not_mem_nil, or_false] at h
    rcases h with h | h | h | h | h <;>
      simp [PerformanceConfigConvAsmBwdWrW1x1.GetChunkSize, h]
    all_goals decide
  · intro c h
    simp only [List.mem_cons, List.mem_singleton, List.not_mem_nil, or_false] at h
    rcases h with h | h | h <;>
      simp [PerformanceConfigConvAsmBwdWrW1x1.GetHwPerGpr, h]
    all_goals decide
  · intro c h
    simp only [List.mem_cons, List.mem_singleton, List.not_mem_nil, or_false] at h
    rcases h with h | h <;>
      simp [PerformanceConfigAsmDirect3x3WrW.GetCPerWave, h]
    all_goals decide

/-- C34, witness: the config (4, 1, 1, 1, 1, 2) of `PerformanceConfigConvAsmBwdWrW1x1`,
whose chunk size is 4. -/
theorem C34_derived_quantities_witness :
    (4 : Int) ≠ 0 ∧
    ∃ q, PerformanceConfigConvAsmBwdWrW1x1.GetChunkSize ⟨4, 1, 1, 1, 1, 2⟩ = some q ∧
      q * 4 = 16 :=
  C34_derived_quantities.1 ⟨4, 1, 1, 1, 1, 2⟩ (by decide)

end solver

namespace solver

/-! ## Claims C31 and C35: the mode switch and the two selection functions -/

theorem measure_calls_append (t1 t2 : List Event) :
    measure_calls (t1 ++ t2) = measure_calls t1 ++ measure_calls t2 := by
  simp [measure_calls]

theorem measure_calls_FindSolution (enforce : FindEnforce) (s : Solver)
    (ctx : ConvolutionContext) (r : DbRecord) :
    measure_calls (FindSolution enforce s ctx r).trace = [] := by
  simp only [measure_calls, List.filter_eq_nil_iff]
  intro e he
  simp [FindSolution_trace_no_measure enforce s ctx r e he]

theorem measure_calls_eq_nil (tr : List Event) (h : ∀ e ∈ tr, e.is_measure = false) :
    measure_calls tr = [] := by
  simp only [measure_calls, List.filter_eq_nil_iff]
  intro e he
  simp [h e he]

theorem timed_body_measure (env : Env) (ctx : ConvolutionContext) (s : Solver)
    (st : TimedState) (hp : passes_filter env ctx s = true)
    (hi : ((FindSolution env.enforce s ctx st.dbRecord).solution.internal_error
            && env.throw_debug) = false) :
    ∃ st1, SearchForSolution_timed_body env ctx s st = .ok st1 ∧
      st1.dbRecord = (FindSolution env.enforce s ctx st.dbRecord).dbRecord ∧
      measure_calls st1.trace = measure_calls st.trace ++
        (if (FindSolution env.enforce s ctx st.dbRecord).solution.usable then
          [Event.RunAndMeasureSolution s.db_id] else []) := by
  simp only [ConvSolution.internal_error] at hi
  by_cases hs : (FindSolution env.enforce s ctx st.dbRecord).solution.Succeeded = true
  · by_cases he : (FindSolution env.enforce s ctx st.dbRecord).solution.construction_params.isEmpty = true
    · have hb : SearchForSolution_timed_body env ctx s st =
          .ok { sel := st.sel
                dbRecord := (FindSolution env.enforce s ctx st.dbRecord).dbRecord
                trace := st.trace ++ (FindSolution env.enforce s ctx st.dbRecord).trace } := by
        simp only [SearchForSolution_timed_body, hp, if_true, hi]
        simp [hs, he, ctor_InternalError_not_Succeeded]
      refine ⟨_, hb, rfl, ?_⟩
      simp [ConvSolution.usable, hs, he, measure_calls_append, measure_calls_FindSolution]
    · have hb : SearchForSolution_timed_body env ctx s st =
          .ok { sel := SearchForSolution_switch
                  (s.RunAndMeasureSolution ctx
                    (FindSolution env.enforce s ctx st.dbRecord).solution
                    env.elapsed_time_init).1
                  (s.RunAndMeasureSolution ctx
                    (FindSolution env.enforce s ctx st.dbRecord).solution
                    env.elapsed_time_init).2
                  (FindSolution env.enforce s ctx st.dbRecord).solution st.sel
                dbRecord := (FindSolution env.enforce s ctx st.dbRecord).dbRecord
                trace := st.trace ++ (FindSolution env.enforce s ctx st.dbRecord).trace ++
                  [Event.RunAndMeasureSolution s.db_id] } := by
        simp only [SearchForSolution_timed_body, hp, if_true, hi]
        simp [hs, he]
      have he1 : (FindSolution env.enforce s ctx st.dbRecord).solution.construction_params.isEmpty
          = false := by simpa using he
      refine ⟨_, hb, rfl, ?_⟩
      simp only [ConvSolution.usable, hs, he1, measure_calls_append,
        measure_calls_FindSolution, List.append_nil, Bool.not_false, Bool.and_self, if_true]
      rfl
  · have hb : SearchForSolution_timed_body env ctx s st =
        .ok { sel := st.sel
              dbRecord := (FindSolution env.enforce s ctx st.dbRecord).dbRecord
              trace := st.trace ++ (FindSolution env.enforce s ctx st.dbRecord).trace } := by
      simp only [SearchForSolution_timed_body, hp, if_true, hi]
      simp [hs]
    refine ⟨_, hb, rfl, ?_⟩
    simp [ConvSolution.usable, hs, measure_calls_append, measure_calls_FindSolution]

theorem timed_loop_measure (env : Env) (ctx : ConvolutionContext) (cat : List Solver)
    (st : TimedState)
    (H : env.throw_debug = true →
      ∀ a ∈ attempts env ctx cat st.dbRecord, a.2.internal_error = false) :
    ∃ st1, MIOPEN_STATIC_FOR_EACH (SearchForSolution_timed_body env ctx) cat st = .ok st1 ∧
      measure_calls st1.trace = measure_calls st.trace ++
        ((attempts env ctx cat st.dbRecord).filter (fun a => a.2.usable)).map
          (fun a => Event.RunAndMeasureSolution a.1.db_id) := by
  induction cat generalizing st with
  | nil => exact ⟨st, rfl, by simp [attempts]⟩
  | cons s rest ih =>
    by_cases hp : passes_filter env ctx s = true
    · rw [attempts_cons_pass env ctx s rest _ hp] at H ⊢
      have hi : ((FindSolution env.enforce s ctx st.dbRecord).solution.internal_error
            && env.throw_debug) = false := by
        cases hd : env.throw_debug with
        | false => simp
        | true => simp [H hd _ (List.mem_cons_self _ _)]
      obtain ⟨st1, hb, hrec, htr⟩ := timed_body_measure env ctx s st hp hi
      obtain ⟨st2, h1, h2⟩ := ih st1 (fun hd a ha => H hd a (by
        rw [hrec] at ha
        exact List.mem_cons_of_mem _ ha))
      refine ⟨st2, ?_, ?_⟩
      · simp only [MIOPEN_STATIC_FOR_EACH, hb]
        exact h1
      · rw [h2, htr, hrec]
        by_cases hu : (FindSolution env.enforce s ctx st.dbRecord).solution.usable = true
        · simp [List.filter_cons, hu]
        · simp [List.filter_cons, hu]
    · have hp1 : passes_filter env ctx s = false := by simpa using hp
      rw [attempts_cons_skip env ctx s rest _ hp1] at H ⊢
      obtain ⟨st2, h1, h2⟩ := ih st H
      exact ⟨st2, by simp only [MIOPEN_STATIC_FOR_EACH, timed_body_skip env ctx s st hp1]; exact h1,
        h2⟩

theorem first_loop_trace (env : Env) (ctx : ConvolutionContext) (cat : List Solver)
    (st : SearchState) (h0 : ∀ e ∈ st.trace, e.is_measure = false) :
    match MIOPEN_STATIC_FOR_EACH (SearchForSolution_first_body env ctx) cat st with
    | .ok st1 => ∀ e ∈ st1.trace, e.is_measure = false
    | .error x => ∀ e ∈ x.trace, e.is_measure = false := by
  induction cat generalizing st with
  | nil => exact h0
  | cons s rest ih =>
    have htr : ∀ e ∈ st.trace ++ (FindSolution env.enforce s ctx st.dbRecord).trace,
        e.is_measure = false := by
      intro e he
      rcases List.mem_append.1 he with he | he
      · exact h0 e he
      · exact FindSolution_trace_no_measure _ _ _ _ e he
    simp only [MIOPEN_STATIC_FOR_EACH]
    by_cases hc : (!st.solution.Succeeded && passes_filter env ctx s) = true
    · by_cases hi : ((FindSolution env.enforce s ctx st.dbRecord).solution.Succeeded &&
          (FindSolution env.enforce s ctx st.dbRecord).solution.construction_params.isEmpty)
            = true
      · simp only [SearchForSolution_first_body, hc, if_true, hi]
        exact htr
      · simp only [SearchForSolution_first_body, hc, if_true, hi, Bool.false_eq_true,
          if_false]
        exact ih _ htr
    · simp only [SearchForSolution_first_body, hc, Bool.false_eq_true, if_false]
      exact ih st h0

theorem first_body_measure_congr (env : Env) (ctx : ConvolutionContext) (s1 s2 : Solver)
    (h : same_but_RunAndMeasureSolution s1 s2) :
    SearchForSolution_first_body env ctx s1 = SearchForSolution_first_body env ctx s2 := by
  obtain ⟨f, rfl⟩ := h
  funext st
  rfl

theorem timed_mode_iff (ctx : ConvolutionContext) :
    timed_mode ctx = true ↔
      ctx.direction = Direction.BackwardWeights ∧ ctx.kernel_stride0 ≤ 1 := by
  simp [timed_mode, Direction.IsBackwardWrW]

/-- C31. Mode switch: `SearchForSolution` uses timed selection iff the direction is
`BackwardWeights` and `kernel_stride0 <= 1`: in such a context it runs the timed loop, and
when no exception is raised its result is the selection over the measurements and it calls
`RunAndMeasureSolution` once for each usable candidate, in catalog order; in every other
context it runs the other loop, never calls `RunAndMeasureSolution` of any solver, and its
result and its calls are the same for every catalog that differs only in what those
functions return. -/
theorem C31_mode_switch (env : Env) (cat : List Solver) (ctx : ConvolutionContext)
    (r : DbRecord) :
    (timed_mode ctx = true ↔
      ctx.direction = Direction.BackwardWeights ∧ ctx.kernel_stride0 ≤ 1) ∧
    (ctx.direction = Direction.BackwardWeights ∧ ctx.kernel_stride0 ≤ 1 →
      SearchForSolution_run env cat ctx r =
        (match MIOPEN_STATIC_FOR_EACH (SearchForSolution_timed_body env ctx) cat
            { sel := initial_selection, dbRecord := r, trace := [] } with
          | .ok st => .ok (st.sel.solution, st.trace)
          | .error e => .error e) ∧
      ((env.throw_debug = true → no_internal_error env ctx cat r = true) →
        SearchForSolution env cat ctx r =
          .ok ((probes env ctx cat r).foldl pick initial_selection).solution ∧
        measure_calls (SearchForSolution_trace env cat ctx r) =
          ((attempts env ctx cat r).filter (fun a => a.2.usable)).map
            (fun a => Event.RunAndMeasureSolution a.1.db_id))) ∧
    (¬(ctx.direction = Direction.BackwardWeights ∧ ctx.kernel_stride0 ≤ 1) →
      SearchForSolution_run env cat ctx r =
        (match MIOPEN_STATIC_FOR_EACH (SearchForSolution_first_body env ctx) cat
            { solution := ConvSolution.ctor miopenStatusUnknownError, dbRecord := r
              trace := [] } with
          | .ok st => .ok (st.solution, st.trace)
          | .error e => .error e) ∧
      (∀ e ∈ SearchForSolution_trace env cat ctx r, e.is_measure = false) ∧
      ∀ cat2, List.Forall₂ same_but_RunAndMeasureSolution cat cat2 →
        SearchForSolution env cat2 ctx r = SearchForSolution env cat ctx r ∧
        SearchForSolution_trace env cat2 ctx r = SearchForSolution_trace env cat ctx r) := by
  refine ⟨timed_mode_iff ctx, ?_, ?_⟩
  · intro hc
    have hm : timed_mode ctx = true := (timed_mode_iff ctx).2 hc
    refine ⟨?_, ?_⟩
    · simp only [SearchForSolution_run, hm, if_true, initial_selection]
    · intro H
      have H1 : env.throw_debug = true →
          ∀ a ∈ attempts env ctx cat r, a.2.internal_error = false :=
        fun hd => (no_internal_error_iff env ctx cat r).1 (H hd)
      refine ⟨SearchForSolution_timed_eq env cat ctx r hm H1, ?_⟩
      obtain ⟨st1, h1, h2⟩ := timed_loop_measure env ctx cat
        { sel := initial_selection, dbRecord := r, trace := [] } H1
      simp only [initial_selection] at h1
      simp only [SearchForSolution_trace, SearchForSolution_run, hm, if_true, h1]
      rw [h2]
      simp [measure_calls]
  · intro hc
    have hm : timed_mode ctx = false := by
      cases h : timed_mode ctx with
      | false => rfl
      | true => exact absurd ((timed_mode_iff ctx).1 h) hc
    refine ⟨?_, ?_, ?_⟩
    · simp only [SearchForSolution_run, hm, Bool.false_eq_true, if_false]
    · have h := first_loop_trace env ctx cat
        { solution := ConvSolution.ctor miopenStatusUnknownError, dbRecord := r, trace := [] }
        (by simp)
      simp only [SearchForSolution_trace, SearchForSolution_run, hm, Bool.false_eq_true,
        if_false]
      cases hl : MIOPEN_STATIC_FOR_EACH (SearchForSolution_first_body env ctx) cat
        { solution := ConvSolution.ctor miopenStatusUnknownError, dbRecord := r, trace := [] }
        with
      | ok st1 =>
        rw [hl] at h
        exact h
      | error x =>
        rw [hl] at h
        exact h
    · intro cat2 h2
      have hl := for_each_congr (SearchForSolution_first_body env ctx)
        same_but_RunAndMeasureSolution (first_body_measure_congr env ctx) cat cat2 h2
        { solution := ConvSolution.ctor miopenStatusUnknownError, dbRecord := r, trace := [] }
      simp only [SearchForSolution, SearchForSolution_trace, SearchForSolution_run, hm,
        Bool.false_eq_true, if_false, hl, and_self]

/-- C31, witness: in the forward context a catalog whose solver reports 5 and the same
catalog with a solver that reports 3 give the same result. -/
theorem C31_mode_switch_witness :
    SearchForSolution (plain_env true) [timed "TimedB" (.finite 3)] forward_context
        empty_record
      = SearchForSolution (plain_env true) [timed "TimedB" (.finite 5)] forward_context
        empty_record :=
  (((C31_mode_switch (plain_env true) [timed "TimedB" (.finite 5)] forward_context
    empty_record).2.2 (by decide)).2.2 [timed "TimedB" (.finite 3)]
    (List.Forall₂.cons ⟨fun _ _ _ => (0, .finite 3), rfl⟩ List.Forall₂.nil)).1

end solver

namespace solver

theorem all_loop_error (env : Env) (ctx : ConvolutionContext) (cat : List Solver)
    (st : AllState) (hd : env.throw_debug = true) (a : Solver × ConvSolution)
    (ha : (attempts env ctx cat st.dbRecord).find? (fun a => a.2.internal_error) = some a) :
    ∃ tr, MIOPEN_STATIC_FOR_EACH (SearchForAllSolutions_body env ctx) cat st =
      .error { ex := MIOPEN_THROW ("Internal error in solver: " ++ a.1.db_id), trace := tr } := by
  induction cat generalizing st with
  | nil => simp [attempts] at ha
  | cons s rest ih =>
    by_cases hp : passes_filter env ctx s = true
    · rw [attempts_cons_pass env ctx s rest _ hp] at ha
      by_cases hi : (FindSolution env.enforce s ctx st.dbRecord).solution.internal_error = true
      · simp only [List.find?_cons, hi] at ha
        cases ha
        refine ⟨st.trace ++ (FindSolution env.enforce s ctx st.dbRecord).trace, ?_⟩
        simp only [MIOPEN_STATIC_FOR_EACH, all_body_error env ctx s st hp hi hd]
      · have hi1 : (FindSolution env.enforce s ctx st.dbRecord).solution.internal_error = false := by
          simpa using hi
        simp only [List.find?_cons, hi1] at ha
        have hb := all_body_ok env ctx s st hp (by simp [hi1])
        obtain ⟨tr2, h2⟩ := ih
          { ss := st.ss ++
              (if (FindSolution env.enforce s ctx st.dbRecord).solution.usable then
                [(FindSolution env.enforce s ctx st.dbRecord).solution] else [])
            dbRecord := (FindSolution env.enforce s ctx st.dbRecord).dbRecord
            trace := st.trace ++ (FindSolution env.enforce s ctx st.dbRecord).trace } ha
        exact ⟨tr2, by simp only [MIOPEN_STATIC_FOR_EACH, hb]; exact h2⟩
    · have hp1 : passes_filter env ctx s = false := by simpa using hp
      rw [attempts_cons_skip env ctx s rest _ hp1] at ha
      obtain ⟨tr2, h2⟩ := ih st ha
      exact ⟨tr2, by simp only [MIOPEN_STATIC_FOR_EACH, all_body_skip env ctx s st hp1]; exact h2⟩

theorem foldl_pick_solution (ps : List Probe) (s : Selection) :
    (ps.foldl pick s).solution = s.solution ∨
      ∃ p ∈ ps, (ps.foldl pick s).solution = p.candidate := by
  induction ps generalizing s with
  | nil => exact Or.inl rfl
  | cons p ps ih =>
    simp only [List.foldl_cons]
    rcases ih (pick s p) with h | ⟨q, hq, h⟩
    · rcases pick_solution s p with h1 | h1
      · exact Or.inl (h.trans h1)
      · exact Or.inr ⟨p, List.mem_cons_self _ _, h.trans h1⟩
    · exact Or.inr ⟨q, List.mem_cons_of_mem _ hq, h⟩

theorem SearchForAllSolutions_eq (env : Env) (cat : List Solver) (ctx : ConvolutionContext)
    (r : DbRecord) (hm : timed_mode ctx = true)
    (H : env.throw_debug = true → ∀ a ∈ attempts env ctx cat r, a.2.internal_error = false) :
    SearchForAllSolutions env cat ctx r [] =
      .ok (((attempts env ctx cat r).filter (fun a => a.2.usable)).map Prod.snd) := by
  obtain ⟨st1, h1, h2⟩ := all_loop_ok env ctx cat { ss := [], dbRecord := r, trace := [] } H
  simp only [SearchForAllSolutions, SearchForAllSolutions_run_nil env cat ctx r hm, h1]
  rw [h2]
  rfl

theorem selection_dichotomy (env : Env) (cat : List Solver) (ctx : ConvolutionContext)
    (r : DbRecord) :
    (env.throw_debug = true → ∀ a ∈ attempts env ctx cat r, a.2.internal_error = false) ∨
    (env.throw_debug = true ∧
      ∃ a, (attempts env ctx cat r).find? (fun a => a.2.internal_error) = some a) := by
  by_cases hd : env.throw_debug = true
  · cases hf : (attempts env ctx cat r).find? (fun a => a.2.internal_error) with
    | some a => exact Or.inr ⟨hd, a, rfl⟩
    | none =>
      refine Or.inl (fun _ a ha => ?_)
      have := List.find?_eq_none.1 hf a ha
      simpa using this
  · exact Or.inl (fun h => absurd h hd)

/-- C35. Pick is on the menu: for every catalog and every context of the timed mode, with
the same environment and the same record, if `SearchForSolution` returns a succeeded
solution then `SearchForAllSolutions` returns a list and that solution is an element of
it, and if the list `SearchForAllSolutions` returns is empty then `SearchForSolution`
returns a solution that is not succeeded. -/
theorem C35_pick_on_the_menu (env : Env) (cat : List Solver) (ctx : ConvolutionContext)
    (r : DbRecord) (hm : timed_mode ctx = true) :
    (∀ sol, SearchForSolution env cat ctx r = .ok sol → sol.Succeeded = true →
      ∃ ss, SearchForAllSolutions env cat ctx r [] = .ok ss ∧ sol ∈ ss) ∧
    (SearchForAllSolutions env cat ctx r [] = .ok [] →
      ∃ sol, SearchForSolution env cat ctx r = .ok sol ∧ sol.Succeeded = false) := by
  rcases selection_dichotomy env cat ctx r with H | ⟨hd, a, ha⟩
  · have hs := SearchForSolution_timed_eq env cat ctx r hm H
    have hall := SearchForAllSolutions_eq env cat ctx r hm H
    constructor
    · intro sol hsol hsucc
      refine ⟨_, hall, ?_⟩
      rw [hs] at hsol
      cases hsol
      rcases foldl_pick_solution (probes env ctx cat r) initial_selection with h | ⟨p, hp, h⟩
      · rw [h] at hsucc
        exact absurd hsucc (by decide)
      · rw [h]
        simp only [probes, List.mem_filterMap] at hp
        obtain ⟨b, hb, hpb⟩ := hp
        obtain ⟨h1, h2⟩ := probe_of_usable env ctx b p hpb
        rw [h1]
        exact List.mem_map.2 ⟨b, List.mem_filter.2 ⟨hb, h2⟩, rfl⟩
    · intro hnil
      rw [hall] at hnil
      have hnil1 : (attempts env ctx cat r).filter (fun a => a.2.usable) = [] := by
        have := congrArg List.length (Except.ok.inj hnil)
        simp only [List.length_map, List.length_nil] at this
        exact List.length_eq_zero.1 this
      have hp : probes env ctx cat r = [] := by
        simp only [probes, List.filterMap_eq_nil_iff]
        intro b hb
        cases hpb : probe_of env ctx b with
        | none => rfl
        | some p =>
          have h2 := (probe_of_usable env ctx b p hpb).2
          have : b ∈ (attempts env ctx cat r).filter (fun a => a.2.usable) :=
            List.mem_filter.2 ⟨hb, h2⟩
          rw [hnil1] at this
          cases this
      refine ⟨_, hs, ?_⟩
      rw [hp]
      decide
  · obtain ⟨tr, ht⟩ := timed_loop_error env ctx cat
      { sel := initial_selection, dbRecord := r, trace := [] } hd a ha
    obtain ⟨tr2, ht2⟩ := all_loop_error env ctx cat
      { ss := [], dbRecord := r, trace := [] } hd a ha
    simp only [initial_selection] at ht
    constructor
    · intro sol hsol
      simp [SearchForSolution, SearchForSolution_run, hm, ht] at hsol
    · intro hnil
      simp [SearchForAllSolutions, SearchForAllSolutions_run_nil env cat ctx r hm, ht2] at hnil

/-- C35, witness: the catalog of the tie-break scenario in the timed context; the solution
of `TimedC` that `SearchForSolution` returns is in the list of `SearchForAllSolutions`. -/
theorem C35_pick_on_the_menu_witness :
    ∃ ss, SearchForAllSolutions (plain_env true)
        [non_timeable "NonTimeableA", timed "TimedB" (.finite 5), timed "TimedC" (.finite 3)]
        timed_context empty_record [] = .ok ss ∧ solution_named "TimedC" ∈ ss :=
  (C35_pick_on_the_menu (plain_env true)
    [non_timeable "NonTimeableA", timed "TimedB" (.finite 5), timed "TimedC" (.finite 3)]
    timed_context empty_record (by decide)).1 (solution_named "TimedC") (by decide) (by decide)

end solver

namespace tests

/-! ## Claim C40: the workload of `DBMultiThreadedTestWork` -/

theorem nat_text_injective (a b : Nat) (h : nat_text a = nat_text b) : a = b := by
  have ha := (nat_text_spec a).2.2 0 0
  have hb := (nat_text_spec b).2.2 0 0
  rw [h, hb] at ha
  simp only [Nat.zero_mul, Nat.zero_add, Prod.mk.injEq] at ha
  exact ha.1.symm

theorem to_string_injective (a b : Nat) (h : to_string a = to_string b) : a = b := by
  simp only [to_string] at h
  exact nat_text_injective a b (congrArg String.data h)

namespace DBMultiThreadedTestWork

theorem CommonPart_eq (common_part : Nat → TestData) :
    CommonPart common_part = ValidateCommonPart common_part := by
  have h1 : common_part_size / 2 = 64 := by decide
  have h2 : common_part_size = 128 := rfl
  simp only [CommonPart, CommonPartSection, ValidateCommonPart, h1, h2, Nat.sub_zero,
    ← List.map_append, List.range_eq_range']
  congr 1

theorem mem_ValidateCommonPart (common_part : Nat → TestData) (c : Item)
    (h : c ∈ ValidateCommonPart common_part) :
    ∃ i, i < 128 ∧ c = { key := to_string (i / 16), id := to_string (i % 16)
                         data := common_part i } := by
  simp only [ValidateCommonPart, List.mem_map, List.mem_range] at h
  obtain ⟨i, hi, rfl⟩ := h
  exact ⟨i, hi, rfl⟩

theorem LimitedRandom_ge (rnd : List Nat) (min key : Nat) (rest : List Nat)
    (h : LimitedRandom rnd min = some (key, rest)) : min ≤ key := by
  induction rnd with
  | nil => simp [LimitedRandom] at h
  | cons x xs ih =>
    simp only [LimitedRandom] at h
    by_cases hx : x < min
    · simp only [hx, if_true] at h
      exact ih h
    · simp only [hx, if_false, Option.some.injEq, Prod.mk.injEq] at h
      omega

theorem LimitedRandom_head (x : Nat) (rest : List Nat) (min : Nat) (h : min ≤ x) :
    LimitedRandom (x :: rest) min = some (x, rest) := by
  have : ¬ x < min := by omega
  simp only [LimitedRandom, this, if_false]

theorem UniquePartSection_loop_ge (data : Nat → TestData) (count i : Nat) (rnd : List Nat)
    (calls : List Item) (rest : List Nat)
    (h : UniquePartSection_loop data count i rnd = some (calls, rest)) :
    ∀ w ∈ calls, ∃ key id, w.key = to_string key ∧ w.id = to_string id ∧
      10 ≤ key ∧ 17 ≤ id := by
  induction count generalizing i rnd calls rest with
  | zero =>
    simp only [UniquePartSection_loop, Option.some.injEq, Prod.mk.injEq] at h
    intro w hw
    rw [← h.1] at hw
    cases hw
  | succ n ih =>
    simp only [UniquePartSection_loop] at h
    cases h1 : LimitedRandom rnd (common_part_size / ids_per_key + 2) with
    | none => simp [h1] at h
    | some p1 =>
      obtain ⟨key, rnd1⟩ := p1
      simp only [h1] at h
      cases h2 : LimitedRandom rnd1 (ids_per_key + 1) with
      | none => simp [h2] at h
      | some p2 =>
        obtain ⟨id, rnd2⟩ := p2
        simp only [h2] at h
        cases h3 : UniquePartSection_loop data n (i + 1) rnd2 with
        | none => simp [h3] at h
        | some p3 =>
          obtain ⟨calls3, rnd3⟩ := p3
          simp only [h3, Option.some.injEq, Prod.mk.injEq] at h
          intro w hw
          rw [← h.1] at hw
          rcases List.mem_cons.1 hw with hw | hw
          · subst hw
            exact ⟨key, id, rfl, rfl, LimitedRandom_ge _ _ _ _ h1, LimitedRandom_ge _ _ _ _ h2⟩
          · exact ih (i + 1) rnd2 calls3 rnd3 h3 w hw

theorem UniquePartSection_loop_some (data : Nat → TestData) (count i : Nat) (rnd : List Nat)
    (hlen : 2 * count ≤ rnd.length) (hall : ∀ x ∈ rnd, 17 ≤ x) :
    ∃ calls, UniquePartSection_loop data count i rnd = some (calls, rnd.drop (2 * count)) ∧
      calls.length = count := by
  induction count generalizing i rnd with
  | zero => exact ⟨[], rfl, rfl⟩
  | succ n ih =>
    match rnd, hlen, hall with
    | x :: y :: rest, hlen, hall =>
      have hx : 17 ≤ x := hall x (by simp)
      have hy : 17 ≤ y := hall y (by simp)
      have hlen1 : 2 * n ≤ rest.length := by
        simp only [List.length_cons] at hlen
        omega
      obtain ⟨calls, hc, hl⟩ := ih (i + 1) rest hlen1
        (fun z hz => hall z (List.mem_cons_of_mem _ (List.mem_cons_of_mem _ hz)))
      have h1 : LimitedRandom (x :: y :: rest) (common_part_size / ids_per_key + 2)
          = some (x, y :: rest) :=
        LimitedRandom_head x (y :: rest) _ (by
          have : common_part_size / ids_per_key + 2 = 10 := by decide
          omega)
      have h2 : LimitedRandom (y :: rest) (ids_per_key + 1) = some (y, rest) :=
        LimitedRandom_head y rest _ (by
          have : ids_per_key + 1 = 17 := by decide
          omega)
      refine ⟨{ key := to_string x, id := to_string y, data := data i } :: calls, ?_,
        by simp [hl]⟩
      simp only [UniquePartSection_loop, h1, h2, hc]
      have : 2 * (n + 1) = (2 * n + 1) + 1 := by omega
      rw [this]
      rfl
    | [], hlen, _ => simp at hlen
    | [x], hlen, _ =>
      simp only [List.length_singleton] at hlen
      omega

theorem UniquePart_eq (data : Nat → TestData) (rnd : List Nat) :
    UniquePart data rnd =
      match UniquePartSection_loop data 64 0 rnd with
      | none => none
      | some (calls1, rnd1) =>
        match UniquePartSection_loop data 64 64 rnd1 with
        | none => none
        | some (calls2, _) => some (calls1 ++ calls2) := rfl

end DBMultiThreadedTestWork

/-- C40. Stress-test workload is well-formed: for every i < 128 the common-part write
number i uses the key i / 16, which is at most 7, and the id i % 16, which is at most 15,
and the data `common_part()[i]`; the map from i to (key, id) is injective, also on the
texts `std::to_string` gives; every key the unique part writes is at least 10 and every id
at least 17, so no write of the unique part has a (key, id) of the common part; and the
loads of `ValidateCommonPart` are the writes of the common part, each with the seeded
value. The unique part does return when the generator gives enough values. -/
theorem C40_stress_workload (common_part : Nat → TestData) :
    (∀ i, i < 128 →
      (DBMultiThreadedTestWork.CommonPart common_part)[i]? =
        some { key := to_string (i / 16), id := to_string (i % 16), data := common_part i } ∧
      i / 16 ≤ 7 ∧ i % 16 ≤ 15) ∧
    (∀ i j, i < 128 → j < 128 → i / 16 = j / 16 → i % 16 = j % 16 → i = j) ∧
    (∀ i j, i < 128 → j < 128 → to_string (i / 16) = to_string (j / 16) →
      to_string (i % 16) = to_string (j % 16) → i = j) ∧
    (∀ data rnd calls, DBMultiThreadedTestWork.UniquePart data rnd = some calls →
      ∀ w ∈ calls, ∃ key id, w.key = to_string key ∧ w.id = to_string id ∧
        10 ≤ key ∧ 17 ≤ id) ∧
    (∀ data rnd calls, DBMultiThreadedTestWork.UniquePart data rnd = some calls →
      ∀ w ∈ calls, ∀ c ∈ DBMultiThreadedTestWork.CommonPart common_part,
        ¬(w.key = c.key ∧ w.id = c.id)) ∧
    DBMultiThreadedTestWork.ValidateCommonPart common_part =
      DBMultiThreadedTestWork.CommonPart common_part ∧
    (∀ data rnd, 256 ≤ rnd.length → (∀ x ∈ rnd, 17 ≤ x) →
      ∃ calls, DBMultiThreadedTestWork.UniquePart data rnd = some calls ∧
        calls.length = 128) := by
  have hge : ∀ data rnd calls, DBMultiThreadedTestWork.UniquePart data rnd = some calls →
      ∀ w ∈ calls, ∃ key id, w.key = to_string key ∧ w.id = to_string id ∧
        10 ≤ key ∧ 17 ≤ id := by
    intro data rnd calls h w hw
    rw [DBMultiThreadedTestWork.UniquePart_eq] at h
    cases h1 : DBMultiThreadedTestWork.UniquePartSection_loop data 64 0 rnd with
    | none => simp [h1] at h
    | some p1 =>
      obtain ⟨calls1, rnd1⟩ := p1
      simp only [h1] at h
      cases h2 : DBMultiThreadedTestWork.UniquePartSection_loop data 64 64 rnd1 with
      | none => simp [h2] at h
      | some p2 =>
        obtain ⟨calls2, rnd2⟩ := p2
        simp only [h2, Option.some.injEq] at h
        rw [← h] at hw
        rcases List.mem_append.1 hw with hw | hw
        · exact DBMultiThreadedTestWork.UniquePartSection_loop_ge _ _ _ _ _ _ h1 w hw
        · exact DBMultiThreadedTestWork.UniquePartSection_loop_ge _ _ _ _ _ _ h2 w hw
  refine ⟨?_, ?_, ?_, hge, ?_, (DBMultiThreadedTestWork.CommonPart_eq common_part).symm, ?_⟩
  · intro i hi
    refine ⟨?_, by omega, by omega⟩
    rw [DBMultiThreadedTestWork.CommonPart_eq]
    have h2 : DBMultiThreadedTestWork.common_part_size = 128 := rfl
    have h3 : DBMultiThreadedTestWork.ids_per_key = 16 := rfl
    simp only [DBMultiThreadedTestWork.ValidateCommonPart, h2, h3, List.getElem?_map,
      List.getElem?_range hi, Option.map_some']
  · intro i j hi hj h1 h2
    omega
  · intro i j hi hj h1 h2
    have e1 := to_string_injective _ _ h1
    have e2 := to_string_injective _ _ h2
    omega
  · intro data rnd calls h w hw c hc hwc
    obtain ⟨key, id, hk, _, hkey, _⟩ := hge data rnd calls h w hw
    rw [DBMultiThreadedTestWork.CommonPart_eq] at hc
    obtain ⟨i, hi, rfl⟩ := DBMultiThreadedTestWork.mem_ValidateCommonPart common_part c hc
    have := to_string_injective _ _ (hk.symm.trans hwc.1)
    omega
  · intro data rnd hlen hall
    obtain ⟨calls1, h1, hl1⟩ := DBMultiThreadedTestWork.UniquePartSection_loop_some data 64 0
      rnd (by omega) hall
    obtain ⟨calls2, h2, hl2⟩ := DBMultiThreadedTestWork.UniquePartSection_loop_some data 64 64
      (rnd.drop (2 * 64)) (by simp only [List.length_drop]; omega)
      (fun x hx => hall x (List.mem_of_mem_drop hx))
    refine ⟨calls1 ++ calls2, ?_, by simp [hl1, hl2]⟩
    rw [DBMultiThreadedTestWork.UniquePart_eq]
    simp only [h1, h2]

/-- C40, witness: the write number 37 of the common part uses the key "2" and the id
"5". -/
theorem C40_stress_workload_witness :
    (DBMultiThreadedTestWork.CommonPart (fun i => ⟨i, 0⟩))[37]? =
      some { key := "2", id := "5", data := ⟨37, 0⟩ } ∧ 37 / 16 ≤ 7 ∧ 37 % 16 ≤ 15 :=
  (C40_stress_workload (fun i => ⟨i, 0⟩)).1 37 (by decide)

end tests

namespace rnn_util

/-! ## Claim C37: `generate_batchSeq` -/

theorem int_result_some (v : Int) (h1 : INT_MIN ≤ v) (h2 : v ≤ INT_MAX) :
    int_result v = some v := by
  simp only [int_result, h1, h2, and_self, if_true]

theorem generate_batchSeq_loop_spec (gen : Nat → Int) (hgen : ∀ k, 0 ≤ gen k ∧ gen k < 3)
    (count : Nat) : ∀ (i : Nat) (currentval : Int) (batchSeq : List Int), 0 < i →
      1 ≤ currentval → currentval ≤ INT_MAX →
      ∃ out, generate_batchSeq_loop gen count i currentval batchSeq = some (batchSeq ++ out) ∧
        out.length = count ∧ (∀ x ∈ out, 1 ≤ x) ∧
        List.Chain (fun a b => b ≤ a ∧ a - b ≤ 2) currentval out := by
  induction count with
  | zero =>
    intro i currentval batchSeq _ _ _
    exact ⟨[], by simp [generate_batchSeq_loop], rfl, by simp, List.Chain.nil⟩
  | succ n ih =>
    intro i currentval batchSeq hi h1 h2
    obtain ⟨hg1, hg2⟩ := hgen (i - 1)
    have hmax : INT_MAX = 2147483647 := rfl
    have hmin : INT_MIN = -2147483648 := rfl
    have hr : int_result (currentval - gen (i - 1)) = some (currentval - gen (i - 1)) :=
      int_result_some _ (by omega) (by omega)
    by_cases hlt : currentval - gen (i - 1) < 1
    · obtain ⟨out, ho, hl, hall, hch⟩ := ih (i + 1) 1 (batchSeq ++ [1]) (by omega)
        (by omega) (by omega)
      refine ⟨1 :: out, ?_, by simp [hl], ?_, ?_⟩
      · simp only [generate_batchSeq_loop, hi, if_true, hr, hlt, ho, List.append_assoc,
          List.singleton_append]
      · intro x hx
        rcases List.mem_cons.1 hx with hx | hx
        · omega
        · exact hall x hx
      · exact List.Chain.cons ⟨by omega, by omega⟩ hch
    · obtain ⟨out, ho, hl, hall, hch⟩ := ih (i + 1) (currentval - gen (i - 1))
        (batchSeq ++ [currentval - gen (i - 1)]) (by omega) (by omega) (by omega)
      refine ⟨(currentval - gen (i - 1)) :: out, ?_, by simp [hl], ?_, ?_⟩
      · simp only [generate_batchSeq_loop, hi, if_true, hr, hlt, if_false, ho,
          List.append_assoc, List.singleton_append]
      · intro x hx
        rcases List.mem_cons.1 hx with hx | hx
        · omega
        · exact hall x hx
      · exact List.Chain.cons ⟨by omega, by omega⟩ hch

/-- C37 (as amended). Shape of `generate_batchSeq`: for every `int` batchSize >= 1, every
seqLength >= 0 and every sequence of generator outputs in [0, 3), `generate_batchSeq`
returns exactly one sequence, of length seqLength, whose first element, when seqLength is
not 0, is batchSize, whose elements are all >= 1, and which is non-increasing with each
step dropping by at most 2. -/
theorem C37_generate_batchSeq_shape (gen : Nat → Int) (batchSize seqLength : Int)
    (hb : 1 ≤ batchSize) (hbmax : batchSize ≤ INT_MAX) (hs : 0 ≤ seqLength)
    (hgen : ∀ k, 0 ≤ gen k ∧ gen k < 3) :
    ∃ batchSeq, generate_batchSeq gen batchSize seqLength = some [batchSeq] ∧
      (batchSeq.length : Int) = seqLength ∧
      (0 < seqLength → batchSeq.head? = some batchSize) ∧
      (∀ x, batchSeq.head? = some x → x = batchSize) ∧
      (∀ x ∈ batchSeq, 1 ≤ x) ∧
      List.Chain' (fun a b => b ≤ a ∧ a - b ≤ 2) batchSeq := by
  have hneg : ¬ seqLength < 0 := by omega
  cases hn : seqLength.toNat with
  | zero =>
    refine ⟨[], ?_, ?_, ?_, ?_, ?_, ?_⟩
    · simp only [generate_batchSeq, hneg, if_false, hn, generate_batchSeq_loop]
    · simp only [List.length_nil]
      omega
    · intro h
      omega
    · intro x hx
      cases hx
    · intro x hx
      cases hx
    · exact List.chain'_nil
  | succ n =>
    obtain ⟨out, ho, hl, hall, hch⟩ := generate_batchSeq_loop_spec gen hgen n 1 batchSize
      [batchSize] (by omega) hb hbmax
    refine ⟨batchSize :: out, ?_, ?_, ?_, ?_, ?_, ?_⟩
    · simp only [generate_batchSeq, hneg, if_false, hn, generate_batchSeq_loop,
        Nat.lt_irrefl, List.nil_append, Nat.zero_add]
      rw [ho]
      rfl
    · simp only [List.length_cons, hl]
      omega
    · intro _
      rfl
    · intro x hx
      simp only [List.head?_cons, Option.some.injEq] at hx
      exact hx.symm
    · intro x hx
      rcases List.mem_cons.1 hx with hx | hx
      · omega
      · exact hall x hx
    · exact hch

/-- C37, witness: the batch size 5, the length 4 and a generator that always returns 2
give the sequence 5, 3, 1, 1. -/
theorem C37_generate_batchSeq_shape_witness :
    generate_batchSeq (fun _ => 2) 5 4 = some [[5, 3, 1, 1]] ∧
    ∃ batchSeq, generate_batchSeq (fun _ => 2) 5 4 = some [batchSeq] ∧
      (batchSeq.length : Int) = 4 ∧
      (0 < (4 : Int) → batchSeq.head? = some 5) ∧
      (∀ x, batchSeq.head? = some x → x = 5) ∧
      (∀ x ∈ batchSeq, 1 ≤ x) ∧
      List.Chain' (fun a b => b ≤ a ∧ a - b ≤ 2) batchSeq :=
  ⟨by decide, C37_generate_batchSeq_shape (fun _ => 2) 5 4 (by decide) (by decide)
    (by decide) (fun _ => (by decide : (0 : Int) ≤ 2 ∧ (2 : Int) < 3))⟩

/-- C37, counterexample to the claim as stated: for seqLength = 0, which the claim covers,
the one sequence returned is empty, whatever the generator and batchSize are: it has no
first element, so its first element is not batchSize. -/
theorem C37_counterexample :
    (∀ (gen : Nat → Int) (batchSize : Int),
      generate_batchSeq gen batchSize 0 = some [[]]) ∧
    ([] : List Int).head? = none ∧
    generate_batchSeq (fun _ => 0) 5 0 = some [[]] ∧
    ∀ batchSeq, generate_batchSeq (fun _ => 0) 5 0 = some [batchSeq] →
      batchSeq.head? ≠ some 5 := by
  refine ⟨fun _ _ => rfl, rfl, rfl, ?_⟩
  intro batchSeq h
  have h1 : generate_batchSeq (fun _ => 0) 5 0 = some [[]] := rfl
  rw [h1] at h
  simp only [Option.some.injEq, List.cons.injEq, and_true] at h
  subst h
  simp

end rnn_util

namespace rnn_util

/-! ## Claim C36: `ChangeDataPadding` -/

theorem int_result_nat (n : Nat) (h : n ≤ 2147483647) : int_result (n : Int) = some (n : Int) := by
  apply int_result_some
  · have : INT_MIN = -2147483648 := rfl
    omega
  · have : INT_MAX = 2147483647 := rfl
    omega

theorem ptr_add_nat (size off n : Nat) (h : off + n ≤ size) :
    ptr_add size off (n : Int) = some (off + n) := by
  have h1 : 0 ≤ (off : Int) + (n : Int) ∧ (off : Int) + (n : Int) ≤ (size : Int) := by omega
  simp only [ptr_add, h1, and_self, if_true, Option.some.injEq]
  omega

theorem copy_ok {T : Type} (src dst : Buffer T) (first n d : Nat) (h1 : first + n ≤ src.size)
    (h2 : d + n ≤ dst.size) :
    copy src first (first + n) dst d =
      some { dst with
        data := fun i => if d ≤ i ∧ i < d + n then src.data (first + (i - d)) else dst.data i } := by
  have h3 : first ≤ first + n ∧ first + n ≤ src.size ∧ d + (first + n - first) ≤ dst.size := by
    refine ⟨by omega, h1, ?_⟩
    rw [Nat.add_sub_cancel_left]
    exact h2
  simp only [copy, h3, and_self, if_true, Nat.add_sub_cancel_left, h2, true_and]

theorem ChangeDataPadding_body_nat {T : Type} (src : Buffer T) (mb S : Nat) (packed : Bool)
    (st : PaddingState T) (b : Nat) (hb : b ≤ mb) (hM : mb * S ≤ 2147483647)
    (hs : st.scr_ptr + (if packed then b * S else mb * S) ≤ src.size)
    (hd : st.dst_ptr + (if packed then mb * S else b * S) ≤ st.dst_array.size) :
    ChangeDataPadding_body src (mb : Int) (S : Int) packed st (b : Int) =
      some { scr_ptr := st.scr_ptr + (if packed then b * S else mb * S)
             dst_ptr := st.dst_ptr + (if packed then mb * S else b * S)
             dst_array := { st.dst_array with
               data := fun i =>
                 if st.dst_ptr ≤ i ∧ i < st.dst_ptr + b * S then
                   src.data (st.scr_ptr + (i - st.dst_ptr))
                 else st.dst_array.data i } } := by
  have hbS : b * S ≤ mb * S := Nat.mul_le_mul_right S hb
  have e1 : (b : Int) * (S : Int) = ((b * S : Nat) : Int) := by push_cast; rfl
  have e2 : (mb : Int) * (S : Int) = ((mb * S : Nat) : Int) := by push_cast; rfl
  have r1 := int_result_nat (b * S) (by omega)
  have r2 := int_result_nat (mb * S) hM
  cases packed with
  | true =>
    simp only [if_true] at hs hd
    have p1 := ptr_add_nat src.size st.scr_ptr (b * S) hs
    have p2 := ptr_add_nat st.dst_array.size st.dst_ptr (mb * S) hd
    have c1 := copy_ok src st.dst_array st.scr_ptr (b * S) st.dst_ptr hs (by omega)
    simp only [ChangeDataPadding_body, e1, e2, r1, r2, p1, p2, c1, Option.bind_eq_bind,
      Option.some_bind, if_true, Option.pure_def]
  | false =>
    simp only [Bool.false_eq_true, if_false] at hs hd
    have p1 := ptr_add_nat src.size st.scr_ptr (b * S) (by omega)
    have p2 := ptr_add_nat src.size st.scr_ptr (mb * S) hs
    have p3 := ptr_add_nat st.dst_array.size st.dst_ptr (b * S) hd
    have c1 := copy_ok src st.dst_array st.scr_ptr (b * S) st.dst_ptr (by omega) hd
    simp only [ChangeDataPadding_body, e1, e2, r1, r2, p1, p2, p3, c1, Option.bind_eq_bind,
      Option.some_bind, Bool.false_eq_true, if_false, Option.pure_def]

end rnn_util

namespace rnn_util

theorem ChangeDataPadding_loop {T : Type} (src : Buffer T) (mb S : Nat) (packed : Bool)
    (hM : mb * S ≤ 2147483647) :
    ∀ (bl : List Nat) (st : PaddingState T), (∀ b ∈ bl, b ≤ mb) →
      st.scr_ptr + (bl.map (fun b => if packed then b * S else mb * S)).sum ≤ src.size →
      st.dst_ptr + (bl.map (fun b => if packed then mb * S else b * S)).sum
        ≤ st.dst_array.size →
      ∃ st1, (bl.map Int.ofNat).foldlM (ChangeDataPadding_body src (mb : Int) (S : Int) packed)
          st = some st1 ∧
        st1.dst_array.size = st.dst_array.size ∧
        (∀ t b, bl[t]? = some b → ∀ j, j < b * S →
          st1.dst_array.data
              (st.dst_ptr + ((bl.take t).map (fun b => if packed then mb * S else b * S)).sum
                + j)
            = src.data
              (st.scr_ptr + ((bl.take t).map (fun b => if packed then b * S else mb * S)).sum
                + j)) ∧
        (∀ i, (∀ t b, bl[t]? = some b →
            ¬(st.dst_ptr + ((bl.take t).map (fun b => if packed then mb * S else b * S)).sum
                ≤ i ∧
              i < st.dst_ptr
                + ((bl.take t).map (fun b => if packed then mb * S else b * S)).sum + b * S)) →
          st1.dst_array.data i = st.dst_array.data i) := by
  intro bl
  induction bl with
  | nil =>
    intro st _ _ _
    refine ⟨st, rfl, rfl, ?_, fun _ _ => rfl⟩
    intro t b h
    simp at h
  | cons b bl ih =>
    intro st hb hs hd
    simp only [List.map_cons, List.sum_cons] at hs hd
    have hb0 : b ≤ mb := hb b (List.mem_cons_self _ _)
    have hbS : b * S ≤ mb * S := Nat.mul_le_mul_right S hb0
    have hstep := ChangeDataPadding_body_nat src mb S packed st b hb0 hM (by omega) (by omega)
    have hle : b * S ≤ (if packed then mb * S else b * S) := by
      cases packed
      · simp
      · simpa using hbS
    obtain ⟨st1, hf, hsize, hblocks, hframe⟩ := ih
      { scr_ptr := st.scr_ptr + (if packed then b * S else mb * S)
        dst_ptr := st.dst_ptr + (if packed then mb * S else b * S)
        dst_array := { st.dst_array with
          data := fun i =>
            if st.dst_ptr ≤ i ∧ i < st.dst_ptr + b * S then
              src.data (st.scr_ptr + (i - st.dst_ptr))
            else st.dst_array.data i } }
      (fun x hx => hb x (List.mem_cons_of_mem _ hx)) (by simp only; omega) (by simp only; omega)
    simp only at hf hsize hblocks hframe
    refine ⟨st1, ?_, hsize, ?_, ?_⟩
    · show List.foldlM _ st (Int.ofNat b :: bl.map Int.ofNat) = some st1
      rw [List.foldlM_cons]
      have hstep1 : ChangeDataPadding_body src (mb : Int) (S : Int) packed st (Int.ofNat b)
          = _ := hstep
      rw [hstep1]
      exact hf
    · intro t c hc j hj
      cases t with
      | zero =>
        simp only [List.getElem?_cons_zero, Option.some.injEq] at hc
        subst hc
        simp only [List.take_zero, List.map_nil, List.sum_nil, Nat.add_zero]
        rw [hframe]
        · have h1 : st.dst_ptr ≤ st.dst_ptr + j ∧ st.dst_ptr + j < st.dst_ptr + b * S := by
            omega
          simp only [h1, and_self, if_true, Nat.add_sub_cancel_left]
        · intro t c hc
          omega
      | succ t =>
        simp only [List.getElem?_cons_succ] at hc
        have := hblocks t c hc j hj
        simp only [List.take_succ_cons, List.map_cons, List.sum_cons]
        rw [← Nat.add_assoc, ← Nat.add_assoc]
        exact this
    · intro i hi
      rw [hframe]
      · have h0 := hi 0 b (by simp)
        simp only [List.take_zero, List.map_nil, List.sum_nil, Nat.add_zero] at h0
        simp only [h0, if_false]
      · intro t c hc
        have h1 := hi (t + 1) c (by simpa using hc)
        simp only [List.take_succ_cons, List.map_cons, List.sum_cons] at h1
        rw [← Nat.add_assoc] at h1
        exact h1

theorem index_decomp (bl : List Nat) (S i : Nat) (h : i < bl.sum * S) :
    ∃ t b j, bl[t]? = some b ∧ j < b * S ∧ i = (bl.take t).sum * S + j := by
  induction bl generalizing i with
  | nil => simp at h
  | cons b bl ih =>
    by_cases hi : i < b * S
    · exact ⟨0, b, i, by simp, hi, by simp⟩
    · simp only [List.sum_cons, Nat.add_mul] at h
      obtain ⟨t, c, j, hc, hj, he⟩ := ih (i - b * S) (by omega)
      refine ⟨t + 1, c, j, by simpa using hc, hj, ?_⟩
      simp only [List.take_succ_cons, List.sum_cons, Nat.add_mul]
      omega

theorem sum_map_const_take (bl : List Nat) (c t : Nat) (b : Nat) (h : bl[t]? = some b) :
    ((bl.take t).map (fun _ => c)).sum = t * c := by
  have ht : t < bl.length := by
    by_contra hn
    rw [List.getElem?_eq_none (by omega)] at h
    cases h
  have hl : (bl.take t).length = t := by
    rw [List.length_take]
    omega
  have : ∀ l : List Nat, (l.map (fun _ => c)).sum = l.length * c := by
    intro l
    induction l with
    | nil => simp
    | cons x xs ih => simp [ih, Nat.add_mul, Nat.add_comm]
  rw [this, hl]

theorem sum_map_mul (l : List Nat) (S : Nat) : (l.map (fun b => b * S)).sum = l.sum * S := by
  induction l with
  | nil => simp
  | cons x xs ih => simp [ih, Nat.add_mul]

theorem sum_map_const (l : List Nat) (c : Nat) : (l.map (fun _ => c)).sum = l.length * c := by
  induction l with
  | nil => simp
  | cons x xs ih => simp [ih, Nat.add_mul, Nat.add_comm]

end rnn_util

namespace rnn_util

theorem ChangeDataPadding_eq {T : Type} (src dst : Buffer T) (batch_list : List Nat)
    (max_batch sample_size : Nat) (packed : Bool) (hlen : batch_list.length ≤ 2147483647)
    (hs : 0 < src.size) (hd : 0 < dst.size) :
    ChangeDataPadding src dst (batch_list.map Int.ofNat) max_batch sample_size packed =
      ((batch_list.map Int.ofNat).foldlM
        (ChangeDataPadding_body src (max_batch : Int) (sample_size : Int) packed)
        { scr_ptr := 0, dst_ptr := 0, dst_array := dst }).map (fun st => st.dst_array) := by
  have h : ((batch_list.map Int.ofNat).length : Int) ≤ INT_MAX := by
    have : INT_MAX = 2147483647 := rfl
    simp only [List.length_map]
    omega
  simp only [ChangeDataPadding, h, hs, hd, and_self, if_true]

theorem sum_pos_exists (l : List Nat) (h : 0 < l.sum) : ∃ b ∈ l, 0 < b := by
  induction l with
  | nil => simp at h
  | cons a l ih =>
    by_cases ha : 0 < a
    · exact ⟨a, List.mem_cons_self _ _, ha⟩
    · have h1 : 0 < l.sum := by
        simp only [List.sum_cons] at h
        omega
      obtain ⟨b, hb, hb0⟩ := ih h1
      exact ⟨b, List.mem_cons_of_mem _ hb, hb0⟩

theorem padded_size_pos (batch_list : List Nat) (max_batch sample_size : Nat)
    (hb : ∀ b ∈ batch_list, b ≤ max_batch) (h : 0 < batch_list.sum * sample_size) :
    0 < batch_list.length * max_batch * sample_size := by
  have hsum : 0 < batch_list.sum := Nat.pos_of_mul_pos_right h
  have hS : 0 < sample_size := Nat.pos_of_mul_pos_left h
  obtain ⟨b, hbm, hb0⟩ := sum_pos_exists batch_list hsum
  have hmb : 0 < max_batch := Nat.lt_of_lt_of_le hb0 (hb b hbm)
  have hl : 0 < batch_list.length := List.length_pos_of_mem hbm
  exact Nat.mul_pos (Nat.mul_pos hl hmb) hS

/-- C36 (as amended). Round trip of `ChangeDataPadding`: for every batch_list with
0 <= batch_list[t] <= max_batch and every sample_size >= 0 such that
max_batch * sample_size and the length of batch_list are at most `INT_MAX`, every packed
source that is not empty, of length sum(batch_list) * sample_size, and every padded buffer
of length len(batch_list) * max_batch * sample_size, padding the packed data and then
packing the result returns the original packed data; in the padded buffer the first
batch_list[t] * sample_size entries at the offset t * max_batch * sample_size hold the data
of step t and all other entries are unchanged, and every index read or written is within
bounds. The `int`s are given by the natural numbers they are. -/
theorem C36_padding_round_trip {T : Type} (src padded : Buffer T) (batch_list : List Nat)
    (max_batch sample_size : Nat) (hb : ∀ b ∈ batch_list, b ≤ max_batch)
    (hsrc : src.size = batch_list.sum * sample_size)
    (hpad : padded.size = batch_list.length * max_batch * sample_size)
    (hM : max_batch * sample_size ≤ 2147483647) (hlen : batch_list.length ≤ 2147483647)
    (hne : 0 < src.size) :
    ∃ padded1,
      ChangeDataPadding src padded (batch_list.map Int.ofNat) max_batch sample_size true
        = some padded1 ∧
      padded1.size = padded.size ∧
      (∀ t b, batch_list[t]? = some b → ∀ j, j < b * sample_size →
        padded1.data (t * max_batch * sample_size + j)
          = src.data ((batch_list.take t).sum * sample_size + j)) ∧
      (∀ i, (∀ t b, batch_list[t]? = some b →
          ¬(t * max_batch * sample_size ≤ i ∧
            i < t * max_batch * sample_size + b * sample_size)) →
        padded1.data i = padded.data i) ∧
      ∀ out : Buffer T, out.size = src.size →
        ∃ out1,
          ChangeDataPadding padded1 out (batch_list.map Int.ofNat) max_batch sample_size false
            = some out1 ∧
          out1.size = src.size ∧ ∀ i, i < src.size → out1.data i = src.data i := by
  have hpos : 0 < padded.size := by
    rw [hpad]
    exact padded_size_pos batch_list max_batch sample_size hb (by rw [← hsrc]; exact hne)
  obtain ⟨st1, hf, hsize, hblocks, hframe⟩ := ChangeDataPadding_loop src max_batch sample_size
    true hM batch_list { scr_ptr := 0, dst_ptr := 0, dst_array := padded } hb
    (by
      simp only [if_true, sum_map_mul, Nat.zero_add]
      omega)
    (by
      simp only [if_true, sum_map_const, Nat.zero_add, hpad, Nat.mul_assoc]
      exact Nat.le_refl _)
  simp only [if_true, Nat.zero_add, sum_map_mul] at hblocks hframe
  have hblocks1 : ∀ t b, batch_list[t]? = some b → ∀ j, j < b * sample_size →
      st1.dst_array.data (t * max_batch * sample_size + j)
        = src.data ((batch_list.take t).sum * sample_size + j) := by
    intro t b h j hj
    have := hblocks t b h j hj
    rw [sum_map_const_take batch_list _ t b h, ← Nat.mul_assoc] at this
    exact this
  refine ⟨st1.dst_array, ?_, hsize, hblocks1, ?_, ?_⟩
  · rw [ChangeDataPadding_eq src padded batch_list max_batch sample_size true hlen hne hpos,
      hf]
    rfl
  · intro i hi
    apply hframe
    intro t b h
    rw [sum_map_const_take batch_list _ t b h, ← Nat.mul_assoc]
    exact hi t b h
  · intro out hout
    obtain ⟨st2, hf2, hsize2, hblocks2, _⟩ := ChangeDataPadding_loop st1.dst_array max_batch
      sample_size false hM batch_list { scr_ptr := 0, dst_ptr := 0, dst_array := out } hb
      (by
        simp only [Bool.false_eq_true, if_false, sum_map_const, Nat.zero_add, hsize, hpad,
          Nat.mul_assoc]
        exact Nat.le_refl _)
      (by
        simp only [Bool.false_eq_true, if_false, sum_map_mul, Nat.zero_add]
        omega)
    simp only [Bool.false_eq_true, if_false, Nat.zero_add, sum_map_mul] at hblocks2
    refine ⟨st2.dst_array, ?_, by rw [hsize2]; exact hout, ?_⟩
    · rw [ChangeDataPadding_eq st1.dst_array out batch_list max_batch sample_size false hlen
        (by rw [hsize]; exact hpos) (by rw [hout]; exact hne), hf2]
      rfl
    · intro i hi
      rw [hsrc] at hi
      obtain ⟨t, b, j, h, hj, he⟩ := index_decomp batch_list sample_size i hi
      have h1 := hblocks2 t b h j hj
      rw [sum_map_const_take batch_list _ t b h, ← Nat.mul_assoc] at h1
      rw [he, h1]
      exact hblocks1 t b h j hj

/-- C36, witness: the batches 2 and 1 of samples of size 2, padded to 3 batches a step and
packed again. -/
theorem C36_padding_round_trip_witness :
    ∃ padded1,
      ChangeDataPadding (Buffer.ofList [1, 2, 3, 4, 5, 6] (0 : Int))
          (Buffer.ofList (List.replicate 12 9) 0) ([2, 1].map Int.ofNat) (3 : Nat) (2 : Nat) true
        = some padded1 ∧
      padded1.size = 12 ∧
      (∀ t b, [2, 1][t]? = some b → ∀ j, j < b * 2 →
        padded1.data (t * 3 * 2 + j)
          = (Buffer.ofList [1, 2, 3, 4, 5, 6] (0 : Int)).data (([2, 1].take t).sum * 2 + j)) ∧
      (∀ i, (∀ t b, [2, 1][t]? = some b →
          ¬(t * 3 * 2 ≤ i ∧ i < t * 3 * 2 + b * 2)) →
        padded1.data i = (Buffer.ofList (List.replicate 12 9) (0 : Int)).data i) ∧
      ∀ out : Buffer Int, out.size = 6 →
        ∃ out1,
          ChangeDataPadding padded1 out ([2, 1].map Int.ofNat) (3 : Nat) (2 : Nat) false
            = some out1 ∧
          out1.size = 6 ∧
          ∀ i, i < 6 → out1.data i = (Buffer.ofList [1, 2, 3, 4, 5, 6] (0 : Int)).data i :=
  C36_padding_round_trip (Buffer.ofList [1, 2, 3, 4, 5, 6] (0 : Int))
    (Buffer.ofList (List.replicate 12 9) 0) [2, 1] 3 2 (by decide) (by decide) (by decide)
    (by decide) (by decide) (by decide)

/-- C36, counterexample to the claim as stated. (1) With one batch of 65536 samples of size
65536 the product `batch_list[0] * sample_size` is 2^32 and overflows `int`, whatever the
arrays hold. (2) Arrays of these lengths exist. (3) With 2^31 batches of one sample of
size 1 and `max_batch = 1` the counter `int seq_id` overflows, and (4) the sum and the
length of that list are 2^31, the number of elements both arrays have in the claim.
(5) With an empty batch_list, and (6) with samples of size 0, the arrays of the claim are
empty and `src_array[0]` is out of range. -/
theorem C36_counterexample :
    (∀ src padded : Buffer Int, src.size = [65536].sum * 65536 →
      padded.size = 1 * 65536 * 65536 →
      ChangeDataPadding src padded [65536] 65536 65536 true = none) ∧
    (∃ src padded : Buffer Int, src.size = [65536].sum * 65536 ∧
      padded.size = 1 * 65536 * 65536) ∧
    (∀ src padded : Buffer Int,
      ChangeDataPadding src padded (List.replicate 2147483648 1) 1 1 true = none) ∧
    ((List.replicate 2147483648 1).sum = 2147483648 * 1 ∧
      (List.replicate 2147483648 1).length = 2147483648) ∧
    (∀ src padded : Buffer Int, src.size = ([] : List Nat).sum * 2 →
      padded.size = ([] : List Nat).length * 3 * 2 →
      ChangeDataPadding src padded [] 3 2 true = none) ∧
    (∀ src padded : Buffer Int, src.size = [2, 1].sum * 0 →
      padded.size = [2, 1].length * 3 * 0 →
      ChangeDataPadding src padded [2, 1] 3 0 true = none) := by
  refine ⟨?_, ⟨⟨4294967296, fun _ => 0⟩, ⟨4294967296, fun _ => 0⟩, rfl, rfl⟩, ?_, ?_, ?_, ?_⟩
  · intro src padded _ _
    unfold ChangeDataPadding
    split
    · rfl
    · rfl
  · intro src padded
    have h : ¬ ((List.replicate 2147483648 (1 : Int)).length : Int) ≤ INT_MAX := by
      have : INT_MAX = 2147483647 := rfl
      simp only [List.length_replicate]
      omega
    simp only [ChangeDataPadding, h, if_false, ite_self]
  · exact ⟨(List.sum_replicate _ _).trans (smul_eq_mul _), List.length_replicate _ _⟩
  · intro src padded hs _
    have h : ¬ (0 < src.size ∧ 0 < padded.size) := by
      rw [hs]
      simp
    simp only [ChangeDataPadding, h, if_false]
  · intro src padded hs _
    have h : ¬ (0 < src.size ∧ 0 < padded.size) := by
      rw [hs]
      simp
    simp only [ChangeDataPadding, h, if_false]

end rnn_util

namespace rnn_util

/-! ## Claims C38 and C39: `RNN_mm_cpu` -/

theorem for_loop_pure {σ : Type} (n : Nat) (body : Nat → σ → Option σ) (f : Nat → σ → σ)
    (P : σ → Prop)
    (h : ∀ i, i < n → ∀ s, P s → body i s = some (f i s) ∧ P (f i s)) (st : σ) (h0 : P st) :
    for_loop n body st = some ((List.range n).foldl (fun s i => f i s) st) ∧
      P ((List.range n).foldl (fun s i => f i s) st) := by
  induction n with
  | zero => exact ⟨rfl, h0⟩
  | succ n ih =>
    obtain ⟨h1, h2⟩ := ih (fun i hi => h i (Nat.lt_succ_of_lt hi))
    obtain ⟨h3, h4⟩ := h n (Nat.lt_succ_self n) _ h2
    simp only [for_loop] at h1 ⊢
    simp only [List.range_succ, List.foldlM_append, h1, List.foldl_append, List.foldl_cons,
      List.foldl_nil, List.foldlM_cons, List.foldlM_nil, Option.bind_eq_bind, Option.some_bind,
      h3, Option.pure_def]
    exact ⟨trivial, h4⟩

theorem foldl_add_sum {R : Type} [CommRing R] (n : Nat) (g : Nat → R) (z : R) :
    (List.range n).foldl (fun acc m => acc + g m) z = z + Finset.sum (Finset.range n) g := by
  induction n with
  | zero => simp
  | succ n ih =>
    simp only [List.range_succ, List.foldl_append, List.foldl_cons, List.foldl_nil, ih,
      Finset.sum_range_succ]
    ring

theorem foldl_accumulate {R : Type} [CommRing R] (n p : Nat) (g : Nat → R) (c : Buffer R) :
    (List.range n).foldl
        (fun (s : Buffer R) m => { s with data := Function.update s.data p (s.data p + g m) }) c
      = { c with data := Function.update c.data p (c.data p + Finset.sum (Finset.range n) g) } := by
  induction n with
  | zero =>
    simp only [List.range_zero, List.foldl_nil, Finset.range_zero, Finset.sum_empty, add_zero,
      Function.update_eq_self]
  | succ n ih =>
    simp only [List.range_succ, List.foldl_append, List.foldl_cons, List.foldl_nil, ih,
      Finset.sum_range_succ, Function.update_same, Function.update_idem, add_assoc]

theorem index_eq (i stride j : Nat) (h : i * stride + j < 2 ^ 64) :
    index i stride j = i * stride + j := by
  simp only [index]
  exact Nat.mod_eq_of_lt h

theorem index_lt (n m rows stride size : Nat) (hn : n < rows) (hm : m < stride)
    (hs : rows * stride ≤ size) : n * stride + m < size := by
  have h1 : (n + 1) * stride ≤ rows * stride := Nat.mul_le_mul_right stride hn
  rw [Nat.add_mul, Nat.one_mul] at h1
  omega

theorem index_injective (n k n1 k1 stride : Nat) (hk : k < stride) (hk1 : k1 < stride)
    (h : n * stride + k = n1 * stride + k1) : n = n1 ∧ k = k1 := by
  have hpos : 0 < stride := by omega
  have e1 : (n * stride + k) / stride = n := by
    rw [Nat.mul_comm, Nat.mul_add_div hpos, Nat.div_eq_of_lt hk, Nat.add_zero]
  have e2 : (n1 * stride + k1) / stride = n1 := by
    rw [Nat.mul_comm, Nat.mul_add_div hpos, Nat.div_eq_of_lt hk1, Nat.add_zero]
  have hn : n = n1 := by rw [← e1, ← e2, h]
  subst hn
  exact ⟨rfl, by omega⟩

theorem row_update {R : Type} (p : Nat → Nat) (g : Nat → R → R) (m : Nat)
    (hinj : ∀ k k1, k < m → k1 < m → p k = p k1 → k = k1) (d : Buffer R) :
    ((List.range m).foldl
        (fun (s : Buffer R) k => { s with data := Function.update s.data (p k) (g k (s.data (p k))) })
        d).size = d.size ∧
    (∀ k, k < m →
      ((List.range m).foldl
        (fun (s : Buffer R) k => { s with data := Function.update s.data (p k) (g k (s.data (p k))) })
        d).data (p k) = g k (d.data (p k))) ∧
    (∀ x, (∀ k, k < m → p k ≠ x) →
      ((List.range m).foldl
        (fun (s : Buffer R) k => { s with data := Function.update s.data (p k) (g k (s.data (p k))) })
        d).data x = d.data x) := by
  induction m with
  | zero =>
    refine ⟨rfl, ?_, fun _ _ => rfl⟩
    intro k hk
    omega
  | succ m ih =>
    obtain ⟨h1, h2, h3⟩ := ih (fun k k1 hk hk1 => hinj k k1 (by omega) (by omega))
    simp only [List.range_succ, List.foldl_append, List.foldl_cons, List.foldl_nil]
    refine ⟨h1, ?_, ?_⟩
    · intro k hk
      by_cases hkm : k = m
      · subst hkm
        rw [Function.update_same, h3]
        intro k1 hk1 he
        have := hinj k1 k (by omega) (by omega) he
        omega
      · have hne : p k ≠ p m := by
          intro he
          exact hkm (hinj k m hk (by omega) he)
        rw [Function.update_noteq hne]
        exact h2 k (by omega)
    · intro x hx
      have hne : x ≠ p m := fun he => hx m (by omega) he.symm
      rw [Function.update_noteq hne]
      exact h3 x (fun k hk => hx k (by omega))

theorem grid_update {R : Type} (rows cols : Nat) (p : Nat → Nat → Nat)
    (g : Nat → Nat → R → R)
    (hinj : ∀ n k n1 k1, n < rows → k < cols → n1 < rows → k1 < cols → p n k = p n1 k1 →
      n = n1 ∧ k = k1) (c : Buffer R) :
    ((List.range rows).foldl (fun (s : Buffer R) n =>
        (List.range cols).foldl (fun (s : Buffer R) k =>
          { s with data := Function.update s.data (p n k) (g n k (s.data (p n k))) }) s) c).size
      = c.size ∧
    (∀ n k, n < rows → k < cols →
      ((List.range rows).foldl (fun (s : Buffer R) n =>
        (List.range cols).foldl (fun (s : Buffer R) k =>
          { s with data := Function.update s.data (p n k) (g n k (s.data (p n k))) }) s) c).data
        (p n k) = g n k (c.data (p n k))) ∧
    (∀ x, (∀ n k, n < rows → k < cols → p n k ≠ x) →
      ((List.range rows).foldl (fun (s : Buffer R) n =>
        (List.range cols).foldl (fun (s : Buffer R) k =>
          { s with data := Function.update s.data (p n k) (g n k (s.data (p n k))) }) s) c).data
        x = c.data x) := by
  induction rows with
  | zero =>
    refine ⟨rfl, ?_, fun _ _ => rfl⟩
    intro n k hn
    omega
  | succ r ih =>
    obtain ⟨h1, h2, h3⟩ := ih (fun n k n1 k1 hn hk hn1 hk1 =>
      hinj n k n1 k1 (by omega) hk (by omega) hk1)
    simp only [List.range_succ, List.foldl_append, List.foldl_cons, List.foldl_nil]
    obtain ⟨r1, r2, r3⟩ := row_update (p r) (g r) cols
      (fun k k1 hk hk1 he => (hinj r k r k1 (by omega) hk (by omega) hk1 he).2)
      ((List.range r).foldl (fun (s : Buffer R) n =>
        (List.range cols).foldl (fun (s : Buffer R) k =>
          { s with data := Function.update s.data (p n k) (g n k (s.data (p n k))) }) s) c)
    refine ⟨r1.trans h1, ?_, ?_⟩
    · intro n k hn hk
      by_cases hnr : n = r
      · subst hnr
        rw [r2 k hk, h3]
        intro n1 k1 hn1 hk1 he
        have := (hinj n1 k1 n k (by omega) hk1 (by omega) hk he).1
        omega
      · rw [r3]
        · exact h2 n k (by omega) hk
        · intro k1 hk1 he
          exact hnr (hinj r k1 n k (by omega) hk1 (by omega) hk he).1.symm
    · intro x hx
      rw [r3 x (fun k hk => hx r k (by omega) hk)]
      exact h3 x (fun n k hn hk => hx n k (by omega) hk)

end rnn_util

namespace rnn_util

theorem mm_e_loop {R : Type} [CommRing R] (a b : Buffer R) (ia ib : Nat → Nat) (inner : Nat)
    (ha : ∀ m, m < inner → ia m < a.size) (hb : ∀ m, m < inner → ib m < b.size) (z : R) :
    for_loop inner (fun m mm_e => do
        let x ← a.read (ia m)
        let y ← b.read (ib m)
        pure (mm_e + x * y)) z
      = some (z + Finset.sum (Finset.range inner) (fun m => a.data (ia m) * b.data (ib m))) := by
  have h := for_loop_pure inner (fun m mm_e => do
        let x ← a.read (ia m)
        let y ← b.read (ib m)
        pure (mm_e + x * y)) (fun m (mm_e : R) => mm_e + a.data (ia m) * b.data (ib m))
      (fun _ => True)
      (by
        intro m hm s _
        simp only [Buffer.read, ha m hm, hb m hm, if_true, Option.bind_eq_bind,
          Option.some_bind, Option.pure_def, and_self])
      z trivial
  rw [h.1, foldl_add_sum]

theorem RNN_mm_cpu_loops_spec {R : Type} [CommRing R] (a b : Buffer R)
    (a_index b_index : Nat → Nat → Nat) (inner : Nat) (c : Buffer R)
    (c_cols c_rows c_stride : Nat) (alpha beta : R)
    (ha : ∀ n m, n < c_rows → m < inner → a_index n m < a.size)
    (hb : ∀ m k, m < inner → k < c_cols → b_index m k < b.size)
    (hcs : c_cols ≤ c_stride) (hc : c_rows * c_stride ≤ c.size) (hc64 : c.size < 2 ^ 64) :
    ∃ c1, RNN_mm_cpu_loops a b a_index b_index inner c c_cols c_rows c_stride alpha beta
        = some c1 ∧
      c1.size = c.size ∧
      (∀ n k, n < c_rows → k < c_cols →
        c1.data (n * c_stride + k) = beta * c.data (n * c_stride + k) +
          alpha * Finset.sum (Finset.range inner)
            (fun m => a.data (a_index n m) * b.data (b_index m k))) ∧
      (∀ x, (∀ n k, n < c_rows → k < c_cols → n * c_stride + k ≠ x) → c1.data x = c.data x) := by
  have key := for_loop_pure c_rows
    (fun n c_ptr =>
      for_loop c_cols (fun k (c_ptr : Buffer R) => do
        let mm_e ← for_loop inner (fun m mm_e => do
          let a ← a.read (a_index n m)
          let b ← b.read (b_index m k)
          pure (mm_e + a * b)) 0
        let c ← c_ptr.read (index n c_stride k)
        c_ptr.write (index n c_stride k) (beta * c + alpha * mm_e)) c_ptr)
    (fun n (s : Buffer R) =>
      (List.range c_cols).foldl (fun (s : Buffer R) k =>
        { s with data := (Function.update s.data (n * c_stride + k)
            (beta * s.data (n * c_stride + k) + alpha * Finset.sum (Finset.range inner)
              (fun m => a.data (a_index n m) * b.data (b_index m k)))) }) s)
    (fun s => s.size = c.size)
    (by
      intro n hn s hs
      apply for_loop_pure c_cols _ _ (fun s => s.size = c.size) _ s hs
      intro k hk s1 hs1
      have hlt : n * c_stride + k < c.size :=
        index_lt n k c_rows c_stride c.size hn (by omega) hc
      have hi : index n c_stride k = n * c_stride + k := index_eq _ _ _ (by omega)
      have hm := mm_e_loop a b (fun m => a_index n m) (fun m => b_index m k) inner
        (fun m hm => ha n m hn hm) (fun m hm => hb m k hm hk) 0
      simp only [zero_add] at hm
      dsimp only
      rw [hm]
      simp only [hi, Buffer.read, Buffer.write, hs1, hlt, if_true, Option.bind_eq_bind,
        Option.some_bind, and_self])
    c rfl
  obtain ⟨g1, g2, g3⟩ := grid_update c_rows c_cols (fun n k => n * c_stride + k)
    (fun n k old => beta * old + alpha * Finset.sum (Finset.range inner)
      (fun m => a.data (a_index n m) * b.data (b_index m k)))
    (fun n k n1 k1 _ hk _ hk1 he => index_injective n k n1 k1 c_stride (by omega) (by omega) he)
    c
  exact ⟨_, key.1, g1, g2, g3⟩

theorem RNN_mm_cpu_loops_last_spec {R : Type} [CommRing R] (a b : Buffer R)
    (a_stride b_stride : Nat) (inner : Nat) (c : Buffer R)
    (c_cols c_rows c_stride : Nat) (alpha beta : R)
    (ha : ∀ n m, n < c_rows → m < inner → index m a_stride n < a.size)
    (hb : ∀ m k, m < inner → k < c_cols → index k b_stride m < b.size)
    (hcs : c_cols ≤ c_stride) (hc : c_rows * c_stride ≤ c.size) (hc64 : c.size < 2 ^ 64) :
    ∃ c1, RNN_mm_cpu_loops_last a b a_stride b_stride inner c c_cols c_rows c_stride alpha beta
        = some c1 ∧
      c1.size = c.size ∧
      (∀ n k, n < c_rows → k < c_cols →
        c1.data (n * c_stride + k) = beta * (c.data (n * c_stride + k) +
          Finset.sum (Finset.range inner)
            (fun m => a.data (index m a_stride n) * b.data (index k b_stride m)))
          + alpha * 0) ∧
      (∀ x, (∀ n k, n < c_rows → k < c_cols → n * c_stride + k ≠ x) → c1.data x = c.data x) := by
  have key := for_loop_pure c_rows
    (fun n c_ptr =>
      for_loop c_cols (fun k (c_ptr : Buffer R) => do
        let mm_e : R := 0
        let c_ptr ← for_loop inner (fun m (c_ptr : Buffer R) => do
          let c ← c_ptr.read (index n c_stride k)
          let a ← a.read (index m a_stride n)
          let b ← b.read (index k b_stride m)
          c_ptr.write (index n c_stride k) (c + a * b)) c_ptr
        let c ← c_ptr.read (index n c_stride k)
        c_ptr.write (index n c_stride k) (beta * c + alpha * mm_e)) c_ptr)
    (fun n (s : Buffer R) =>
      (List.range c_cols).foldl (fun (s : Buffer R) k =>
        { s with data := (Function.update s.data (n * c_stride + k)
            (beta * (s.data (n * c_stride + k) + Finset.sum (Finset.range inner)
              (fun m => a.data (index m a_stride n) * b.data (index k b_stride m)))
              + alpha * 0)) }) s)
    (fun s => s.size = c.size)
    (by
      intro n hn s hs
      apply for_loop_pure c_cols _ _ (fun s => s.size = c.size) _ s hs
      intro k hk s1 hs1
      have hlt : n * c_stride + k < c.size :=
        index_lt n k c_rows c_stride c.size hn (by omega) hc
      have hi : index n c_stride k = n * c_stride + k := index_eq _ _ _ (by omega)
      have hin := for_loop_pure inner
        (fun m (c_ptr : Buffer R) => do
          let c ← c_ptr.read (index n c_stride k)
          let a ← a.read (index m a_stride n)
          let b ← b.read (index k b_stride m)
          c_ptr.write (index n c_stride k) (c + a * b))
        (fun m (s : Buffer R) =>
          { s with data := (Function.update s.data (n * c_stride + k)
              (s.data (n * c_stride + k)
                + a.data (index m a_stride n) * b.data (index k b_stride m))) })
        (fun s => s.size = c.size)
        (by
          intro m hm s2 hs2
          simp only [hi, Buffer.read, Buffer.write, hs2, hlt, ha n m hn hm, hb m k hm hk,
            if_true, Option.bind_eq_bind, Option.some_bind, and_self])
        s1 hs1
      rw [foldl_accumulate] at hin
      dsimp only
      rw [hin.1]
      simp only [hi, Buffer.read, Buffer.write, hs1, hlt, if_true, Option.bind_eq_bind,
        Option.some_bind, Function.update_same, Function.update_idem, and_self])
    c rfl
  obtain ⟨g1, g2, g3⟩ := grid_update c_rows c_cols (fun n k => n * c_stride + k)
    (fun n k old => beta * (old + Finset.sum (Finset.range inner)
      (fun m => a.data (index m a_stride n) * b.data (index k b_stride m))) + alpha * 0)
    (fun n k n1 k1 _ hk _ hk1 he => index_injective n k n1 k1 c_stride (by omega) (by omega) he)
    c
  exact ⟨_, key.1, g1, g2, g3⟩

end rnn_util

namespace rnn_util

theorem index_ok (i j rows cols stride size : Nat) (hi : i < rows) (hj : j < cols)
    (hcs : cols ≤ stride) (hs : rows * stride ≤ size) (h64 : size < 2 ^ 64) :
    index i stride j = i * stride + j ∧ index i stride j < size := by
  have h1 := index_lt i j rows stride size hi (by omega) hs
  have h2 := index_eq i stride j (by omega)
  exact ⟨h2, by omega⟩

theorem RNN_mm_cpu_inconsistent {R : Type} [CommRing R] (a : Buffer R)
    (a_cols a_rows a_stride : Nat) (a_flags : Int) (b : Buffer R)
    (b_cols b_rows b_stride : Nat) (b_flags : Int) (c : Buffer R)
    (c_cols c_rows c_stride : Nat) (d_alpha d_beta : R)
    (h : ¬ consistent (transposed a_flags) (transposed b_flags) a_cols a_rows b_cols b_rows
      c_cols c_rows) :
    RNN_mm_cpu a a_cols a_rows a_stride a_flags b b_cols b_rows b_stride b_flags c c_cols
      c_rows c_stride d_alpha d_beta = some c := by
  cases h1 : transposed a_flags <;> cases h2 : transposed b_flags <;>
    simp only [consistent, op_rows, op_cols, h1, h2, if_true, Bool.false_eq_true, if_false]
      at h <;>
    simp only [RNN_mm_cpu, h1, h2] <;>
    rw [if_pos] <;>
    simp <;>
    tauto

end rnn_util

namespace rnn_util

theorem RNN_mm_cpu_spec {R : Type} [CommRing R] (a : Buffer R)
    (a_cols a_rows a_stride : Nat) (a_flags : Int) (b : Buffer R)
    (b_cols b_rows b_stride : Nat) (b_flags : Int) (c : Buffer R)
    (c_cols c_rows c_stride : Nat) (d_alpha d_beta : R)
    (hcons : consistent (transposed a_flags) (transposed b_flags) a_cols a_rows b_cols b_rows
      c_cols c_rows)
    (has : a_cols ≤ a_stride) (hbs : b_cols ≤ b_stride) (hcs : c_cols ≤ c_stride)
    (ha : a_rows * a_stride ≤ a.size) (hb : b_rows * b_stride ≤ b.size)
    (hc : c_rows * c_stride ≤ c.size)
    (ha64 : a.size < 2 ^ 64) (hb64 : b.size < 2 ^ 64) (hc64 : c.size < 2 ^ 64) :
    ∃ c1, RNN_mm_cpu a a_cols a_rows a_stride a_flags b b_cols b_rows b_stride b_flags c
        c_cols c_rows c_stride d_alpha d_beta = some c1 ∧
      c1.size = c.size ∧
      (∀ n k, n < c_rows → k < c_cols →
        c1.data (n * c_stride + k) =
          if transposed a_flags && transposed b_flags then
            d_beta * (c.data (n * c_stride + k) +
              Finset.sum (Finset.range (op_cols (transposed a_flags) a_cols a_rows))
                (fun m => op_elem a a_stride (transposed a_flags) n m *
                  op_elem b b_stride (transposed b_flags) m k)) + d_alpha * 0
          else
            d_beta * c.data (n * c_stride + k) + d_alpha *
              Finset.sum (Finset.range (op_cols (transposed a_flags) a_cols a_rows))
                (fun m => op_elem a a_stride (transposed a_flags) n m *
                  op_elem b b_stride (transposed b_flags) m k)) ∧
      (∀ x, (∀ n k, n < c_rows → k < c_cols → n * c_stride + k ≠ x) →
        c1.data x = c.data x) := by
  cases h1 : transposed a_flags <;> cases h2 : transposed b_flags <;>
    simp only [consistent, op_rows, op_cols, h1, h2, if_true, Bool.false_eq_true, if_false]
      at hcons <;>
    obtain ⟨e1, e2, e3⟩ := hcons
  · -- neither is transposed
    have hdef : RNN_mm_cpu a a_cols a_rows a_stride a_flags b b_cols b_rows b_stride b_flags c
        c_cols c_rows c_stride d_alpha d_beta =
        RNN_mm_cpu_loops a b (fun n m => index n a_stride m) (fun m k => index m b_stride k)
          a_cols c c_cols c_rows c_stride d_alpha d_beta := by
      simp [RNN_mm_cpu, h1, h2, e1, e2, e3]
    obtain ⟨c1, r1, r2, r3, r4⟩ := RNN_mm_cpu_loops_spec a b (fun n m => index n a_stride m)
      (fun m k => index m b_stride k) a_cols c c_cols c_rows c_stride d_alpha d_beta
      (fun n m hn hm => (index_ok n m a_rows a_cols a_stride a.size (by omega) hm has ha
        ha64).2)
      (fun m k hm hk => (index_ok m k b_rows b_cols b_stride b.size (by omega) (by omega) hbs
        hb hb64).2)
      hcs hc hc64
    refine ⟨c1, hdef.trans r1, r2, ?_, r4⟩
    intro n k hn hk
    rw [r3 n k hn hk]
    simp only [Bool.and_self, Bool.false_eq_true, if_false, op_elem, op_cols]
    congr 2
    apply Finset.sum_congr rfl
    intro m hm
    have hm1 : m < a_cols := Finset.mem_range.1 hm
    rw [(index_ok n m a_rows a_cols a_stride a.size (by omega) hm1 has ha ha64).1,
      (index_ok m k b_rows b_cols b_stride b.size (by omega) (by omega) hbs hb hb64).1]
  · -- the second is transposed
    have hdef : RNN_mm_cpu a a_cols a_rows a_stride a_flags b b_cols b_rows b_stride b_flags c
        c_cols c_rows c_stride d_alpha d_beta =
        RNN_mm_cpu_loops a b (fun n m => index n a_stride m) (fun m k => index k b_stride m)
          a_cols c c_cols c_rows c_stride d_alpha d_beta := by
      simp [RNN_mm_cpu, h1, h2, e1, e2, e3]
    obtain ⟨c1, r1, r2, r3, r4⟩ := RNN_mm_cpu_loops_spec a b (fun n m => index n a_stride m)
      (fun m k => index k b_stride m) a_cols c c_cols c_rows c_stride d_alpha d_beta
      (fun n m hn hm => (index_ok n m a_rows a_cols a_stride a.size (by omega) hm has ha
        ha64).2)
      (fun m k hm hk => (index_ok k m b_rows b_cols b_stride b.size (by omega) (by omega) hbs
        hb hb64).2)
      hcs hc hc64
    refine ⟨c1, hdef.trans r1, r2, ?_, r4⟩
    intro n k hn hk
    rw [r3 n k hn hk]
    simp only [Bool.false_and, Bool.false_eq_true, if_false, if_true, op_elem, op_cols]
    congr 2
    apply Finset.sum_congr rfl
    intro m hm
    have hm1 : m < a_cols := Finset.mem_range.1 hm
    rw [(index_ok n m a_rows a_cols a_stride a.size (by omega) hm1 has ha ha64).1,
      (index_ok k m b_rows b_cols b_stride b.size (by omega) (by omega) hbs hb hb64).1]
  · -- the first is transposed
    have hdef : RNN_mm_cpu a a_cols a_rows a_stride a_flags b b_cols b_rows b_stride b_flags c
        c_cols c_rows c_stride d_alpha d_beta =
        RNN_mm_cpu_loops a b (fun n m => index m a_stride n) (fun m k => index m b_stride k)
          a_rows c c_cols c_rows c_stride d_alpha d_beta := by
      simp [RNN_mm_cpu, h1, h2, e1, e2, e3]
    obtain ⟨c1, r1, r2, r3, r4⟩ := RNN_mm_cpu_loops_spec a b (fun n m => index m a_stride n)
      (fun m k => index m b_stride k) a_rows c c_cols c_rows c_stride d_alpha d_beta
      (fun n m hn hm => (index_ok m n a_rows a_cols a_stride a.size hm (by omega) has ha
        ha64).2)
      (fun m k hm hk => (index_ok m k b_rows b_cols b_stride b.size (by omega) (by omega) hbs
        hb hb64).2)
      hcs hc hc64
    refine ⟨c1, hdef.trans r1, r2, ?_, r4⟩
    intro n k hn hk
    rw [r3 n k hn hk]
    simp only [Bool.and_false, Bool.false_eq_true, if_false, if_true, op_elem, op_cols]
    congr 2
    apply Finset.sum_congr rfl
    intro m hm
    have hm1 : m < a_rows := Finset.mem_range.1 hm
    rw [(index_ok m n a_rows a_cols a_stride a.size hm1 (by omega) has ha ha64).1,
      (index_ok m k b_rows b_cols b_stride b.size (by omega) (by omega) hbs hb hb64).1]
  · -- both are transposed
    have hdef : RNN_mm_cpu a a_cols a_rows a_stride a_flags b b_cols b_rows b_stride b_flags c
        c_cols c_rows c_stride d_alpha d_beta =
        RNN_mm_cpu_loops_last a b a_stride b_stride a_rows c c_cols c_rows c_stride d_alpha
          d_beta := by
      simp [RNN_mm_cpu, h1, h2, e1, e2, e3]
    obtain ⟨c1, r1, r2, r3, r4⟩ := RNN_mm_cpu_loops_last_spec a b a_stride b_stride a_rows c
      c_cols c_rows c_stride d_alpha d_beta
      (fun n m hn hm => (index_ok m n a_rows a_cols a_stride a.size hm (by omega) has ha
        ha64).2)
      (fun m k hm hk => (index_ok k m b_rows b_cols b_stride b.size (by omega) (by omega) hbs
        hb hb64).2)
      hcs hc hc64
    refine ⟨c1, hdef.trans r1, r2, ?_, r4⟩
    intro n k hn hk
    rw [r3 n k hn hk]
    simp only [Bool.and_self, if_true, op_elem, op_cols]
    congr 3
    apply Finset.sum_congr rfl
    intro m hm
    have hm1 : m < a_rows := Finset.mem_range.1 hm
    rw [(index_ok m n a_rows a_cols a_stride a.size hm1 (by omega) has ha ha64).1,
      (index_ok k m b_rows b_cols b_stride b.size (by omega) (by omega) hbs hb hb64).1]

end rnn_util

namespace rnn_util

theorem c_out_spec {R : Type} [CommRing R] (c : Buffer R) (c_cols c_rows c_stride : Nat)
    (alpha beta : R) (i j : Nat) (x : R) (hi : i < c_rows) (hj : j < c_cols)
    (hcs : c_cols ≤ c_stride) (hc : c_rows * c_stride ≤ c.size) (hc64 : c.size < 2 ^ 64) :
    ∃ c2, c_out c c_stride alpha beta i j x = some c2 ∧
      c2.data (i * c_stride + j) = beta * c.data (i * c_stride + j) + alpha * x := by
  obtain ⟨h1, h2⟩ := index_ok i j c_rows c_cols c_stride c.size hi hj hcs hc hc64
  rw [h1] at h2
  refine ⟨{ c with data := (Function.update c.data (i * c_stride + j)
    (beta * c.data (i * c_stride + j) + alpha * x)) }, ?_, ?_⟩
  · simp only [c_out, h1, Buffer.read, Buffer.write, h2, if_true, Option.bind_eq_bind,
      Option.some_bind]
  · simp only [Function.update_same]

/-- C38, what the code does. `RNN_mm_cpu` on consistent shapes, with strides that are at
least the numbers of columns and arrays that hold rows x stride elements: for three of the
four combinations of `RNN_MM_TRANSPOSE` in a_flags and b_flags every C[n][k] becomes
beta * C_old[n][k] + alpha * sum over m of op(A)[n][m] * op(B)[m][k], which is the value
`c_out` of the gemm-based path stores when it is passed that sum; when both flags are set
the sum is added to C[n][k] before the scaling and `mm_e` stays 0, so C[n][k] becomes
beta * (C_old[n][k] + sum) + alpha * 0. -/
theorem C38_gemm_update {R : Type} [CommRing R] (a : Buffer R)
    (a_cols a_rows a_stride : Nat) (a_flags : Int) (b : Buffer R)
    (b_cols b_rows b_stride : Nat) (b_flags : Int) (c : Buffer R)
    (c_cols c_rows c_stride : Nat) (d_alpha d_beta : R)
    (hcons : consistent (transposed a_flags) (transposed b_flags) a_cols a_rows b_cols b_rows
      c_cols c_rows)
    (has : a_cols ≤ a_stride) (hbs : b_cols ≤ b_stride) (hcs : c_cols ≤ c_stride)
    (ha : a_rows * a_stride ≤ a.size) (hb : b_rows * b_stride ≤ b.size)
    (hc : c_rows * c_stride ≤ c.size)
    (ha64 : a.size < 2 ^ 64) (hb64 : b.size < 2 ^ 64) (hc64 : c.size < 2 ^ 64) :
    ∃ c1, RNN_mm_cpu a a_cols a_rows a_stride a_flags b b_cols b_rows b_stride b_flags c
        c_cols c_rows c_stride d_alpha d_beta = some c1 ∧
      (∀ n k, n < c_rows → k < c_cols →
        c1.data (n * c_stride + k) =
          if transposed a_flags && transposed b_flags then
            d_beta * (c.data (n * c_stride + k) +
              Finset.sum (Finset.range (op_cols (transposed a_flags) a_cols a_rows))
                (fun m => op_elem a a_stride (transposed a_flags) n m *
                  op_elem b b_stride (transposed b_flags) m k)) + d_alpha * 0
          else
            d_beta * c.data (n * c_stride + k) + d_alpha *
              Finset.sum (Finset.range (op_cols (transposed a_flags) a_cols a_rows))
                (fun m => op_elem a a_stride (transposed a_flags) n m *
                  op_elem b b_stride (transposed b_flags) m k)) ∧
      (∀ n k, n < c_rows → k < c_cols →
        ∃ c2, c_out c c_stride d_alpha d_beta n k
            (Finset.sum (Finset.range (op_cols (transposed a_flags) a_cols a_rows))
              (fun m => op_elem a a_stride (transposed a_flags) n m *
                op_elem b b_stride (transposed b_flags) m k)) = some c2 ∧
          c2.data (n * c_stride + k) =
            d_beta * c.data (n * c_stride + k) + d_alpha *
              Finset.sum (Finset.range (op_cols (transposed a_flags) a_cols a_rows))
                (fun m => op_elem a a_stride (transposed a_flags) n m *
                  op_elem b b_stride (transposed b_flags) m k)) := by
  obtain ⟨c1, r1, _, r3, _⟩ := RNN_mm_cpu_spec a a_cols a_rows a_stride a_flags b b_cols b_rows
    b_stride b_flags c c_cols c_rows c_stride d_alpha d_beta hcons has hbs hcs ha hb hc ha64
    hb64 hc64
  exact ⟨c1, r1, r3, fun n k hn hk =>
    c_out_spec c c_cols c_rows c_stride d_alpha d_beta n k _ hn hk hcs hc hc64⟩

/-- C38, witness: the product of two 2 x 2 matrices with the first one transposed, added
to ten times a matrix of ones. -/
theorem C38_gemm_update_witness :
    ∃ c1, RNN_mm_cpu (Buffer.ofList [1, 2, 3, 4] (0 : Int)) 2 2 2 1
        (Buffer.ofList [5, 6, 7, 8] 0) 2 2 2 0 (Buffer.ofList [1, 1, 1, 1] 0) 2 2 2 1 10
        = some c1 ∧
      c1.toList = [36, 40, 48, 54] :=
  have h := C38_gemm_update (Buffer.ofList [1, 2, 3, 4] (0 : Int)) 2 2 2 1
    (Buffer.ofList [5, 6, 7, 8] 0) 2 2 2 0 (Buffer.ofList [1, 1, 1, 1] 0) 2 2 2 1 10
    ⟨rfl, rfl, rfl⟩ (by decide) (by decide) (by decide) (by decide) (by decide) (by decide)
    (by decide) (by decide) (by decide)
  match h with
  | ⟨c1, h1, _, _⟩ => ⟨c1, h1, by
      have h2 : (RNN_mm_cpu (Buffer.ofList [1, 2, 3, 4] (0 : Int)) 2 2 2 1
        (Buffer.ofList [5, 6, 7, 8] 0) 2 2 2 0 (Buffer.ofList [1, 1, 1, 1] 0) 2 2 2 1 10).map
          Buffer.toList = some [36, 40, 48, 54] := by decide
      rw [h1] at h2
      exact Option.some.inj h2⟩

/-- C38, the divergence: with both flags set, 1 x 1 matrices A = (1), B = (1), C = (0),
alpha 1 and beta 0, the call leaves C = (0), whereas beta * C_old + alpha * A * B is 1, the
value that the call without the flags leaves on the same data. -/
theorem C38_divergence :
    (RNN_mm_cpu (Buffer.ofList [1] (0 : Int)) 1 1 1 1 (Buffer.ofList [1] 0) 1 1 1 1
      (Buffer.ofList [0] 0) 1 1 1 1 0).map Buffer.toList = some [0] ∧
    consistent (transposed 1) (transposed 1) 1 1 1 1 1 1 ∧
    (0 : Int) * 0 + 1 * (1 * 1) = 1 ∧
    (RNN_mm_cpu (Buffer.ofList [1] (0 : Int)) 1 1 1 0 (Buffer.ofList [1] 0) 1 1 1 0
      (Buffer.ofList [0] 0) 1 1 1 1 0).map Buffer.toList = some [1] :=
  ⟨by decide, ⟨rfl, rfl, rfl⟩, by decide, by decide⟩

/-- C39 (as amended). `RNN_mm_cpu` rejects inconsistent shapes without writing: for every
flag combination, if the inner dimensions of op(A) and op(B) differ, or the rows of op(A)
differ from c_rows, or the columns of op(B) differ from c_cols, `RNN_mm_cpu` returns with
every element of C unchanged; when the shapes are consistent and each stride is at least
the number of columns of its matrix, every index it reads in A and B and writes in C lies
inside the respective rows x stride extent, and it writes the elements C[n][k] only. -/
theorem C39_shapes_and_bounds {R : Type} [CommRing R] (a : Buffer R)
    (a_cols a_rows a_stride : Nat) (a_flags : Int) (b : Buffer R)
    (b_cols b_rows b_stride : Nat) (b_flags : Int) (c : Buffer R)
    (c_cols c_rows c_stride : Nat) (d_alpha d_beta : R) :
    (¬ consistent (transposed a_flags) (transposed b_flags) a_cols a_rows b_cols b_rows
        c_cols c_rows →
      RNN_mm_cpu a a_cols a_rows a_stride a_flags b b_cols b_rows b_stride b_flags c c_cols
        c_rows c_stride d_alpha d_beta = some c) ∧
    (consistent (transposed a_flags) (transposed b_flags) a_cols a_rows b_cols b_rows
        c_cols c_rows →
      a_cols ≤ a_stride → b_cols ≤ b_stride → c_cols ≤ c_stride →
      a.size = a_rows * a_stride → b.size = b_rows * b_stride → c.size = c_rows * c_stride →
      a.size < 2 ^ 64 → b.size < 2 ^ 64 → c.size < 2 ^ 64 →
      ∃ c1, RNN_mm_cpu a a_cols a_rows a_stride a_flags b b_cols b_rows b_stride b_flags c
          c_cols c_rows c_stride d_alpha d_beta = some c1 ∧
        c1.size = c.size ∧
        ∀ x, (∀ n k, n < c_rows → k < c_cols → n * c_stride + k ≠ x) →
          c1.data x = c.data x) := by
  refine ⟨RNN_mm_cpu_inconsistent a a_cols a_rows a_stride a_flags b b_cols b_rows b_stride
    b_flags c c_cols c_rows c_stride d_alpha d_beta, ?_⟩
  intro hcons has hbs hcs ha hb hc ha64 hb64 hc64
  obtain ⟨c1, r1, r2, _, r4⟩ := RNN_mm_cpu_spec a a_cols a_rows a_stride a_flags b b_cols
    b_rows b_stride b_flags c c_cols c_rows c_stride d_alpha d_beta hcons has hbs hcs
    (by omega) (by omega) (by omega) ha64 hb64 hc64
  exact ⟨c1, r1, r2, r4⟩

/-- C39, witness: a 2 x 3 matrix A and a 2 x 2 matrix B do not fit without the flags, and
the call returns the array of C as it was. -/
theorem C39_shapes_and_bounds_witness :
    RNN_mm_cpu (Buffer.ofList [1, 2, 3, 4, 5, 6] (0 : Int)) 3 2 3 0
        (Buffer.ofList [5, 6, 7, 8] 0) 2 2 2 0 (Buffer.ofList [1, 1, 1, 1] 0) 2 2 2 1 10
      = some (Buffer.ofList [1, 1, 1, 1] 0) :=
  (C39_shapes_and_bounds (Buffer.ofList [1, 2, 3, 4, 5, 6] (0 : Int)) 3 2 3 0
    (Buffer.ofList [5, 6, 7, 8] 0) 2 2 2 0 (Buffer.ofList [1, 1, 1, 1] 0) 2 2 2 1 10).1
    (by
      intro h
      have := h.1
      revert this
      decide)

/-- C39, counterexample to the claim as stated: A is 1 x 2 with the stride 1, B is 2 x 1 and
C is 1 x 1; the shapes are consistent and each array holds rows x stride elements, and the
call reads the element 1 of A, outside its array of one element. -/
theorem C39_counterexample :
    consistent (transposed 0) (transposed 0) 2 1 1 2 1 1 ∧
    (Buffer.ofList [1] (0 : Int)).size = 1 * 1 ∧
    (Buffer.ofList [1, 1] (0 : Int)).size = 2 * 1 ∧
    (Buffer.ofList [0] (0 : Int)).size = 1 * 1 ∧
    index 0 1 1 = 1 ∧
    (Buffer.ofList [1] (0 : Int)).read (index 0 1 1) = none ∧
    (RNN_mm_cpu (Buffer.ofList [1] (0 : Int)) 2 1 1 0 (Buffer.ofList [1, 1] 0) 1 2 1 0
      (Buffer.ofList [0] 0) 1 1 1 1 0).isNone = true :=
  ⟨⟨rfl, rfl, rfl⟩, rfl, rfl, rfl, by decide, by decide, by decide⟩

end rnn_util

end miopen
